import Mathlib

set_option maxRecDepth 100000

/-!
# fal-comfyui-generator: the documentation parser of `script.js`

A shallow embedding of `ApiDocumentationParser` (script.js, lines 25-506) and of the
JavaScript built-ins it calls, followed by theorems about it.

Conventions of the embedding.

* A JavaScript string is a Lean `String` (well-formed Unicode text). Where the source counts
  UTF-16 code units (regular expressions without the `u` flag, string indexing) a character
  above U+FFFF counts as two units.
* The JavaScript value `undefined` is `none : Option JSON`; every other value that the parser
  handles is a `JSON`.
* A raised exception is `Except.error`; `try`/`catch` is `tryCatch`.
* An object is the list of its own properties in property-iteration order.
* A regular expression of the source is written as a `Regex` term and run by the backtracking
  matcher `Regex.run`; the methods `match`, `test` and `split` are `Regex.exec`, `Regex.test`,
  `Regex.matchAll` and `Regex.split`.
-/

namespace FalComfy

/-! ## JavaScript numbers -/

/-- A JavaScript number. A finite value is kept as a decimal `mant * 10 ^ exp` that stands for
the double nearest to it, and it is one of two kinds: a decimal of at most 15 significant
digits within the range of the normal doubles, which is the shortest decimal that reads back
as its double, or the shortest decimal that reads back as the double, as `Number::toString`
finds it. Zero is `dec 0 e`. The parser does no arithmetic: it tests numbers for truth, copies
them and prints them, and the printed text is that of the decimal. -/
inductive JSNumber where
  | dec (mant : Int) (exp : Int)
  | inf (negative : Bool)
  | nan

/-- The number `a` without its trailing decimal zeros; `fuel` bounds their number. -/
def dropZeros : Nat → Nat → Nat
  | 0, a => a
  | fuel + 1, a => if a ≠ 0 ∧ a % 10 = 0 then dropZeros fuel (a / 10) else a

/-- The number of digits of `n` in the radix `b`; `fuel` bounds it. -/
def digitCount (b : Nat) : Nat → Nat → Nat
  | 0, _ => 0
  | fuel + 1, n => if n = 0 then 0 else digitCount b fuel (n / b) + 1

/-- The integer `e` with `b ^ e ≤ n / d < b ^ (e + 1)`, for positive `n` and `d`. -/
def floorLog (b n d : Nat) : Int :=
  let l : Int := (digitCount b n n : Int) - (digitCount b d d : Int)
  if (if 0 ≤ l then d * b ^ l.natAbs ≤ n else d ≤ n * b ^ l.natAbs) then l else l - 1

/-- The double nearest to the positive rational `n / d`, ties to the even significand: the pair
`(m, p)` stands for `m * 2 ^ p`, with `p` at least -1074 and `m` below `2 ^ 53`, and at least
`2 ^ 52` unless `p` is -1074. A `p` above 971 stands for a value past the largest double. -/
def nearestDouble (n d : Nat) : Nat × Int :=
  let p : Int := max (floorLog 2 n d - 52) (-1074)
  let num := if p < 0 then n * 2 ^ p.natAbs else n
  let den := if p < 0 then d else d * 2 ^ p.natAbs
  let q := num / den
  let r := num % den
  let m := if 2 * r < den ∨ (2 * r = den ∧ q % 2 = 0) then q else q + 1
  if m = 2 ^ 53 then (2 ^ 52, p + 1) else (m, p)

/-- The double nearest to the decimal `a * 10 ^ exp`, for a positive `a`. -/
def decimalDouble (a : Nat) (exp : Int) : Nat × Int :=
  if 0 ≤ exp then nearestDouble (a * 10 ^ exp.natAbs) 1 else nearestDouble a (10 ^ exp.natAbs)

/-- One step of the search of `Number::toString` for the shortest decimal of the double
`target`: of the two decimals `lo * 10 ^ e` and `(lo + 1) * 10 ^ e` around its value, which
lies `r / y` above the first, one is taken that has at least `10 ^ (k - 1)` for its digits and
whose nearest double is `target`; the nearer one when both do, the even one when they are as
near. -/
def pickDecimal (target : Nat × Int) (k lo r y : Nat) (e : Int) : Option (Nat × Int) :=
  let okLo : Bool := decide (10 ^ (k - 1) ≤ lo) && decide (decimalDouble lo e = target)
  let okHi : Bool := decide (decimalDouble (lo + 1) e = target)
  if okLo && okHi then some (if 2 * r < y ∨ (2 * r = y ∧ lo % 2 = 0) then lo else lo + 1, e)
  else if okLo then some (lo, e)
  else if okHi then some (lo + 1, e)
  else none

/-- The search of `Number::toString` for the shortest decimal of the double `target`, whose
value is `n / d` with `10 ^ (e10 - 1) ≤ n / d < 10 ^ e10`: decimals of `k` digits are tried
from `k` on, `fuel` times. -/
def shortestDecimal (target : Nat × Int) (n d : Nat) (e10 : Int) : Nat → Nat → Option (Nat × Int)
  | 0, _ => none
  | fuel + 1, k =>
    let e : Int := e10 - k
    let x := if e < 0 then n * 10 ^ e.natAbs else n
    let y := if e < 0 then d else d * 10 ^ e.natAbs
    match pickDecimal target k (x / y) (x % y) y e with
    | some found => some found
    | none => shortestDecimal target n d e10 fuel (k + 1)

/-- The decimal that stands for the double nearest to `a * 10 ^ exp`, for a positive `a` whose
double is neither zero nor past the largest double: the shortest decimal that reads back as
that double, looked for among the decimals of 1 to 17 digits (a double always has one). -/
def roundedDecimal (a : Nat) (exp : Int) : Nat × Int :=
  let t := decimalDouble a exp
  let n := if t.2 < 0 then t.1 else t.1 * 2 ^ t.2.natAbs
  let d := if t.2 < 0 then 2 ^ t.2.natAbs else 1
  (shortestDecimal t n d (floorLog 10 n d + 1) 17 1).getD (a, exp)

/-- The Number value for the decimal `mant * 10 ^ exp`: the nearest double, ties to even.
Magnitudes of at most `2 ^ (-1075)` become zero and magnitudes of at least
`2 ^ 1024 - 2 ^ 970` become infinite. A decimal of at most 15 significant digits within the
range of the normal doubles is kept as it is written; any other decimal is replaced by the
shortest decimal of its nearest double (so `9007199254740993` becomes `9007199254740992`). -/
def JSNumber.ofDecimal (mant : Int) (exp : Int) : JSNumber :=
  let a := mant.natAbs
  if a = 0 then .dec 0 0
  else if exp < 0 ∧ a * 2 ^ 1075 ≤ 10 ^ exp.natAbs then .dec 0 0
  else if (0 ≤ exp ∧ 2 ^ 1024 - 2 ^ 970 ≤ a * 10 ^ exp.natAbs) ∨
      (exp < 0 ∧ (2 ^ 1024 - 2 ^ 970) * 10 ^ exp.natAbs ≤ a) then .inf (decide (mant < 0))
  else if dropZeros a a < 10 ^ 15 ∧ (0 ≤ exp ∨ 10 ^ exp.natAbs ≤ a * 2 ^ 1022) then .dec mant exp
  else
    let r := roundedDecimal a exp
    .dec (if mant < 0 then -(r.1 : Int) else (r.1 : Int)) r.2

/-- The test `ToBoolean` on a number: zero and NaN are falsy. -/
def JSNumber.truthy : JSNumber → Bool
  | .dec mant _ => mant != 0
  | .inf _ => true
  | .nan => false

/-- Drop the trailing zeros of a digit string, counting them. -/
def stripTrailingZeros (ds : List Char) : List Char × Nat :=
  let zs := ds.reverse.takeWhile (· == '0')
  (ds.take (ds.length - zs.length), zs.length)

/-- The algorithm `Number::toString` (radix 10) on the decimal digits `ds` (no trailing zero)
of a positive number whose decimal point stands after `n` digits. -/
def digitsToString (ds : List Char) (n : Int) : List Char :=
  let k : Int := ds.length
  if k ≤ n ∧ n ≤ 21 then ds ++ List.replicate (n - k).toNat '0'
  else if 0 < n ∧ n ≤ 21 then ds.take n.toNat ++ '.' :: ds.drop n.toNat
  else if -6 < n ∧ n ≤ 0 then '0' :: '.' :: List.replicate (-n).toNat '0' ++ ds
  else
    let e := n - 1
    let sign := if e < 0 then '-' else '+'
    let ex := (Nat.repr e.natAbs).toList
    match ds with
    | [d] => d :: 'e' :: sign :: ex
    | d :: rest => d :: '.' :: rest ++ 'e' :: sign :: ex
    | [] => []

/-- The string conversion of a number (`String(x)`, template literals, property keys). -/
def JSNumber.toString : JSNumber → String
  | .nan => "NaN"
  | .inf false => "Infinity"
  | .inf true => "-Infinity"
  | .dec mant exp =>
    if mant = 0 then "0"
    else
      let (ds, z) := stripTrailingZeros (Nat.repr mant.natAbs).toList
      let body := digitsToString ds ((ds.length : Int) + (exp + z))
      String.mk (if mant < 0 then '-' :: body else body)

/-! ## JavaScript values -/

/-- The values `JSON.parse` can produce. An object lists its own properties in iteration
order: array-index keys in ascending order first, then the other keys in insertion order. -/
inductive JSON where
  | null
  | bool (b : Bool)
  | num (n : JSNumber)
  | str (s : String)
  | arr (xs : List JSON)
  | obj (kvs : List (String × JSON))

/-- The exceptions raised inside the parser. -/
inductive JSError where
  | typeError
  | syntaxError
  deriving DecidableEq, Repr

/-- The test `ToBoolean` on a value. -/
def JSON.truthy : JSON → Bool
  | .null => false
  | .bool b => b
  | .num n => n.truthy
  | .str s => s != ""
  | .arr _ => true
  | .obj _ => true

/-- The test `ToBoolean` on a possibly undefined value. -/
def truthy? : Option JSON → Bool
  | none => false
  | some v => v.truthy

/-- The number of UTF-16 code units of a character. -/
def utf16Size (c : Char) : Nat := if c.toNat < 0x10000 then 1 else 2

/-- The length of a string in UTF-16 code units (`s.length` in JavaScript). -/
def utf16Length (s : String) : Nat := (s.toList.map utf16Size).sum

/-- The code units of a string, each as a one-unit string. A half of a surrogate pair has no
Lean character of its own and is written U+FFFD; the parser never reads its content. -/
def codeUnits (s : String) : List String :=
  s.toList.flatMap (fun c =>
    if c.toNat < 0x10000 then [String.singleton c]
    else [String.singleton (Char.ofNat 0xFFFD), String.singleton (Char.ofNat 0xFFFD)])

/-- The canonical numeric strings below `2 ^ 32 - 1`: the property keys that are array
indices. -/
def arrayIndex? (k : String) : Option Nat :=
  match k.toList with
  | [] => none
  | c :: cs =>
    if (c :: cs).all Char.isDigit ∧ (c ≠ '0' ∨ cs = []) then
      let n := (c :: cs).foldl (fun acc d => 10 * acc + (d.toNat - 48)) 0
      if n < 2 ^ 32 - 1 then some n else none
    else none

/-- The keys `"0"`, ..., `"n-1"`. -/
def indexKeys (n : Nat) : List String := (List.range n).map Nat.repr

/-! ## Property access -/

/-- The own property `k` of a value that is not `null`: `v[k]` for the keys the parser reads.
None of the fixed names it reads (`info`, `title`, `paths`, `post`, `requestBody`, `content`,
`application/json`, `schema`, `properties`, `required`, `type`, `description`, `default`,
`enum`, `minimum`, `maximum`, `responses`, `200`) is inherited from a prototype, and every
computed key it reads comes from `Object.keys` of the same value. Reading a property of `null`
raises a TypeError. -/
def getProp (v : JSON) (k : String) : Except JSError (Option JSON) :=
  match v with
  | .null => .error .typeError
  | .bool _ => .ok none
  | .num _ => .ok none
  | .str s =>
    if k = "length" then .ok (some (.num (.dec (utf16Length s) 0)))
    else match arrayIndex? k with
      | some i => .ok (((codeUnits s).get? i).map JSON.str)
      | none => .ok none
  | .arr xs =>
    if k = "length" then .ok (some (.num (.dec xs.length 0)))
    else match arrayIndex? k with
      | some i => .ok (xs.get? i)
      | none => .ok none
  | .obj kvs => .ok (kvs.lookup k)

/-- The property `k` of a possibly undefined value; reading a property of `undefined` raises a
TypeError. -/
def getProp? (v : Option JSON) (k : String) : Except JSError (Option JSON) :=
  match v with
  | none => .error .typeError
  | some x => getProp x k

/-- The optional chain `v?.k`: `undefined` when `v` is `undefined` or `null`. -/
def optProp (v : Option JSON) (k : String) : Option JSON :=
  match v with
  | none => none
  | some .null => none
  | some x =>
    match getProp x k with
    | .ok r => r
    | .error _ => none

/-- The call `Object.entries(v)`; it raises a TypeError on `null`. -/
def objectEntries (v : JSON) : Except JSError (List (String × JSON)) :=
  match v with
  | .null => .error .typeError
  | .bool _ => .ok []
  | .num _ => .ok []
  | .str s => .ok ((indexKeys (utf16Length s)).zip ((codeUnits s).map JSON.str))
  | .arr xs => .ok ((indexKeys xs.length).zip xs)
  | .obj kvs => .ok kvs

/-- The call `Object.keys(v)`; it raises a TypeError on `undefined` and on `null`. -/
def objectKeys (v : Option JSON) : Except JSError (List String) :=
  match v with
  | none => .error .typeError
  | some x => (objectEntries x).map (fun es => es.map Prod.fst)

/-- The call `Object.values(v)`; it raises a TypeError on `undefined` and on `null`. -/
def objectValues (v : Option JSON) : Except JSError (List JSON) :=
  match v with
  | none => .error .typeError
  | some x => (objectEntries x).map (fun es => es.map Prod.snd)

/-- Insert a new property with the array-index key `i`: before the first property whose key is
not an array index or is a larger one. -/
def insertIndexed {α : Type} (i : Nat) (k : String) (v : α) : List (String × α) → List (String × α)
  | [] => [(k, v)]
  | (k1, v1) :: rest =>
    match arrayIndex? k1 with
    | some j => if i < j then (k, v) :: (k1, v1) :: rest else (k1, v1) :: insertIndexed i k v rest
    | none => (k, v) :: (k1, v1) :: rest

/-- Replace the value of the existing property `k`, keeping its place. -/
def replaceValue {α : Type} (k : String) (v : α) : List (String × α) → List (String × α)
  | [] => []
  | (k1, v1) :: rest => if k1 = k then (k1, v) :: rest else (k1, v1) :: replaceValue k v rest

/-- Define the own property `k` of an object (`CreateDataProperty`): an existing key keeps its
place, a new array-index key goes among the indices in ascending order, any other new key goes
last. -/
def setOwn {α : Type} (kvs : List (String × α)) (k : String) (v : α) : List (String × α) :=
  if kvs.any (fun e => e.1 == k) then replaceValue k v kvs
  else match arrayIndex? k with
    | some i => insertIndexed i k v kvs
    | none => kvs ++ [(k, v)]

/-- The assignment `o[k] = v` of an object `v` to a property of a plain object `o`. The key
`__proto__` names the inherited accessor: the assignment then replaces the prototype of `o` and
defines no own property. -/
def assignProp {α : Type} (kvs : List (String × α)) (k : String) (v : α) : List (String × α) :=
  if k = "__proto__" then kvs else setOwn kvs k v

/-! ## Strings -/

/-- The line terminators: the characters `.` does not match and after which `^` matches in
multiline mode. -/
def isLineTerminator (c : Char) : Bool :=
  c.toNat == 0x0A || c.toNat == 0x0D || c.toNat == 0x2028 || c.toNat == 0x2029

/-- The characters matched by `\s` and removed by `trim()`: white space and line
terminators. -/
def isWhiteSpace (c : Char) : Bool :=
  let n := c.toNat
  n == 0x09 || n == 0x0A || n == 0x0B || n == 0x0C || n == 0x0D || n == 0x20 || n == 0xA0 ||
  n == 0x1680 || (0x2000 ≤ n && n ≤ 0x200A) || n == 0x2028 || n == 0x2029 || n == 0x202F ||
  n == 0x205F || n == 0x3000 || n == 0xFEFF

/-- The characters of `[a-zA-Z0-9]`. -/
def isAsciiAlnum (c : Char) : Bool :=
  ('a' ≤ c && c ≤ 'z') || ('A' ≤ c && c ≤ 'Z') || ('0' ≤ c && c ≤ '9')

/-- The characters of `\d`. -/
def isAsciiDigit (c : Char) : Bool := '0' ≤ c && c ≤ '9'

/-- The back-tick character. -/
def backtick : Char := Char.ofNat 96

/-- The lower-case form of one character. ASCII capitals map to their small letters; U+0130
and U+212A are the only other characters whose lower-case form contains an ASCII character.
Every other character is left as it is: the parser compares lower-cased text with ASCII
literals only, and those comparisons cannot tell a non-ASCII character from its lower-case
form. -/
def lowerChar (c : Char) : List Char :=
  if 'A' ≤ c && c ≤ 'Z' then [Char.ofNat (c.toNat + 32)]
  else if c.toNat == 0x0130 then ['i', Char.ofNat 0x0307]
  else if c.toNat == 0x212A then ['k']
  else [c]

/-- The method `String.prototype.toLowerCase`. -/
def toLowerCase (s : String) : String := String.mk (s.toList.flatMap lowerChar)

/-- The method `String.prototype.trim`. -/
def trim (s : String) : String :=
  String.mk (((s.toList.dropWhile isWhiteSpace).reverse.dropWhile isWhiteSpace).reverse)

/-- Whether `needle` occurs in `hay` as a block of consecutive characters. -/
def includesList (hay needle : List Char) : Bool :=
  hay.tails.any (fun t => needle.isPrefixOf t)

/-- The method `String.prototype.includes`. -/
def includes (s sub : String) : Bool := includesList s.toList sub.toList

/-- The method `String.prototype.startsWith`. -/
def startsWith (s pre : String) : Bool := pre.toList.isPrefixOf s.toList

/-- The method `String.prototype.endsWith`. -/
def endsWith (s suf : String) : Bool := suf.toList.reverse.isPrefixOf s.toList.reverse

/-- The loop of `split` with a non-empty string separator: `cur` holds, reversed, the
characters read since the last separator. -/
def splitOnAux (sep : List Char) : Nat → List Char → List Char → List (List Char)
  | 0, cur, _ => [cur.reverse]
  | _ + 1, cur, [] => [cur.reverse]
  | n + 1, cur, x :: xs =>
    if sep.isPrefixOf (x :: xs) then cur.reverse :: splitOnAux sep n [] ((x :: xs).drop sep.length)
    else splitOnAux sep n (x :: cur) xs

/-- The method `String.prototype.split` with a non-empty string separator. -/
def splitOn (s sep : String) : List String :=
  (splitOnAux sep.toList (s.length + 1) [] s.toList).map String.mk

/-! ## Regular expressions

A backtracking matcher for the constructs used by the parser, following the semantics of
ECMAScript regular expressions without the `u` flag. -/

/-- The abstract syntax of a regular expression. -/
inductive Regex where
  | eps
  | chr (c : Char)
  | cls (p : Char → Bool)
  | seq (a b : Regex)
  | alt (a b : Regex)
  | star (greedy : Bool) (r : Regex)
  | opt (r : Regex)
  | group (n : Nat) (r : Regex)
  | look (r : Regex)
  | bol
  | eol

/-- The flags `i` and `m`. -/
structure Flags where
  ignoreCase : Bool := false
  multiline : Bool := false

/-- A position in the input: the characters before it (nearest first), the characters after
it, and the capture groups recorded so far (latest first). -/
structure MState where
  before : List Char
  after : List Char
  caps : List (Nat × List Char)

/-- The canonical form of a character under the flag `i`: an ASCII small letter is compared as
its capital. A non-ASCII character never equals an ASCII one after canonicalisation, so it is
left as it is. Character classes of the parser's case-insensitive patterns (`\s`, `.`, negated
back-tick, `\d`) contain no letter and are unaffected. -/
def canon (fl : Flags) (c : Char) : Char :=
  if fl.ignoreCase && 'a' ≤ c && c ≤ 'z' then Char.ofNat (c.toNat - 32) else c

/-- The iterations of `r*` (greedy) or `r*?` (lazy): `step` matches `r` once, and an iteration
that consumes nothing is rejected. The counter starts at the number of characters left, which
bounds the number of iterations. -/
def starLoop (step : MState → (MState → Option MState) → Option MState) (greedy : Bool) :
    Nat → MState → (MState → Option MState) → Option MState
  | 0, s, k => k s
  | n + 1, s, k =>
    let again := fun (_ : Unit) =>
      step s (fun t => if t.after.length < s.after.length then starLoop step greedy n t k else none)
    if greedy then (again ()).orElse (fun _ => k s) else (k s).orElse again

/-- Match `r` at the position `s` and continue with `k`; the first success in backtracking
order is returned. -/
def Regex.run (fl : Flags) : Regex → MState → (MState → Option MState) → Option MState
  | .eps, s, k => k s
  | .chr c, s, k =>
    match s.after with
    | x :: xs =>
      if canon fl x == canon fl c then k { s with before := x :: s.before, after := xs } else none
    | [] => none
  | .cls p, s, k =>
    match s.after with
    | x :: xs => if p x then k { s with before := x :: s.before, after := xs } else none
    | [] => none
  | .seq a b, s, k => a.run fl s (fun t => b.run fl t k)
  | .alt a b, s, k => (a.run fl s k).orElse (fun _ => b.run fl s k)
  | .star g r, s, k => starLoop (r.run fl) g s.after.length s k
  | .opt r, s, k => (r.run fl s k).orElse (fun _ => k s)
  | .group n r, s, k =>
    r.run fl s (fun t =>
      k { t with caps := (n, s.after.take (s.after.length - t.after.length)) :: t.caps })
  | .look r, s, k =>
    match r.run fl s some with
    | some t => k { s with caps := t.caps }
    | none => none
  | .bol, s, k =>
    match s.before with
    | [] => k s
    | x :: _ => if fl.multiline && isLineTerminator x then k s else none
  | .eol, s, k =>
    match s.after with
    | [] => k s
    | x :: _ => if fl.multiline && isLineTerminator x then k s else none

/-- The pattern of a literal text. -/
def Regex.lit (text : String) : Regex := text.toList.foldr (fun c r => .seq (.chr c) r) .eps

/-- The pattern `r+` (greedy) or `r+?`. -/
def Regex.plus (greedy : Bool) (r : Regex) : Regex := .seq r (.star greedy r)

/-- The concatenation of patterns. -/
def Regex.cat (rs : List Regex) : Regex := rs.foldr Regex.seq .eps

/-- The pattern `\s*`. -/
def Regex.ws : Regex := .star true (.cls isWhiteSpace)

/-- The pattern of one or more characters other than a back-tick. -/
def Regex.noTicks : Regex := .plus true (.cls (fun c => c != backtick))

/-- Try the pattern at the position `s` and then at each later position. The result is the
position where the match starts and the position where it ends. -/
def searchFrom (fl : Flags) (r : Regex) : Nat → MState → Option (MState × MState)
  | 0, s => (r.run fl s some).map (fun t => (s, t))
  | n + 1, s =>
    match r.run fl s some with
    | some t => some (s, t)
    | none =>
      match s.after with
      | [] => none
      | x :: xs => searchFrom fl r n { s with before := x :: s.before, after := xs }

/-- The result of a successful match: the matched text and the capture groups. -/
structure Match where
  text : String
  caps : List (Nat × List Char)

/-- The capture group `n` of a match (`m[n]`); `undefined` when the group took no part. -/
def Match.group (m : Match) (n : Nat) : Option String :=
  (m.caps.find? (fun e => e.1 == n)).map (fun e => String.mk e.2)

/-- The text between two positions of the same input. -/
def textBetween (s t : MState) : List Char := s.after.take (s.after.length - t.after.length)

/-- The method `String.prototype.match` with a pattern without the `g` flag (also
`RegExp.prototype.exec`): the leftmost match. -/
def Regex.exec (fl : Flags) (r : Regex) (input : String) : Option Match :=
  (searchFrom fl r input.length ⟨[], input.toList, []⟩).map
    (fun st => { text := String.mk (textBetween st.1 st.2), caps := st.2.caps })

/-- The method `RegExp.prototype.test`. -/
def Regex.test (fl : Flags) (r : Regex) (input : String) : Bool := (r.exec fl input).isSome

/-- The loop of `String.prototype.split` with a pattern, for a non-empty input: `cur` holds,
reversed, the characters since the end `p` of the last separator; the pattern is tried at the
position `q` in front of `after`. An empty match at `p` itself is ignored. After an empty match
at a later `q` the next trial, again at `q`, is such an ignored match, so the loop moves on by
one character. -/
def splitLoop (fl : Flags) (r : Regex) :
    Nat → List Char → List Char → List Char → List (List Char)
  | 0, _, cur, _ => [cur.reverse]
  | _ + 1, _, cur, [] => [cur.reverse]
  | n + 1, before, cur, x :: xs =>
    match r.run fl ⟨before, x :: xs, []⟩ some with
    | none => splitLoop fl r n (x :: before) (x :: cur) xs
    | some t =>
      let len := (x :: xs).length - t.after.length
      if len = 0 then
        if cur.isEmpty then splitLoop fl r n (x :: before) (x :: cur) xs
        else cur.reverse :: splitLoop fl r n (x :: before) [x] xs
      else
        cur.reverse :: splitLoop fl r n (((x :: xs).take len).reverse ++ before) [] t.after

/-- The method `String.prototype.split` with a pattern that has no capture group. -/
def Regex.split (fl : Flags) (r : Regex) (input : String) : List String :=
  match input.toList with
  | [] => if (r.run fl ⟨[], [], []⟩ some).isSome then [] else [""]
  | cs => (splitLoop fl r (cs.length + 1) [] [] cs).map String.mk

/-- The loop of `String.prototype.match` with a pattern with the `g` flag: the successive
matches from the position `s` on; after an empty match the search moves on by one character. -/
def matchAllLoop (fl : Flags) (r : Regex) : Nat → MState → List String
  | 0, _ => []
  | n + 1, s =>
    match searchFrom fl r s.after.length { s with caps := [] } with
    | none => []
    | some (a, b) =>
      let found := String.mk (textBetween a b)
      if b.after.length < a.after.length then found :: matchAllLoop fl r n { b with caps := [] }
      else
        match b.after with
        | [] => [found]
        | x :: xs => found :: matchAllLoop fl r n ⟨x :: b.before, xs, []⟩

/-- The method `String.prototype.match` with a pattern with the `g` flag: all the matched
texts, or `null` when there is none. -/
def Regex.matchAll (fl : Flags) (r : Regex) (input : String) : Option (List String) :=
  match matchAllLoop fl r (input.length + 1) ⟨[], input.toList, []⟩ with
  | [] => none
  | ms => some ms

/-- The call `s.replace(/[^a-zA-Z0-9]/g, '_')`: every UTF-16 code unit outside `[a-zA-Z0-9]`
becomes an underscore. -/
def replaceNonAlnum (s : String) : String :=
  String.mk (s.toList.flatMap (fun c => if isAsciiAlnum c then [c] else List.replicate (utf16Size c) '_'))

/-- The call `s.replace(/[^a-zA-Z0-9\s]/g, '')`: only the characters of `[a-zA-Z0-9\s]`
stay. -/
def removeNonAlnumSpace (s : String) : String :=
  String.mk (s.toList.filter (fun c => isAsciiAlnum c || isWhiteSpace c))

/-- The loop of `s.replace(/\s+/g, '_')`: `inRun` tells whether the previous character was
white space. -/
def collapseSpacesAux : Bool → List Char → List Char
  | _, [] => []
  | inRun, c :: cs =>
    if isWhiteSpace c then (if inRun then collapseSpacesAux true cs else '_' :: collapseSpacesAux true cs)
    else c :: collapseSpacesAux false cs

/-- The call `s.replace(/\s+/g, '_')`: every maximal run of white space becomes one
underscore. -/
def collapseSpaces (s : String) : String := String.mk (collapseSpacesAux false s.toList)

/-- The call `s.replace(/X/g, '')` for a single character `X`. -/
def removeChar (c : Char) (s : String) : String := String.mk (s.toList.filter (fun x => x != c))

/-! ## `JSON.parse` and `JSON.stringify` -/

/-- The white space of the JSON grammar. -/
def isJsonSpace (c : Char) : Bool :=
  c.toNat == 0x20 || c.toNat == 0x09 || c.toNat == 0x0A || c.toNat == 0x0D

/-- The value of a hexadecimal digit. -/
def hexValue (c : Char) : Option Nat :=
  if '0' ≤ c && c ≤ '9' then some (c.toNat - 48)
  else if 'a' ≤ c && c ≤ 'f' then some (c.toNat - 87)
  else if 'A' ≤ c && c ≤ 'F' then some (c.toNat - 55)
  else none

/-- Read the four hexadecimal digits of a `\u` escape. -/
def readHex4 (cs : List Char) : Option (Nat × List Char) :=
  match cs with
  | a :: b :: c :: d :: rest => do
    let x ← hexValue a
    let y ← hexValue b
    let z ← hexValue c
    let w ← hexValue d
    pure (((x * 16 + y) * 16 + z) * 16 + w, rest)
  | _ => none

/-- Read the rest of a JSON string after its opening quote; `acc` holds, reversed, the
characters read so far. -/
def readString : Nat → List Char → List Char → Option (String × List Char)
  | 0, _, _ => none
  | _ + 1, _, [] => none
  | n + 1, acc, c :: cs =>
    if c == '"' then some (String.mk acc.reverse, cs)
    else if c == '\\' then
      match cs with
      | [] => none
      | e :: rest =>
        if e == '"' then readString n ('"' :: acc) rest
        else if e == '\\' then readString n ('\\' :: acc) rest
        else if e == '/' then readString n ('/' :: acc) rest
        else if e == 'b' then readString n (Char.ofNat 8 :: acc) rest
        else if e == 'f' then readString n (Char.ofNat 12 :: acc) rest
        else if e == 'n' then readString n ('\n' :: acc) rest
        else if e == 'r' then readString n ('\r' :: acc) rest
        else if e == 't' then readString n ('\t' :: acc) rest
        else if e == 'u' then
          match readHex4 rest with
          | none => none
          | some (hi, rest1) =>
            if 0xD800 ≤ hi ∧ hi ≤ 0xDBFF then
              match rest1 with
              | '\\' :: 'u' :: rest2 =>
                match readHex4 rest2 with
                | some (lo, rest3) =>
                  if 0xDC00 ≤ lo ∧ lo ≤ 0xDFFF then
                    readString n (Char.ofNat (0x10000 + (hi - 0xD800) * 0x400 + (lo - 0xDC00)) :: acc) rest3
                  else readString n (Char.ofNat 0xFFFD :: acc) rest1
                | none => none
              | _ => readString n (Char.ofNat 0xFFFD :: acc) rest1
            else if 0xDC00 ≤ hi ∧ hi ≤ 0xDFFF then readString n (Char.ofNat 0xFFFD :: acc) rest1
            else readString n (Char.ofNat hi :: acc) rest1
        else none
    else if c.toNat < 0x20 then none
    else readString n (c :: acc) cs

/-- The natural number written by a digit string. -/
def digitsValue (ds : List Char) : Nat := ds.foldl (fun acc d => 10 * acc + (d.toNat - 48)) 0

/-- Read a JSON number: an optional minus sign, an integer part without a superfluous leading
zero, an optional fraction and an optional exponent. -/
def readNumber (cs : List Char) : Option (JSNumber × List Char) :=
  let (neg, cs1) := match cs with
    | '-' :: r => (true, r)
    | _ => (false, cs)
  let ip := cs1.takeWhile isAsciiDigit
  let cs2 := cs1.dropWhile isAsciiDigit
  if ip = [] ∨ (ip.head? = some '0' ∧ ip.length ≠ 1) then none
  else
    let fracPart : Option (List Char × List Char) := match cs2 with
      | '.' :: r =>
        let fp := r.takeWhile isAsciiDigit
        if fp = [] then none else some (fp, r.dropWhile isAsciiDigit)
      | _ => some ([], cs2)
    match fracPart with
    | none => none
    | some (fp, cs3) =>
      let expPart : Option (Int × List Char) := match cs3 with
        | e :: r =>
          if e == 'e' || e == 'E' then
            let (eneg, r1) := match r with
              | '-' :: r2 => (true, r2)
              | '+' :: r2 => (false, r2)
              | _ => (false, r)
            let ep := r1.takeWhile isAsciiDigit
            if ep = [] then none
            else some (if eneg then -(digitsValue ep : Int) else (digitsValue ep : Int),
              r1.dropWhile isAsciiDigit)
          else some (0, cs3)
        | [] => some (0, cs3)
      match expPart with
      | none => none
      | some (ex, cs4) =>
        let m : Int := digitsValue (ip ++ fp)
        some (JSNumber.ofDecimal (if neg then -m else m) (ex - fp.length), cs4)

mutual
/-- Read one JSON value, after optional white space. -/
def readValue : Nat → List Char → Option (JSON × List Char)
  | 0, _ => none
  | n + 1, cs =>
    match cs.dropWhile isJsonSpace with
    | [] => none
    | c :: rest =>
      if c == '\x7b' then
        match rest.dropWhile isJsonSpace with
        | [] => none
        | d :: rest1 => if d == '\x7d' then some (.obj [], rest1) else readMembers n [] (d :: rest1)
      else if c == '[' then
        match rest.dropWhile isJsonSpace with
        | [] => none
        | d :: rest1 => if d == ']' then some (.arr [], rest1) else readElements n [] (d :: rest1)
      else if c == '"' then
        (readString (rest.length + 1) [] rest).map (fun r => (.str r.1, r.2))
      else if "true".toList.isPrefixOf (c :: rest) then some (.bool true, (c :: rest).drop 4)
      else if "false".toList.isPrefixOf (c :: rest) then some (.bool false, (c :: rest).drop 5)
      else if "null".toList.isPrefixOf (c :: rest) then some (.null, (c :: rest).drop 4)
      else (readNumber (c :: rest)).map (fun r => (.num r.1, r.2))
/-- Read the elements of a non-empty array up to its closing bracket; `acc` holds, reversed,
the elements read so far. -/
def readElements : Nat → List JSON → List Char → Option (JSON × List Char)
  | 0, _, _ => none
  | n + 1, acc, cs =>
    match readValue n cs with
    | none => none
    | some (v, rest) =>
      match rest.dropWhile isJsonSpace with
      | [] => none
      | d :: rest1 =>
        if d == ',' then readElements n (v :: acc) rest1
        else if d == ']' then some (.arr (v :: acc).reverse, rest1)
        else none
/-- Read the members of a non-empty object up to its closing brace; `acc` holds the properties
defined so far. A repeated key keeps its place and takes the later value. -/
def readMembers : Nat → List (String × JSON) → List Char → Option (JSON × List Char)
  | 0, _, _ => none
  | n + 1, acc, cs =>
    match cs.dropWhile isJsonSpace with
    | [] => none
    | q :: rest =>
      if q == '"' then
        match readString (rest.length + 1) [] rest with
        | none => none
        | some (key, rest1) =>
          match rest1.dropWhile isJsonSpace with
          | [] => none
          | colon :: rest2 =>
            if colon == ':' then
              match readValue n rest2 with
              | none => none
              | some (v, rest3) =>
                match rest3.dropWhile isJsonSpace with
                | [] => none
                | d :: rest4 =>
                  if d == ',' then readMembers n (setOwn acc key v) rest4
                  else if d == '\x7d' then some (.obj (setOwn acc key v), rest4)
                  else none
            else none
      else none
end

/-- The function `JSON.parse` on a string: the value written by the whole text, or a
SyntaxError. -/
def JSON.parse (text : String) : Except JSError JSON :=
  match readValue (2 * text.length + 2) text.toList with
  | some (v, rest) => if rest.all isJsonSpace then .ok v else .error .syntaxError
  | none => .error .syntaxError

/-- The four hexadecimal digits of a number below `2 ^ 16`, in lower case. -/
def hex4 (n : Nat) : List Char :=
  [Nat.digitChar (n / 4096 % 16), Nat.digitChar (n / 256 % 16), Nat.digitChar (n / 16 % 16),
    Nat.digitChar (n % 16)]

/-- The text of one character inside a quoted JSON string. -/
def quoteChar (c : Char) : List Char :=
  if c == '"' then ['\\', '"']
  else if c == '\\' then ['\\', '\\']
  else if c.toNat == 8 then ['\\', 'b']
  else if c.toNat == 12 then ['\\', 'f']
  else if c == '\n' then ['\\', 'n']
  else if c == '\r' then ['\\', 'r']
  else if c == '\t' then ['\\', 't']
  else if c.toNat < 0x20 then '\\' :: 'u' :: hex4 c.toNat
  else [c]

/-- The operation `QuoteJSONString`. -/
def quoteString (s : String) : List Char := '"' :: s.toList.flatMap quoteChar ++ ['"']

mutual
/-- The characters of `JSON.stringify(v)` for a value produced by `JSON.parse`. -/
def stringifyChars : JSON → List Char
  | .null => "null".toList
  | .bool true => "true".toList
  | .bool false => "false".toList
  | .num (.dec mant exp) => (JSNumber.toString (.dec mant exp)).toList
  | .num _ => "null".toList
  | .str s => quoteString s
  | .arr xs => '[' :: stringifyElements xs ++ [']']
  | .obj kvs => '\x7b' :: stringifyMembers kvs ++ ['\x7d']
/-- The elements of an array, separated by commas. -/
def stringifyElements : List JSON → List Char
  | [] => []
  | [x] => stringifyChars x
  | x :: y :: rest => stringifyChars x ++ ',' :: stringifyElements (y :: rest)
/-- The members of an object, separated by commas. -/
def stringifyMembers : List (String × JSON) → List Char
  | [] => []
  | [(k, v)] => quoteString k ++ ':' :: stringifyChars v
  | (k, v) :: e :: rest => quoteString k ++ ':' :: stringifyChars v ++ ',' :: stringifyMembers (e :: rest)
end

/-- The function `JSON.stringify` on a value produced by `JSON.parse`. -/
def JSON.stringify (v : JSON) : String := String.mk (stringifyChars v)

mutual
/-- The conversion `ToString` used when a value serves as a property key. An array is joined
with commas, `null` elements giving the empty text. An object without an own `toString`
property gives `[object Object]`; with one (never callable in parsed JSON) neither `toString`
nor `valueOf` yields a primitive and a TypeError is raised. -/
def toStringValue : JSON → Except JSError (List Char)
  | .null => .ok "null".toList
  | .bool true => .ok "true".toList
  | .bool false => .ok "false".toList
  | .num n => .ok n.toString.toList
  | .str s => .ok s.toList
  | .arr xs => joinValues xs
  | .obj kvs => if kvs.any (fun e => e.1 == "toString") then .error .typeError
    else .ok "[object Object]".toList
/-- The method `Array.prototype.join` with a comma. -/
def joinValues : List JSON → Except JSError (List Char)
  | [] => .ok []
  | [x] => joinElement x
  | x :: y :: rest =>
    match joinElement x, joinValues (y :: rest) with
    | .ok a, .ok b => .ok (a ++ ',' :: b)
    | .error e, _ => .error e
    | _, .error e => .error e
/-- The text of one element inside `join`: empty for `null`. -/
def joinElement : JSON → Except JSError (List Char)
  | .null => .ok []
  | .bool true => .ok "true".toList
  | .bool false => .ok "false".toList
  | .num n => .ok n.toString.toList
  | .str s => .ok s.toList
  | .arr xs => joinValues xs
  | .obj kvs => if kvs.any (fun e => e.1 == "toString") then .error .typeError
    else .ok "[object Object]".toList
end

/-- The conversion `ToPropertyKey` of a possibly undefined value. -/
def toPropertyKey (v : Option JSON) : Except JSError String :=
  match v with
  | none => .ok "undefined"
  | some x => (toStringValue x).map String.mk

/-! ## The data model -/

/-- The type tag of a parameter. `inherited k` stands for the value found under a key `k` that
`typeMap` inherits from `Object.prototype` (`typeMap["constructor"]` and the like): a truthy
value that is none of the tags. -/
inductive ComfyType where
  | string
  | int
  | float
  | boolean
  | enum
  | array
  | object
  | imageSize
  | inherited (key : String)
  deriving DecidableEq, Repr

/-- The tag as the parser writes it. -/
def ComfyType.tag : ComfyType → String
  | .string => "STRING"
  | .int => "INT"
  | .float => "FLOAT"
  | .boolean => "BOOLEAN"
  | .enum => "ENUM"
  | .array => "ARRAY"
  | .object => "OBJECT"
  | .imageSize => "IMAGESIZE"
  | .inherited k => k

/-- The output type of a model: `'IMAGE'`, `'VIDEO'` or `'AUDIO'`. -/
inductive OutputType where
  | image
  | video
  | audio
  deriving DecidableEq, Repr

/-- One parameter (`param` in the source). A property that the source leaves out of the object,
or sets to `undefined`, is `none`; `skip` is `false` when the property is absent. -/
structure ParameterSpec where
  name : Option String
  type : ComfyType
  required : Bool
  description : JSON
  default : Option JSON
  enum : Option JSON
  min : Option JSON
  max : Option JSON
  skip : Bool

/-- The parameters object: its own properties in iteration order. -/
abbrev ParameterMap := List (String × ParameterSpec)

/-- The result of parsing (`result` in the source). -/
structure ParsedApiModel where
  modelName : String
  endpoint : String
  parameters : ParameterMap
  outputType : OutputType

/-! ## The structured extractor (script.js, lines 45-82, 135-169, 462-473, 493-505) -/

/-- The names that `typeMap`, a plain object, inherits from `Object.prototype`; the value
under each of them is truthy. -/
def objectPrototypeKeys : List String :=
  ["constructor", "__defineGetter__", "__defineSetter__", "hasOwnProperty", "__lookupGetter__",
    "__lookupSetter__", "isPrototypeOf", "propertyIsEnumerable", "toString", "valueOf",
    "__proto__", "toLocaleString"]

/-- The method `mapJsonTypeToComfyType`: `typeMap[jsonType] || 'STRING'`. -/
def mapJsonTypeToComfyType (jsonType : Option JSON) : Except JSError ComfyType := do
  let key ← toPropertyKey jsonType
  if key = "string" then pure .string
  else if key = "integer" then pure .int
  else if key = "number" then pure .float
  else if key = "boolean" then pure .boolean
  else if key = "array" then pure .array
  else if key = "object" then pure .object
  else if key ∈ objectPrototypeKeys then pure (.inherited key)
  else pure .string

/-- The strict equality `v === s` with a string literal `s`. -/
def isString (v : Option JSON) (s : String) : Bool :=
  match v with
  | some (.str t) => t == s
  | _ => false

/-- The method `convertJsonProperty`. -/
def convertJsonProperty (prop : JSON) (required : Bool) : Except JSError ParameterSpec := do
  let jsonType ← getProp prop "type"
  let type ← mapJsonTypeToComfyType jsonType
  let description ← getProp prop "description"
  let dflt ← getProp prop "default"
  let enum ← getProp prop "enum"
  let minimum ← getProp prop "minimum"
  let maximum ← getProp prop "maximum"
  let ranged := isString jsonType "number" || isString jsonType "integer"
  pure {
    name := none
    type := if truthy? enum then .enum else type
    required := required
    description := if truthy? description then description.getD (.str "") else .str ""
    default := dflt
    enum := if truthy? enum then enum else none
    min := if ranged then minimum else none
    max := if ranged then maximum else none
    skip := false }

/-- The expression `schema.required?.includes(name) || false`. An array is searched for the
string `name`; a string is searched for `name` as a piece of text; `undefined` and `null` give
`false`; any other value has no callable `includes` and a TypeError is raised. -/
def requiredFlag (schema : JSON) (name : String) : Except JSError Bool := do
  match (← getProp schema "required") with
  | none => pure false
  | some .null => pure false
  | some (.arr xs) => pure (xs.any (fun x => isString (some x) name))
  | some (.str s) => pure (includes s name)
  | some _ => throw .typeError

/-- The loop of `extractParameters` over `Object.entries(schema.properties)`. -/
def extractLoop (schema : JSON) : List (String × JSON) → ParameterMap → Except JSError ParameterMap
  | [], parameters => pure parameters
  | (name, prop) :: rest, parameters => do
    let required ← requiredFlag schema name
    let param ← convertJsonProperty prop required
    extractLoop schema rest (assignProp parameters name param)

/-- The method `extractParameters`. -/
def extractParameters (schema : JSON) : Except JSError ParameterMap := do
  let properties ← getProp schema "properties"
  match properties with
  | none => pure []
  | some props =>
    if props.truthy then do
      let entries ← objectEntries props
      extractLoop schema entries []
    else pure []

/-- The method `inferOutputType`. -/
def inferOutputType (responses : JSON) : OutputType :=
  let responseStr := toLowerCase (JSON.stringify responses)
  if includes responseStr "video" || includes responseStr "mp4" then .video
  else if includes responseStr "audio" || includes responseStr "wav" || includes responseStr "mp3" then
    .audio
  else if includes responseStr "image" || includes responseStr "png" || includes responseStr "jpg" then
    .image
  else .image

/-- Lines 54-56 of `parseJsonSchema`: the model name. Calling `replace` on a truthy title that
is not a string raises a TypeError. -/
def jsonModelName (data : JSON) : Except JSError String := do
  let info ← getProp data "info"
  if truthy? info then
    let title ← getProp? info "title"
    if truthy? title then
      match title with
      | some (.str t) => pure (replaceNonAlnum t)
      | _ => throw .typeError
    else pure ""
  else pure ""

/-- The test `['post', 'put', 'patch'].includes(m)`. -/
def isBodyMethod (m : String) : Bool := m == "post" || m == "put" || m == "patch"

/-- Lines 65-70 of `parseJsonSchema`, for the operation `op = pathData[method]`: the parameters
of its JSON request body, or the empty object. -/
def operationParameters (op : Option JSON) : Except JSError ParameterMap := do
  let requestBody ← getProp? op "requestBody"
  if truthy? requestBody then
    let content ← getProp? requestBody "content"
    let media ← getProp? content "application/json"
    match optProp media "schema" with
    | none => pure []
    | some schema => if schema.truthy then extractParameters schema else pure []
  else pure []

/-- Lines 58-71 of `parseJsonSchema`: the endpoint and the parameters. With no key in
`data.paths` the variable `firstPath` is `undefined`, so is `pathData`, and
`Object.keys(pathData)` raises a TypeError. -/
def jsonEndpointAndParameters (data : JSON) : Except JSError (String × ParameterMap) := do
  let paths ← getProp data "paths"
  if truthy? paths then
    match (← objectKeys paths).head? with
    | none => throw .typeError
    | some firstPath =>
      let pathData ← getProp? paths firstPath
      match (← objectKeys pathData).find? isBodyMethod with
      | none => pure (firstPath, [])
      | some method =>
        let parameters ← operationParameters (← getProp? pathData method)
        pure (firstPath, parameters)
  else pure ("", [])

/-- The expression `Object.values(data.paths)[0]?.post?.responses?.['200']`. -/
def firstPostResponse (paths : Option JSON) : Except JSError (Option JSON) := do
  let values ← objectValues paths
  pure (optProp (optProp (optProp values.head? "post") "responses") "200")

/-- Lines 74-79 of `parseJsonSchema`: the output type. -/
def jsonOutputType (data : JSON) : Except JSError OutputType := do
  let paths ← getProp data "paths"
  if truthy? paths then
    match (← firstPostResponse paths) with
    | none => pure .image
    | some responses => if responses.truthy then pure (inferOutputType responses) else pure .image
  else pure .image

/-- The method `parseJsonSchema`. -/
def parseJsonSchema (data : JSON) : Except JSError ParsedApiModel := do
  let modelName ← jsonModelName data
  let (endpoint, parameters) ← jsonEndpointAndParameters data
  let outputType ← jsonOutputType data
  pure { modelName := modelName, endpoint := endpoint, parameters := parameters,
         outputType := outputType }

/-! ## `parseInt` and `parseFloat` -/

/-- The value of a digit in radix 16 (`none` for any other character). -/
def digitValue (radix : Nat) (c : Char) : Option Nat :=
  match hexValue c with
  | some d => if d < radix then some d else none
  | none => none

/-- The function `parseInt` with one argument: leading white space is skipped, a sign is read,
the prefix `0x` or `0X` selects radix 16, and the longest run of digits is read: the result is
the Number value for the integer they write, that is the nearest double (`ofDecimal`, every
digit being read); with no digit the result is NaN. -/
def parseInt (s : String) : JSNumber :=
  let cs := s.toList.dropWhile isWhiteSpace
  let (neg, cs1) := match cs with
    | '-' :: r => (true, r)
    | '+' :: r => (false, r)
    | _ => (false, cs)
  let (radix, cs2) := match cs1 with
    | '0' :: 'x' :: r => (16, r)
    | '0' :: 'X' :: r => (16, r)
    | _ => (10, cs1)
  let ds := cs2.takeWhile (fun c => (digitValue radix c).isSome)
  if ds = [] then .nan
  else
    let v : Int := ds.foldl (fun acc d => radix * acc + ((digitValue radix d).getD 0)) 0
    JSNumber.ofDecimal (if neg then -v else v) 0

/-- The function `parseFloat`: leading white space is skipped and the longest prefix that is a
decimal literal (a sign, then `Infinity` or digits with an optional fraction and an optional
complete exponent) is read: the result is the Number value for the decimal it writes, that is
the nearest double (`ofDecimal`, every digit being read); with no such prefix the result is
NaN. -/
def parseFloat (s : String) : JSNumber :=
  let cs := s.toList.dropWhile isWhiteSpace
  let (neg, cs1) := match cs with
    | '-' :: r => (true, r)
    | '+' :: r => (false, r)
    | _ => (false, cs)
  if "Infinity".toList.isPrefixOf cs1 then .inf neg
  else
    let ip := cs1.takeWhile isAsciiDigit
    let cs2 := cs1.dropWhile isAsciiDigit
    let (fp, cs3) := match cs2 with
      | '.' :: r =>
        if ip = [] ∧ r.takeWhile isAsciiDigit = [] then ([], cs2)
        else (r.takeWhile isAsciiDigit, r.dropWhile isAsciiDigit)
      | _ => ([], cs2)
    if ip = [] ∧ fp = [] then .nan
    else
      let ex : Int := match cs3 with
        | e :: r =>
          if e == 'e' || e == 'E' then
            let (eneg, r1) := match r with
              | '-' :: r2 => (true, r2)
              | '+' :: r2 => (false, r2)
              | _ => (false, r)
            let ep := r1.takeWhile isAsciiDigit
            if ep = [] then 0 else if eneg then -(digitsValue ep : Int) else (digitsValue ep : Int)
          else 0
        | [] => 0
      let m : Int := digitsValue (ip ++ fp)
      JSNumber.ofDecimal (if neg then -m else m) (ex - fp.length)

/-- The expression `x || null` for a number `x`. -/
def numberOrNull (x : JSNumber) : JSON := if x.truthy then .num x else .null

/-! ## The markdown extractor (script.js, lines 85-132, 172-340) -/

/-- The flags `i`. -/
def flagsI : Flags := { ignoreCase := true, multiline := false }

/-- The flags `m` (also `gm`: the flag `g` is in the choice of the method). -/
def flagsM : Flags := { ignoreCase := false, multiline := true }

/-- No flag. -/
def flagsNone : Flags := { ignoreCase := false, multiline := false }

/-- The pattern `/^#\s+(.+)/m`. -/
def titlePattern : Regex :=
  .cat [.bol, .chr '#', .plus true (.cls isWhiteSpace),
    .group 1 (.plus true (.cls (fun c => !isLineTerminator c)))]

/-- The patterns ``\*\*LABEL\*\*:\s*`([^`]+)` `` (with an empty `lead`) and
``- \*\*LABEL\*\*:\s*`([^`]+)` `` (with `lead` a hyphen and a space), both used with the
flag `i`. -/
def labeledPattern (lead label : String) : Regex :=
  .cat [.lit lead, .lit "**", .lit label, .lit "**:", .ws, .chr backtick, .group 1 .noTicks,
    .chr backtick]

/-- The pattern `/### Input Schema\s*([\s\S]*?)(?=###|##|$)/i`. -/
def inputSchemaPattern : Regex :=
  .cat [.lit "### Input Schema", .ws, .group 1 (.star false (.cls (fun _ => true))),
    .look (.alt (.lit "###") (.alt (.lit "##") .eol))]

/-- The pattern ``/(?=^- \*\*`[^`]+`\*\*)/gm``. -/
def blockStartPattern : Regex :=
  .look (.cat [.bol, .lit "- **`", .noTicks, .lit "`**"])

/-- The pattern ``/\*\*`[^`]+`\*\*/``. -/
def namedPattern : Regex := .cat [.lit "**`", .noTicks, .lit "`**"]

/-- The pattern ``- \*\*`([^`]+)`\*\*`` (no flag). -/
def namePattern : Regex := .cat [.lit "- **`", .group 1 .noTicks, .lit "`**"]

/-- The pattern ``/\*\*`[^`]+`\*\*\s*\(`([^`]+)`,\s*_([^_]+)_\)/``. -/
def typeRequiredPattern : Regex :=
  .cat [.lit "**`", .noTicks, .lit "`**", .ws, .lit "(`", .group 1 .noTicks, .lit "`,", .ws,
    .chr '_', .group 2 (.plus true (.cls (fun c => c != '_'))), .lit "_)"]

/-- The pattern ``/Default(?:\s+value)?:\s*`([^`]*)`/i``. -/
def defaultPattern : Regex :=
  .cat [.lit "Default", .opt (.cat [.plus true (.cls isWhiteSpace), .lit "value"]), .chr ':', .ws,
    .chr backtick, .group 1 (.star true (.cls (fun c => c != backtick))), .chr backtick]

/-- The pattern `\d+(?:\.\d+)?`. -/
def unsignedPattern : Regex :=
  .cat [.plus true (.cls isAsciiDigit), .opt (.cat [.chr '.', .plus true (.cls isAsciiDigit)])]

/-- The pattern ``/Range:\s*`(\d+(?:\.\d+)?)`\s*to\s*`(\d+(?:\.\d+)?)`/i``. -/
def rangePattern : Regex :=
  .cat [.lit "Range:", .ws, .chr backtick, .group 1 unsignedPattern, .chr backtick, .ws,
    .lit "to", .ws, .chr backtick, .group 2 unsignedPattern, .chr backtick]

/-- The pattern `/Options:\s*(.+)/i`. -/
def optionsPattern : Regex :=
  .cat [.lit "Options:", .ws, .group 1 (.plus true (.cls (fun c => !isLineTerminator c)))]

/-- The pattern ``/`([^`]+)`/g``. -/
def tickedPattern : Regex := .cat [.chr backtick, .group 1 .noTicks, .chr backtick]

/-- Lines 251-273 of `parseFalAiParameterBlock`: the type for the lower-cased and trimmed type
string. -/
def mapFalType (typeStr : String) : ComfyType :=
  if typeStr = "string" then .string
  else if typeStr = "integer" then .int
  else if typeStr = "float" then .float
  else if typeStr = "boolean" then .boolean
  else if includes typeStr "imagesize" || includes typeStr "ImageSize" then .imageSize
  else if includes typeStr "enum" || includes typeStr "|" then .enum
  else if includes typeStr "list" || includes typeStr "array" then .array
  else .string

/-- The test of line 280 on a trimmed line: whether it is the description. -/
def isDescriptionLine (line : String) : Bool :=
  line != "" && !startsWith line "-" && !startsWith line "*" && !startsWith line "Default:" &&
    !startsWith line "Range:" && !startsWith line "Options:"

/-- Lines 277-284 of `parseFalAiParameterBlock`: the first line after the first that passes the
test, trimmed; the empty string when there is none. -/
def findDescription (block : String) : String :=
  (((splitOn block "\n").drop 1).map trim).find? isDescriptionLine |>.getD ""

/-- Lines 289-310 of `parseFalAiParameterBlock`: the default for the text between the
back-ticks, by the type read from the type clause. -/
def coerceDefault (type : ComfyType) (defaultStr : String) : JSON :=
  if type = .boolean then .bool (defaultStr == "true")
  else if type = .int then numberOrNull (parseInt defaultStr)
  else if type = .float then numberOrNull (parseFloat defaultStr)
  else if defaultStr = "\"\"" ∨ defaultStr = "" then .str ""
  else if defaultStr = "[]" then .arr []
  else if startsWith defaultStr "\x7b" && endsWith defaultStr "\x7d" then
    match JSON.parse defaultStr with
    | .ok v => v
    | .error _ => .str defaultStr
  else .str defaultStr

/-- The initial `param` object of `parseFalAiParameterBlock` (lines 230-239). -/
def emptyParam : ParameterSpec :=
  { name := some "", type := .string, required := false, description := .str "",
    default := some .null, enum := some .null, min := some .null, max := some .null,
    skip := false }

/-- The method `parseFalAiParameterBlock`. -/
def parseFalAiParameterBlock (block : String) : ParameterSpec :=
  match namePattern.exec flagsNone block with
  | none => emptyParam
  | some nameMatch =>
    let name := (nameMatch.group 1).getD ""
    -- type and required status
    let typeRequiredMatch := typeRequiredPattern.exec flagsNone block
    let type1 : ComfyType := match typeRequiredMatch with
      | some m => mapFalType (trim (toLowerCase ((m.group 1).getD "")))
      | none => .string
    let required : Bool := match typeRequiredMatch with
      | some m => (m.group 2).getD "" == "required"
      | none => false
    -- description
    let description := findDescription block
    -- default value
    let dflt : JSON := match defaultPattern.exec flagsI block with
      | some m => coerceDefault type1 ((m.group 1).getD "")
      | none => .null
    -- range
    let rangeMatch := rangePattern.exec flagsI block
    let ranged := type1 = .int ∨ type1 = .float
    let min : JSON := match rangeMatch with
      | some m => if ranged then .num (parseFloat ((m.group 1).getD "")) else .null
      | none => .null
    let max : JSON := match rangeMatch with
      | some m => if ranged then .num (parseFloat ((m.group 2).getD "")) else .null
      | none => .null
    -- enum options
    let options : Option (List String) := match optionsPattern.exec flagsI block with
      | some m => tickedPattern.matchAll flagsNone ((m.group 1).getD "")
      | none => none
    let enum : JSON := match options with
      | some opts => .arr (opts.map (fun opt => .str (removeChar backtick opt)))
      | none => .null
    let type2 : ComfyType := match options with
      | some _ => .enum
      | none => type1
    -- the ImageSize parameter is marked for splitting
    let special := type2 = .imageSize ∨ name = "image_size"
    { name := some name
      type := if special then .imageSize else type2
      required := required
      description := .str description
      default := some dflt
      enum := some enum
      min := some min
      max := some max
      skip := special }

/-- The synthesized `width` or `height` parameter (lines 201-219). -/
def sizeParam (name description : String) (required : Bool) : ParameterSpec :=
  { name := some name, type := .int, required := required, description := .str description,
    default := some (.num (.dec 1024 0)), enum := none, min := some (.num (.dec 256 0)),
    max := some (.num (.dec 2048 0)), skip := false }

/-- One turn of the loop of `parseMarkdownParameters` (lines 191-222). -/
def addBlock (parameters : ParameterMap) (block : String) : ParameterMap :=
  let param := parseFalAiParameterBlock (trim block)
  let name := param.name.getD ""
  if name != "" && !param.skip then assignProp parameters name param
  else if name != "" && (param.skip || name == "image_size") then
    assignProp (assignProp parameters "width" (sizeParam "width" "Image width in pixels" param.required))
      "height" (sizeParam "height" "Image height in pixels" param.required)
  else parameters

/-- The blocks of the section body (lines 185-186): the pieces that start at a parameter
entry, without the blank ones and those that name no parameter. -/
def paramBlocks (inputText : String) : List String :=
  (blockStartPattern.split flagsM inputText).filter
    (fun block => trim block != "" && namedPattern.test flagsNone block)

/-- The method `parseMarkdownParameters`. -/
def parseMarkdownParameters (markdown : String) : ParameterMap :=
  match inputSchemaPattern.exec flagsI markdown with
  | none => []
  | some inputSchemaMatch =>
    (paramBlocks ((inputSchemaMatch.group 1).getD "")).foldl addBlock []

/-- Lines 94-97 of `parseMarkdownSchema`: the model name. -/
def markdownModelName (markdown : String) : String :=
  match titlePattern.exec flagsM markdown with
  | some titleMatch => collapseSpaces (removeNonAlnumSpace ((titleMatch.group 1).getD ""))
  | none => ""

/-- The expression `markdown.match(A) || markdown.match(B)` of lines 100-104 for a label. -/
def labeledMatch (label markdown : String) : Option Match :=
  ((labeledPattern "" label).exec flagsI markdown).orElse
    (fun _ => (labeledPattern "- " label).exec flagsI markdown)

/-- Lines 100-119 of `parseMarkdownSchema`: the endpoint. The second piece of the split exists
because the separator occurs in `fullUrl`. -/
def markdownEndpoint (markdown : String) : String :=
  match labeledMatch "Model ID" markdown with
  | some modelIdMatch => (modelIdMatch.group 1).getD ""
  | none =>
    match labeledMatch "Endpoint" markdown with
    | some endpointMatch =>
      let fullUrl := (endpointMatch.group 1).getD ""
      if includes fullUrl "fal.run/" then ((splitOn fullUrl "fal.run/").get? 1).getD "" else fullUrl
    | none => ""

/-- Lines 125-129 of `parseMarkdownSchema`: the output type. -/
def markdownOutputType (markdown : String) : OutputType :=
  if includes (toLowerCase markdown) "video" || includes (toLowerCase markdown) "mp4" then .video
  else if includes (toLowerCase markdown) "audio" || includes (toLowerCase markdown) "wav" then
    .audio
  else .image

/-- The method `parseMarkdownSchema`. -/
def parseMarkdownSchema (markdown : String) : ParsedApiModel :=
  { modelName := markdownModelName markdown
    endpoint := markdownEndpoint markdown
    parameters := parseMarkdownParameters markdown
    outputType := markdownOutputType markdown }

/-- The method `parseDocumentation`: the structured extractor on the parsed JSON and, when
`JSON.parse` or the structured extractor raises, the markdown extractor on the text. -/
def parseDocumentation (content : String) : Except JSError ParsedApiModel :=
  tryCatch (do
      let jsonData ← JSON.parse content
      parseJsonSchema jsonData)
    (fun _ => pure (parseMarkdownSchema content))

/-! ## Definitions used to state the theorems -/

/-- The output type that the claim on the structured extractor assigns to a response: VIDEO if
its lower-cased serialization contains `video` or `mp4`, otherwise AUDIO if it contains
`audio`, `wav` or `mp3`, otherwise IMAGE; IMAGE when the response is absent. -/
def outputTypeOfResponse (response : Option JSON) : OutputType :=
  match response with
  | none => .image
  | some r =>
    let text := toLowerCase (JSON.stringify r)
    if includes text "video" || includes text "mp4" then .video
    else if includes text "audio" || includes text "wav" || includes text "mp3" then .audio
    else .image

/-- The response for status 200 of the `post` operation of the first path of a document, when
there is one. -/
def firstPathPostResponse (data : JSON) : Option JSON :=
  match getProp data "paths" with
  | .ok (some paths) =>
    match objectEntries paths with
    | .ok ((_, entry) :: _) => optProp (optProp (optProp (some entry) "post") "responses") "200"
    | _ => none
  | _ => none

/-- Whether the heading text `### Input Schema` occurs in the text, in any letter case. -/
def hasInputSchemaHeading (text : String) : Bool :=
  includesList (text.toList.map (canon flagsI)) ("### Input Schema".toList.map (canon flagsI))

/-- The order of two keys of one object: they differ, an array index stands before every key
that is not one, and array indices ascend. -/
def keyBefore (k1 k2 : String) : Bool :=
  k1 != k2 &&
  match arrayIndex? k1, arrayIndex? k2 with
  | some i, some j => i < j
  | some _, none => true
  | none, some _ => false
  | none, none => true

/-- The keys of an object, in iteration order: every key stands before the later ones. Every
JavaScript object satisfies this. -/
def KeysOrdered (ks : List String) : Prop := ks.Pairwise (fun a b => keyBefore a b = true)

/-! ### Example documents -/

/-- The text `{"paths":{}}`. -/
def emptyPathsText : String := "\x7b\"paths\":\x7b\x7d\x7d"

/-- The text `{"paths":{"/x":null}}`. -/
def nullPathText : String := "\x7b\"paths\":\x7b\"/x\":null\x7d\x7d"

/-- The text `{"paths":{"/x":{}}}`. -/
def emptyPathText : String := "\x7b\"paths\":\x7b\"/x\":\x7b\x7d\x7d\x7d"

/-- An operation whose JSON request body has a schema with the single string property
`name`. -/
def bodyOperation (name : String) : JSON :=
  .obj [("requestBody", .obj [("content", .obj [("application/json", .obj [("schema",
    .obj [("properties", .obj [(name, .obj [("type", .str "string")])])])])])])]

/-- The parameter that `convertJsonProperty` makes of the property `{"type":"string"}`. -/
def plainStringParam : ParameterSpec :=
  { name := none, type := .string, required := false, description := .str "", default := none,
    enum := none, min := none, max := none, skip := false }

/-- A document whose only path entry declares `put` (with a property `b`) and then `post` (with
a property `a`). -/
def putPostText : String :=
  "\x7b\"paths\":\x7b\"/run\":\x7b\"put\":\x7b\"requestBody\":\x7b\"content\":\x7b\"application/json\":\x7b\"schema\":\x7b\"properties\":\x7b\"b\":\x7b\"type\":\"string\"\x7d\x7d\x7d\x7d\x7d\x7d\x7d,\"post\":\x7b\"requestBody\":\x7b\"content\":\x7b\"application/json\":\x7b\"schema\":\x7b\"properties\":\x7b\"a\":\x7b\"type\":\"string\"\x7d\x7d\x7d\x7d\x7d\x7d\x7d\x7d\x7d\x7d"

/-- The same document with `post` declared before `put`. -/
def postPutText : String :=
  "\x7b\"paths\":\x7b\"/run\":\x7b\"post\":\x7b\"requestBody\":\x7b\"content\":\x7b\"application/json\":\x7b\"schema\":\x7b\"properties\":\x7b\"a\":\x7b\"type\":\"string\"\x7d\x7d\x7d\x7d\x7d\x7d\x7d,\"put\":\x7b\"requestBody\":\x7b\"content\":\x7b\"application/json\":\x7b\"schema\":\x7b\"properties\":\x7b\"b\":\x7b\"type\":\"string\"\x7d\x7d\x7d\x7d\x7d\x7d\x7d\x7d\x7d\x7d"

/-- The value of `postPutText`. -/
def postPutData : JSON :=
  .obj [("paths", .obj [("/run", .obj [("post", bodyOperation "a"), ("put", bodyOperation "b")])])]

/-- The model of a document that gives nothing but the endpoint and the parameters. -/
def plainModel (endpoint : String) (parameters : ParameterMap) : ParsedApiModel :=
  { modelName := "", endpoint := endpoint, parameters := parameters, outputType := .image }

/-- A document whose `post` response for status 200 mentions both a video and audio. -/
def videoData : JSON :=
  .obj [("paths", .obj [("/v", .obj [("post", .obj [("responses", .obj [("200",
    .obj [("description", .str "A Video with audio")])])])])])]

/-- The model of `videoData`. -/
def videoModel : ParsedApiModel :=
  { modelName := "", endpoint := "/v", parameters := [], outputType := .video }

/-- A markdown text without an Input Schema heading that mentions a video. -/
def videoText : String := "# Clip maker\nMakes a short video."

/-- A markdown text without an Input Schema heading and without a keyword of an output type. -/
def plainText : String := "# Title\nSome text."

/-- The text `{"info":{"title":"My Model"}}`. -/
def titledText : String := "\x7b\"info\":\x7b\"title\":\"My Model\"\x7d\x7d"

/-- A schema with a required string property `prompt` and an optional integer property
`seed`. -/
def twoPropsSchema : JSON :=
  .obj [("properties", .obj [("prompt", .obj [("type", .str "string")]),
      ("seed", .obj [("type", .str "integer")])]),
    ("required", .arr [.str "prompt"])]

/-- An operation whose JSON request body has the schema `twoPropsSchema`. -/
def twoPropsOperation : JSON :=
  .obj [("requestBody", .obj [("content", .obj [("application/json",
    .obj [("schema", twoPropsSchema)])])])]

/-- A document with one path whose only operation is `post`, with `twoPropsOperation`. -/
def twoPropsText : String :=
  "\x7b\"paths\":\x7b\"/run\":\x7b\"post\":\x7b\"requestBody\":\x7b\"content\":\x7b\"application/json\":\x7b\"schema\":\x7b\"properties\":\x7b\"prompt\":\x7b\"type\":\"string\"\x7d,\"seed\":\x7b\"type\":\"integer\"\x7d\x7d,\"required\":[\"prompt\"]\x7d\x7d\x7d\x7d\x7d\x7d\x7d\x7d"

/-- The value of `twoPropsText`. -/
def twoPropsData : JSON := .obj [("paths", .obj [("/run", .obj [("post", twoPropsOperation)])])]

/-- The parameters of `twoPropsSchema`. -/
def twoPropsParameters : ParameterMap :=
  [("prompt", { plainStringParam with required := true }),
    ("seed", { plainStringParam with type := .int, min := none, max := none })]

/-- A document with one path that declares `patch` without a request body and then `post` with
`twoPropsOperation`. -/
def patchPostText : String :=
  "\x7b\"paths\":\x7b\"/run\":\x7b\"patch\":\x7b\x7d,\"post\":\x7b\"requestBody\":\x7b\"content\":\x7b\"application/json\":\x7b\"schema\":\x7b\"properties\":\x7b\"prompt\":\x7b\"type\":\"string\"\x7d,\"seed\":\x7b\"type\":\"integer\"\x7d\x7d,\"required\":[\"prompt\"]\x7d\x7d\x7d\x7d\x7d\x7d\x7d\x7d"

/-! ## Definitions used to state the theorems on the markdown extractor -/

/-- Whether a property of a parameter is present: neither `undefined` nor `null`. -/
def isPresent (v : Option JSON) : Prop := v ≠ none ∧ v ≠ some .null

/-- A document whose only block has a type string with `Enum` and no Options clause. -/
def enumTypedDoc : String :=
  "### Input Schema\n\n- **`fmt`** (`OutputFormatEnum`, _optional_):\n  The format."

/-- The parameter of the block of `enumTypedDoc`. -/
def enumTypedParam : ParameterSpec :=
  { name := some "fmt", type := .enum, required := false, description := .str "The format.",
    default := some .null, enum := some .null, min := some .null, max := some .null,
    skip := false }

/-- A document whose only block is an integer with a Range clause and an Options clause. -/
def rangedOptionsDoc : String :=
  "### Input Schema\n\n- **`steps`** (`integer`, _optional_):\n  Number of steps.\n  Range: `1` to `4`\n  Options: `1`, `2`"

/-- The parameter of the block of `rangedOptionsDoc`. -/
def rangedOptionsParam : ParameterSpec :=
  { name := some "steps", type := .enum, required := false,
    description := .str "Number of steps.", default := some .null,
    enum := some (.arr [.str "1", .str "2"]), min := some (.num (.dec 1 0)),
    max := some (.num (.dec 4 0)), skip := false }

/-- A document whose only block is a string with the default `[]`. -/
def arrayDefaultDoc : String :=
  "### Input Schema\n\n- **`tags`** (`string`, _optional_):\n  Tags.\n  Default: `[]`"

/-- The parameter of the block of `arrayDefaultDoc`. -/
def arrayDefaultParam : ParameterSpec :=
  { name := some "tags", type := .string, required := false, description := .str "Tags.",
    default := some (.arr []), enum := some .null, min := some .null, max := some .null,
    skip := false }

/-- A document whose only block is a boolean with the default `true`. -/
def boolDefaultDoc : String :=
  "### Input Schema\n\n- **`sync`** (`boolean`, _optional_):\n  Wait.\n  Default: `true`"

/-- The parameter of the block of `boolDefaultDoc`. -/
def boolDefaultParam : ParameterSpec :=
  { name := some "sync", type := .boolean, required := false, description := .str "Wait.",
    default := some (.bool true), enum := some .null, min := some .null, max := some .null,
    skip := false }

/-- A document that declares a `width` of its own and then an `image_size` block. -/
def widthThenSizeDoc : String :=
  "### Input Schema\n\n- **`width`** (`string`, _optional_):\n  Custom width.\n  Default: `wide`\n\n- **`image_size`** (`ImageSize`, _optional_):\n  The size."

/-- The parameter of the `width` block of `widthThenSizeDoc`. -/
def declaredWidthParam : ParameterSpec :=
  { name := some "width", type := .string, required := false,
    description := .str "Custom width.", default := some (.str "wide"), enum := some .null,
    min := some .null, max := some .null, skip := false }

/-- A document whose only block is named `image_size`. -/
def imageSizeDoc : String :=
  "### Input Schema\n\n- **`image_size`** (`ImageSize`, _required_):\n  The size."

/-- The pattern of a literal list of characters (`Regex.lit` on the list). -/
def Regex.chars (cs : List Char) : Regex := cs.foldr (fun c r => .seq (.chr c) r) .eps

/-- Whether the literal text `lit` begins, up to the canonical form of the characters, at none
of the positions of `pre` in the text `pre ++ rest`. -/
def startsNowhere (fl : Flags) (lit : List Char) : List Char → List Char → Bool
  | [], _ => true
  | x :: xs, rest =>
    !(lit.map (canon fl)).isPrefixOf ((x :: xs ++ rest).map (canon fl)) &&
      startsNowhere fl lit xs rest
/-- The first result of `f` over the positions of a text, from the left: `f` is applied to the
text from each position on, the end of the text included. -/
def firstAt {α : Type} (f : List Char → Option α) : List Char → Option α
  | [] => f []
  | x :: xs => (f (x :: xs)).orElse (fun _ => firstAt f xs)

/-- Whether a line that begins with `#` followed by white space starts at a position: `prev` is
the character in front of the position (none at the start of the text) and `text` the
characters from the position on. -/
def beginsHeading (prev : Option Char) (text : List Char) : Bool :=
  prev.all isLineTerminator &&
    match text with
    | '#' :: c :: _ => isWhiteSpace c
    | _ => false

/-- Whether no line that begins with `#` followed by white space starts at a position of `pre`
in the text `pre ++ rest`; `prev` is the character in front of `pre`. -/
def noHeadingBefore : Option Char → List Char → List Char → Bool
  | _, [], _ => true
  | prev, x :: xs, rest =>
    !beginsHeading prev (x :: xs ++ rest) && noHeadingBefore (some x) xs rest

/-- A document with a heading line after a line of text. -/
def headingDoc : String := "intro\n#  Flux Pro (v1.1)\nmore"

/-- The value of a back-ticked text at the start of `text`: a back-tick, one or more characters
other than a back-tick (the value), and a back-tick. -/
def tickedValue : List Char → Option (List Char)
  | c :: r =>
    if c == backtick && !(r.takeWhile (fun x => x != backtick)).isEmpty &&
        (r.dropWhile (fun x => x != backtick)).head? == some backtick then
      some (r.takeWhile (fun x => x != backtick))
    else none
  | [] => none

/-- The value of the labeled field that starts at the beginning of `text`, if one does: the
label between pairs of asterisks and a colon (ASCII letters compared without regard to case),
white space if any, and the back-ticked value. -/
def fieldValue (label : String) (text : List Char) : Option (List Char) :=
  let lit := "**".toList ++ label.toList ++ "**:".toList
  if (lit.map (canon flagsI)).isPrefixOf (text.map (canon flagsI)) then
    tickedValue ((text.drop lit.length).dropWhile isWhiteSpace)
  else none

/-- The value of the first labeled field of a text. -/
def firstField (label : String) (text : List Char) : Option (List Char) :=
  firstAt (fieldValue label) text

/-- The text in front of the first occurrence of `sep`; the whole text when `sep` does not
occur. -/
def untilSep (sep : List Char) : List Char → List Char
  | [] => []
  | x :: xs => if sep.isPrefixOf (x :: xs) then [] else x :: untilSep sep xs

/-- The text after the first occurrence of `sep`, if `sep` occurs. -/
def afterSep (sep : List Char) : List Char → Option (List Char)
  | [] => none
  | x :: xs => if sep.isPrefixOf (x :: xs) then some ((x :: xs).drop sep.length) else afterSep sep xs

/-- A document with a Model ID field and an Endpoint field. -/
def modelIdDoc : String :=
  "# Flux\n- **Model ID**: " ++ String.mk [backtick] ++ "foo/bar" ++ String.mk [backtick] ++
    "\n- **Endpoint**: " ++ String.mk [backtick] ++ "https://fal.run/foo/baz" ++
    String.mk [backtick] ++ "\n"

/-- A document with an Endpoint field whose value is a URL. -/
def endpointDoc : String :=
  "- **endpoint**:  " ++ String.mk [backtick] ++ "https://fal.run/fal-ai/flux/dev" ++
    String.mk [backtick] ++ "\n"

/-- A document with an Endpoint field in whose value the text `fal.run/` occurs twice. -/
def twoSeparatorsDoc : String :=
  "**Endpoint**: " ++ String.mk [backtick] ++ "https://fal.run/x/fal.run/y" ++ String.mk [backtick]

/-- Whether `f` gives no result at any position of `pre` in the text `pre ++ rest`. -/
def nowhereIn {α : Type} (f : List Char → Option α) : List Char → List Char → Bool
  | [], _ => true
  | x :: xs, rest => (f (x :: xs ++ rest)).isNone && nowhereIn f xs rest

/-- The text of an unsigned decimal: the digits `ip`, followed by a point and the digits `fp`
when there are any. -/
def unsignedText (ip fp : List Char) : List Char := if fp.isEmpty then ip else ip ++ '.' :: fp

/-- The number written by the digits `ip` with the fraction digits `fp`. -/
def unsignedValue (ip fp : List Char) : JSNumber :=
  JSNumber.ofDecimal (digitsValue (ip ++ fp)) (-(fp.length : Int))
/-- The sign step of `parseInt` and `parseFloat`: whether a minus sign leads, and the text
after the sign. -/
def signSplit (cs : List Char) : Bool × List Char :=
  match cs with
  | '-' :: r => (true, r)
  | '+' :: r => (false, r)
  | _ => (false, cs)

/-- The radix step of `parseInt`: the radix and the text after the prefix `0x` or `0X`. -/
def radixSplit (cs : List Char) : Nat × List Char :=
  match cs with
  | '0' :: 'x' :: r => (16, r)
  | '0' :: 'X' :: r => (16, r)
  | _ => (10, cs)

/-- The fraction step of `parseFloat` after the integer digits `ip`: the fraction digits and
the text after them. -/
def fractionSplit (ip cs : List Char) : List Char × List Char :=
  match cs with
  | '.' :: r =>
    if ip = [] ∧ r.takeWhile isAsciiDigit = [] then ([], cs)
    else (r.takeWhile isAsciiDigit, r.dropWhile isAsciiDigit)
  | _ => ([], cs)

/-- The exponent step of `parseFloat`: the value of a complete exponent part, otherwise zero. -/
def exponentOf (cs : List Char) : Int :=
  match cs with
  | e :: r =>
    if e == 'e' || e == 'E' then
      let (eneg, r1) := match r with
        | '-' :: r2 => (true, r2)
        | '+' :: r2 => (false, r2)
        | _ => (false, r)
      let ep := r1.takeWhile isAsciiDigit
      if ep = [] then 0 else if eneg then -(digitsValue ep : Int) else (digitsValue ep : Int)
    else 0
  | [] => 0

/-- The text between the back-ticks after the word Default (and the optional word value): a
colon, white space if any, and a back-ticked text, possibly empty. -/
def defaultTail : List Char → Option (List Char)
  | c :: r =>
    if c == ':' then
      match r.dropWhile isWhiteSpace with
      | t :: r2 =>
        if t == backtick && (r2.dropWhile (fun x => x != backtick)).head? == some backtick then
          some (r2.takeWhile (fun x => x != backtick))
        else none
      | [] => none
    else none
  | [] => none

/-- The text of the Default clause that starts at the beginning of `text`, if one does: the
word Default (ASCII letters compared without regard to case), optionally white space and the
word value, then a colon, white space if any, and the back-ticked text. -/
def defaultAt (text : List Char) : Option (List Char) :=
  if ("Default".toList.map (canon flagsI)).isPrefixOf (text.map (canon flagsI)) then
    let t1 := text.drop 7
    let t2 := t1.dropWhile isWhiteSpace
    (if !(t1.takeWhile isWhiteSpace).isEmpty &&
        ("value".toList.map (canon flagsI)).isPrefixOf (t2.map (canon flagsI)) then
      defaultTail (t2.drop 5)
    else none).orElse (fun _ => defaultTail t1)
  else none
/-- The end of the default pattern, after the optional word: ``:\s*`([^`]*)` ``. -/
def defaultTailPattern : Regex :=
  .cat [.chr ':', .ws, .chr backtick, .group 1 (.star true (.cls (fun c => c != backtick))),
    .chr backtick]

/-- The head of a parameter block of the layout of the seed example: the header line with the
name, the type `integer` and the mark `_optional_`, and the description line. -/
def blockHead (name desc : List Char) : List Char :=
  "- **`".toList ++ name ++ "`** (`integer`, _optional_):\n".toList ++ desc ++ "\n".toList

/-- The Default line of the layout. -/
def defaultLine (d : List Char) : List Char := "Default: `".toList ++ d ++ "`\n".toList

/-- The Range line of the layout. -/
def rangeLine (lo hi : List Char) : List Char :=
  "Range: `".toList ++ lo ++ "` to `".toList ++ hi ++ "`".toList

/-- The parameter block of the layout of the seed example. -/
def integerBlock (name desc d lo hi : List Char) : List Char :=
  blockHead name desc ++ defaultLine d ++ rangeLine lo hi

/-- The block of the seed example. -/
def seedBlock : String :=
  "- **`seed`** (`integer`, _optional_):\nRandom seed.\nDefault: `42`\nRange: `0` to `1000`"

/-- A document whose Input Schema section holds the block of the seed example. -/
def seedDoc : String := "# Model\n\n### Input Schema\n\n" ++ seedBlock ++ "\n\n### Output\n"

/-- The block of the seed example under the name `image_size`. -/
def sizeNamedBlock : String :=
  "- **`image_size`** (`integer`, _optional_):\nRandom seed.\nDefault: `42`\nRange: `0` to `1000`"

/-- A document whose Input Schema section holds the block `sizeNamedBlock`. -/
def sizeNamedDoc : String := "### Input Schema\n\n" ++ sizeNamedBlock

/-- The record read from a block of the layout of the seed example. -/
def integerParam (name description : String) (dflt min max : JSNumber) : ParameterSpec :=
  { name := some name, type := .int, required := false, description := .str description,
    default := some (.num dflt), enum := some .null, min := some (.num min),
    max := some (.num max), skip := false }
/-- The block of the seed example with a description line that mentions options. -/
def optionsDescribedBlock : String :=
  "- **`seed`** (`integer`, _optional_):\nSee Options: `a`.\nDefault: `42`\nRange: `0` to `1000`"

/-- The block of the seed example with a description line that holds a Default clause. -/
def defaultDescribedBlock : String :=
  "- **`seed`** (`integer`, _optional_):\nThe default value: `7`.\nDefault: `42`\nRange: `0` to `1000`"
/-- A block of the layout of the seed example with another name, a description line with
white space around it, and a bound with a fraction. -/
def stepsBlock : String :=
  "- **`steps`** (`integer`, _optional_):\n  Number of steps. \nDefault: `28`\nRange: `1` to `50.5`"

/-- A document whose Input Schema section holds the block `stepsBlock`. -/
def stepsDoc : String := "### Input Schema\n\n" ++ stepsBlock

/-! ## The code generator (script.js, lines 652-695, 780-805) -/

/-- The test `typeof v === 'object'`: true of `null`, of an array and of an object. -/
def isTypeofObject : Option JSON → Bool
  | some .null => true
  | some (.arr _) => true
  | some (.obj _) => true
  | _ => false

/-- The test `v !== null && v !== undefined`. -/
def isDefined : Option JSON → Bool
  | none => false
  | some .null => false
  | some _ => true

/-- The result of `s.replace(/"/g, '\\"')` on a string: a backslash goes in front of every
double quote. -/
def escapeQuotes (s : String) : String :=
  String.mk (s.toList.flatMap (fun c => if c == '"' then ['\\', '"'] else [c]))

/-- The method call `v.replace(...)` of `generateFieldInput` on a value: a string has the
method; a number, a boolean, an array and an object of parsed JSON have no callable `replace`,
and the call raises a TypeError. -/
def replaceQuotes : JSON → Except JSError String
  | .str s => .ok (escapeQuotes s)
  | _ => .error .typeError

/-- The value of a non-decimal integer literal (after `0x`, `0o` or `0b`) read to its end;
NaN when a character is no digit of the radix or there is none. -/
def radixLiteral (radix : Nat) (ds : List Char) : JSNumber :=
  if ds ≠ [] ∧ ds.all (fun c => (digitValue radix c).isSome) then
    JSNumber.ofDecimal
      ((ds.foldl (fun acc d => radix * acc + (digitValue radix d).getD 0) 0 : Nat) : Int) 0
  else .nan

/-- The value of an unsigned decimal literal of `StringToNumber` read to its end (`Infinity`,
or digits with an optional fraction and an optional exponent), with the sign `neg`; NaN when
the text is no such literal. -/
def decimalLiteral (neg : Bool) (cs : List Char) : JSNumber :=
  if cs = "Infinity".toList then .inf neg
  else
    let ip := cs.takeWhile isAsciiDigit
    let cs2 := cs.dropWhile isAsciiDigit
    let fp := match cs2 with
      | '.' :: r => r.takeWhile isAsciiDigit
      | _ => []
    let cs3 := match cs2 with
      | '.' :: r => r.dropWhile isAsciiDigit
      | _ => cs2
    let m : Int := digitsValue (ip ++ fp)
    let mant : Int := if neg then -m else m
    if ip = [] ∧ fp = [] then .nan
    else
      match cs3 with
      | [] => JSNumber.ofDecimal mant (-(fp.length : Int))
      | e :: r =>
        if e == 'e' || e == 'E' then
          let eneg := match r with
            | '-' :: _ => true
            | _ => false
          let r1 := match r with
            | '-' :: r2 => r2
            | '+' :: r2 => r2
            | _ => r
          if r1 ≠ [] ∧ r1.all isAsciiDigit then
            JSNumber.ofDecimal mant
              ((if eneg then -(digitsValue r1 : Int) else (digitsValue r1 : Int)) - fp.length)
          else .nan
        else .nan

/-- The conversion `StringToNumber`: white space around the text is dropped, the empty text is
zero, and the text must be one numeric literal as a whole. -/
def stringToNumber (s : String) : JSNumber :=
  match (trim s).toList with
  | [] => .dec 0 0
  | '0' :: 'x' :: ds => radixLiteral 16 ds
  | '0' :: 'X' :: ds => radixLiteral 16 ds
  | '0' :: 'o' :: ds => radixLiteral 8 ds
  | '0' :: 'O' :: ds => radixLiteral 8 ds
  | '0' :: 'b' :: ds => radixLiteral 2 ds
  | '0' :: 'B' :: ds => radixLiteral 2 ds
  | '-' :: r => decimalLiteral true r
  | '+' :: r => decimalLiteral false r
  | cs => decimalLiteral false cs

/-- Whether a number is greater than zero. -/
def JSNumber.positive : JSNumber → Bool
  | .dec mant _ => decide (0 < mant)
  | .inf negative => !negative
  | .nan => false

/-- The comparison `v > 0` on a possibly undefined value: `undefined` is NaN, `null` is zero,
`true` is one, a string is converted by `StringToNumber`, an array and an object are first
converted to a string. -/
def greaterThanZero : Option JSON → Except JSError Bool
  | none => .ok false
  | some .null => .ok false
  | some (.bool b) => .ok b
  | some (.num n) => .ok n.positive
  | some (.str s) => .ok (stringToNumber s).positive
  | some v => (toStringValue v).map (fun cs => (stringToNumber (String.mk cs)).positive)

/-- The text of a template substitution of a possibly undefined value. -/
def templateText (v : Option JSON) : Except JSError String :=
  match v with
  | none => .ok "undefined"
  | some x => (toStringValue x).map String.mk

/-- Lines 654-659 of `generateFieldInput`: the default value of an ENUM field before it is
escaped. -/
def enumDefaultValue (field : ParameterSpec) : Except JSError (Option JSON) :=
  if isTypeofObject field.default then
    pure (field.default.map (fun v => .str (JSON.stringify v)))
  else if !truthy? field.default && truthy? field.enum then do
    let length ← getProp? field.enum "length"
    if (← greaterThanZero length) then getProp? field.enum "0" else pure field.default
  else pure field.default

/-- The expression `a !== null && a !== undefined ? a : b`. -/
def definedOr (a : Option JSON) (b : JSON) : JSON :=
  match a with
  | none => b
  | some .null => b
  | some v => v

/-- The method `generateFieldInput`; its first argument, the field's name, is not read. -/
def generateFieldInput (_fieldName : String) (field : ParameterSpec) : Except JSError String :=
  match field.type with
  | .enum => do
    let defaultValue ← enumDefaultValue field
    let shown : JSON := if truthy? defaultValue then defaultValue.getD (.str "") else .str ""
    let escapedDefault ← replaceQuotes shown
    let enumList := if truthy? field.enum then JSON.stringify (field.enum.getD .null) else "[]"
    pure ("(" ++ enumList ++ ", \x7b\"default\": \"" ++ escapedDefault ++ "\"\x7d)")
  | .int => do
    let intDefault ← templateText (some (definedOr field.default (definedOr field.min (.num (.dec 1 0)))))
    let minVal ← templateText (some (definedOr field.min (.num (.dec 1 0))))
    let maxVal ← templateText (some (definedOr field.max (.num (.dec 100 0))))
    pure ("(\"INT\", \x7b\"default\": " ++ intDefault ++ ", \"min\": " ++ minVal ++ ", \"max\": " ++
      maxVal ++ "\x7d)")
  | .float => do
    let floatDefault ← templateText (some (definedOr field.default (definedOr field.min (.num (.dec 1 0)))))
    let minFloat ← templateText (some (definedOr field.min (.num (.dec 0 0))))
    let maxFloat ← templateText (some (definedOr field.max (.num (.dec 10 0))))
    pure ("(\"FLOAT\", \x7b\"default\": " ++ floatDefault ++ ", \"min\": " ++ minFloat ++
      ", \"max\": " ++ maxFloat ++ "\x7d)")
  | .boolean =>
    let boolDefault := match field.default with
      | some (.bool true) => true
      | some (.str s) => s == "true"
      | _ => false
    pure ("(\"BOOLEAN\", \x7b\"default\": " ++ (if boolDefault then "True" else "False") ++ "\x7d)")
  | .array => pure "(\"STRING\", \x7b\"default\": \"[]\", \"multiline\": True\x7d)"
  | _ => do
    let stringDefault := definedOr field.default (.str "")
    let text ← toStringValue stringDefault
    pure ("(\"STRING\", \x7b\"default\": \"" ++ escapeQuotes (String.mk text) ++ "\"\x7d)")

/-- The template literal of line 792: the payload line of one field. -/
def payloadLine (fieldName : String) : String :=
  "                \"" ++ fieldName ++ "\": " ++ fieldName

/-- One turn of the loop of `generateRequestPayload` (lines 787-793). -/
def payloadStep (payloadItems : List String) (fieldName : String) : List String :=
  if fieldName == "width" || fieldName == "height" then payloadItems
  else payloadItems ++ [payloadLine fieldName]

/-- The array `payloadItems` of `generateRequestPayload` before the join. The set
`selectedFields` is the list of its elements in insertion order. -/
def payloadItems (selectedFields : List String) : List String :=
  let hasWidth := selectedFields.contains "width"
  let hasHeight := selectedFields.contains "height"
  let items := selectedFields.foldl payloadStep []
  if hasWidth && hasHeight then
    items ++ ["                \"image_size\": \x7b\"width\": width, \"height\": height\x7d"]
  else if hasWidth then
    items ++ ["                \"image_size\": \x7b\"width\": width, \"height\": 1024\x7d"]
  else if hasHeight then
    items ++ ["                \"image_size\": \x7b\"width\": 1024, \"height\": height\x7d"]
  else items

/-- The method `generateRequestPayload`. -/
def generateRequestPayload (selectedFields : List String) : String :=
  String.intercalate ",\n" (payloadItems selectedFields)
/-! ## The selection state of the page (script.js, lines 1-3, 1225-1314, 1368-1405, 1594-1597) -/

/-- The state that the page keeps: the global `parsedApiData` (`null` at the start), the global
set `selectedFields` as the list of its elements in insertion order, and the check boxes of
class `field-checkbox` inside `fieldsContainer`, each with its attribute `data-field` and its
`checked` flag. The attribute is taken to hold the name as it was written into the markup. -/
structure PageState where
  parsedApiData : Option ParsedApiModel
  selectedFields : List String
  checkboxes : List (String × Bool)

/-- The state once the page is loaded (lines 2-3 and 1596). -/
def initialPage : PageState := { parsedApiData := none, selectedFields := [], checkboxes := [] }

/-- The method `Set.prototype.add`. -/
def setAdd (set : List String) (x : String) : List String := if set.contains x then set else set ++ [x]

/-- The method `Set.prototype.delete`. -/
def setDelete (set : List String) (x : String) : List String := set.filter (fun y => y != x)

/-- The expression `parameters[name]` on the parameters object of a model: an own property, or
else a value inherited from `Object.prototype`; the result tells whether the value is
`undefined`. -/
def parameterUndefined (parameters : ParameterMap) (name : String) : Bool :=
  (parameters.lookup name).isNone && !objectPrototypeKeys.contains name

/-- Whether `updateNodePreview` raises (lines 1387-1431): with a model and a selection, the
property `required` is read from `parameters[fieldName]` for every selected name, which raises
a TypeError when that value is `undefined`. -/
def updateNodePreviewRaises (s : PageState) : Bool :=
  match s.parsedApiData with
  | none => false
  | some model => s.selectedFields.any (fun fieldName => parameterUndefined model.parameters fieldName)

/-- The test `v === null`. -/
def isNull : Option JSON → Bool
  | some .null => true
  | _ => false

/-- Whether the markup of one field (lines 1271-1286) raises: the description, the bounds and
the elements of the enum are converted to text, and `join` is called on the enum, which only
an array has. -/
def fieldMarkupRaises (field : ParameterSpec) : Bool :=
  let description := field.description.truthy && (toStringValue field.description).toOption.isNone
  let options := match field.enum with
    | some (.arr xs) => (joinValues xs).toOption.isNone
    | some v => v.truthy
    | none => false
  let bound := fun (v : Option JSON) => match v with
    | some x => x.truthy && (toStringValue x).toOption.isNone
    | none => false
  let range := (!isNull field.min || !isNull field.max) && (bound field.min || bound field.max)
  description || options || range

/-- The function `displayFields` (lines 1259-1314): the state it leaves, also when it ends by
raising (the caller catches the exception). The markup is built first; the check boxes are
then replaced, a box being checked when the field is required, and the names of the checked
boxes are added to the selection. -/
def displayFields (s : PageState) : PageState :=
  match s.parsedApiData with
  | none => s
  | some model =>
    if model.parameters.isEmpty then { s with checkboxes := [] }
    else if model.parameters.any (fun e => fieldMarkupRaises e.2) then s
    else
      let boxes := model.parameters.map (fun e => (e.1, e.2.required))
      { s with
        checkboxes := boxes
        selectedFields := (boxes.filter (fun b => b.2)).foldl (fun set b => setAdd set b.1)
          s.selectedFields }

/-- The function `parseDocumentation` of the page (lines 1225-1257) with the text of the input
area: the state it leaves. A blank text changes nothing; an exception of the parser leaves the
model as it was; a model without parameters is stored and nothing is displayed. -/
def parseDocumentationPage (text : String) (s : PageState) : PageState :=
  let content := trim text
  if content = "" then s
  else
    match parseDocumentation content with
    | .error _ => s
    | .ok model =>
      let s1 := { s with parsedApiData := some model }
      if model.parameters.isEmpty then s1 else displayFields s1

/-- A click on the check box number `i`: the box changes its `checked` flag and its handler
(lines 1297-1305) adds the name to the selection or deletes it. -/
def toggleCheckbox (i : Nat) (s : PageState) : PageState :=
  match s.checkboxes.get? i with
  | none => s
  | some (name, checked) =>
    { s with
      checkboxes := s.checkboxes.set i (name, !checked)
      selectedFields := if !checked then setAdd s.selectedFields name
        else setDelete s.selectedFields name }

/-- The function `selectAllFields` (lines 1368-1375). -/
def selectAllFields (s : PageState) : PageState :=
  { s with
    checkboxes := s.checkboxes.map (fun b => (b.1, true))
    selectedFields := s.checkboxes.foldl (fun set b => setAdd set b.1) s.selectedFields }

/-- The function `selectNoneFields` (lines 1377-1385). -/
def selectNoneFields (s : PageState) : PageState :=
  { s with checkboxes := s.checkboxes.map (fun b => (b.1, false)), selectedFields := [] }

/-- The operations of the page on the selection. -/
inductive PageAction where
  | parse (text : String)
  | toggle (i : Nat)
  | selectAll
  | selectNone

/-- The state after one operation. -/
def PageAction.run : PageAction → PageState → PageState
  | .parse text, s => parseDocumentationPage text s
  | .toggle i, s => toggleCheckbox i s
  | .selectAll, s => selectAllFields s
  | .selectNone, s => selectNoneFields s

/-- The state after a sequence of operations from the initial state. -/
def runPage (actions : List PageAction) : PageState :=
  actions.foldl (fun s a => a.run s) initialPage

/-- The claim on the selection: every selected name is a key of the parameters of the parsed
model. -/
def SelectionWithinModel (s : PageState) : Prop :=
  ∀ name ∈ s.selectedFields, ∃ model, s.parsedApiData = some model ∧
    name ∈ model.parameters.map Prod.fst

/-! ## Definitions used to state the theorems on the code generator and the page -/

/-- Whether a field is one of the two dimensions that go into `image_size`. -/
def isDimension (fieldName : String) : Bool := fieldName == "width" || fieldName == "height"

/-- The line of the `image_size` object: a dimension that is not selected is written as the
literal 1024. -/
def imageSizeLine (hasWidth hasHeight : Bool) : String :=
  "                \"image_size\": \x7b\"width\": " ++ (if hasWidth then "width" else "1024") ++
    ", \"height\": " ++ (if hasHeight then "height" else "1024") ++ "\x7d"

/-- A document whose section holds a block with options and no default. -/
def modeEnumDoc : String :=
  "### Input Schema\n\n- **`mode`** (`string`, _optional_):\n  The mode.\n  Options: `fast`, `slow`"

/-- The parameter of `modeEnumDoc`. -/
def modeEnumParam : ParameterSpec :=
  { name := some "mode", type := .enum, required := false, description := .str "The mode.",
    default := some .null, enum := some (.arr [.str "fast", .str "slow"]), min := some .null,
    max := some .null, skip := false }

/-- A document whose section holds a block of the type `integer` with a default and options. -/
def countEnumDoc : String :=
  "### Input Schema\n\n- **`count`** (`integer`, _optional_):\n  The count.\n  Default: `5`\n  Options: `1`, `5`"

/-- The parameter of `countEnumDoc`. -/
def countEnumParam : ParameterSpec :=
  { name := some "count", type := .enum, required := false, description := .str "The count.",
    default := some (.num (.dec 5 0)), enum := some (.arr [.str "1", .str "5"]),
    min := some .null, max := some .null, skip := false }

/-- A document with the one required parameter `a`. -/
def firstPageDoc : String := "### Input Schema\n\n- **`a`** (`string`, _required_):\n  First."

/-- A document with the one required parameter `b`. -/
def secondPageDoc : String := "### Input Schema\n\n- **`b`** (`string`, _required_):\n  Second."

/-! ## Definitions used to state the theorems on the clauses of a block -/

/-- The list of options that `parseFalAiParameterBlock` reads (lines 320-324): the back-ticked
texts of the first Options clause, `null` when the block has no such clause or the clause has
no back-ticked text. -/
def blockOptions (block : String) : Option (List String) :=
  match optionsPattern.exec flagsI block with
  | some m => tickedPattern.matchAll flagsNone ((m.group 1).getD "")
  | none => none

/-- The type that `parseFalAiParameterBlock` reads from the type clause (lines 247-274):
STRING when the block has no type clause. -/
def blockType (block : String) : ComfyType :=
  match typeRequiredPattern.exec flagsNone block with
  | some m => mapFalType (trim (toLowerCase ((m.group 1).getD "")))
  | none => .string

/-- The required flag that `parseFalAiParameterBlock` reads from the type clause (line 249):
false when the block has no type clause. -/
def blockRequired (block : String) : Bool :=
  match typeRequiredPattern.exec flagsNone block with
  | some m => (m.group 2).getD "" == "required"
  | none => false

/-- The type of a block before the check for the composite size (lines 247-329): ENUM when
options were read, the type of the type clause otherwise. -/
def typeBeforeCheck (block : String) : ComfyType :=
  match blockOptions block with
  | some _ => .enum
  | none => blockType block

/-- The type that the rules of the type clause give to a lower-cased and trimmed type string,
in the order of the rules: the four exact names, then `imagesize`, then `enum` or a bar, then
`list` or `array`, then the fallback. -/
def typeOfTypeString (typeStr : String) : ComfyType :=
  if typeStr = "string" then .string
  else if typeStr = "integer" then .int
  else if typeStr = "float" then .float
  else if typeStr = "boolean" then .boolean
  else if includes typeStr "imagesize" then .imageSize
  else if includes typeStr "enum" || includes typeStr "|" then .enum
  else if includes typeStr "list" || includes typeStr "array" then .array
  else .string

/-- Whether a character is an ASCII capital letter. -/
def isAsciiCapital (c : Char) : Bool := 'A' ≤ c && c ≤ 'Z'

/-- The text of a block that begins with a name and a type clause: the name between
back-ticks and pairs of asterisks, white space, and between brackets the back-ticked type
string, a comma, white space, and the marker between underscores. -/
def typedBlock (name ws1 ty ws2 mark rest : List Char) : List Char :=
  "- **`".toList ++ (name ++ ("`**".toList ++ (ws1 ++ ("(`".toList ++ (ty ++ ("`,".toList ++
    (ws2 ++ ('_' :: (mark ++ ("_)".toList ++ rest))))))))))

/-- A block of the type `ImageSize` under another name, with options. -/
def sizeOptionsBlock : String :=
  "- **`size`** (`ImageSize`, _optional_):\n  The size.\n  Options: `square`, `wide`"

/-- The record of `sizeOptionsBlock`. -/
def sizeOptionsParam : ParameterSpec :=
  { name := some "size", type := .enum, required := false, description := .str "The size.",
    default := some .null, enum := some (.arr [.str "square", .str "wide"]),
    min := some .null, max := some .null, skip := false }

/-- The block `sizeOptionsBlock` without its Options line. -/
def sizeTypedBlock : String := "- **`size`** (`ImageSize`, _optional_):\n  The size."

/-- A block named `image_size` whose type clause says `string`. -/
def sizeStringBlock : String := "- **`image_size`** (`string`, _optional_):\n  The size."

/-- A block with a type string that holds a bar, and a marker other than `required`. -/
def barTypeBlock : String := "- **`mode`**  (`Fast | Slow`, _Required_): the mode"

/-- A block of the type `integer` whose default is written with a fraction. -/
def fractionDefaultBlock : String :=
  "- **`steps`** (`integer`, _optional_):\n  The steps.\n  Default: `2.5`"

/-- A block of the type `integer` whose default is written as `0`. -/
def zeroDefaultBlock : String :=
  "- **`seed`** (`integer`, _optional_):\n  The seed.\n  Default: `0`"

/-- A block of the type `float` whose default is written with a fraction. -/
def guidanceBlock : String :=
  "- **`guidance`** (`float`, _optional_):\n  The guidance.\n  Default value: `3.5`"

/-- The first back-ticked value of a text, from the left, and the text after its closing
back-tick. -/
def nextTicked : List Char → Option (List Char × List Char)
  | [] => none
  | c :: r =>
    match tickedValue (c :: r) with
    | some v => some (v, r.drop (v.length + 1))
    | none => nextTicked r

/-- The back-ticked values of a text in their order, each looked for after the closing
back-tick of the one before; `n` bounds their number. -/
def tickedTokensAux : Nat → List Char → List (List Char)
  | 0, _ => []
  | n + 1, text =>
    match nextTicked text with
    | none => []
    | some (v, rest) => v :: tickedTokensAux n rest

/-- The back-ticked values of a text in their order, without their back-ticks. -/
def tickedTokens (text : List Char) : List (List Char) := tickedTokensAux (text.length + 1) text

/-- The text of a block with an Options clause: the text `pre`, the word `Options:`, white
space, the text `line` and the text `post`. -/
def optionsBlock (pre ws line post : List Char) : List Char :=
  pre ++ ("Options:".toList ++ (ws ++ (line ++ post)))

/-- A block whose Options line has no back-ticked text. -/
def plainOptionsBlock : String :=
  "- **`speed`** (`string`, _optional_):\n  The speed.\n  Options: fast, slow"

/-- A block of the type `integer` whose Options line has two back-ticked texts and other
text. -/
def tickedOptionsBlock : String :=
  "- **`count`** (`integer`, _optional_):\n  The count.\n  Options: `1`, `5` (most)\n  More text."

/-- The body of the section whose heading starts at the beginning of `text`, if one does: the
heading `### Input Schema` (ASCII letters compared without regard to case), white space if any,
and then the text in front of the first two consecutive `#` characters, or all the text when
there are none. -/
def sectionAt (text : List Char) : Option (List Char) :=
  if ("### Input Schema".toList.map (canon flagsI)).isPrefixOf (text.map (canon flagsI)) then
    some (untilSep "##".toList ((text.drop 16).dropWhile isWhiteSpace))
  else none

/-- The body of the first Input Schema section of a document. -/
def sectionBody (markdown : String) : Option String :=
  (firstAt sectionAt markdown.toList).map String.mk

/-- The first success of the continuation `k` over the positions of `text`, from the left, the
end of the text included; `before` holds, reversed, the characters in front of the position. -/
def lazyFirst (k : MState → Option MState) (caps : List (Nat × List Char)) :
    List Char → List Char → Option MState
  | before, [] => k ⟨before, [], caps⟩
  | before, x :: xs => (k ⟨before, x :: xs, caps⟩).orElse (fun _ => lazyFirst k caps (x :: before) xs)

/-- A document in which a level-1 heading and a second block follow the first block of the
section. -/
def levelOneDoc : String :=
  "### Input Schema\n\n- **`a`** (`string`, _required_):\n  First.\n\n# Next\n\n- **`b`** (`string`, _required_):\n  Second."

/-- A document in which a level-4 heading and a second block follow the first block of the
section. -/
def levelFourDoc : String :=
  "### Input Schema\n\n- **`a`** (`string`, _required_):\n  First.\n\n#### Advanced\n\n- **`b`** (`string`, _required_):\n  Second."

/-- A document in which the description of the first block holds two `#` characters in the
middle of a line. -/
def inlineHashDoc : String :=
  "### Input Schema\n\n- **`a`** (`string`, _required_):\n  Use ## for a title.\n\n- **`b`** (`string`, _required_):\n  Second."

/-- A structured document whose response for status 200 mentions `mp3` and whose request body
has no content. -/
def mp3Text : String :=
  "\x7b\"paths\":\x7b\"/speak\":\x7b\"post\":\x7b\"requestBody\":\x7b\x7d,\"responses\":\x7b\"200\":\"mp3\"\x7d\x7d\x7d\x7d\x7d"

/-- The value of `mp3Text`. -/
def mp3Data : JSON :=
  .obj [("paths", .obj [("/speak", .obj [("post", .obj [("requestBody", .obj []),
    ("responses", .obj [("200", .str "mp3")])])])])]

/-- A structured document whose first path is `/video` and has no operations. -/
def videoPathText : String := "\x7b\"paths\":\x7b\"/video\":null\x7d\x7d"

/-- A text in which the words `### Input Schema` stand in the middle of a line. -/
def inlineHeadingText : String :=
  "See the ### Input Schema part\n- **`a`** (`string`, _required_):\n  First."

/-! ## Theorems -/

/-! ### Exceptions -/

theorem bind_ok_iff {α β : Type} (x : Except JSError α) (f : α → Except JSError β) (b : β) :
    (x >>= f) = .ok b ↔ ∃ a, x = .ok a ∧ f a = .ok b := by
  cases x <;> simp [bind, Except.bind]

theorem tryCatch_ok {α : Type} (a : α) (handle : JSError → Except JSError α) :
    tryCatch (Except.ok a) handle = .ok a := rfl

theorem tryCatch_error {α : Type} (e : JSError) (handle : JSError → Except JSError α) :
    tryCatch (Except.error e) handle = handle e := rfl

/-- The three parts of `parseJsonSchema` all complete when it does. -/
theorem parseJsonSchema_ok {data : JSON} {model : ParsedApiModel}
    (h : parseJsonSchema data = .ok model) :
    jsonModelName data = .ok model.modelName ∧
    jsonEndpointAndParameters data = .ok (model.endpoint, model.parameters) ∧
    jsonOutputType data = .ok model.outputType := by
  unfold parseJsonSchema at h
  cases h1 : jsonModelName data with
  | error e => simp [h1, bind, Except.bind] at h
  | ok name =>
    cases h2 : jsonEndpointAndParameters data with
    | error e => simp [h1, h2, bind, Except.bind] at h
    | ok ep =>
      cases h3 : jsonOutputType data with
      | error e => simp [h1, h2, h3, bind, Except.bind] at h
      | ok ot =>
        obtain ⟨endpoint, parameters⟩ := ep
        simp [h1, h2, h3, bind, Except.bind, pure, Except.pure] at h
        subst h
        exact ⟨rfl, rfl, rfl⟩

/-- What `parseDocumentation` returns once `JSON.parse` has succeeded. -/
theorem parseDocumentation_json {content : String} {data : JSON}
    (h : JSON.parse content = .ok data) :
    parseDocumentation content =
      tryCatch (parseJsonSchema data) (fun _ => pure (parseMarkdownSchema content)) := by
  unfold parseDocumentation
  rw [h]
  rfl

/-- What `parseDocumentation` returns once `JSON.parse` has raised. -/
theorem parseDocumentation_markdown {content : String} {e : JSError}
    (h : JSON.parse content = .error e) :
    parseDocumentation content = .ok (parseMarkdownSchema content) := by
  unfold parseDocumentation
  rw [h]
  rfl

/-- C1: for every string input `parseDocumentation` returns a model and raises nothing: an
exception of `JSON.parse` or of the structured extractor is caught, and the markdown extractor
that then runs is a total function of the text. The model is that of the structured extractor
on the parsed value, or else that of the markdown extractor on the text. -/
theorem parseDocumentation_total (content : String) :
    ∃ model, parseDocumentation content = .ok model ∧
      ((∃ data, JSON.parse content = .ok data ∧ parseJsonSchema data = .ok model) ∨
        model = parseMarkdownSchema content) := by
  cases h : JSON.parse content with
  | error e => exact ⟨_, parseDocumentation_markdown h, Or.inr rfl⟩
  | ok data =>
    rw [parseDocumentation_json h]
    cases hm : parseJsonSchema data with
    | ok m => exact ⟨m, rfl, Or.inl ⟨data, rfl, hm⟩⟩
    | error e => exact ⟨parseMarkdownSchema content, rfl, Or.inr rfl⟩

/-- C2, as amended: when the text parses as JSON, `parseDocumentation` returns the model of the
structured extractor if that extractor completes, and the model of the markdown extractor on
the raw text if it raises. -/
theorem parseDocumentation_of_json (content : String) (data : JSON)
    (h : JSON.parse content = .ok data) :
    (∀ model, parseJsonSchema data = .ok model → parseDocumentation content = .ok model) ∧
    (∀ e, parseJsonSchema data = .error e →
      parseDocumentation content = .ok (parseMarkdownSchema content)) := by
  rw [parseDocumentation_json h]
  constructor
  · intro model hm
    rw [hm]; rfl
  · intro e he
    rw [he]; rfl

theorem parseDocumentation_of_json_aux {content : String} {data : JSON} {e : JSError}
    (h : JSON.parse content = .ok data) (he : parseJsonSchema data = .error e) :
    parseDocumentation content = .ok (parseMarkdownSchema content) := by
  rw [parseDocumentation_json h, he]; rfl

theorem parseDocumentation_of_json_ok {content : String} {data : JSON} {model : ParsedApiModel}
    (h : JSON.parse content = .ok data) (hm : parseJsonSchema data = .ok model) :
    parseDocumentation content = .ok model := by
  rw [parseDocumentation_json h, hm]; rfl

/-- C2 fails as stated: the text `{"paths":{}}` parses as JSON, the structured extractor raises
a TypeError on the parsed value, and `parseDocumentation` returns the output of the markdown
extractor. -/
theorem parseDocumentation_json_fallback :
    JSON.parse emptyPathsText = .ok (.obj [("paths", .obj [])]) ∧
    parseJsonSchema (.obj [("paths", .obj [])]) = .error .typeError ∧
    parseDocumentation emptyPathsText = .ok (parseMarkdownSchema emptyPathsText) ∧
    parseDocumentation emptyPathsText ≠ parseJsonSchema (.obj [("paths", .obj [])]) := by
  have h1 : JSON.parse emptyPathsText = .ok (.obj [("paths", .obj [])]) := by rfl
  have h2 : parseJsonSchema (.obj [("paths", .obj [])]) = .error .typeError := by rfl
  have h3 := (parseDocumentation_of_json_aux h1 h2)
  exact ⟨h1, h2, h3, by rw [h3, h2]; exact fun h => by cases h⟩

/-- C2 witness: the text `{}` parses as JSON and the structured extractor completes on it. -/
theorem parseDocumentation_of_json_witness :
    JSON.parse "\x7b\x7d" = .ok (.obj []) ∧
    parseDocumentation "\x7b\x7d" = .ok (plainModel "" []) :=
  ⟨rfl, (parseDocumentation_of_json "\x7b\x7d" (.obj []) rfl).1 _ rfl⟩

/-! ### The structured extractor: endpoint and operation -/

theorem find?_fst_lookup {α : Type} (p : String → Bool) (l : List (String × α)) (m : String)
    (op : α) (h : l.find? (fun e => p e.1) = some (m, op)) :
    l.lookup m = some op ∧ (l.map Prod.fst).find? p = some m := by
  induction l with
  | nil => simp at h
  | cons e rest ih =>
    obtain ⟨k, v⟩ := e
    by_cases hk : p k = true
    · simp [List.find?, hk] at h
      obtain ⟨rfl, rfl⟩ := h
      simp [List.lookup, List.find?, hk]
    · have hk2 : p k = false := by simpa using hk
      simp [List.find?, hk2] at h
      have hm : p m = true := by
        have := List.find?_some h
        simpa using this
      have hne : (m == k) = false := by
        rw [beq_eq_false_iff_ne]
        intro heq
        rw [heq] at hm
        rw [hm] at hk2
        cases hk2
      obtain ⟨h1, h2⟩ := ih h
      simp [List.lookup, hne, h1, List.find?, hk2, h2]

theorem ok_bind {α β : Type} (a : α) (f : α → Except JSError β) :
    ((Except.ok a : Except JSError α) >>= f) = f a := rfl

theorem error_bind {α β : Type} (e : JSError) (f : α → Except JSError β) :
    ((Except.error e : Except JSError α) >>= f) = .error e := rfl

theorem objectKeys_obj (kvs : List (String × JSON)) :
    objectKeys (some (.obj kvs)) = .ok (kvs.map Prod.fst) := rfl

theorem getProp?_obj (kvs : List (String × JSON)) (k : String) :
    getProp? (some (.obj kvs)) k = .ok (kvs.lookup k) := rfl

/-- The endpoint and the parameters when `data.paths` is a non-empty object: the endpoint is
its first key, and the parameters are those of the operation under the first key of the path
entry that is one of `post`, `put`, `patch`. -/
theorem jsonEndpointAndParameters_obj {data : JSON} {k : String} {v : JSON}
    {rest : List (String × JSON)} {out : String × ParameterMap}
    (hp : getProp data "paths" = .ok (some (.obj ((k, v) :: rest))))
    (h : jsonEndpointAndParameters data = .ok out) :
    out.1 = k ∧
    ∀ ops m op, v = .obj ops → ops.find? (fun e => isBodyMethod e.1) = some (m, op) →
      operationParameters (some op) = .ok out.2 := by
  unfold jsonEndpointAndParameters at h
  rw [hp] at h
  simp only [ok_bind, truthy?, JSON.truthy, if_true, objectKeys_obj, List.map, List.head?,
    getProp?_obj, List.lookup, beq_self_eq_true] at h
  obtain ⟨keys, hkeys, h⟩ := (bind_ok_iff _ _ _).1 h
  cases hf : List.find? isBodyMethod keys with
  | none =>
    rw [hf] at h
    cases h
    refine ⟨rfl, ?_⟩
    intro ops m op hv hfind
    subst hv
    rw [objectKeys_obj] at hkeys
    cases hkeys
    rw [(find?_fst_lookup isBodyMethod ops m op hfind).2] at hf
    cases hf
  | some method =>
    rw [hf] at h
    obtain ⟨opv, hop, h⟩ := (bind_ok_iff _ _ _).1 h
    obtain ⟨parameters, hpar, h⟩ := (bind_ok_iff _ _ _).1 h
    cases h
    refine ⟨rfl, ?_⟩
    intro ops m op hv hfind
    subst hv
    rw [objectKeys_obj] at hkeys
    cases hkeys
    obtain ⟨hl, hm⟩ := find?_fst_lookup isBodyMethod ops m op hfind
    rw [hm] at hf
    cases hf
    rw [getProp?_obj, hl] at hop
    cases hop
    exact hpar

/-- C4, as amended: when the text parses as JSON, `paths` is a non-empty object and the
structured extractor completes without raising, the endpoint of the returned model is the first
key of `paths`. (It raises, for one, when the entry under that key is `null`.) -/
theorem endpoint_is_first_path (content : String) (data : JSON) (k : String) (v : JSON)
    (rest : List (String × JSON)) (model : ParsedApiModel)
    (hjson : JSON.parse content = .ok data)
    (hpaths : getProp data "paths" = .ok (some (.obj ((k, v) :: rest))))
    (hok : parseJsonSchema data = .ok model) :
    parseDocumentation content = .ok model ∧ model.endpoint = k :=
  ⟨(parseDocumentation_of_json_ok hjson hok),
    (jsonEndpointAndParameters_obj hpaths (parseJsonSchema_ok hok).2.1).1⟩

/-- C5, as amended: the operation whose request body supplies the parameters is the one under
the first key of the first path entry, in the order of the entry's own properties, that is one
of `post`, `put`, `patch`; when the structured extractor completes, the parameters of the model
are those of that operation. -/
theorem parameters_from_first_method (data : JSON) (k : String) (ops rest : List (String × JSON))
    (m : String) (op : JSON) (model : ParsedApiModel)
    (hpaths : getProp data "paths" = .ok (some (.obj ((k, .obj ops) :: rest))))
    (hfirst : ops.find? (fun e => isBodyMethod e.1) = some (m, op))
    (hok : parseJsonSchema data = .ok model) :
    operationParameters (some op) = .ok model.parameters :=
  (jsonEndpointAndParameters_obj hpaths (parseJsonSchema_ok hok).2.1).2 ops m op rfl hfirst

/-- C4 fails as stated: in `{"paths":{"/x":null}}` the `paths` map is not empty and its first
key is `/x`, but the structured extractor raises on the `null` entry and the endpoint of the
returned model is the empty string of the markdown extractor. -/
theorem endpoint_null_path_entry :
    JSON.parse nullPathText = .ok (.obj [("paths", .obj [("/x", .null)])]) ∧
    parseJsonSchema (.obj [("paths", .obj [("/x", .null)])]) = .error .typeError ∧
    parseDocumentation nullPathText = .ok (parseMarkdownSchema nullPathText) ∧
    (parseMarkdownSchema nullPathText).endpoint = "" ∧
    (parseMarkdownSchema nullPathText).endpoint ≠ "/x" := by
  have h1 : JSON.parse nullPathText = .ok (.obj [("paths", .obj [("/x", .null)])]) := by rfl
  have h2 : parseJsonSchema (.obj [("paths", .obj [("/x", .null)])]) = .error .typeError := by rfl
  have h4 : (parseMarkdownSchema nullPathText).endpoint = "" := by rfl
  exact ⟨h1, h2, parseDocumentation_of_json_aux h1 h2, h4, by rw [h4]; decide⟩

/-- C4 witness: the document `{"paths":{"/x":{}}}`. -/
theorem endpoint_is_first_path_witness :
    parseDocumentation emptyPathText = .ok (plainModel "/x" []) ∧
    (plainModel "/x" []).endpoint = "/x" :=
  endpoint_is_first_path emptyPathText (.obj [("paths", .obj [("/x", .obj [])])]) "/x" (.obj [])
    [] _ rfl rfl rfl

/-- C5 fails as stated: when the path entry declares `put` before `post`, the parameters of
the returned model are those of `put` (the property `b`), not those of `post` (the property
`a`). -/
theorem put_declared_before_post :
    JSON.parse putPostText = .ok (.obj [("paths", .obj [("/run",
      .obj [("put", bodyOperation "b"), ("post", bodyOperation "a")])])]) ∧
    parseDocumentation putPostText = .ok (plainModel "/run" [("b", plainStringParam)]) ∧
    operationParameters (some (bodyOperation "a")) = .ok [("a", plainStringParam)] ∧
    operationParameters (some (bodyOperation "b")) = .ok [("b", plainStringParam)] :=
  ⟨rfl, rfl, rfl, rfl⟩

/-- C5 witness: with `post` declared first the parameters are those of `post`. -/
theorem parameters_from_first_method_witness :
    JSON.parse postPutText = .ok postPutData ∧
    parseDocumentation postPutText = .ok (plainModel "/run" [("a", plainStringParam)]) ∧
    operationParameters (some (bodyOperation "a")) = .ok [("a", plainStringParam)] :=
  ⟨rfl, rfl, parameters_from_first_method postPutData "/run"
    [("post", bodyOperation "a"), ("put", bodyOperation "b")] [] "post" (bodyOperation "a")
    (plainModel "/run" [("a", plainStringParam)]) rfl rfl rfl⟩

/-! ### The structured extractor: model name -/

theorem arrayIndex?_title : arrayIndex? "title" = none := by decide

theorem replaceNonAlnum_empty : replaceNonAlnum "" = "" := by decide

theorem jsonModelName_cases {data : JSON} {name : String} (h : jsonModelName data = .ok name) :
    (∀ info t, getProp data "info" = .ok (some info) → getProp info "title" = .ok (some (.str t)) →
      name = replaceNonAlnum t) ∧
    (getProp data "info" = .ok none → name = "") ∧
    (∀ info, getProp data "info" = .ok (some info) → getProp info "title" = .ok none →
      name = "") := by
  unfold jsonModelName at h
  refine ⟨?_, ?_, ?_⟩
  · intro info t hinfo htitle
    rw [hinfo] at h
    have htruthy : truthy? (some info) = true := by
      cases info <;> simp [getProp, arrayIndex?_title] at htitle
      rfl
    simp only [ok_bind, htruthy, if_true, getProp?, htitle] at h
    by_cases ht : t = ""
    · subst ht
      simp [truthy?, JSON.truthy, pure, Except.pure] at h
      rw [← h, replaceNonAlnum_empty]
    · simp [truthy?, JSON.truthy, ht, pure, Except.pure] at h
      exact h.symm
  · intro hinfo
    rw [hinfo] at h
    simp [ok_bind, truthy?, pure, Except.pure] at h
    exact h.symm
  · intro info hinfo htitle
    rw [hinfo] at h
    simp only [ok_bind, truthy?, getProp?, htitle] at h
    cases htruthy : info.truthy <;> simp [htruthy, pure, Except.pure] at h <;> exact h.symm

/-- C6, as amended: when the structured extractor completes, the model name for a string
`info.title` is the title with every UTF-16 code unit outside `[A-Za-z0-9]` replaced by an
underscore (not removed), and it is the empty string when `info` or `info.title` is absent. -/
theorem modelName_of_title (data : JSON) (model : ParsedApiModel)
    (hok : parseJsonSchema data = .ok model) :
    (∀ info t, getProp data "info" = .ok (some info) → getProp info "title" = .ok (some (.str t)) →
      model.modelName = String.mk (t.toList.flatMap (fun c =>
        if isAsciiAlnum c then [c] else List.replicate (utf16Size c) '_'))) ∧
    (getProp data "info" = .ok none → model.modelName = "") ∧
    (∀ info, getProp data "info" = .ok (some info) → getProp info "title" = .ok none →
      model.modelName = "") :=
  jsonModelName_cases (parseJsonSchema_ok hok).1

/-- C6 fails as stated: for the title `My Model` the model name is `My_Model`; the title with
the characters outside `[A-Za-z0-9]` removed is `MyModel`. -/
theorem title_space_becomes_underscore :
    JSON.parse titledText = .ok (.obj [("info", .obj [("title", .str "My Model")])]) ∧
    parseDocumentation titledText =
      .ok { plainModel "" [] with modelName := "My_Model" } ∧
    String.mk ("My Model".toList.filter isAsciiAlnum) = "MyModel" :=
  ⟨rfl, rfl, by decide⟩

/-- C6 witness: the document `{"info":{"title":"My Model"}}`. -/
theorem modelName_of_title_witness :
    parseJsonSchema (.obj [("info", .obj [("title", .str "My Model")])]) =
      .ok { plainModel "" [] with modelName := "My_Model" } ∧
    "My_Model" = String.mk ("My Model".toList.flatMap (fun c =>
        if isAsciiAlnum c then [c] else List.replicate (utf16Size c) '_')) :=
  ⟨rfl, (modelName_of_title (.obj [("info", .obj [("title", .str "My Model")])])
    { plainModel "" [] with modelName := "My_Model" } rfl).1
    (.obj [("title", .str "My Model")]) "My Model" rfl rfl⟩

/-! ### The structured extractor: output type -/

theorem toString_zero (exp : Int) : JSNumber.toString (.dec 0 exp) = "0" := rfl

/-- A falsy response has no keyword in its serialization. -/
theorem outputTypeOfResponse_falsy (r : JSON) (h : r.truthy = false) :
    outputTypeOfResponse (some r) = .image := by
  cases r with
  | null => decide
  | bool b =>
    cases b with
    | false => decide
    | true => cases h
  | num n =>
    cases n with
    | dec mant exp =>
      have hm : mant = 0 := by simpa [JSON.truthy, JSNumber.truthy] using h
      subst hm
      have hs : JSON.stringify (.num (.dec 0 exp)) = "0" := rfl
      simp only [outputTypeOfResponse, hs]
      decide
    | inf neg => cases h
    | nan => decide
  | str t =>
    have ht : t = "" := by simpa [JSON.truthy] using h
    subst ht
    decide
  | arr xs => cases h
  | obj kvs => cases h

theorem outputTypeOfResponse_truthy (r : JSON) :
    outputTypeOfResponse (some r) = inferOutputType r := by
  simp only [outputTypeOfResponse, inferOutputType]
  split <;> [rfl; (split <;> [rfl; (split <;> rfl)])]

theorem jsonOutputType_eq {data : JSON} {ot : OutputType} (h : jsonOutputType data = .ok ot) :
    ot = outputTypeOfResponse (firstPathPostResponse data) := by
  unfold jsonOutputType at h
  unfold firstPathPostResponse
  cases hp : getProp data "paths" with
  | error e => rw [hp] at h; cases h
  | ok paths =>
    rw [hp] at h
    simp only [ok_bind] at h
    cases paths with
    | none =>
      simp [truthy?, pure, Except.pure] at h
      rw [← h]; rfl
    | some pv =>
      simp only [truthy?] at h
      cases htr : pv.truthy with
      | false =>
        simp [htr, pure, Except.pure] at h
        subst h
        cases pv with
        | null => rfl
        | bool b =>
          cases b with
          | false => rfl
          | true => cases htr
        | num n => rfl
        | str t =>
          have ht : t = "" := by simpa [JSON.truthy] using htr
          subst ht
          rfl
        | arr xs => cases htr
        | obj kvs => cases htr
      | true =>
        simp only [htr, if_true, firstPostResponse, objectValues] at h
        cases he : objectEntries pv with
        | error e => simp [he, Except.map, bind, Except.bind] at h
        | ok es =>
          simp only [he, Except.map, ok_bind, pure, Except.pure] at h
          dsimp only
          rw [he]
          cases es with
          | nil =>
            simp [optProp] at h
            rw [← h]; rfl
          | cons e rest =>
            obtain ⟨k, entry⟩ := e
            simp only [List.map, List.head?] at h
            dsimp only
            cases hr : optProp (optProp (optProp (some entry) "post") "responses") "200" with
            | none =>
              simp [hr] at h
              rw [← h]; rfl
            | some r =>
              simp only [hr] at h
              cases hrt : r.truthy with
              | true =>
                simp [hrt] at h
                rw [← h]
                exact (outputTypeOfResponse_truthy r).symm
              | false =>
                simp [hrt] at h
                rw [← h]
                exact (outputTypeOfResponse_falsy r hrt).symm

/-- C7, a counterexample: the document `mp3Text` is structured and its response for status 200
mentions `mp3`, for which the claim says AUDIO; the structured extractor raises on its request
body, and the model that `parseDocumentation` returns, made by the markdown extractor, has the
type IMAGE. The document `videoPathText` has no response, for which the claim says IMAGE; the
returned model has the type VIDEO. -/
theorem response_unread_on_fallback :
    JSON.parse mp3Text = .ok mp3Data ∧
      firstPathPostResponse mp3Data = some (.str "mp3") ∧
      outputTypeOfResponse (firstPathPostResponse mp3Data) = .audio ∧
      parseJsonSchema mp3Data = .error .typeError ∧
      (parseDocumentation mp3Text).map (fun model => model.outputType) = .ok .image ∧
      JSON.parse videoPathText = .ok (.obj [("paths", .obj [("/video", .null)])]) ∧
      outputTypeOfResponse (firstPathPostResponse (.obj [("paths", .obj [("/video", .null)])])) =
        .image ∧
      (parseDocumentation videoPathText).map (fun model => model.outputType) = .ok .video :=
  ⟨rfl, rfl, rfl, rfl, rfl, rfl, rfl, rfl⟩

/-- C7, amended: when the structured extractor completes, the output type is decided from the
lower-cased serialization of the response for status 200 of the `post` operation of the first
path: VIDEO if it contains `video` or `mp4`, otherwise AUDIO if it contains `audio`, `wav` or
`mp3`, otherwise IMAGE, and IMAGE when there is no such response. In particular a response
that mentions both `video` and `audio` gives VIDEO. -/
theorem outputType_of_response (data : JSON) (model : ParsedApiModel)
    (hok : parseJsonSchema data = .ok model) :
    model.outputType = outputTypeOfResponse (firstPathPostResponse data) ∧
    (∀ r, firstPathPostResponse data = some r →
      includes (toLowerCase (JSON.stringify r)) "video" = true →
      includes (toLowerCase (JSON.stringify r)) "audio" = true → model.outputType = .video) := by
  have h := jsonOutputType_eq (parseJsonSchema_ok hok).2.2
  refine ⟨h, ?_⟩
  intro r hr hv _
  rw [h, hr]
  simp [outputTypeOfResponse, hv]

/-- C7, an instance: a response that mentions both a video and audio gives VIDEO. -/
theorem outputType_of_response_witness :
    parseJsonSchema videoData = .ok videoModel ∧
    videoModel.outputType = outputTypeOfResponse (firstPathPostResponse videoData) ∧
    videoModel.outputType = .video :=
  ⟨rfl, (outputType_of_response videoData videoModel rfl).1,
    (outputType_of_response videoData videoModel rfl).2 _ rfl rfl rfl⟩

/-! ### The markdown extractor: output type -/

/-- The method `includes` tells whether the text occurs as a block of consecutive
characters. -/
theorem includesList_iff (hay needle : List Char) :
    includesList hay needle = true ↔ needle <:+: hay := by
  unfold includesList
  rw [List.any_eq_true, List.infix_iff_prefix_suffix]
  constructor
  · rintro ⟨t, ht, hp⟩
    exact ⟨t, List.isPrefixOf_iff_prefix.1 hp, (List.mem_tails _ _).1 ht⟩
  · rintro ⟨t, hp, ht⟩
    exact ⟨t, (List.mem_tails _ _).2 ht, List.isPrefixOf_iff_prefix.2 hp⟩

theorem markdownOutputType_eq (markdown : String) :
    markdownOutputType markdown =
      (if "video".toList <:+: (toLowerCase markdown).toList ∨
          "mp4".toList <:+: (toLowerCase markdown).toList then OutputType.video
        else if "audio".toList <:+: (toLowerCase markdown).toList ∨
          "wav".toList <:+: (toLowerCase markdown).toList then OutputType.audio
        else OutputType.image) := by
  simp only [markdownOutputType, includes, Bool.or_eq_true, includesList_iff]

/-- C8: the output type of the markdown extractor is VIDEO if the lower-cased text contains
`video` or `mp4`, otherwise AUDIO if it contains `audio` or `wav`, otherwise IMAGE; a text that
contains both `video` and `audio` gives VIDEO. -/
theorem markdown_outputType (markdown : String) :
    (parseMarkdownSchema markdown).outputType =
      (if "video".toList <:+: (toLowerCase markdown).toList ∨
          "mp4".toList <:+: (toLowerCase markdown).toList then OutputType.video
        else if "audio".toList <:+: (toLowerCase markdown).toList ∨
          "wav".toList <:+: (toLowerCase markdown).toList then OutputType.audio
        else OutputType.image) ∧
    ("video".toList <:+: (toLowerCase markdown).toList →
      "audio".toList <:+: (toLowerCase markdown).toList →
      (parseMarkdownSchema markdown).outputType = .video) := by
  refine ⟨markdownOutputType_eq markdown, ?_⟩
  intro hv _
  show markdownOutputType markdown = .video
  rw [markdownOutputType_eq, if_pos (Or.inl hv)]

/-- C8 witness: a text with both keywords. -/
theorem markdown_outputType_witness :
    (parseMarkdownSchema "Video and Audio").outputType = .video :=
  (markdown_outputType "Video and Audio").2
    ((includesList_iff _ _).1 (by decide)) ((includesList_iff _ _).1 (by decide))

/-- C10, as amended: for a text that does not parse as JSON, with or without an Input Schema
heading, the output type is IMAGE exactly when the lower-cased text contains none of `video`,
`mp4`, `audio`, `wav`. -/
theorem markdown_outputType_image (content : String) (e : JSError)
    (hjson : JSON.parse content = .error e) :
    ∃ model, parseDocumentation content = .ok model ∧
      (model.outputType = .image ↔
        ¬ "video".toList <:+: (toLowerCase content).toList ∧
        ¬ "mp4".toList <:+: (toLowerCase content).toList ∧
        ¬ "audio".toList <:+: (toLowerCase content).toList ∧
        ¬ "wav".toList <:+: (toLowerCase content).toList) := by
  refine ⟨_, parseDocumentation_markdown hjson, ?_⟩
  show markdownOutputType content = .image ↔ _
  rw [markdownOutputType_eq]
  split_ifs with a b <;> simp only [reduceCtorEq, false_iff, true_iff] <;> tauto

/-- C10 fails as stated: the text of `videoText` is not JSON and has no Input Schema heading,
and its output type is VIDEO. -/
theorem no_heading_video :
    JSON.parse videoText = .error .syntaxError ∧
    hasInputSchemaHeading videoText = false ∧
    parseDocumentation videoText = .ok (parseMarkdownSchema videoText) ∧
    (parseMarkdownSchema videoText).outputType = .video ∧
    (parseMarkdownSchema videoText).outputType ≠ .image := by
  have h1 : JSON.parse videoText = .error .syntaxError := by rfl
  have h4 : (parseMarkdownSchema videoText).outputType = .video := by rfl
  exact ⟨h1, by rfl, parseDocumentation_markdown h1, h4, by rw [h4]; decide⟩

/-- C10 witness: a text without any of the keywords. -/
theorem markdown_outputType_image_witness :
    JSON.parse plainText = .error .syntaxError ∧
    ∃ model, parseDocumentation plainText = .ok model ∧
      (model.outputType = .image ↔
        ¬ "video".toList <:+: (toLowerCase plainText).toList ∧
        ¬ "mp4".toList <:+: (toLowerCase plainText).toList ∧
        ¬ "audio".toList <:+: (toLowerCase plainText).toList ∧
        ¬ "wav".toList <:+: (toLowerCase plainText).toList) :=
  ⟨rfl, markdown_outputType_image plainText .syntaxError rfl⟩

/-! ### The markdown extractor: the Input Schema section -/

/-- A pattern that begins with a literal text matches only where that text stands, up to the
canonical form of the characters. -/
theorem run_lit_seq (fl : Flags) (rest : Regex) (cs : List Char) :
    ∀ (s : MState) (k : MState → Option MState) (r : MState),
      (Regex.seq (cs.foldr (fun c r => Regex.seq (.chr c) r) .eps) rest).run fl s k = some r →
      ∃ mid tail, s.after = mid ++ tail ∧ mid.map (canon fl) = cs.map (canon fl) := by
  induction cs with
  | nil => intro s k r _; exact ⟨[], s.after, rfl, rfl⟩
  | cons c cs ih =>
    intro s k r h
    simp only [List.foldr, Regex.run] at h
    cases hs : s.after with
    | nil => simp [hs] at h
    | cons x xs =>
      simp only [hs] at h
      by_cases hc : (canon fl x == canon fl c) = true
      · simp only [hc, if_true] at h
        have h2 : (Regex.seq (cs.foldr (fun c r => Regex.seq (.chr c) r) .eps) rest).run fl
            { s with before := x :: s.before, after := xs } k = some r := by
          simpa only [Regex.run] using h
        obtain ⟨mid, tail, hm, hmap⟩ := ih _ k r h2
        refine ⟨x :: mid, tail, ?_, ?_⟩
        · simp only [List.cons_append]; rw [← hm]
        · simp only [List.map_cons, hmap]
          rw [eq_of_beq hc]
      · simp [hc] at h

/-- The search for a pattern that begins with a literal text fails when the text does not occur
from the current position on. -/
theorem searchFrom_lit_none (fl : Flags) (rest : Regex) (cs : List Char) :
    ∀ (n : Nat) (s : MState),
      includesList (s.after.map (canon fl)) (cs.map (canon fl)) = false →
      searchFrom fl (Regex.seq (cs.foldr (fun c r => Regex.seq (.chr c) r) .eps) rest) n s = none := by
  have hrun : ∀ s : MState, includesList (s.after.map (canon fl)) (cs.map (canon fl)) = false →
      (Regex.seq (cs.foldr (fun c r => Regex.seq (.chr c) r) .eps) rest).run fl s some = none := by
    intro s hs
    cases hr : (Regex.seq (cs.foldr (fun c r => Regex.seq (.chr c) r) .eps) rest).run fl s some with
    | none => rfl
    | some r =>
      obtain ⟨mid, tail, hm, hmap⟩ := run_lit_seq fl rest cs s some r hr
      have : includesList (s.after.map (canon fl)) (cs.map (canon fl)) = true := by
        rw [includesList_iff, hm, List.map_append, hmap]
        exact ⟨[], tail.map (canon fl), by simp⟩
      rw [this] at hs
      cases hs
  intro n
  induction n with
  | zero =>
    intro s hs
    simp [searchFrom, hrun s hs]
  | succ n ih =>
    intro s hs
    simp only [searchFrom, hrun s hs]
    cases ha : s.after with
    | nil => rfl
    | cons x xs =>
      simp only []
      apply ih
      simp only []
      cases hi : includesList (xs.map (canon fl)) (cs.map (canon fl)) with
      | false => rfl
      | true =>
        have h2 : includesList (s.after.map (canon fl)) (cs.map (canon fl)) = true := by
          rw [includesList_iff] at hi ⊢
          rw [ha, List.map_cons]
          obtain ⟨a, b, hab⟩ := hi
          exact ⟨canon fl x :: a, b, by simp [← hab]⟩
        rw [h2] at hs
        cases hs

/-- Without the heading text, `parseMarkdownParameters` finds no section and returns the empty
object. -/
theorem parseMarkdownParameters_no_heading (markdown : String)
    (h : hasInputSchemaHeading markdown = false) : parseMarkdownParameters markdown = [] := by
  have hs : searchFrom flagsI inputSchemaPattern markdown.length ⟨[], markdown.toList, []⟩ = none :=
    searchFrom_lit_none flagsI _ "### Input Schema".toList markdown.length
      ⟨[], markdown.toList, []⟩ h
  simp only [parseMarkdownParameters, Regex.exec, hs, Option.map]

/-- C9, a counterexample: the text `inlineHeadingText` does not parse as JSON and none of its
lines is a heading (none begins with `#` after its white space); the words `### Input Schema`
stand in the middle of its first line, and the model has the parameter `a`. -/
theorem inline_heading_parameters :
    JSON.parse inlineHeadingText = .error .syntaxError ∧
      (splitOn inlineHeadingText "\n").all (fun line => !startsWith (trim line) "#") = true ∧
      (parseDocumentation inlineHeadingText).map
        (fun model => model.parameters.map Prod.fst) = .ok ["a"] :=
  ⟨rfl, rfl, rfl⟩

/-- C9, amended: for a text that does not parse as JSON and in which the text
`### Input Schema` occurs nowhere, at the start of a line or inside one (in any letter case),
the parameters of the model returned by `parseDocumentation` are empty. -/
theorem no_heading_no_parameters (content : String) (e : JSError)
    (hjson : JSON.parse content = .error e) (hhead : hasInputSchemaHeading content = false) :
    ∃ model, parseDocumentation content = .ok model ∧ model.parameters = [] :=
  ⟨_, parseDocumentation_markdown hjson, parseMarkdownParameters_no_heading content hhead⟩

/-- C9, an instance: a text with a title in which the text `### Input Schema` does not occur. -/
theorem no_heading_no_parameters_witness :
    JSON.parse plainText = .error .syntaxError ∧ hasInputSchemaHeading plainText = false ∧
    ∃ model, parseDocumentation plainText = .ok model ∧ model.parameters = [] :=
  ⟨rfl, rfl, no_heading_no_parameters plainText .syntaxError rfl rfl⟩

/-! ### The structured extractor: parameters -/

theorem insertIndexed_append {α : Type} (i : Nat) (k : String) (v : α) :
    ∀ kvs : List (String × α), (∀ e ∈ kvs, ∃ j, arrayIndex? e.1 = some j ∧ j < i) →
      insertIndexed i k v kvs = kvs ++ [(k, v)] := by
  intro kvs
  induction kvs with
  | nil => intro _; rfl
  | cons e rest ih =>
    intro h
    obtain ⟨k1, v1⟩ := e
    obtain ⟨j, hj, hlt⟩ := h (k1, v1) (List.mem_cons_self _ _)
    simp only [insertIndexed, hj, Nat.not_lt.2 (Nat.le_of_lt hlt), if_false, List.cons_append]
    rw [ih (fun e he => h e (List.mem_cons_of_mem _ he))]

/-- Assigning a key that stands after all the present keys adds the property at the end. -/
theorem assignProp_append {α : Type} (kvs : List (String × α)) (k : String) (v : α)
    (hproto : k ≠ "__proto__") (hbefore : ∀ e ∈ kvs, keyBefore e.1 k = true) :
    assignProp kvs k v = kvs ++ [(k, v)] := by
  have hany : kvs.any (fun e => e.1 == k) = false := by
    rw [List.any_eq_false]
    intro e he
    have := hbefore e he
    simp only [keyBefore, Bool.and_eq_true, bne_iff_ne] at this
    simpa using this.1
  simp only [assignProp, hproto, if_false, setOwn, hany]
  cases hk : arrayIndex? k with
  | none => simp
  | some i =>
    simp only [Bool.false_eq_true, if_false]
    apply insertIndexed_append
    intro e he
    have := hbefore e he
    simp only [keyBefore, Bool.and_eq_true, hk] at this
    cases hj : arrayIndex? e.1 with
    | none => simp [hj] at this
    | some j => exact ⟨j, rfl, by simpa [hj] using this.2⟩

theorem convertJsonProperty_required {prop : JSON} {required : Bool} {p : ParameterSpec}
    (h : convertJsonProperty prop required = .ok p) : p.required = required := by
  unfold convertJsonProperty at h
  obtain ⟨a1, _, h⟩ := (bind_ok_iff _ _ _).1 h
  obtain ⟨a2, _, h⟩ := (bind_ok_iff _ _ _).1 h
  obtain ⟨a3, _, h⟩ := (bind_ok_iff _ _ _).1 h
  obtain ⟨a4, _, h⟩ := (bind_ok_iff _ _ _).1 h
  obtain ⟨a5, _, h⟩ := (bind_ok_iff _ _ _).1 h
  obtain ⟨a6, _, h⟩ := (bind_ok_iff _ _ _).1 h
  obtain ⟨a7, _, h⟩ := (bind_ok_iff _ _ _).1 h
  cases h
  rfl

theorem isString_some_iff (x : JSON) (name : String) :
    isString (some x) name = true ↔ x = .str name := by
  cases x <;> simp [isString]

theorem requiredFlag_list {schema : JSON} {name : String} {b : Bool}
    (required : Option (List JSON))
    (hreq : getProp schema "required" = .ok (required.map JSON.arr))
    (h : requiredFlag schema name = .ok b) :
    b = true ↔ ∃ l, required = some l ∧ JSON.str name ∈ l := by
  unfold requiredFlag at h
  rw [hreq] at h
  cases required with
  | none =>
    simp [ok_bind, pure, Except.pure] at h
    simp [← h]
  | some l =>
    simp only [Option.map, ok_bind, pure, Except.pure] at h
    cases h
    simp only [List.any_eq_true, isString_some_iff]
    constructor
    · rintro ⟨x, hx, rfl⟩
      exact ⟨l, rfl, hx⟩
    · rintro ⟨l2, hl, hm⟩
      cases hl
      exact ⟨_, hm, rfl⟩

/-- The loop of `extractParameters` on entries whose keys stand after the keys already present:
the keys are added in order and each new parameter carries the flag of the `required` list. -/
theorem extractLoop_spec (schema : JSON) (required : Option (List JSON))
    (hreq : getProp schema "required" = .ok (required.map JSON.arr)) :
    ∀ (entries : List (String × JSON)) (acc out : ParameterMap),
      extractLoop schema entries acc = .ok out →
      KeysOrdered (acc.map Prod.fst ++ entries.map Prod.fst) →
      "__proto__" ∉ entries.map Prod.fst →
      out.map Prod.fst = acc.map Prod.fst ++ entries.map Prod.fst ∧
      ∀ name p, (name, p) ∈ out → (name, p) ∈ acc ∨
        (p.required = true ↔ ∃ l, required = some l ∧ JSON.str name ∈ l) := by
  intro entries
  induction entries with
  | nil =>
    intro acc out h _ _
    simp only [extractLoop, pure, Except.pure] at h
    cases h
    exact ⟨by simp, fun name p hm => Or.inl hm⟩
  | cons e rest ih =>
    intro acc out h hord hproto
    obtain ⟨name, prop⟩ := e
    simp only [extractLoop] at h
    obtain ⟨flag, hflag, h⟩ := (bind_ok_iff _ _ _).1 h
    obtain ⟨param, hparam, h⟩ := (bind_ok_iff _ _ _).1 h
    have hname : name ≠ "__proto__" := by
      intro hn
      apply hproto
      simp [hn]
    have hbefore : ∀ e ∈ acc, keyBefore e.1 name = true := by
      intro e he
      have hp := List.pairwise_append.1 hord
      exact hp.2.2 e.1 (List.mem_map_of_mem _ he) name (by simp)
    rw [assignProp_append acc name param hname hbefore] at h
    have hord2 : KeysOrdered ((acc ++ [(name, param)]).map Prod.fst ++ rest.map Prod.fst) := by
      simpa [KeysOrdered] using hord
    have hproto2 : "__proto__" ∉ rest.map Prod.fst := by
      intro hm
      apply hproto
      simp only [List.map_cons, List.mem_cons]
      exact Or.inr hm
    obtain ⟨hkeys, hflags⟩ := ih _ out h hord2 hproto2
    refine ⟨by simpa using hkeys, ?_⟩
    intro n p hm
    rcases hflags n p hm with hin | hq
    · rcases List.mem_append.1 hin with ha | hb
      · exact Or.inl ha
      · simp only [List.mem_singleton, Prod.mk.injEq] at hb
        obtain ⟨rfl, rfl⟩ := hb
        right
        rw [convertJsonProperty_required hparam]
        exact requiredFlag_list required hreq hflag
    · exact Or.inr hq

theorem arrayIndex?_content : arrayIndex? "content" = none := by decide

theorem arrayIndex?_properties : arrayIndex? "properties" = none := by decide

/-- A value with a property `content` is truthy. -/
theorem truthy_of_content {v c : JSON} (h : getProp v "content" = .ok (some c)) :
    v.truthy = true := by
  cases v <;> simp [getProp, arrayIndex?_content] at h
  rfl

/-- A value with a property `properties` is truthy. -/
theorem truthy_of_properties {v c : JSON} (h : getProp v "properties" = .ok (some c)) :
    v.truthy = true := by
  cases v <;> simp [getProp, arrayIndex?_properties] at h
  rfl

/-- The parameters of an operation whose JSON request body has a schema with an object of
properties. -/
theorem operationParameters_schema {post body media mediaJson schema : JSON}
    {props : List (String × JSON)} {out : ParameterMap}
    (hbody : getProp post "requestBody" = .ok (some body))
    (hcontent : getProp body "content" = .ok (some media))
    (hmedia : getProp media "application/json" = .ok (some mediaJson))
    (hschema : getProp mediaJson "schema" = .ok (some schema))
    (hprops : getProp schema "properties" = .ok (some (.obj props)))
    (h : operationParameters (some post) = .ok out) :
    extractLoop schema props [] = .ok out := by
  unfold operationParameters at h
  have hopt : optProp (some mediaJson) "schema" = some schema := by
    cases mediaJson <;> simp_all [optProp, getProp]
  have htr : (JSON.obj props).truthy = true := rfl
  simp only [getProp?, hbody, ok_bind, truthy?, truthy_of_content hcontent, if_true, hcontent,
    hmedia, hopt, truthy_of_properties hprops, extractParameters, hprops, htr,
    objectEntries] at h
  exact h

/-- C3, as amended: for a JSON document on which the structured extractor completes without
raising, whose `paths` map has one path, whose path entry has `post` as the first of its keys
among `post`, `put`, `patch`, and whose `post` request body has an `application/json` schema
with an object of N properties, none of them keyed `__proto__`, and with a `required` list (or
none): `parseDocumentation` yields exactly N parameters, keyed by the property names in
property order, and the `required` flag of each is true exactly when its name is in the
list. -/
theorem structured_parameters (content : String) (data : JSON) (model : ParsedApiModel)
    (path : String) (ops : List (String × JSON)) (post body media mediaJson schema : JSON)
    (props : List (String × JSON)) (required : Option (List JSON))
    (hjson : JSON.parse content = .ok data)
    (hok : parseJsonSchema data = .ok model)
    (hpaths : getProp data "paths" = .ok (some (.obj [(path, .obj ops)])))
    (hpost : ops.find? (fun e => isBodyMethod e.1) = some ("post", post))
    (hbody : getProp post "requestBody" = .ok (some body))
    (hcontent : getProp body "content" = .ok (some media))
    (hmedia : getProp media "application/json" = .ok (some mediaJson))
    (hschema : getProp mediaJson "schema" = .ok (some schema))
    (hprops : getProp schema "properties" = .ok (some (.obj props)))
    (hreq : getProp schema "required" = .ok (required.map JSON.arr))
    (hord : KeysOrdered (props.map Prod.fst))
    (hproto : "__proto__" ∉ props.map Prod.fst) :
    parseDocumentation content = .ok model ∧
    model.parameters.length = props.length ∧
    model.parameters.map Prod.fst = props.map Prod.fst ∧
    ∀ name p, (name, p) ∈ model.parameters →
      (p.required = true ↔ ∃ l, required = some l ∧ JSON.str name ∈ l) := by
  have hop : operationParameters (some post) = .ok model.parameters :=
    (jsonEndpointAndParameters_obj hpaths (parseJsonSchema_ok hok).2.1).2 ops "post" post rfl hpost
  have hloop := operationParameters_schema hbody hcontent hmedia hschema hprops hop
  obtain ⟨hkeys, hflags⟩ := extractLoop_spec schema required hreq props [] model.parameters hloop
    (by simpa using hord) hproto
  have hkeys2 : model.parameters.map Prod.fst = props.map Prod.fst := by simpa using hkeys
  refine ⟨parseDocumentation_of_json_ok hjson hok, ?_, hkeys2, ?_⟩
  · have := congrArg List.length hkeys2
    simpa using this
  · intro name p hm
    rcases hflags name p hm with hin | hq
    · cases hin
    · exact hq

/-- C3 fails as stated: the only path of `patchPostText` has a `post` operation whose schema
has two properties, but the entry declares `patch` first, and `parseDocumentation` yields no
parameter. -/
theorem patch_declared_before_post :
    JSON.parse patchPostText = .ok (.obj [("paths", .obj [("/run",
      .obj [("patch", .obj []), ("post", twoPropsOperation)])])]) ∧
    operationParameters (some twoPropsOperation) = .ok twoPropsParameters ∧
    twoPropsParameters.length = 2 ∧
    parseDocumentation patchPostText = .ok (plainModel "/run" []) ∧
    (plainModel "/run" []).parameters.length = 0 :=
  ⟨rfl, rfl, rfl, rfl, rfl⟩

/-- C3 witness: the document `twoPropsText`, with the properties `prompt` (required) and
`seed`. -/
theorem structured_parameters_witness :
    parseDocumentation twoPropsText = .ok (plainModel "/run" twoPropsParameters) ∧
    (plainModel "/run" twoPropsParameters).parameters.length = 2 ∧
    (plainModel "/run" twoPropsParameters).parameters.map Prod.fst = ["prompt", "seed"] :=
  have h := structured_parameters twoPropsText twoPropsData (plainModel "/run" twoPropsParameters)
    "/run" [("post", twoPropsOperation)] twoPropsOperation _ _ _ twoPropsSchema _
    (some [.str "prompt"]) rfl rfl rfl rfl rfl rfl rfl rfl rfl rfl (by unfold KeysOrdered; decide) (by decide)
  ⟨h.1, h.2.1, h.2.2.1⟩

/-! ### The parameters object -/

theorem mem_replaceValue {α : Type} (k : String) (v : α) (e : String × α) :
    ∀ kvs : List (String × α), e ∈ replaceValue k v kvs → e ∈ kvs ∨ e = (k, v) := by
  intro kvs
  induction kvs with
  | nil => intro h; simp [replaceValue] at h
  | cons x rest ih =>
    obtain ⟨k1, v1⟩ := x
    intro h
    simp only [replaceValue] at h
    by_cases hk : k1 = k
    · simp only [hk, if_true, List.mem_cons] at h
      rcases h with h | h
      · exact Or.inr h
      · exact Or.inl (List.mem_cons_of_mem _ h)
    · simp only [hk, if_false, List.mem_cons] at h
      rcases h with h | h
      · exact Or.inl (h ▸ List.mem_cons_self _ _)
      · rcases ih h with h2 | h2
        · exact Or.inl (List.mem_cons_of_mem _ h2)
        · exact Or.inr h2

theorem mem_insertIndexed {α : Type} (i : Nat) (k : String) (v : α) (e : String × α) :
    ∀ kvs : List (String × α), e ∈ insertIndexed i k v kvs → e ∈ kvs ∨ e = (k, v) := by
  intro kvs
  induction kvs with
  | nil => intro h; simp [insertIndexed] at h; exact Or.inr h
  | cons x rest ih =>
    obtain ⟨k1, v1⟩ := x
    intro h
    simp only [insertIndexed] at h
    cases hj : arrayIndex? k1 with
    | none =>
      simp only [hj, List.mem_cons] at h
      rcases h with h | h | h
      · exact Or.inr h
      · exact Or.inl (h ▸ List.mem_cons_self _ _)
      · exact Or.inl (List.mem_cons_of_mem _ h)
    | some j =>
      simp only [hj] at h
      by_cases hij : i < j
      · simp only [hij, if_true, List.mem_cons] at h
        rcases h with h | h | h
        · exact Or.inr h
        · exact Or.inl (h ▸ List.mem_cons_self _ _)
        · exact Or.inl (List.mem_cons_of_mem _ h)
      · simp only [hij, if_false, List.mem_cons] at h
        rcases h with h | h
        · exact Or.inl (h ▸ List.mem_cons_self _ _)
        · rcases ih h with h2 | h2
          · exact Or.inl (List.mem_cons_of_mem _ h2)
          · exact Or.inr h2

/-- An entry of the object after an assignment is an earlier entry or the assigned one. -/
theorem mem_assignProp {α : Type} (kvs : List (String × α)) (k : String) (v : α)
    (e : String × α) (h : e ∈ assignProp kvs k v) : e ∈ kvs ∨ e = (k, v) := by
  unfold assignProp at h
  by_cases hp : k = "__proto__"
  · simp only [hp, if_true] at h
    exact Or.inl h
  · simp only [hp, if_false, setOwn] at h
    by_cases ha : kvs.any (fun e => e.1 == k) = true
    · simp only [ha, if_true] at h
      exact mem_replaceValue k v e kvs h
    · simp only [ha] at h
      cases hi : arrayIndex? k with
      | none =>
        simp only [hi, Bool.false_eq_true, if_false, List.mem_append, List.mem_singleton] at h
        exact h
      | some i =>
        simp only [hi, Bool.false_eq_true, if_false] at h
        exact mem_insertIndexed i k v e kvs h

/-- An entry of the object after one turn of the loop of `parseMarkdownParameters` is an
earlier entry, or the parsed block under its name when the block is not marked, or one of the
two synthesized parameters. -/
theorem mem_addBlock (parameters : ParameterMap) (block : String) (e : String × ParameterSpec)
    (h : e ∈ addBlock parameters block) :
    e ∈ parameters ∨
    (e.2 = parseFalAiParameterBlock (trim block) ∧ e.2.name = some e.1 ∧ e.1 ≠ "" ∧
      e.2.skip = false) ∨
    e = ("width", sizeParam "width" "Image width in pixels"
      (parseFalAiParameterBlock (trim block)).required) ∨
    e = ("height", sizeParam "height" "Image height in pixels"
      (parseFalAiParameterBlock (trim block)).required) := by
  unfold addBlock at h
  simp only [] at h
  split at h
  · rename_i hc
    rcases mem_assignProp _ _ _ _ h with h1 | h1
    · exact Or.inl h1
    · right; left
      simp only [Bool.and_eq_true, bne_iff_ne, ne_eq, Bool.not_eq_true'] at hc
      subst h1
      refine ⟨rfl, ?_, hc.1, hc.2⟩
      show (parseFalAiParameterBlock (trim block)).name = _
      cases hn : (parseFalAiParameterBlock (trim block)).name with
      | none => simp [hn] at hc
      | some n => simp
  · split at h
    · rcases mem_assignProp _ _ _ _ h with h1 | h1
      · rcases mem_assignProp _ _ _ _ h1 with h2 | h2
        · exact Or.inl h2
        · exact Or.inr (Or.inr (Or.inl h2))
      · exact Or.inr (Or.inr (Or.inr h1))
    · exact Or.inl h

/-- Every entry of the result of `parseMarkdownParameters` is the parameter of a block that is
not marked, under its name, or a synthesized `width` or `height`. -/
theorem mem_parseMarkdownParameters (markdown : String) (e : String × ParameterSpec)
    (h : e ∈ parseMarkdownParameters markdown) :
    (∃ block, e.2 = parseFalAiParameterBlock block ∧ e.2.name = some e.1 ∧ e.1 ≠ "" ∧
      e.2.skip = false) ∨
    (∃ required, e = ("width", sizeParam "width" "Image width in pixels" required)) ∨
    (∃ required, e = ("height", sizeParam "height" "Image height in pixels" required)) := by
  unfold parseMarkdownParameters at h
  cases hm : inputSchemaPattern.exec flagsI markdown with
  | none => simp [hm] at h
  | some m =>
    simp only [hm] at h
    have key : ∀ (blocks : List String) (acc : ParameterMap),
        e ∈ blocks.foldl addBlock acc → e ∈ acc ∨
        (∃ block, e.2 = parseFalAiParameterBlock block ∧ e.2.name = some e.1 ∧ e.1 ≠ "" ∧
          e.2.skip = false) ∨
        (∃ required, e = ("width", sizeParam "width" "Image width in pixels" required)) ∨
        (∃ required, e = ("height", sizeParam "height" "Image height in pixels" required)) := by
      intro blocks
      induction blocks with
      | nil => intro acc h; exact Or.inl h
      | cons b rest ih =>
        intro acc h
        rcases ih _ h with h1 | h1
        · rcases mem_addBlock acc b e h1 with h2 | h2 | h2 | h2
          · exact Or.inl h2
          · exact Or.inr (Or.inl ⟨_, h2⟩)
          · exact Or.inr (Or.inr (Or.inl ⟨_, h2⟩))
          · exact Or.inr (Or.inr (Or.inr ⟨_, h2⟩))
        · exact Or.inr h1
    rcases key _ _ h with h1 | h1
    · simp at h1
    · exact h1

/-- The fields of the parameter of a block, in terms of the values read from the block: the
name `name`, the type `type1` of the type clause, the default `dflt`, the bounds and the
options. -/
theorem parseFalAiParameterBlock_fields (block : String) :
    parseFalAiParameterBlock block = emptyParam ∨
    ∃ (name : String) (type1 : ComfyType) (dflt min max : JSON) (options : Option (List String)),
      (dflt = .null ∨ ∃ s, dflt = coerceDefault type1 s) ∧
      ((min = .null ∧ max = .null) ∨
        ((type1 = .int ∨ type1 = .float) ∧ ∃ a b, min = .num a ∧ max = .num b)) ∧
      (parseFalAiParameterBlock block).name = some name ∧
      (parseFalAiParameterBlock block).default = some dflt ∧
      (parseFalAiParameterBlock block).min = some min ∧
      (parseFalAiParameterBlock block).max = some max ∧
      (parseFalAiParameterBlock block).enum = some (match options with
        | some opts => .arr (opts.map (fun opt => .str (removeChar backtick opt)))
        | none => .null) ∧
      (parseFalAiParameterBlock block).skip =
        decide ((match options with | some _ => ComfyType.enum | none => type1) = .imageSize ∨
          name = "image_size") ∧
      (parseFalAiParameterBlock block).type =
        (if (match options with | some _ => ComfyType.enum | none => type1) = .imageSize ∨
          name = "image_size" then .imageSize
        else (match options with | some _ => ComfyType.enum | none => type1)) := by
  unfold parseFalAiParameterBlock
  cases namePattern.exec flagsNone block with
  | none => exact Or.inl rfl
  | some nameMatch =>
    right
    simp only []
    refine ⟨(nameMatch.group 1).getD "", _, _, _, _, _, ?_, ?_, rfl, rfl, rfl, rfl, rfl, rfl, rfl⟩
    · cases defaultPattern.exec flagsI block with
      | none => exact Or.inl rfl
      | some m => exact Or.inr ⟨_, rfl⟩
    · cases rangePattern.exec flagsI block with
      | none => exact Or.inl ⟨rfl, rfl⟩
      | some m =>
        simp only []
        split
        · rename_i hr
          exact Or.inr ⟨hr, _, _, rfl, rfl⟩
        · exact Or.inl ⟨rfl, rfl⟩

/-! ### What the structured extractor puts in the map -/

theorem extractLoop_forall (P : ParameterSpec → Prop) (schema : JSON)
    (hP : ∀ prop required p, convertJsonProperty prop required = .ok p → P p) :
    ∀ (entries : List (String × JSON)) (acc out : ParameterMap),
      extractLoop schema entries acc = .ok out → (∀ e ∈ acc, P e.2) → ∀ e ∈ out, P e.2 := by
  intro entries
  induction entries with
  | nil =>
    intro acc out h hacc
    simp only [extractLoop, pure, Except.pure] at h
    cases h
    exact hacc
  | cons x rest ih =>
    intro acc out h hacc
    obtain ⟨name, prop⟩ := x
    simp only [extractLoop] at h
    obtain ⟨flag, _, h⟩ := (bind_ok_iff _ _ _).1 h
    obtain ⟨param, hparam, h⟩ := (bind_ok_iff _ _ _).1 h
    apply ih _ out h
    intro e he
    rcases mem_assignProp _ _ _ _ he with h1 | h1
    · exact hacc e h1
    · rw [h1]
      exact hP _ _ _ hparam

theorem extractParameters_forall (P : ParameterSpec → Prop) (schema : JSON)
    (hP : ∀ prop required p, convertJsonProperty prop required = .ok p → P p)
    (out : ParameterMap) (h : extractParameters schema = .ok out) : ∀ e ∈ out, P e.2 := by
  unfold extractParameters at h
  obtain ⟨properties, _, h⟩ := (bind_ok_iff _ _ _).1 h
  cases properties with
  | none => simp only [pure, Except.pure] at h; cases h; simp
  | some props =>
    simp only [] at h
    split at h
    · obtain ⟨entries, _, h⟩ := (bind_ok_iff _ _ _).1 h
      exact extractLoop_forall P schema hP entries [] out h (by simp)
    · simp only [pure, Except.pure] at h; cases h; simp

theorem operationParameters_forall (P : ParameterSpec → Prop) (op : Option JSON)
    (hP : ∀ prop required p, convertJsonProperty prop required = .ok p → P p)
    (out : ParameterMap) (h : operationParameters op = .ok out) : ∀ e ∈ out, P e.2 := by
  unfold operationParameters at h
  obtain ⟨requestBody, _, h⟩ := (bind_ok_iff _ _ _).1 h
  split at h
  · obtain ⟨content, _, h⟩ := (bind_ok_iff _ _ _).1 h
    obtain ⟨media, _, h⟩ := (bind_ok_iff _ _ _).1 h
    split at h
    · simp only [pure, Except.pure] at h; cases h; simp
    · split at h
      · exact extractParameters_forall P _ hP out h
      · simp only [pure, Except.pure] at h; cases h; simp
  · simp only [pure, Except.pure] at h; cases h; simp

/-- Every parameter of a model of the structured extractor comes from
`convertJsonProperty`. -/
theorem parseJsonSchema_forall (P : ParameterSpec → Prop)
    (hP : ∀ prop required p, convertJsonProperty prop required = .ok p → P p)
    (data : JSON) (model : ParsedApiModel) (h : parseJsonSchema data = .ok model) :
    ∀ e ∈ model.parameters, P e.2 := by
  have h2 := (parseJsonSchema_ok h).2.1
  unfold jsonEndpointAndParameters at h2
  obtain ⟨paths, _, h2⟩ := (bind_ok_iff _ _ _).1 h2
  split at h2
  · obtain ⟨keys, _, h2⟩ := (bind_ok_iff _ _ _).1 h2
    split at h2
    · cases h2
    · obtain ⟨pathData, _, h2⟩ := (bind_ok_iff _ _ _).1 h2
      obtain ⟨mkeys, _, h2⟩ := (bind_ok_iff _ _ _).1 h2
      split at h2
      · simp only [pure, Except.pure] at h2
        have : model.parameters = [] := (Prod.mk.inj (Except.ok.inj h2)).2.symm
        rw [this]; simp
      · obtain ⟨op, _, h2⟩ := (bind_ok_iff _ _ _).1 h2
        obtain ⟨parameters, hpar, h2⟩ := (bind_ok_iff _ _ _).1 h2
        simp only [pure, Except.pure] at h2
        have : model.parameters = parameters := (Prod.mk.inj (Except.ok.inj h2)).2.symm
        rw [this]
        exact operationParameters_forall P op hP parameters hpar
  · simp only [pure, Except.pure] at h2
    have : model.parameters = [] := (Prod.mk.inj (Except.ok.inj h2)).2.symm
    rw [this]; simp

theorem mapJsonTypeToComfyType_ne_enum (t : Option JSON) (ty : ComfyType)
    (h : mapJsonTypeToComfyType t = .ok ty) : ty ≠ .enum ∧ ty ≠ .imageSize := by
  unfold mapJsonTypeToComfyType at h
  obtain ⟨key, _, h⟩ := (bind_ok_iff _ _ _).1 h
  simp only [pure, Except.pure] at h
  repeat' split at h
  all_goals (cases h; exact ⟨by simp, by simp⟩)

theorem truthy?_isPresent (v : Option JSON) (h : truthy? v = true) : isPresent v := by
  cases v with
  | none => cases h
  | some x =>
    cases x with
    | null => cases h
    | _ => exact ⟨by simp, by simp⟩

theorem isString_eq (v : Option JSON) (s : String) (h : isString v s = true) :
    v = some (.str s) := by
  cases v with
  | none => cases h
  | some x =>
    cases x with
    | str t => simp [isString] at h; rw [h]
    | _ => cases h

theorem mapJsonType_number : mapJsonTypeToComfyType (some (.str "number")) = .ok .float := rfl

theorem mapJsonType_integer : mapJsonTypeToComfyType (some (.str "integer")) = .ok .int := rfl

/-- The parameter that `convertJsonProperty` makes: its `enum` is present exactly when its type
is ENUM, and a present `min` or `max` comes with the type INT, FLOAT or ENUM. -/
theorem convertJsonProperty_facts (prop : JSON) (required : Bool) (p : ParameterSpec)
    (h : convertJsonProperty prop required = .ok p) :
    (isPresent p.enum ↔ p.type = .enum) ∧
    (isPresent p.min ∨ isPresent p.max → p.type = .int ∨ p.type = .float ∨ p.type = .enum) := by
  unfold convertJsonProperty at h
  obtain ⟨jsonType, _, h⟩ := (bind_ok_iff _ _ _).1 h
  obtain ⟨type, htype, h⟩ := (bind_ok_iff _ _ _).1 h
  obtain ⟨description, _, h⟩ := (bind_ok_iff _ _ _).1 h
  obtain ⟨dflt, _, h⟩ := (bind_ok_iff _ _ _).1 h
  obtain ⟨enum, _, h⟩ := (bind_ok_iff _ _ _).1 h
  obtain ⟨minimum, _, h⟩ := (bind_ok_iff _ _ _).1 h
  obtain ⟨maximum, _, h⟩ := (bind_ok_iff _ _ _).1 h
  simp only [pure, Except.pure] at h
  have hp := Except.ok.inj h
  subst hp
  simp only []
  constructor
  · cases he : truthy? enum with
    | true =>
      simp only [if_true]
      exact ⟨fun _ => trivial, fun _ => truthy?_isPresent _ he⟩
    | false =>
      simp only [Bool.false_eq_true, if_false]
      constructor
      · intro hpres; exact absurd rfl hpres.1
      · intro ht; exact absurd ht (mapJsonTypeToComfyType_ne_enum _ _ htype).1
  · intro hpres
    have hr : (isString jsonType "number" || isString jsonType "integer") = true := by
      cases hr : (isString jsonType "number" || isString jsonType "integer") with
      | true => rfl
      | false =>
        simp only [hr, Bool.false_eq_true, if_false] at hpres
        rcases hpres with hp | hp <;> exact absurd rfl hp.1
    cases he : truthy? enum with
    | true => simp
    | false =>
      simp only [Bool.false_eq_true, if_false]
      rw [Bool.or_eq_true] at hr
      rcases hr with hn | hi
      · rw [isString_eq _ _ hn, mapJsonType_number] at htype
        cases htype; simp
      · rw [isString_eq _ _ hi, mapJsonType_integer] at htype
        cases htype; simp

theorem readMembers_obj : ∀ (n : Nat) (acc : List (String × JSON)) (cs : List Char)
    (v : JSON) (rest : List Char), readMembers n acc cs = some (v, rest) → ∃ kvs, v = .obj kvs := by
  intro n
  induction n with
  | zero => intro acc cs v rest h; simp [readMembers] at h
  | succ n ih =>
    intro acc cs v rest h
    unfold readMembers at h
    split at h
    · cases h
    · split at h
      · split at h
        · cases h
        · split at h
          · cases h
          · split at h
            · split at h
              · cases h
              · split at h
                · cases h
                · split at h
                  · exact ih _ _ _ _ h
                  · split at h
                    · simp only [Option.some.injEq, Prod.mk.injEq] at h
                      exact ⟨_, h.1.symm⟩
                    · cases h
            · cases h
      · cases h

theorem readValue_brace_obj (n : Nat) (rest : List Char) (v : JSON) (r : List Char)
    (h : readValue (n + 1) ('\x7b' :: rest) = some (v, r)) : ∃ kvs, v = .obj kvs := by
  unfold readValue at h
  have hd : List.dropWhile isJsonSpace ('\x7b' :: rest) = '\x7b' :: rest := by
    simp [List.dropWhile, isJsonSpace]
  rw [hd] at h
  simp only [beq_self_eq_true, if_true] at h
  cases hr : List.dropWhile isJsonSpace rest with
  | nil => rw [hr] at h; cases h
  | cons d rest1 =>
    rw [hr] at h
    simp only [] at h
    by_cases hd2 : (d == '\x7d') = true
    · simp only [hd2, if_true, Option.some.injEq, Prod.mk.injEq] at h
      exact ⟨[], h.1.symm⟩
    · simp only [hd2, Bool.false_eq_true, if_false] at h
      exact readMembers_obj _ _ _ _ _ h

/-- A text that begins with an opening brace parses, if at all, to an object. -/
theorem parse_brace_obj (s : String) (v : JSON) (hs : startsWith s "\x7b" = true)
    (h : JSON.parse s = .ok v) : ∃ kvs, v = .obj kvs := by
  unfold JSON.parse at h
  unfold startsWith at hs
  cases hl : s.toList with
  | nil => rw [hl] at hs; simp [List.isPrefixOf] at hs
  | cons c rest =>
    rw [hl] at hs h
    have hc : c = '\x7b' := by
      simp [List.isPrefixOf] at hs
      exact hs.symm
    subst hc
    cases hr : readValue (2 * s.length + 2) ('\x7b' :: rest) with
    | none => rw [hr] at h; cases h
    | some vr =>
      obtain ⟨v2, r⟩ := vr
      rw [hr] at h
      simp only [] at h
      split at h
      · cases h
        exact readValue_brace_obj _ _ _ _ hr
      · cases h

/-! ### Invariants of the parameters of a model -/

theorem parseDocumentation_cases {content : String} {model : ParsedApiModel}
    (h : parseDocumentation content = .ok model) :
    (∃ data, JSON.parse content = .ok data ∧ parseJsonSchema data = .ok model) ∨
      model = parseMarkdownSchema content := by
  cases hj : JSON.parse content with
  | error e =>
    rw [parseDocumentation_markdown hj] at h
    exact Or.inr (Except.ok.inj h).symm
  | ok data =>
    cases hm : parseJsonSchema data with
    | ok m =>
      rw [parseDocumentation_of_json_ok hj hm] at h
      cases h
      exact Or.inl ⟨data, rfl, hm⟩
    | error e =>
      rw [parseDocumentation_of_json_aux hj hm] at h
      exact Or.inr (Except.ok.inj h).symm

theorem isPresent_none : ¬ isPresent none := fun h => h.1 rfl

theorem isPresent_null : ¬ isPresent (some .null) := fun h => h.2 rfl

/-- The facts on a parameter that a block contributes to the map under its name. -/
theorem block_entry_facts (block : String) (k : String)
    (hname : (parseFalAiParameterBlock block).name = some k) (hk : k ≠ "")
    (hskip : (parseFalAiParameterBlock block).skip = false) :
    ((parseFalAiParameterBlock block).type ≠ .imageSize ∧ k ≠ "image_size") ∧
    (isPresent (parseFalAiParameterBlock block).enum →
      (parseFalAiParameterBlock block).type = .enum) ∧
    (isPresent (parseFalAiParameterBlock block).min ∨
      isPresent (parseFalAiParameterBlock block).max →
      (parseFalAiParameterBlock block).type = .int ∨
      (parseFalAiParameterBlock block).type = .float ∨
      (parseFalAiParameterBlock block).type = .enum) ∧
    ∃ type1 dflt, (parseFalAiParameterBlock block).default = some dflt ∧
      (dflt = .null ∨ ∃ s, dflt = coerceDefault type1 s) ∧
      ((parseFalAiParameterBlock block).type = type1 ∨
        (parseFalAiParameterBlock block).type = .enum) := by
  rcases parseFalAiParameterBlock_fields block with h | h
  · rw [h] at hname
    simp only [emptyParam, Option.some.injEq] at hname
    exact absurd hname.symm hk
  · obtain ⟨name, type1, dflt, min, max, options, hd, hr, hn, hdf, hmin, hmax, henum, hsk, hty⟩ := h
    rw [hn] at hname
    have hnk : name = k := Option.some.inj hname
    subst hnk
    rw [hsk] at hskip
    have hns := of_decide_eq_false hskip
    rw [if_neg hns] at hty
    refine ⟨⟨?_, fun hc => hns (Or.inr hc)⟩, ?_, ?_, type1, dflt, hdf, hd, ?_⟩
    · rw [hty]; exact fun hc => hns (Or.inl hc)
    · intro hp
      rw [henum] at hp
      cases options with
      | none => exact absurd hp isPresent_null
      | some opts => rw [hty]
    · intro hp
      rw [hmin, hmax] at hp
      rcases hr with ⟨h1, h2⟩ | ⟨ht, _⟩
      · rw [h1, h2] at hp
        rcases hp with hp | hp <;> exact absurd hp isPresent_null
      · rw [hty]
        cases options with
        | some opts => exact Or.inr (Or.inr rfl)
        | none =>
          rcases ht with ht | ht
          · exact Or.inl ht
          · exact Or.inr (Or.inl ht)
    · rw [hty]
      cases options with
      | some opts => exact Or.inr rfl
      | none => exact Or.inl rfl

/-- C14: the parameters object returned by `parseMarkdownParameters` has no entry of the type
IMAGESIZE and no entry keyed `image_size`. -/
theorem no_composite_entry (markdown : String) :
    ∀ e ∈ parseMarkdownParameters markdown, e.2.type ≠ .imageSize ∧ e.1 ≠ "image_size" := by
  intro e he
  rcases mem_parseMarkdownParameters markdown e he with ⟨block, hb, hn, hk, hs⟩ | ⟨r, h⟩ | ⟨r, h⟩
  · rw [hb] at hn hs ⊢
    exact (block_entry_facts block e.1 hn hk hs).1
  · rw [h]; exact ⟨by simp [sizeParam], show "width" ≠ "image_size" by decide⟩
  · rw [h]; exact ⟨by simp [sizeParam], show "height" ≠ "image_size" by decide⟩

/-- C14 witness: a document whose only block is named `image_size`. -/
theorem no_composite_entry_witness :
    parseMarkdownParameters "### Input Schema\n\n- **`image_size`** (`ImageSize`, _required_):\n  The size." =
      [("width", sizeParam "width" "Image width in pixels" true),
        ("height", sizeParam "height" "Image height in pixels" true)] ∧
    (sizeParam "width" "Image width in pixels" true).type ≠ .imageSize ∧
    "width" ≠ "image_size" :=
  ⟨rfl, no_composite_entry
    "### Input Schema\n\n- **`image_size`** (`ImageSize`, _required_):\n  The size."
    ("width", sizeParam "width" "Image width in pixels" true)
    (List.mem_of_mem_head? (by rfl))⟩

/-- C18, as amended: in every model returned by `parseDocumentation` a parameter whose `enum`
is present (neither absent nor `null`) has the type ENUM; for a model of the structured
extractor the converse holds too. (The markdown extractor gives the type ENUM, with a `null`
enum, to a block whose type string contains `enum` or a bar and that has no Options
clause.) -/
theorem enum_present_type (content : String) (model : ParsedApiModel)
    (h : parseDocumentation content = .ok model) :
    (∀ e ∈ model.parameters, isPresent e.2.enum → e.2.type = .enum) ∧
    (∀ data, JSON.parse content = .ok data → parseJsonSchema data = .ok model →
      ∀ e ∈ model.parameters, e.2.type = .enum → isPresent e.2.enum) := by
  constructor
  · intro e he hp
    rcases parseDocumentation_cases h with ⟨data, _, hm⟩ | hm
    · exact (parseJsonSchema_forall (fun p => isPresent p.enum ↔ p.type = .enum)
        (fun prop r p hc => (convertJsonProperty_facts prop r p hc).1) data model hm e he).1 hp
    · subst hm
      rcases mem_parseMarkdownParameters content e he with ⟨block, hb, hn, hk, hs⟩ | ⟨r, h⟩ | ⟨r, h⟩
      · rw [hb] at hn hs hp ⊢
        exact (block_entry_facts block e.1 hn hk hs).2.1 hp
      · rw [h] at hp; exact absurd hp isPresent_none
      · rw [h] at hp; exact absurd hp isPresent_none
  · intro data _ hm e he ht
    exact (parseJsonSchema_forall (fun p => isPresent p.enum ↔ p.type = .enum)
      (fun prop r p hc => (convertJsonProperty_facts prop r p hc).1) data model hm e he).2 ht

/-- C18 fails as stated: the block of `enumTypedDoc` has the type ENUM and a `null` enum. -/
theorem enum_type_without_options :
    JSON.parse enumTypedDoc = .error .syntaxError ∧
    parseDocumentation enumTypedDoc = .ok (parseMarkdownSchema enumTypedDoc) ∧
    (parseMarkdownSchema enumTypedDoc).parameters = [("fmt", enumTypedParam)] ∧
    enumTypedParam.type = .enum ∧ enumTypedParam.enum = some .null ∧
    ¬ isPresent enumTypedParam.enum :=
  ⟨rfl, rfl, rfl, rfl, rfl, isPresent_null⟩

/-- C18 witness: the block of `rangedOptionsDoc` has options and the type ENUM. -/
theorem enum_present_type_witness :
    parseDocumentation rangedOptionsDoc = .ok (parseMarkdownSchema rangedOptionsDoc) ∧
    (parseMarkdownSchema rangedOptionsDoc).parameters = [("steps", rangedOptionsParam)] ∧
    rangedOptionsParam.type = .enum :=
  ⟨rfl, rfl, (enum_present_type rangedOptionsDoc (parseMarkdownSchema rangedOptionsDoc) rfl).1
    ("steps", rangedOptionsParam) (List.mem_of_mem_head? (by rfl))
    ⟨by simp [rangedOptionsParam], by simp [rangedOptionsParam]⟩⟩

/-- C19, as amended: in every model returned by `parseDocumentation` a parameter with a present
(non-null) `min` or `max` has the type INT, FLOAT or ENUM: the bounds are read for a numeric
type, and a parameter that also has enum options ends with the type ENUM and keeps them. -/
theorem bounds_present_type (content : String) (model : ParsedApiModel)
    (h : parseDocumentation content = .ok model) :
    ∀ e ∈ model.parameters, isPresent e.2.min ∨ isPresent e.2.max →
      e.2.type = .int ∨ e.2.type = .float ∨ e.2.type = .enum := by
  intro e he hp
  rcases parseDocumentation_cases h with ⟨data, _, hm⟩ | hm
  · exact parseJsonSchema_forall (fun p => isPresent p.min ∨ isPresent p.max →
        p.type = .int ∨ p.type = .float ∨ p.type = .enum)
      (fun prop r p hc => (convertJsonProperty_facts prop r p hc).2) data model hm e he hp
  · subst hm
    rcases mem_parseMarkdownParameters content e he with ⟨block, hb, hn, hk, hs⟩ | ⟨r, h⟩ | ⟨r, h⟩
    · rw [hb] at hn hs hp ⊢
      exact (block_entry_facts block e.1 hn hk hs).2.2.1 hp
    · rw [h]; exact Or.inl rfl
    · rw [h]; exact Or.inl rfl

/-- C19 fails as stated: the block of `rangedOptionsDoc` has the bounds 1 and 4 and the final
type ENUM. -/
theorem bounds_with_enum_type :
    JSON.parse rangedOptionsDoc = .error .syntaxError ∧
    parseDocumentation rangedOptionsDoc = .ok (parseMarkdownSchema rangedOptionsDoc) ∧
    (parseMarkdownSchema rangedOptionsDoc).parameters = [("steps", rangedOptionsParam)] ∧
    rangedOptionsParam.min = some (.num (.dec 1 0)) ∧ isPresent rangedOptionsParam.min ∧
    rangedOptionsParam.type = .enum ∧
    rangedOptionsParam.type ≠ .int ∧ rangedOptionsParam.type ≠ .float :=
  ⟨rfl, rfl, rfl, rfl, ⟨by simp [rangedOptionsParam], by simp [rangedOptionsParam]⟩, rfl,
    by simp [rangedOptionsParam], by simp [rangedOptionsParam]⟩

/-- C19 witness: the synthesized `width` of a document with an `image_size` block. -/
theorem bounds_present_type_witness :
    (sizeParam "width" "Image width in pixels" true).type = .int ∨
    (sizeParam "width" "Image width in pixels" true).type = .float ∨
    (sizeParam "width" "Image width in pixels" true).type = .enum :=
  bounds_present_type
    "### Input Schema\n\n- **`image_size`** (`ImageSize`, _required_):\n  The size."
    (parseMarkdownSchema
      "### Input Schema\n\n- **`image_size`** (`ImageSize`, _required_):\n  The size.") rfl
    ("width", sizeParam "width" "Image width in pixels" true)
    (List.mem_of_mem_head? (by rfl))
    (Or.inl ⟨by simp [sizeParam], by simp [sizeParam]⟩)

theorem numberOrNull_kinds (x : JSNumber) :
    numberOrNull x = .null ∨ ∃ n, numberOrNull x = .num n := by
  unfold numberOrNull
  split
  · exact Or.inr ⟨_, rfl⟩
  · exact Or.inl rfl

/-- The kinds of value that the coercion of a default gives, by the type of the type
clause. -/
theorem coerceDefault_kinds (type1 : ComfyType) (s : String) :
    (type1 = .boolean → ∃ b, coerceDefault type1 s = .bool b) ∧
    (type1 = .int ∨ type1 = .float →
      coerceDefault type1 s = .null ∨ ∃ n, coerceDefault type1 s = .num n) ∧
    (type1 ≠ .boolean → type1 ≠ .int → type1 ≠ .float →
      (∃ t, coerceDefault type1 s = .str t) ∨ coerceDefault type1 s = .arr [] ∨
      ∃ kvs, coerceDefault type1 s = .obj kvs) := by
  refine ⟨?_, ?_, ?_⟩
  · intro h
    subst h
    exact ⟨_, rfl⟩
  · intro h
    rcases h with h | h
    · subst h
      exact numberOrNull_kinds _
    · subst h
      exact numberOrNull_kinds _
  · intro hb hi hf
    unfold coerceDefault
    rw [if_neg hb, if_neg hi, if_neg hf]
    split
    · exact Or.inl ⟨_, rfl⟩
    · split
      · exact Or.inr (Or.inl rfl)
      · split
        · rename_i hbrace
          rw [Bool.and_eq_true] at hbrace
          cases hp : JSON.parse s with
          | ok v =>
            obtain ⟨kvs, hv⟩ := parse_brace_obj s v hbrace.1 hp
            exact Or.inr (Or.inr ⟨kvs, hv⟩)
          | error e => exact Or.inl ⟨_, rfl⟩
        · exact Or.inl ⟨_, rfl⟩

/-- C20, as amended: for every parameter in the map of the markdown extractor, a BOOLEAN has a
boolean or `null` default and an INT or FLOAT a number or `null`; a STRING or an ARRAY has a
default that is `null`, a string, the empty array (for the default `[]`) or the object parsed
from a default in braces, whichever of the two types it has. (An ENUM keeps the default coerced
by the type of its type clause.) -/
theorem default_kinds (markdown : String) :
    ∀ e ∈ parseMarkdownParameters markdown, ∃ d, e.2.default = some d ∧
      (e.2.type = .boolean → d = .null ∨ ∃ b, d = .bool b) ∧
      (e.2.type = .int ∨ e.2.type = .float → d = .null ∨ ∃ n, d = .num n) ∧
      (e.2.type = .string ∨ e.2.type = .array →
        d = .null ∨ (∃ t, d = .str t) ∨ d = .arr [] ∨ ∃ kvs, d = .obj kvs) := by
  intro e he
  rcases mem_parseMarkdownParameters markdown e he with ⟨block, hb, hn, hk, hs⟩ | ⟨r, h⟩ | ⟨r, h⟩
  · rw [hb] at hn hs ⊢
    obtain ⟨type1, dflt, hd, hc, ht⟩ := (block_entry_facts block e.1 hn hk hs).2.2.2
    refine ⟨dflt, hd, ?_, ?_, ?_⟩
    · intro hty
      rcases hc with hc | ⟨s, hc⟩
      · exact Or.inl hc
      · right
        rw [hc]
        apply (coerceDefault_kinds type1 s).1
        rcases ht with ht | ht
        · rw [← ht]; exact hty
        · rw [ht] at hty; cases hty
    · intro hty
      rcases hc with hc | ⟨s, hc⟩
      · exact Or.inl hc
      · rw [hc]
        apply (coerceDefault_kinds type1 s).2.1
        rcases ht with ht | ht
        · rw [← ht]; exact hty
        · rw [ht] at hty; rcases hty with hty | hty <;> cases hty
    · intro hty
      rcases hc with hc | ⟨s, hc⟩
      · exact Or.inl hc
      · right
        rw [hc]
        have h1 : (parseFalAiParameterBlock block).type = type1 := by
          rcases ht with ht | ht
          · exact ht
          · rw [ht] at hty; rcases hty with hty | hty <;> cases hty
        rw [h1] at hty
        apply (coerceDefault_kinds type1 s).2.2
        · rcases hty with hty | hty <;> rw [hty] <;> simp
        · rcases hty with hty | hty <;> rw [hty] <;> simp
        · rcases hty with hty | hty <;> rw [hty] <;> simp
  · rw [h]
    exact ⟨_, rfl, by simp [sizeParam], fun _ => Or.inr ⟨_, rfl⟩, by simp [sizeParam]⟩
  · rw [h]
    exact ⟨_, rfl, by simp [sizeParam], fun _ => Or.inr ⟨_, rfl⟩, by simp [sizeParam]⟩

/-- C20 fails as stated: the block of `arrayDefaultDoc` has the final type STRING and the
default `[]`, an array. -/
theorem string_with_array_default :
    parseMarkdownParameters arrayDefaultDoc = [("tags", arrayDefaultParam)] ∧
    arrayDefaultParam.type = .string ∧ arrayDefaultParam.default = some (.arr []) ∧
    arrayDefaultParam.default ≠ some .null ∧ ∀ t, arrayDefaultParam.default ≠ some (.str t) :=
  ⟨rfl, rfl, rfl, by simp [arrayDefaultParam], by simp [arrayDefaultParam]⟩

/-- C20 witness: the block of `boolDefaultDoc`, a boolean with the default `true`. -/
theorem default_kinds_witness :
    parseMarkdownParameters boolDefaultDoc = [("sync", boolDefaultParam)] ∧
    ∃ d, boolDefaultParam.default = some d ∧
      (boolDefaultParam.type = .boolean → d = .null ∨ ∃ b, d = .bool b) ∧
      (boolDefaultParam.type = .int ∨ boolDefaultParam.type = .float →
        d = .null ∨ ∃ n, d = .num n) ∧
      (boolDefaultParam.type = .string ∨ boolDefaultParam.type = .array →
        d = .null ∨ (∃ t, d = .str t) ∨ d = .arr [] ∨ ∃ kvs, d = .obj kvs) :=
  ⟨rfl, default_kinds boolDefaultDoc ("sync", boolDefaultParam) (List.mem_of_mem_head? (by rfl))⟩

/-! ### The composite size -/

theorem lookup_replaceValue_self {α : Type} (k : String) (v : α) :
    ∀ kvs : List (String × α), kvs.any (fun e => e.1 == k) = true →
      (replaceValue k v kvs).lookup k = some v := by
  intro kvs
  induction kvs with
  | nil => intro h; simp at h
  | cons x rest ih =>
    obtain ⟨k1, v1⟩ := x
    intro h
    simp only [replaceValue]
    by_cases hk : k1 = k
    · subst hk
      simp [List.lookup]
    · have hne : (k == k1) = false := by
        rw [beq_eq_false_iff_ne]; exact fun hc => hk hc.symm
      have h2 : rest.any (fun e => e.1 == k) = true := by
        simpa [List.any_cons, hk] using h
      simp only [hk, if_false, List.lookup, hne]
      exact ih h2

theorem lookup_replaceValue_other {α : Type} (k k2 : String) (v : α) (hne : k2 ≠ k) :
    ∀ kvs : List (String × α), (replaceValue k v kvs).lookup k2 = kvs.lookup k2 := by
  intro kvs
  induction kvs with
  | nil => rfl
  | cons x rest ih =>
    obtain ⟨k1, v1⟩ := x
    simp only [replaceValue]
    by_cases hk : k1 = k
    · subst hk
      have : (k2 == k1) = false := by rw [beq_eq_false_iff_ne]; exact hne
      simp [List.lookup, this]
    · simp only [hk, if_false, List.lookup]
      cases k2 == k1 with
      | true => rfl
      | false => exact ih

theorem lookup_append_new {α : Type} (k k2 : String) (v : α) :
    ∀ kvs : List (String × α), (kvs ++ [(k, v)]).lookup k2 =
      (match kvs.lookup k2 with
        | some x => some x
        | none => if k2 == k then some v else none) := by
  intro kvs
  induction kvs with
  | nil =>
    simp only [List.nil_append, List.lookup]
    cases k2 == k <;> rfl
  | cons x rest ih =>
    obtain ⟨k1, v1⟩ := x
    simp only [List.cons_append, List.lookup]
    cases k2 == k1 with
    | true => rfl
    | false => exact ih

theorem any_key_false_lookup {α : Type} (k : String) :
    ∀ kvs : List (String × α), kvs.any (fun e => e.1 == k) = false → kvs.lookup k = none := by
  intro kvs
  induction kvs with
  | nil => intro _; rfl
  | cons x rest ih =>
    obtain ⟨k1, v1⟩ := x
    intro h
    simp only [List.any_cons, Bool.or_eq_false_iff] at h
    have hne : (k == k1) = false := by
      rw [beq_eq_false_iff_ne]
      intro hc
      have := h.1
      rw [hc] at this
      simp at this
    simp only [List.lookup, hne]
    exact ih h.2

/-- After the assignment `o[k] = v` of a key that is no array index, `o[k]` is `v`. -/
theorem lookup_assignProp_self {α : Type} (kvs : List (String × α)) (k : String) (v : α)
    (hproto : k ≠ "__proto__") (hidx : arrayIndex? k = none) :
    (assignProp kvs k v).lookup k = some v := by
  simp only [assignProp, hproto, if_false, setOwn, hidx]
  cases ha : kvs.any (fun e => e.1 == k) with
  | true =>
    simp only [if_true]
    exact lookup_replaceValue_self k v kvs ha
  | false =>
    simp only [Bool.false_eq_true, if_false]
    rw [lookup_append_new, any_key_false_lookup k kvs ha]
    simp

theorem lookup_insertIndexed_other {α : Type} (i : Nat) (k k2 : String) (v : α)
    (hne : k2 ≠ k) :
    ∀ kvs : List (String × α), (insertIndexed i k v kvs).lookup k2 = kvs.lookup k2 := by
  have hb : (k2 == k) = false := by rw [beq_eq_false_iff_ne]; exact hne
  intro kvs
  induction kvs with
  | nil => simp [insertIndexed, List.lookup, hb]
  | cons x rest ih =>
    obtain ⟨k1, v1⟩ := x
    simp only [insertIndexed]
    cases arrayIndex? k1 with
    | none => simp only [List.lookup, hb]
    | some j =>
      simp only []
      split
      · simp only [List.lookup, hb]
      · simp only [List.lookup]
        cases k2 == k1 with
        | true => rfl
        | false => exact ih

/-- The assignment `o[k] = v` leaves the other properties as they are. -/
theorem lookup_assignProp_other {α : Type} (kvs : List (String × α)) (k k2 : String) (v : α)
    (hne : k2 ≠ k) : (assignProp kvs k v).lookup k2 = kvs.lookup k2 := by
  unfold assignProp
  split
  · rfl
  · simp only [setOwn]
    split
    · exact lookup_replaceValue_other k k2 v hne kvs
    · split
      · exact lookup_insertIndexed_other _ k k2 v hne kvs
      · rw [lookup_append_new]
        have : (k2 == k) = false := by rw [beq_eq_false_iff_ne]; exact hne
        cases kvs.lookup k2 <;> simp [this]

/-- The map after the turn of the loop for a block that is marked for splitting: `width` and
`height` are the synthesized parameters, whatever the map held. -/
theorem addBlock_composite (parameters : ParameterMap) (block : String)
    (hskip : (parseFalAiParameterBlock (trim block)).skip = true)
    (hname : (parseFalAiParameterBlock (trim block)).name ≠ some "") :
    (addBlock parameters block).lookup "width" =
      some (sizeParam "width" "Image width in pixels"
        (parseFalAiParameterBlock (trim block)).required) ∧
    (addBlock parameters block).lookup "height" =
      some (sizeParam "height" "Image height in pixels"
        (parseFalAiParameterBlock (trim block)).required) := by
  have hn : ((parseFalAiParameterBlock (trim block)).name.getD "" != "") = true := by
    rcases parseFalAiParameterBlock_fields (trim block) with h | ⟨name, _, _, _, _, _, _, _, hn, _⟩
    · rw [h] at hskip; cases hskip
    · rw [hn] at hname ⊢
      simp only [Option.getD_some, bne_iff_ne, ne_eq]
      exact fun hc => hname (by rw [hc])
  unfold addBlock
  simp only [hn, hskip, Bool.not_true, Bool.and_false, Bool.false_eq_true, if_false,
    Bool.true_or, Bool.and_self, if_true]
  constructor
  · rw [lookup_assignProp_other _ "height" "width" _ (by decide)]
    exact lookup_assignProp_self _ _ _ (by decide) (by decide)
  · exact lookup_assignProp_self _ _ _ (by decide) (by decide)

/-- The turn of the loop for a block that is not marked and is not named `k` leaves the entry
`k` as it is. -/
theorem addBlock_other (parameters : ParameterMap) (block : String) (k : String)
    (hskip : (parseFalAiParameterBlock (trim block)).skip = false)
    (hname : (parseFalAiParameterBlock (trim block)).name ≠ some k) :
    (addBlock parameters block).lookup k = parameters.lookup k := by
  unfold addBlock
  simp only [hskip, Bool.not_false, Bool.and_true, Bool.false_or]
  split
  · apply lookup_assignProp_other
    intro hc
    apply hname
    rcases parseFalAiParameterBlock_fields (trim block) with h | ⟨name, _, _, _, _, _, _, _, hn, _⟩
    · rw [h] at hc ⊢
      simp only [emptyParam, Option.getD_some] at hc ⊢
      rw [hc]
    · rw [hn] at hc ⊢
      simp only [Option.getD_some] at hc
      rw [hc]
  · split
    · rename_i hc
      exfalso
      rcases parseFalAiParameterBlock_fields (trim block) with
        h | ⟨name, _, _, _, _, _, _, _, hn, _, _, _, _, hsk, _⟩
      · rw [h] at hc
        simp [emptyParam] at hc
      · rw [hn] at hc
        rw [hsk] at hskip
        have hns := of_decide_eq_false hskip
        simp only [Option.getD_some, Bool.and_eq_true, beq_iff_eq] at hc
        exact hns (Or.inr hc.2)
    · rfl

theorem foldl_addBlock_other (k : String) :
    ∀ (blocks : List String) (parameters : ParameterMap),
      (∀ b ∈ blocks, (parseFalAiParameterBlock (trim b)).skip = false ∧
        (parseFalAiParameterBlock (trim b)).name ≠ some k) →
      (blocks.foldl addBlock parameters).lookup k = parameters.lookup k := by
  intro blocks
  induction blocks with
  | nil => intro _ _; rfl
  | cons b rest ih =>
    intro parameters h
    simp only [List.foldl]
    rw [ih _ (fun b2 hb2 => h b2 (List.mem_cons_of_mem _ hb2))]
    exact addBlock_other parameters b k (h b (List.mem_cons_self _ _)).1
      (h b (List.mem_cons_self _ _)).2

/-- C13, as amended: the composite expansion does not skip a field that is already declared, it
overwrites it. When the section has a block marked for splitting, and no later block is marked
or named `width` or `height`, the entries `width` and `height` of the final map are the
synthesized INT parameters (default 1024, bounds 256 and 2048, the `required` flag of the
marked block), whatever blocks, an independent `width` among them, stand before it. -/
theorem composite_overwrites (markdown : String) (m : Match) (before after : List String)
    (block : String)
    (hsection : inputSchemaPattern.exec flagsI markdown = some m)
    (hblocks : paramBlocks ((m.group 1).getD "") = before ++ block :: after)
    (hskip : (parseFalAiParameterBlock (trim block)).skip = true)
    (hname : (parseFalAiParameterBlock (trim block)).name ≠ some "")
    (hafter : ∀ b ∈ after, (parseFalAiParameterBlock (trim b)).skip = false ∧
      (parseFalAiParameterBlock (trim b)).name ≠ some "width" ∧
      (parseFalAiParameterBlock (trim b)).name ≠ some "height") :
    (parseMarkdownParameters markdown).lookup "width" =
      some { name := some "width", type := .int,
             required := (parseFalAiParameterBlock (trim block)).required,
             description := .str "Image width in pixels", default := some (.num (.dec 1024 0)),
             enum := none, min := some (.num (.dec 256 0)), max := some (.num (.dec 2048 0)),
             skip := false } ∧
    (parseMarkdownParameters markdown).lookup "height" =
      some { name := some "height", type := .int,
             required := (parseFalAiParameterBlock (trim block)).required,
             description := .str "Image height in pixels", default := some (.num (.dec 1024 0)),
             enum := none, min := some (.num (.dec 256 0)), max := some (.num (.dec 2048 0)),
             skip := false } := by
  unfold parseMarkdownParameters
  simp only [hsection, hblocks, List.foldl_append, List.foldl_cons]
  rw [foldl_addBlock_other "width" after _ (fun b hb => ⟨(hafter b hb).1, (hafter b hb).2.1⟩),
    foldl_addBlock_other "height" after _ (fun b hb => ⟨(hafter b hb).1, (hafter b hb).2.2⟩)]
  exact addBlock_composite _ block hskip hname

/-- C13 fails as stated: `widthThenSizeDoc` declares a `width` of type STRING with the default
`wide` before an `image_size` block, and the final map holds the synthesized `width`. -/
theorem declared_width_overwritten :
    parseFalAiParameterBlock
      "- **`width`** (`string`, _optional_):\n  Custom width.\n  Default: `wide`" =
      declaredWidthParam ∧
    parseMarkdownParameters widthThenSizeDoc =
      [("width", sizeParam "width" "Image width in pixels" false),
        ("height", sizeParam "height" "Image height in pixels" false)] ∧
    (sizeParam "width" "Image width in pixels" false).type = .int ∧
    declaredWidthParam.type = .string :=
  ⟨rfl, rfl, rfl, rfl⟩

/-- C13 witness: `widthThenSizeDoc`, where the `image_size` block is the last one. -/
theorem composite_overwrites_witness :
    (parseMarkdownParameters widthThenSizeDoc).lookup "width" =
      some { name := some "width", type := .int, required := false,
             description := .str "Image width in pixels", default := some (.num (.dec 1024 0)),
             enum := none, min := some (.num (.dec 256 0)), max := some (.num (.dec 2048 0)),
             skip := false } :=
  (composite_overwrites widthThenSizeDoc
    { text := widthThenSizeDoc,
      caps := [(1, "- **`width`** (`string`, _optional_):\n  Custom width.\n  Default: `wide`\n\n- **`image_size`** (`ImageSize`, _optional_):\n  The size.".toList)] }
    ["- **`width`** (`string`, _optional_):\n  Custom width.\n  Default: `wide`\n\n"]
    [] "- **`image_size`** (`ImageSize`, _optional_):\n  The size." rfl rfl rfl
    (by decide) (fun b hb => absurd hb (List.not_mem_nil b))).1

/-- A block named `image_size` is marked for splitting. -/
theorem image_size_skip (block : String)
    (hname : (parseFalAiParameterBlock block).name = some "image_size") :
    (parseFalAiParameterBlock block).skip = true := by
  rcases parseFalAiParameterBlock_fields block with
    h | ⟨name, _, _, _, _, _, _, _, hn, _, _, _, _, hsk, _⟩
  · rw [h] at hname
    simp [emptyParam] at hname
  · rw [hn] at hname
    rw [hsk, Option.some.inj hname]
    simp

/-- C12: when the Input Schema section of a document consists of a single block and that block
is named `image_size`, the final parameters map has exactly two entries, `width` then `height`,
each of the type INT with the default 1024, the bounds 256 and 2048 and the `required` flag of
the block; it has no entry `image_size`. -/
theorem composite_single_block (markdown : String) (m : Match) (block : String)
    (hsection : inputSchemaPattern.exec flagsI markdown = some m)
    (hblocks : paramBlocks ((m.group 1).getD "") = [block])
    (hname : (parseFalAiParameterBlock (trim block)).name = some "image_size") :
    parseMarkdownParameters markdown =
      [("width", { name := some "width", type := .int,
                   required := (parseFalAiParameterBlock (trim block)).required,
                   description := .str "Image width in pixels",
                   default := some (.num (.dec 1024 0)), enum := none,
                   min := some (.num (.dec 256 0)), max := some (.num (.dec 2048 0)),
                   skip := false }),
        ("height", { name := some "height", type := .int,
                     required := (parseFalAiParameterBlock (trim block)).required,
                     description := .str "Image height in pixels",
                     default := some (.num (.dec 1024 0)), enum := none,
                     min := some (.num (.dec 256 0)), max := some (.num (.dec 2048 0)),
                     skip := false })] ∧
    (parseMarkdownParameters markdown).lookup "image_size" = none := by
  have hskip := image_size_skip (trim block) hname
  have key : parseMarkdownParameters markdown =
      [("width", sizeParam "width" "Image width in pixels"
          (parseFalAiParameterBlock (trim block)).required),
        ("height", sizeParam "height" "Image height in pixels"
          (parseFalAiParameterBlock (trim block)).required)] := by
    unfold parseMarkdownParameters
    simp only [hsection, hblocks, List.foldl_cons, List.foldl_nil]
    unfold addBlock
    simp only [hname, hskip, Option.getD_some]
    rfl
  rw [key]
  exact ⟨rfl, rfl⟩

/-- C12 witness: the document `imageSizeDoc`, whose block is required. -/
theorem composite_single_block_witness :
    (parseFalAiParameterBlock "- **`image_size`** (`ImageSize`, _required_):\n  The size.").required
      = true ∧
    (parseMarkdownParameters imageSizeDoc).map Prod.fst = ["width", "height"] ∧
    (parseMarkdownParameters imageSizeDoc).lookup "image_size" = none :=
  have h := composite_single_block imageSizeDoc
    { text := imageSizeDoc,
      caps := [(1, "- **`image_size`** (`ImageSize`, _required_):\n  The size.".toList)] }
    "- **`image_size`** (`ImageSize`, _required_):\n  The size." rfl rfl rfl
  ⟨rfl, by rw [h.1]; rfl, h.2⟩

/-! ### The matcher on a text with unknown parts -/

theorem lit_eq_chars (text : String) : Regex.lit text = Regex.chars text.toList := rfl

/-- A literal matches exactly the texts that equal it up to the canonical form of the
characters. -/
theorem run_chars_iff (fl : Flags) (cs : List Char) :
    ∀ (s : MState) (k : MState → Option MState) (r : MState),
      (Regex.chars cs).run fl s k = some r ↔
        ∃ mid tail, s.after = mid ++ tail ∧ mid.map (canon fl) = cs.map (canon fl) ∧
          k ⟨mid.reverse ++ s.before, tail, s.caps⟩ = some r := by
  induction cs with
  | nil =>
    intro s k r
    simp only [Regex.chars, List.foldr, Regex.run, List.map_nil, List.map_eq_nil_iff]
    constructor
    · intro h; exact ⟨[], s.after, rfl, rfl, h⟩
    · rintro ⟨mid, tail, h1, h2, h3⟩
      subst h2
      simp only [List.nil_append, List.reverse_nil] at h1 h3
      rw [← h1] at h3
      exact h3
  | cons c cs ih =>
    intro s k r
    have hunf : (Regex.chars (c :: cs)).run fl s k =
        (match s.after with
          | x :: xs =>
            if canon fl x == canon fl c then
              (Regex.chars cs).run fl { s with before := x :: s.before, after := xs } k
            else none
          | [] => none) := rfl
    rw [hunf]
    cases hs : s.after with
    | nil =>
      simp only []
      constructor
      · intro h; cases h
      · rintro ⟨mid, tail, h1, h2, _⟩
        have : mid = [] := by
          cases mid with
          | nil => rfl
          | cons a b => simp at h1
        subst this
        simp at h2
    | cons x xs =>
      simp only []
      by_cases hc : (canon fl x == canon fl c) = true
      · simp only [hc, if_true]
        rw [ih]
        constructor
        · rintro ⟨mid, tail, h1, h2, h3⟩
          refine ⟨x :: mid, tail, ?_, ?_, ?_⟩
          · simp only [List.cons_append]; simp only [] at h1; rw [h1]
          · simp only [List.map_cons, h2, eq_of_beq hc]
          · simpa using h3
        · rintro ⟨mid, tail, h1, h2, h3⟩
          cases mid with
          | nil => simp at h2
          | cons a mid2 =>
            simp only [List.cons_append, List.cons.injEq] at h1
            simp only [List.map_cons, List.cons.injEq] at h2
            refine ⟨mid2, tail, h1.2, h2.2, ?_⟩
            rw [h1.1]
            simpa using h3
      · simp only [hc, Bool.false_eq_true, if_false]
        constructor
        · intro h; cases h
        · rintro ⟨mid, tail, h1, h2, _⟩
          cases mid with
          | nil => simp at h2
          | cons a mid2 =>
            simp only [List.cons_append, List.cons.injEq] at h1
            simp only [List.map_cons, List.cons.injEq] at h2
            rw [h1.1, h2.1] at hc
            simp at hc

/-- A literal at the head of the text is consumed. -/
theorem run_chars_exact (fl : Flags) (cs rest before : List Char) (caps : List (Nat × List Char))
    (k : MState → Option MState) :
    (Regex.chars cs).run fl ⟨before, cs ++ rest, caps⟩ k = k ⟨cs.reverse ++ before, rest, caps⟩ := by
  cases hk : k ⟨cs.reverse ++ before, rest, caps⟩ with
  | some r =>
    rw [run_chars_iff]
    exact ⟨cs, rest, rfl, rfl, hk⟩
  | none =>
    cases hr : (Regex.chars cs).run fl ⟨before, cs ++ rest, caps⟩ k with
    | none => rfl
    | some r =>
      rw [run_chars_iff] at hr
      obtain ⟨mid, tail, h1, h2, h3⟩ := hr
      simp only [] at h1 h3
      have hlen : mid.length = cs.length := by
        have := congrArg List.length h2
        simpa using this
      have hmid : mid = cs ∧ tail = rest := by
        have := List.append_inj h1.symm hlen
        exact ⟨this.1, this.2⟩
      rw [hmid.1, hmid.2, hk] at h3
      cases h3


theorem run_chars_append (fl : Flags) (a b : List Char) :
    ∀ (s : MState) (k : MState → Option MState),
      (Regex.chars (a ++ b)).run fl s k =
        (Regex.chars a).run fl s (fun t => (Regex.chars b).run fl t k) := by
  induction a with
  | nil => intro s k; rfl
  | cons c a ih =>
    intro s k
    show (match s.after with
          | x :: xs =>
            if canon fl x == canon fl c then
              (Regex.chars (a ++ b)).run fl { s with before := x :: s.before, after := xs } k
            else none
          | [] => none) = (match s.after with
          | x :: xs =>
            if canon fl x == canon fl c then
              (Regex.chars a).run fl { s with before := x :: s.before, after := xs }
                (fun t => (Regex.chars b).run fl t k)
            else none
          | [] => none)
    cases s.after with
    | nil => rfl
    | cons x xs =>
      simp only []
      split
      · exact ih _ _
      · rfl

/-- Two literals in a row are the literal of the joined text. -/
theorem run_seq_chars_chars (fl : Flags) (a b : List Char) (rest : Regex) (s : MState)
    (k : MState → Option MState) :
    (Regex.seq (Regex.chars a) (Regex.seq (Regex.chars b) rest)).run fl s k =
      (Regex.seq (Regex.chars (a ++ b)) rest).run fl s k := by
  show (Regex.chars a).run fl s (fun t => (Regex.chars b).run fl t (fun u => rest.run fl u k)) =
    (Regex.chars (a ++ b)).run fl s (fun u => rest.run fl u k)
  rw [run_chars_append]

theorem run_cls_cons (fl : Flags) (p : Char → Bool) (x : Char) (hx : p x = true)
    (before xs : List Char) (caps : List (Nat × List Char)) (k : MState → Option MState) :
    (Regex.cls p).run fl ⟨before, x :: xs, caps⟩ k = k ⟨x :: before, xs, caps⟩ := by
  simp [Regex.run, hx]

theorem run_cls_none (fl : Flags) (p : Char → Bool) (before rest : List Char)
    (hmax : rest.head?.all (fun c => !p c) = true)
    (caps : List (Nat × List Char)) (k : MState → Option MState) :
    (Regex.cls p).run fl ⟨before, rest, caps⟩ k = none := by
  cases rest with
  | nil => rfl
  | cons c cs =>
    have hc : p c = false := by simpa using hmax
    simp [Regex.run, hc]

/-- The greedy iteration of a character class over the run `xs` of its characters, when the
run cannot be extended and the rest of the pattern matches after it. -/
theorem starLoop_cls (fl : Flags) (p : Char → Bool) (k : MState → Option MState) (r : MState)
    (rest : List Char) (caps : List (Nat × List Char))
    (hmax : rest.head?.all (fun c => !p c) = true) :
    ∀ (xs : List Char) (n : Nat) (before : List Char), (∀ x ∈ xs, p x = true) → xs.length ≤ n →
      k ⟨xs.reverse ++ before, rest, caps⟩ = some r →
      starLoop ((Regex.cls p).run fl) true n ⟨before, xs ++ rest, caps⟩ k = some r := by
  intro xs
  induction xs with
  | nil =>
    intro n before _ _ hk
    simp only [List.reverse_nil, List.nil_append] at hk ⊢
    cases n with
    | zero => exact hk
    | succ n =>
      show ((Regex.cls p).run fl ⟨before, rest, caps⟩ _).orElse (fun _ => k ⟨before, rest, caps⟩)
        = some r
      rw [run_cls_none fl p before rest hmax]
      exact hk
  | cons x xs ih =>
    intro n before hall hlen hk
    cases n with
    | zero => simp at hlen
    | succ n =>
      have hx : p x = true := hall x (List.mem_cons_self _ _)
      have hrec := ih n (x :: before) (fun y hy => hall y (List.mem_cons_of_mem _ hy))
        (by simpa using hlen) (by simpa using hk)
      show ((Regex.cls p).run fl ⟨before, x :: (xs ++ rest), caps⟩ _).orElse
        (fun _ => k ⟨before, x :: (xs ++ rest), caps⟩) = some r
      rw [run_cls_cons fl p x hx]
      simp only [hrec]
      rw [if_pos (by simp)]
      rfl

/-- The pattern `[p]*` (greedy) over the run `xs`. -/
theorem run_star_cls (fl : Flags) (p : Char → Bool) (k : MState → Option MState) (r : MState)
    (xs rest before : List Char) (caps : List (Nat × List Char))
    (hall : ∀ x ∈ xs, p x = true) (hmax : rest.head?.all (fun c => !p c) = true)
    (hk : k ⟨xs.reverse ++ before, rest, caps⟩ = some r) :
    (Regex.star true (.cls p)).run fl ⟨before, xs ++ rest, caps⟩ k = some r := by
  show starLoop ((Regex.cls p).run fl) true (xs ++ rest).length ⟨before, xs ++ rest, caps⟩ k = _
  exact starLoop_cls fl p k r rest caps hmax xs _ before hall (by simp) hk

theorem run_plus (fl : Flags) (g : Bool) (r : Regex) (s : MState) (k : MState → Option MState) :
    (Regex.plus g r).run fl s k = r.run fl s (fun t => (Regex.star g r).run fl t k) := rfl

theorem run_group (fl : Flags) (n : Nat) (r : Regex) (s : MState) (k : MState → Option MState) :
    (Regex.group n r).run fl s k = r.run fl s (fun t =>
      k { t with caps := (n, s.after.take (s.after.length - t.after.length)) :: t.caps }) := rfl

theorem run_seq (fl : Flags) (a b : Regex) (s : MState) (k : MState → Option MState) :
    (Regex.seq a b).run fl s k = a.run fl s (fun t => b.run fl t k) := rfl

theorem take_append_sub (xs rest : List Char) :
    (xs ++ rest).take ((xs ++ rest).length - rest.length) = xs := by
  have hlen : (xs ++ rest).length - rest.length = xs.length := by simp
  rw [hlen, List.take_left]

/-- The pattern `[p]+` (greedy) over the non-empty run `x :: xs`. -/
theorem run_plus_cls (fl : Flags) (p : Char → Bool) (k : MState → Option MState) (r : MState)
    (x : Char) (xs rest before : List Char) (caps : List (Nat × List Char))
    (hall : ∀ y ∈ x :: xs, p y = true) (hmax : rest.head?.all (fun c => !p c) = true)
    (hk : k ⟨(x :: xs).reverse ++ before, rest, caps⟩ = some r) :
    (Regex.plus true (.cls p)).run fl ⟨before, x :: xs ++ rest, caps⟩ k = some r := by
  have hx : p x = true := hall x (List.mem_cons_self _ _)
  show (Regex.cls p).run fl ⟨before, x :: xs ++ rest, caps⟩
    (fun t => (Regex.star true (.cls p)).run fl t k) = _
  rw [List.cons_append, run_cls_cons fl p x hx]
  show starLoop ((Regex.cls p).run fl) true (xs ++ rest).length ⟨x :: before, xs ++ rest, caps⟩ k = _
  exact starLoop_cls fl p k r rest caps hmax xs _ (x :: before)
    (fun y hy => hall y (List.mem_cons_of_mem _ hy)) (by simp) (by simpa using hk)

/-- The search moves over a stretch of the text where the pattern matches nowhere. -/
theorem searchFrom_skip (fl : Flags) (r : Regex) (rest : List Char)
    (caps : List (Nat × List Char)) (n : Nat) :
    ∀ (pre before : List Char),
      (∀ a1 a2, pre = a1 ++ a2 → a2 ≠ [] →
        r.run fl ⟨a1.reverse ++ before, a2 ++ rest, caps⟩ some = none) →
      searchFrom fl r (pre.length + n) ⟨before, pre ++ rest, caps⟩ =
        searchFrom fl r n ⟨pre.reverse ++ before, rest, caps⟩ := by
  intro pre
  induction pre with
  | nil => intro before _; simp
  | cons x xs ih =>
    intro before hnone
    have h0 := hnone [] (x :: xs) rfl (by simp)
    simp only [List.reverse_nil, List.nil_append] at h0
    have hfuel : (x :: xs).length + n = (xs.length + n) + 1 := by simp; omega
    rw [hfuel]
    show (match r.run fl ⟨before, x :: xs ++ rest, caps⟩ some with
      | some t => some ((⟨before, x :: xs ++ rest, caps⟩ : MState), t)
      | none => searchFrom fl r (xs.length + n) ⟨x :: before, xs ++ rest, caps⟩) = _
    rw [h0]
    show searchFrom fl r (xs.length + n) ⟨x :: before, xs ++ rest, caps⟩ = _
    rw [ih (x :: before)]
    · simp
    · intro a1 a2 h1 h2
      have := hnone (x :: a1) a2 (by rw [h1]; rfl) h2
      simpa using this

/-- The search stops where the pattern matches. -/
theorem searchFrom_hit (fl : Flags) (r : Regex) (n : Nat) (s t : MState)
    (h : r.run fl s some = some t) : searchFrom fl r n s = some (s, t) := by
  cases n with
  | zero => simp [searchFrom, h]
  | succ n => simp [searchFrom, h]

theorem startsNowhere_drop (fl : Flags) (lit rest : List Char) :
    ∀ a1 a2 : List Char, startsNowhere fl lit (a1 ++ a2) rest = true →
      startsNowhere fl lit a2 rest = true := by
  intro a1
  induction a1 with
  | nil => intro a2 h; exact h
  | cons x xs ih =>
    intro a2 h
    simp only [List.cons_append, startsNowhere, Bool.and_eq_true] at h
    exact ih a2 h.2

/-- A pattern that begins with a literal matches at none of the positions where the literal
does not begin. -/
theorem run_none_of_startsNowhere (fl : Flags) (lit pre rest : List Char) (r : Regex)
    (h : startsNowhere fl lit pre rest = true) (a1 a2 : List Char) (hpre : pre = a1 ++ a2)
    (ha2 : a2 ≠ []) (before : List Char) (caps : List (Nat × List Char))
    (k : MState → Option MState) :
    (Regex.seq (Regex.chars lit) r).run fl ⟨before, a2 ++ rest, caps⟩ k = none := by
  rw [hpre] at h
  have h2 := startsNowhere_drop fl lit rest a1 a2 h
  cases a2 with
  | nil => exact absurd rfl ha2
  | cons x xs =>
    simp only [startsNowhere, Bool.and_eq_true, Bool.not_eq_true'] at h2
    cases hr : (Regex.seq (Regex.chars lit) r).run fl ⟨before, x :: xs ++ rest, caps⟩ k with
    | none => rfl
    | some t =>
      exfalso
      have hr2 : (Regex.chars lit).run fl ⟨before, x :: xs ++ rest, caps⟩
          (fun u => r.run fl u k) = some t := hr
      rw [run_chars_iff] at hr2
      obtain ⟨mid, tail, hm, hmap, _⟩ := hr2
      simp only [] at hm
      have : (lit.map (canon fl)).isPrefixOf ((x :: xs ++ rest).map (canon fl)) = true := by
        rw [List.isPrefixOf_iff_prefix]
        rw [show x :: xs ++ rest = mid ++ tail from hm, List.map_append, hmap]
        exact List.prefix_append _ _
      rw [this] at h2
      cases h2.1


theorem char_le_iff (a b : Char) : a ≤ b ↔ a.toNat ≤ b.toNat := by
  rw [Char.le_def]
  exact Iff.rfl

theorem toNat_ofNat_small (n : Nat) (h : n < 55296) : (Char.ofNat n).toNat = n := by
  unfold Char.ofNat
  have hv : n.isValidChar := Or.inl h
  rw [dif_pos hv]
  rfl

/-- Against a character that is no ASCII letter, the comparison of canonical forms is the
comparison of the characters. -/
theorem canon_beq (fl : Flags) (x c : Char) (hc : ¬ (65 ≤ c.toNat ∧ c.toNat ≤ 90))
    (hc2 : ¬ (97 ≤ c.toNat ∧ c.toNat ≤ 122)) :
    (canon fl x == canon fl c) = (x == c) := by
  have hcc : canon fl c = c := by
    unfold canon
    rw [if_neg]
    intro h
    simp only [Bool.and_eq_true, decide_eq_true_eq, char_le_iff] at h
    exact hc2 ⟨h.1.2, h.2⟩
  rw [hcc]
  unfold canon
  split
  · rename_i h
    simp only [Bool.and_eq_true, decide_eq_true_eq, char_le_iff] at h
    have h1 : 97 ≤ x.toNat := h.1.2
    have h2 : x.toNat ≤ 122 := h.2
    have hx : (x == c) = false := by
      rw [beq_eq_false_iff_ne]
      intro hxc
      rw [hxc] at h1 h2
      exact hc2 ⟨h1, h2⟩
    rw [hx, beq_eq_false_iff_ne]
    intro hxc
    have := congrArg Char.toNat hxc
    rw [toNat_ofNat_small _ (by omega)] at this
    exact hc ⟨by omega, by omega⟩
  · rfl

theorem run_chr_eq (fl : Flags) (c : Char) (before text : List Char)
    (caps : List (Nat × List Char)) (k : MState → Option MState) :
    (Regex.chr c).run fl ⟨before, text, caps⟩ k =
      match text with
      | x :: xs => if canon fl x == canon fl c then k ⟨x :: before, xs, caps⟩ else none
      | [] => none := rfl

/-- A literal matches where its canonical form is a prefix of the canonical form of the text. -/
theorem run_chars_eq (fl : Flags) (cs : List Char) :
    ∀ (text before : List Char) (caps : List (Nat × List Char)) (k : MState → Option MState),
      (Regex.chars cs).run fl ⟨before, text, caps⟩ k =
        if (cs.map (canon fl)).isPrefixOf (text.map (canon fl)) then
          k ⟨(text.take cs.length).reverse ++ before, text.drop cs.length, caps⟩
        else none := by
  induction cs with
  | nil => intro text before caps k; simp [Regex.chars, Regex.run]
  | cons c cs ih =>
    intro text before caps k
    show (Regex.chr c).run fl ⟨before, text, caps⟩ (fun t => (Regex.chars cs).run fl t k) = _
    rw [run_chr_eq]
    cases text with
    | nil => simp
    | cons x xs =>
      simp only [List.map_cons, List.isPrefixOf, List.length_cons, List.take_succ_cons,
        List.drop_succ_cons, List.reverse_cons, List.append_assoc, List.singleton_append]
      by_cases hx : canon fl x = canon fl c
      · simp only [hx, beq_self_eq_true, if_true, Bool.true_and]
        exact ih xs (x :: before) caps k
      · have h1 : (canon fl x == canon fl c) = false := by simpa using hx
        have h2 : (canon fl c == canon fl x) = false := by simpa using Ne.symm hx
        simp [h1, h2]

/-- The greedy iteration of a character class takes the longest run of its characters, when
the rest of the pattern cannot match in front of a character of the class. -/
theorem starLoop_cls_eq (fl : Flags) (p : Char → Bool) (k : MState → Option MState)
    (caps : List (Nat × List Char))
    (hk : ∀ b x xs, p x = true → k ⟨b, x :: xs, caps⟩ = none) :
    ∀ (text : List Char) (n : Nat) (before : List Char), (text.takeWhile p).length ≤ n →
      starLoop ((Regex.cls p).run fl) true n ⟨before, text, caps⟩ k =
        k ⟨(text.takeWhile p).reverse ++ before, text.dropWhile p, caps⟩ := by
  intro text
  induction text with
  | nil =>
    intro n before _
    cases n with
    | zero => rfl
    | succ n => rfl
  | cons x xs ih =>
    intro n before hn
    cases hx : p x with
    | false =>
      simp only [List.takeWhile_cons, hx, List.dropWhile_cons, List.reverse_nil,
        List.nil_append, Bool.false_eq_true, if_false]
      cases n with
      | zero => rfl
      | succ n =>
        show ((Regex.cls p).run fl ⟨before, x :: xs, caps⟩ _).orElse
          (fun _ => k ⟨before, x :: xs, caps⟩) = _
        rw [run_cls_none fl p before (x :: xs) (by simp [hx])]
        rfl
    | true =>
      simp only [List.takeWhile_cons, hx, if_true, List.length_cons] at hn
      cases n with
      | zero => omega
      | succ n =>
        have hrec := ih n (x :: before) (by omega)
        show ((Regex.cls p).run fl ⟨before, x :: xs, caps⟩ _).orElse
          (fun _ => k ⟨before, x :: xs, caps⟩) = _
        rw [run_cls_cons fl p x hx]
        simp only [hrec]
        rw [if_pos (by simp), hk before x xs hx]
        simp only [List.takeWhile_cons, hx, if_true, List.dropWhile_cons, List.reverse_cons,
          List.append_assoc, List.singleton_append]
        cases k ⟨(xs.takeWhile p).reverse ++ x :: before, xs.dropWhile p, caps⟩ <;> rfl

theorem run_star_cls_eq (fl : Flags) (p : Char → Bool) (k : MState → Option MState)
    (caps : List (Nat × List Char))
    (hk : ∀ b x xs, p x = true → k ⟨b, x :: xs, caps⟩ = none) (text before : List Char) :
    (Regex.star true (.cls p)).run fl ⟨before, text, caps⟩ k =
      k ⟨(text.takeWhile p).reverse ++ before, text.dropWhile p, caps⟩ :=
  starLoop_cls_eq fl p k caps hk text _ before (List.Sublist.length_le (List.takeWhile_sublist _))

theorem run_plus_cls_eq (fl : Flags) (p : Char → Bool) (k : MState → Option MState)
    (caps : List (Nat × List Char))
    (hk : ∀ b x xs, p x = true → k ⟨b, x :: xs, caps⟩ = none) (text before : List Char) :
    (Regex.plus true (.cls p)).run fl ⟨before, text, caps⟩ k =
      if text.takeWhile p = [] then none
      else k ⟨(text.takeWhile p).reverse ++ before, text.dropWhile p, caps⟩ := by
  rw [run_plus]
  cases text with
  | nil => rfl
  | cons x xs =>
    cases hx : p x with
    | false =>
      rw [run_cls_none fl p before (x :: xs) (by simp [hx])]
      simp [hx]
    | true =>
      rw [run_cls_cons fl p x hx, run_star_cls_eq fl p k caps hk]
      simp [hx]

/-- The capture groups of the leftmost match, when the groups of a match at a position are
known as a function of the text from that position on. -/
theorem searchFrom_caps {α : Type} (fl : Flags) (r : Regex) (f : List Char → Option α)
    (g : α → List (Nat × List Char))
    (h : ∀ before text, (r.run fl ⟨before, text, []⟩ some).map (fun t => t.caps) = (f text).map g) :
    ∀ (text : List Char) (n : Nat) (before : List Char), text.length ≤ n →
      (searchFrom fl r n ⟨before, text, []⟩).map (fun st => st.2.caps) =
        (firstAt f text).map g := by
  intro text
  induction text with
  | nil =>
    intro n before _
    have h0 := h before []
    cases n with
    | zero =>
      show ((r.run fl ⟨before, [], []⟩ some).map _).map _ = (f []).map g
      rw [← h0]
      cases r.run fl ⟨before, [], []⟩ some <;> rfl
    | succ n =>
      show (match r.run fl ⟨before, [], []⟩ some with
        | some t => some ((⟨before, [], []⟩ : MState), t)
        | none => none).map _ = _
      show _ = (f []).map g
      rw [← h0]
      cases r.run fl ⟨before, [], []⟩ some <;> rfl
  | cons x xs ih =>
    intro n before hn
    have h0 := h before (x :: xs)
    cases n with
    | zero => simp at hn
    | succ n =>
      show (match r.run fl ⟨before, x :: xs, []⟩ some with
        | some t => some ((⟨before, x :: xs, []⟩ : MState), t)
        | none => searchFrom fl r n ⟨x :: before, xs, []⟩).map _ =
          ((f (x :: xs)).orElse (fun _ => firstAt f xs)).map g
      cases hr : r.run fl ⟨before, x :: xs, []⟩ some with
      | some t =>
        rw [hr] at h0
        cases hf : f (x :: xs) with
        | none => rw [hf] at h0; cases h0
        | some a =>
          rw [hf] at h0
          exact h0
      | none =>
        rw [hr] at h0
        cases hf : f (x :: xs) with
        | some a => rw [hf] at h0; cases h0
        | none => exact ih n (x :: before) (by simpa using hn)

theorem exec_group_one {α : Type} (fl : Flags) (r : Regex) (f : List Char → Option α)
    (g : α → List (Nat × List Char))
    (h : ∀ before text, (r.run fl ⟨before, text, []⟩ some).map (fun t => t.caps) = (f text).map g)
    (input : String) (n : Nat) :
    (r.exec fl input).map (fun m => m.group n) =
      (firstAt f input.toList).map (fun a => (Match.mk "" (g a)).group n) := by
  have hs := searchFrom_caps fl r f g h input.toList input.length [] (Nat.le_refl _)
  show ((searchFrom fl r input.length ⟨[], input.toList, []⟩).map _).map _ = _
  cases hsf : searchFrom fl r input.length ⟨[], input.toList, []⟩ with
  | none =>
    rw [hsf] at hs
    cases hf : firstAt f input.toList with
    | none => rfl
    | some a => rw [hf] at hs; cases hs
  | some st =>
    rw [hsf] at hs
    cases hf : firstAt f input.toList with
    | none => rw [hf] at hs; cases hs
    | some a =>
      rw [hf] at hs
      simp only [Option.map_some', Option.some.injEq] at hs
      simp only [Option.map_some', Match.group, hs]

theorem run_chr_cons (fl : Flags) (c : Char) (before xs : List Char)
    (caps : List (Nat × List Char)) (k : MState → Option MState) :
    (Regex.chr c).run fl ⟨before, c :: xs, caps⟩ k = k ⟨c :: before, xs, caps⟩ := by
  simp [Regex.run]

theorem titlePattern_run (s : MState) (k : MState → Option MState) :
    titlePattern.run flagsM s k =
      Regex.bol.run flagsM s (fun s1 => (Regex.chr '#').run flagsM s1
        (fun s2 => (Regex.plus true (.cls isWhiteSpace)).run flagsM s2
          (fun s3 =>
            (Regex.group 1 (.plus true (.cls (fun c => !isLineTerminator c)))).run flagsM s3
              k))) := rfl

theorem title_run_none (before after : List Char) (caps : List (Nat × List Char))
    (k : MState → Option MState) (h : beginsHeading before.head? after = false) :
    titlePattern.run flagsM ⟨before, after, caps⟩ k = none := by
  rw [titlePattern_run]
  have hrest : ∀ b : List Char, (Regex.chr '#').run flagsM ⟨b, after, caps⟩
      (fun s2 => (Regex.plus true (.cls isWhiteSpace)).run flagsM s2
        (fun s3 =>
          (Regex.group 1 (.plus true (.cls (fun c => !isLineTerminator c)))).run flagsM s3 k))
      = none ∨ beginsHeading none after = true := by
    intro b
    match after with
    | [] => left; rfl
    | c :: [] =>
      left
      by_cases hc : c = '#'
      · subst hc; rw [run_chr_cons]; rfl
      · simp [Regex.run, flagsM, canon, hc]
    | c :: d :: rest =>
      by_cases hc : c = '#'
      · subst hc
        cases hd : isWhiteSpace d with
        | true => right; simp [beginsHeading, hd]
        | false =>
          left
          rw [run_chr_cons]
          rw [run_plus]
          exact run_cls_none flagsM isWhiteSpace ('#' :: b) (d :: rest) (by simp [hd]) caps _
      · left; simp [Regex.run, flagsM, canon, hc]
  cases before with
  | cons b bs =>
    cases hb : isLineTerminator b with
    | false => simp [Regex.run, flagsM, hb]
    | true =>
      have hbol : ∀ k2, Regex.bol.run flagsM ⟨b :: bs, after, caps⟩ k2 = k2 ⟨b :: bs, after, caps⟩ := by
        intro k2; simp [Regex.run, flagsM, hb]
      rw [hbol]
      rcases hrest (b :: bs) with h1 | h1
      · exact h1
      · simp [beginsHeading, hb] at h h1
        rw [h1] at h; cases h
  | nil =>
    have hbol : ∀ k2, Regex.bol.run flagsM ⟨[], after, caps⟩ k2 = k2 ⟨[], after, caps⟩ := by
      intro k2; rfl
    rw [hbol]
    rcases hrest [] with h1 | h1
    · exact h1
    · simp at h
      rw [h1] at h; cases h

theorem noHeadingBefore_split (rest : List Char) :
    ∀ (a1 a2 before : List Char), a2 ≠ [] →
      noHeadingBefore before.head? (a1 ++ a2) rest = true →
      beginsHeading (a1.reverse ++ before).head? (a2 ++ rest) = false := by
  intro a1
  induction a1 with
  | nil =>
    intro a2 before ha2 h
    cases a2 with
    | nil => exact absurd rfl ha2
    | cons x xs =>
      simp only [List.nil_append, noHeadingBefore, Bool.and_eq_true, Bool.not_eq_true'] at h
      simpa using h.1
  | cons y ys ih =>
    intro a2 before ha2 h
    simp only [List.cons_append, noHeadingBefore, Bool.and_eq_true] at h
    have := ih a2 (y :: before) ha2 (by simpa using h.2)
    simpa using this

theorem title_run_hit (before ws title post : List Char)
    (hstart : before.head?.all isLineTerminator = true)
    (hws : ws ≠ [] ∧ ∀ c ∈ ws, isWhiteSpace c = true)
    (htitle : ∀ c ∈ title, isLineTerminator c = false)
    (hfirst : (title.head?.map isWhiteSpace) = some false)
    (hpost : post.head?.all isLineTerminator = true) :
    titlePattern.run flagsM ⟨before, '#' :: (ws ++ (title ++ post)), []⟩ some =
      some ⟨title.reverse ++ (ws.reverse ++ '#' :: before), post, [(1, title)]⟩ := by
  obtain ⟨hne, hall⟩ := hws
  cases ws with
  | nil => exact absurd rfl hne
  | cons w ws =>
    cases title with
    | nil => simp at hfirst
    | cons t ts =>
      have hbol : ∀ k, Regex.bol.run flagsM
          ⟨before, '#' :: ((w :: ws) ++ ((t :: ts) ++ post)), []⟩ k =
          k ⟨before, '#' :: ((w :: ws) ++ ((t :: ts) ++ post)), []⟩ := by
        intro k
        cases before with
        | nil => rfl
        | cons b bs =>
          have hb : isLineTerminator b = true := by simpa using hstart
          simp [Regex.run, flagsM, hb]
      rw [titlePattern_run, hbol, run_chr_cons]
      apply run_plus_cls flagsM isWhiteSpace _ _ w ws (t :: ts ++ post) ('#' :: before) [] hall
      · have ht : isWhiteSpace t = false := by simpa using hfirst
        simp [ht]
      · show (Regex.plus true (.cls (fun c => !isLineTerminator c))).run flagsM
          ⟨(w :: ws).reverse ++ '#' :: before, t :: ts ++ post, []⟩ _ = _
        apply run_plus_cls flagsM (fun c => !isLineTerminator c) _ _ t ts post _ []
        · intro c hc
          simp [htitle c hc]
        · cases post with
          | nil => rfl
          | cons p ps =>
            have hp : isLineTerminator p = true := by simpa using hpost
            simp [hp]
        · have hlen : ts.length + post.length + 1 - post.length = (t :: ts).length := by
            simp; omega
          have htake : List.take (ts.length + post.length + 1 - post.length) (t :: (ts ++ post))
              = t :: ts := by
            rw [hlen, ← List.cons_append, List.take_left]
          simp [htake]

theorem titlePattern_tail_none (before : List Char) (k : MState → Option MState) :
    titlePattern.run flagsM ⟨before, [], []⟩ k = none := by
  apply title_run_none
  simp [beginsHeading]

theorem title_exec_none (markdown : String)
    (h : noHeadingBefore none markdown.toList [] = true) :
    titlePattern.exec flagsM markdown = none := by
  have hs := searchFrom_skip flagsM titlePattern [] [] 0 markdown.toList []
    (fun a1 a2 h1 h2 => by
      apply title_run_none
      apply noHeadingBefore_split [] a1 a2 [] h2
      rw [← h1]; exact h)
  simp only [List.append_nil, Nat.add_zero] at hs
  show (searchFrom flagsM titlePattern markdown.toList.length ⟨[], markdown.toList, []⟩).map _ = none
  rw [hs]
  simp [searchFrom, titlePattern_tail_none]

theorem title_exec_some (pre ws title post : List Char)
    (hstart : pre.getLast?.all isLineTerminator = true)
    (hbefore : noHeadingBefore none pre ('#' :: ws ++ title ++ post) = true)
    (hws : ws ≠ [] ∧ ∀ c ∈ ws, isWhiteSpace c = true)
    (htitle : ∀ c ∈ title, isLineTerminator c = false)
    (hfirst : (title.head?.map isWhiteSpace) = some false)
    (hpost : post.head?.all isLineTerminator = true) :
    ((titlePattern.exec flagsM (String.mk (pre ++ '#' :: ws ++ title ++ post))).map
      (fun m => m.group 1)) = some (some (String.mk title)) := by
  have hs := searchFrom_skip flagsM titlePattern ('#' :: ws ++ title ++ post) []
    ('#' :: ws ++ title ++ post).length pre []
    (fun a1 a2 h1 h2 => by
      apply title_run_none
      apply noHeadingBefore_split _ a1 a2 [] h2
      rw [← h1]; exact hbefore)
  have hhit := title_run_hit (pre.reverse ++ []) ws title post
    (by simpa [List.head?_reverse] using hstart) hws htitle hfirst hpost
  have hlen : (String.mk (pre ++ '#' :: ws ++ title ++ post)).length =
      pre.length + ('#' :: ws ++ title ++ post).length := by
    simp [String.length]
  show ((searchFrom flagsM titlePattern (String.mk (pre ++ '#' :: ws ++ title ++ post)).length
    ⟨[], pre ++ '#' :: ws ++ title ++ post, []⟩).map _).map _ = _
  rw [hlen]
  have hassoc : pre ++ '#' :: ws ++ title ++ post = pre ++ ('#' :: ws ++ title ++ post) := by simp
  have hassoc2 : '#' :: ws ++ title ++ post = '#' :: (ws ++ (title ++ post)) := by simp
  rw [hassoc, hs, hassoc2, searchFrom_hit _ _ _ _ _ hhit]
  simp [Match.group]

theorem collapse_chars (l : List Char) :
    ∀ (b : Bool), ∀ c ∈ collapseSpacesAux b (l.filter (fun c => isAsciiAlnum c || isWhiteSpace c)),
      isAsciiAlnum c = true ∨ c = '_' := by
  induction l with
  | nil => intro b c hc; simp [collapseSpacesAux] at hc
  | cons x xs ih =>
    intro b c hc
    by_cases hx : (isAsciiAlnum x || isWhiteSpace x) = true
    · rw [List.filter_cons, if_pos hx] at hc
      by_cases hw : isWhiteSpace x = true
      · cases b with
        | true =>
          simp only [collapseSpacesAux, hw, if_true] at hc
          exact ih _ c hc
        | false =>
          simp only [collapseSpacesAux, hw, if_true, Bool.false_eq_true, if_false,
            List.mem_cons] at hc
          rcases hc with hc | hc
          · exact Or.inr hc
          · exact ih _ c hc
      · have ha : isAsciiAlnum x = true := by
          simp only [Bool.or_eq_true] at hx
          rcases hx with hx | hx
          · exact hx
          · exact absurd hx hw
        simp only [collapseSpacesAux, hw, Bool.false_eq_true, if_false, List.mem_cons] at hc
        rcases hc with hc | hc
        · rw [hc]; exact Or.inl ha
        · exact ih _ c hc
    · rw [List.filter_cons, if_neg hx] at hc
      exact ih _ c hc

theorem modelName_chars (markdown : String) :
    ∀ c ∈ (markdownModelName markdown).toList, isAsciiAlnum c = true ∨ c = '_' := by
  unfold markdownModelName
  cases titlePattern.exec flagsM markdown with
  | none => intro c hc; simp at hc
  | some m => exact collapse_chars _ false

/-- C17: when the first line of a markdown document that begins with `#` followed by white space
is the heading `# T` (the document is `pre`, `#`, white space, `T`, `post`, with the `#` at the
start of a line, no such line starting inside `pre`, white space being what `\s` matches, and
`T` the non-empty text from the first character that is no white space up to the end of its line),
the model name is `T` without the characters that are neither alphanumeric nor white space, and
with each maximal run of white space then replaced by one underscore; the model name of any
document has only characters of `[A-Za-z0-9_]`; and a document without such a line has the empty
model name. -/
theorem modelName_of_heading (pre ws title post : List Char)
    (hstart : pre.getLast?.all isLineTerminator = true)
    (hbefore : noHeadingBefore none pre ('#' :: ws ++ title ++ post) = true)
    (hws : ws ≠ [] ∧ ∀ c ∈ ws, isWhiteSpace c = true)
    (htitle : ∀ c ∈ title, isLineTerminator c = false)
    (hfirst : (title.head?.map isWhiteSpace) = some false)
    (hpost : post.head?.all isLineTerminator = true) :
    (parseMarkdownSchema (String.mk (pre ++ '#' :: ws ++ title ++ post))).modelName =
        collapseSpaces (removeNonAlnumSpace (String.mk title)) ∧
      (∀ markdown : String, ∀ c ∈ (parseMarkdownSchema markdown).modelName.toList,
        isAsciiAlnum c = true ∨ c = '_') ∧
      (∀ markdown : String, noHeadingBefore none markdown.toList [] = true →
        (parseMarkdownSchema markdown).modelName = "") := by
  refine ⟨?_, modelName_chars, ?_⟩
  · show markdownModelName _ = _
    have h := title_exec_some pre ws title post hstart hbefore hws htitle hfirst hpost
    unfold markdownModelName
    cases hm : titlePattern.exec flagsM (String.mk (pre ++ '#' :: ws ++ title ++ post)) with
    | none => rw [hm] at h; simp at h
    | some m =>
      rw [hm] at h
      simp only [Option.map_some', Option.some.injEq] at h
      simp only [h, Option.getD_some]
  · intro markdown h
    show markdownModelName _ = _
    unfold markdownModelName
    rw [title_exec_none markdown h]

/-- C17, an instance: the heading `#  Flux Pro (v1.1)` after a line of text gives the model name
`Flux_Pro_v11`, and a document without a heading line gives the empty name. -/
theorem modelName_of_heading_witness :
    (parseMarkdownSchema headingDoc).modelName = "Flux_Pro_v11" ∧
      (parseMarkdownSchema "no heading #here").modelName = "" :=
  have h := modelName_of_heading "intro\n".toList "  ".toList "Flux Pro (v1.1)".toList
    "\nmore".toList (by decide) (by decide) (by decide) (by decide) (by decide) (by decide)
  ⟨h.1.trans (by decide), h.2.2 "no heading #here" (by decide)⟩

theorem take_sub_dropWhile (p : Char → Bool) (r : List Char) :
    r.take (r.length - (r.dropWhile p).length) = r.takeWhile p := by
  have h := take_append_sub (r.takeWhile p) (r.dropWhile p)
  rwa [List.takeWhile_append_dropWhile] at h

theorem backtick_not_letter : ¬ (65 ≤ backtick.toNat ∧ backtick.toNat ≤ 90) ∧
    ¬ (97 ≤ backtick.toNat ∧ backtick.toNat ≤ 122) := by decide

theorem canon_beq_backtick (fl : Flags) (x : Char) :
    (canon fl x == canon fl backtick) = (x == backtick) :=
  canon_beq fl x backtick backtick_not_letter.1 backtick_not_letter.2

theorem tickedPattern_seq (fl : Flags) (s : MState) (k : MState → Option MState) :
    tickedPattern.run fl s k = (Regex.chr backtick).run fl s (fun t =>
      (Regex.group 1 .noTicks).run fl t (fun u => (Regex.chr backtick).run fl u k)) := rfl

theorem tickedPattern_run (fl : Flags) (before text : List Char) :
    (tickedPattern.run fl ⟨before, text, []⟩ some).map (fun t => t.caps) =
      (tickedValue text).map (fun v => [(1, v)]) := by
  show ((Regex.chr backtick).run fl ⟨before, text, []⟩ (fun t =>
    (Regex.group 1 .noTicks).run fl t (fun u => (Regex.chr backtick).run fl u some))).map _ = _
  rw [run_chr_eq]
  cases text with
  | nil => rfl
  | cons c r =>
    simp only [canon_beq_backtick, tickedValue]
    cases hc : c == backtick with
    | false => simp
    | true =>
      simp only [if_true, Bool.true_and]
      rw [run_group]
      show ((Regex.plus true (.cls (fun x => x != backtick))).run fl ⟨c :: before, r, []⟩ _).map _
        = _
      rw [run_plus_cls_eq]
      · simp only [take_sub_dropWhile]
        cases htw : r.takeWhile (fun x => x != backtick) with
        | nil => simp
        | cons y ys =>
          simp only [reduceCtorEq, if_false, List.isEmpty_cons, Bool.not_false, Bool.true_and]
          rw [run_chr_eq]
          cases hdw : r.dropWhile (fun x => x != backtick) with
          | nil => simp
          | cons e es =>
            simp only [canon_beq_backtick, List.head?_cons]
            cases he : e == backtick with
            | false =>
              have : (some e == some backtick) = false := by
                simpa using he
              simp [this]
            | true =>
              have : (some e == some backtick) = true := by
                simpa using he
              simp [this]
      · intro b x xs hx
        show (Regex.chr backtick).run fl _ some = none
        rw [run_chr_eq]
        have hx2 : (x == backtick) = false := by simpa using hx
        simp only [canon_beq_backtick, hx2, Bool.false_eq_true, if_false]

theorem whiteSpace_not_backtick (x : Char) (hx : isWhiteSpace x = true) :
    (x == backtick) = false := by
  rw [beq_eq_false_iff_ne]
  intro h
  rw [h] at hx
  revert hx
  decide

theorem labeledPattern_run (label : String) (before text : List Char) :
    ((labeledPattern "" label).run flagsI ⟨before, text, []⟩ some).map (fun t => t.caps) =
      (fieldValue label text).map (fun v => [(1, v)]) := by
  have h0 : (labeledPattern "" label).run flagsI ⟨before, text, []⟩ some =
      (Regex.seq (Regex.chars "**".toList) (Regex.seq (Regex.chars label.toList)
        (Regex.seq (Regex.chars "**:".toList) (Regex.seq Regex.ws tickedPattern)))).run flagsI
        ⟨before, text, []⟩ some := rfl
  rw [h0, run_seq_chars_chars, run_seq_chars_chars, run_seq, run_chars_eq]
  unfold fieldValue
  simp only []
  split
  · rw [run_seq]
    show ((Regex.star true (.cls isWhiteSpace)).run flagsI _ _).map _ = _
    rw [run_star_cls_eq]
    · exact tickedPattern_run flagsI _ _
    · intro b x xs hx
      rw [tickedPattern_seq, run_chr_eq]
      simp only [canon_beq_backtick, whiteSpace_not_backtick x hx, Bool.false_eq_true, if_false]
  · rfl

theorem labeledPattern_lead_run (label : String) (before text : List Char) :
    ((labeledPattern "- " label).run flagsI ⟨before, text, []⟩ some).map (fun t => t.caps) =
      (if ("- ".toList.map (canon flagsI)).isPrefixOf (text.map (canon flagsI)) then
        fieldValue label (text.drop 2) else none).map (fun v => [(1, v)]) := by
  have h0 : (labeledPattern "- " label).run flagsI ⟨before, text, []⟩ some =
      (Regex.chars "- ".toList).run flagsI ⟨before, text, []⟩
        (fun t => (labeledPattern "" label).run flagsI t some) := rfl
  rw [h0, run_chars_eq]
  split
  · exact labeledPattern_run label _ _
  · rfl

theorem firstAt_none {α : Type} (f : List Char → Option α) :
    ∀ text : List Char, firstAt f text = none ↔ ∀ a b, text = a ++ b → f b = none := by
  intro text
  induction text with
  | nil =>
    constructor
    · intro h a b hab
      have hb : b = [] := (List.append_eq_nil.mp hab.symm).2
      rw [hb]; exact h
    · intro h
      exact h [] [] rfl
  | cons x xs ih =>
    constructor
    · intro h a b hab
      have h1 : f (x :: xs) = none := by
        cases hf : f (x :: xs) with
        | none => rfl
        | some v => simp [firstAt, hf] at h
      have h2 : firstAt f xs = none := by
        simpa [firstAt, h1] using h
      cases a with
      | nil =>
        have hb : b = x :: xs := hab.symm
        rw [hb]; exact h1
      | cons y ys =>
        simp only [List.cons_append, List.cons.injEq] at hab
        exact (ih.mp h2) ys b hab.2
    · intro h
      have h1 : f (x :: xs) = none := h [] (x :: xs) rfl
      have h2 : firstAt f xs = none := ih.mpr (fun a b hab => h (x :: a) b (by rw [hab]; rfl))
      simp [firstAt, h1, h2]

/-- The value captured by the two patterns of a label is the value of the first field with
that label. -/
theorem labeledMatch_group (label markdown : String) :
    (labeledMatch label markdown).map (fun m => m.group 1) =
      (firstField label markdown.toList).map (fun v => some (String.mk v)) := by
  have h1 := exec_group_one flagsI (labeledPattern "" label) (fieldValue label)
    (fun v => [(1, v)]) (labeledPattern_run label) markdown 1
  have h2 := exec_group_one flagsI (labeledPattern "- " label) _
    (fun v => [(1, v)]) (labeledPattern_lead_run label) markdown 1
  unfold labeledMatch firstField
  cases hf : firstAt (fieldValue label) markdown.toList with
  | some v =>
    rw [hf] at h1
    cases he : (labeledPattern "" label).exec flagsI markdown with
    | none => rw [he] at h1; cases h1
    | some m =>
      rw [he] at h1
      simpa [Match.group] using h1
  | none =>
    rw [hf] at h1
    have hnone : firstAt (fun text =>
        if ("- ".toList.map (canon flagsI)).isPrefixOf (text.map (canon flagsI)) then
          fieldValue label (text.drop 2) else none) markdown.toList = none := by
      rw [firstAt_none]
      intro a b hab
      split
      · cases b with
        | nil => exact (firstAt_none _ _).mp hf a [] hab
        | cons y ys =>
          cases ys with
          | nil => exact (firstAt_none _ _).mp hf (a ++ [y]) [] (by rw [hab]; simp)
          | cons z zs =>
            exact (firstAt_none _ _).mp hf (a ++ [y, z]) zs (by rw [hab]; simp)
      · rfl
    rw [hnone] at h2
    cases he : (labeledPattern "" label).exec flagsI markdown with
    | some m => rw [he] at h1; cases h1
    | none =>
      cases he2 : (labeledPattern "- " label).exec flagsI markdown with
      | some m => rw [he2] at h2; cases h2
      | none => rfl

theorem splitOnAux_head (sep : List Char) :
    ∀ (n : Nat) (cur text : List Char), text.length < n →
      (splitOnAux sep n cur text).head? = some (cur.reverse ++ untilSep sep text) := by
  intro n
  induction n with
  | zero => intro cur text h; omega
  | succ n ih =>
    intro cur text h
    cases text with
    | nil => simp [splitOnAux, untilSep]
    | cons x xs =>
      by_cases hp : sep.isPrefixOf (x :: xs) = true
      · simp [splitOnAux, untilSep, hp]
      · simp only [splitOnAux, untilSep, hp, Bool.false_eq_true, if_false]
        rw [ih (x :: cur) xs (by simpa using h)]
        simp

theorem splitOnAux_second (sep : List Char) (hsep : sep ≠ []) :
    ∀ (n : Nat) (cur text : List Char), text.length < n →
      (splitOnAux sep n cur text).get? 1 = (afterSep sep text).map (untilSep sep) := by
  intro n
  induction n with
  | zero => intro cur text h; omega
  | succ n ih =>
    intro cur text h
    cases text with
    | nil => simp [splitOnAux, afterSep]
    | cons x xs =>
      by_cases hp : sep.isPrefixOf (x :: xs) = true
      · simp only [splitOnAux, afterSep, hp, if_true, List.get?_cons_succ, Option.map_some']
        have hlen : ((x :: xs).drop sep.length).length < n := by
          have : 0 < sep.length := List.length_pos.mpr hsep
          simp only [List.length_drop, List.length_cons] at h ⊢
          omega
        have := splitOnAux_head sep n [] ((x :: xs).drop sep.length) hlen
        cases hs : splitOnAux sep n [] ((x :: xs).drop sep.length) with
        | nil => rw [hs] at this; cases this
        | cons y ys =>
          rw [hs] at this
          simpa using this
      · simp only [splitOnAux, afterSep, hp, Bool.false_eq_true, if_false]
        exact ih (x :: cur) xs (by simpa using h)

theorem includesList_afterSep (sep : List Char) (hsep : sep ≠ []) :
    ∀ text : List Char, includesList text sep = (afterSep sep text).isSome := by
  intro text
  induction text with
  | nil =>
    cases sep with
    | nil => exact absurd rfl hsep
    | cons s ss => simp [includesList, afterSep]
  | cons x xs ih =>
    unfold includesList at ih ⊢
    by_cases hp : sep.isPrefixOf (x :: xs) = true
    · simp [afterSep, hp]
    · simp only [afterSep, hp, Bool.false_eq_true, if_false, List.tails, List.any_cons]
      rw [ih]
      simp [hp]

theorem untilSep_all (sep : List Char) :
    ∀ text : List Char, afterSep sep text = none → untilSep sep text = text := by
  intro text
  induction text with
  | nil => intro _; rfl
  | cons x xs ih =>
    intro h
    by_cases hp : sep.isPrefixOf (x :: xs) = true
    · simp [afterSep, hp] at h
    · simp only [afterSep, hp, Bool.false_eq_true, if_false] at h
      simp [untilSep, hp, ih h]

/-- The endpoint as a function of the first Model ID field and the first Endpoint field. -/
theorem markdownEndpoint_eq (markdown : String) :
    markdownEndpoint markdown =
      match firstField "Model ID" markdown.toList with
      | some v => String.mk v
      | none =>
        match firstField "Endpoint" markdown.toList with
        | some v =>
          match afterSep "fal.run/".toList v with
          | some rest => String.mk (untilSep "fal.run/".toList rest)
          | none => String.mk v
        | none => "" := by
  have h1 := labeledMatch_group "Model ID" markdown
  have h2 := labeledMatch_group "Endpoint" markdown
  unfold markdownEndpoint
  cases hf1 : firstField "Model ID" markdown.toList with
  | some v =>
    rw [hf1] at h1
    cases hm1 : labeledMatch "Model ID" markdown with
    | none => rw [hm1] at h1; cases h1
    | some m =>
      rw [hm1] at h1
      simp only [Option.map_some', Option.some.injEq] at h1
      simp only [h1, Option.getD_some]
  | none =>
    rw [hf1] at h1
    cases hm1 : labeledMatch "Model ID" markdown with
    | some m => rw [hm1] at h1; cases h1
    | none =>
      simp only []
      cases hf2 : firstField "Endpoint" markdown.toList with
      | none =>
        rw [hf2] at h2
        cases hm2 : labeledMatch "Endpoint" markdown with
        | some m => rw [hm2] at h2; cases h2
        | none => rfl
      | some v =>
        rw [hf2] at h2
        cases hm2 : labeledMatch "Endpoint" markdown with
        | none => rw [hm2] at h2; cases h2
        | some m =>
          rw [hm2] at h2
          simp only [Option.map_some', Option.some.injEq] at h2
          simp only [h2, Option.getD_some]
          have hinc : includes (String.mk v) "fal.run/" = (afterSep "fal.run/".toList v).isSome :=
            includesList_afterSep "fal.run/".toList (by decide) v
          have hsplit : (splitOn (String.mk v) "fal.run/").get? 1 =
              ((afterSep "fal.run/".toList v).map (untilSep "fal.run/".toList)).map String.mk := by
            unfold splitOn
            rw [List.get?_eq_getElem?, List.getElem?_map, ← List.get?_eq_getElem?]
            exact congrArg (Option.map String.mk)
              (splitOnAux_second "fal.run/".toList (by decide) (v.length + 1) [] v
                (Nat.lt_succ_self _))
          rw [hinc, hsplit]
          cases afterSep "fal.run/".toList v with
          | none => rfl
          | some rest => rfl

/-- C15: in every markdown document with a labeled field `**Model ID**:` and a back-ticked
value, the endpoint is the value `v` of the first such field; nothing is assumed about an
Endpoint field. -/
theorem endpoint_of_model_id (markdown : String) (v : List Char)
    (h : firstField "Model ID" markdown.toList = some v) :
    (parseMarkdownSchema markdown).endpoint = String.mk v := by
  show markdownEndpoint markdown = _
  rw [markdownEndpoint_eq, h]

/-- C15, an instance: Model ID `foo/bar` next to an Endpoint field with another path gives the
endpoint `foo/bar`. -/
theorem endpoint_of_model_id_witness :
    firstField "Model ID" modelIdDoc.toList = some "foo/bar".toList ∧
      firstField "Endpoint" modelIdDoc.toList = some "https://fal.run/foo/baz".toList ∧
      (parseMarkdownSchema modelIdDoc).endpoint = "foo/bar" :=
  ⟨by decide, by decide, endpoint_of_model_id modelIdDoc "foo/bar".toList (by decide)⟩

/-- C16, as first stated, fails: with the Endpoint value `https://fal.run/x/fal.run/y` the
remainder after the first `fal.run/` is `x/fal.run/y`, and the endpoint is `x/`. -/
theorem endpoint_between_separators :
    firstField "Model ID" twoSeparatorsDoc.toList = none ∧
      firstField "Endpoint" twoSeparatorsDoc.toList = some "https://fal.run/x/fal.run/y".toList ∧
      afterSep "fal.run/".toList "https://fal.run/x/fal.run/y".toList = some "x/fal.run/y".toList ∧
      (parseMarkdownSchema twoSeparatorsDoc).endpoint = "x/" ∧
      (parseMarkdownSchema twoSeparatorsDoc).endpoint ≠ "x/fal.run/y" := by
  refine ⟨by decide, by decide, by decide, by decide, by decide⟩

/-- C16, amended: in a markdown document with no Model ID field whose first Endpoint field has
the value `v`, the endpoint is `v` when `v` does not contain `fal.run/`; otherwise it is the part
of the remainder after the first `fal.run/` that comes before the next `fal.run/`, which is the
whole remainder when `fal.run/` does not occur in it. -/
theorem endpoint_of_url (markdown : String) (v : List Char)
    (hid : firstField "Model ID" markdown.toList = none)
    (hep : firstField "Endpoint" markdown.toList = some v) :
    (includes (String.mk v) "fal.run/" = false →
        (parseMarkdownSchema markdown).endpoint = String.mk v) ∧
      (includes (String.mk v) "fal.run/" = true →
        ∃ rest, afterSep "fal.run/".toList v = some rest ∧
          (parseMarkdownSchema markdown).endpoint = String.mk (untilSep "fal.run/".toList rest) ∧
          (includes (String.mk rest) "fal.run/" = false →
            (parseMarkdownSchema markdown).endpoint = String.mk rest)) := by
  have he : (parseMarkdownSchema markdown).endpoint = markdownEndpoint markdown := rfl
  have hinc : ∀ t : List Char,
      includes (String.mk t) "fal.run/" = (afterSep "fal.run/".toList t).isSome :=
    fun t => includesList_afterSep "fal.run/".toList (by decide) t
  have hend : markdownEndpoint markdown =
      match afterSep "fal.run/".toList v with
      | some rest => String.mk (untilSep "fal.run/".toList rest)
      | none => String.mk v := by
    rw [markdownEndpoint_eq, hid, hep]
  rw [he, hend, hinc]
  constructor
  · intro h
    cases ha : afterSep "fal.run/".toList v with
    | none => rfl
    | some rest => rw [ha] at h; cases h
  · intro h
    cases ha : afterSep "fal.run/".toList v with
    | none => rw [ha] at h; cases h
    | some rest =>
      refine ⟨rest, rfl, rfl, ?_⟩
      intro hr
      rw [hinc] at hr
      have hnone : afterSep "fal.run/".toList rest = none := by
        cases hq : afterSep "fal.run/".toList rest with
        | none => rfl
        | some q => rw [hq] at hr; cases hr
      show String.mk (untilSep "fal.run/".toList rest) = _
      rw [untilSep_all _ _ hnone]

/-- C16, an instance: the Endpoint value `https://fal.run/fal-ai/flux/dev` gives the endpoint
`fal-ai/flux/dev`. -/
theorem endpoint_of_url_witness :
    (parseMarkdownSchema endpointDoc).endpoint = "fal-ai/flux/dev" :=
  match (endpoint_of_url endpointDoc "https://fal.run/fal-ai/flux/dev".toList (by decide)
      (by decide)).2 (by decide) with
  | ⟨_, hrest, _, h⟩ => by
    have hr := Option.some.inj (hrest.symm.trans
      (show afterSep "fal.run/".toList "https://fal.run/fal-ai/flux/dev".toList =
        some "fal-ai/flux/dev".toList by decide))
    subst hr
    exact h (by decide)

/-! ### Digits and numbers -/

theorem digit_range (c : Char) (h : isAsciiDigit c = true) : 48 ≤ c.toNat ∧ c.toNat ≤ 57 := by
  simp only [isAsciiDigit, Bool.and_eq_true, decide_eq_true_eq, char_le_iff] at h
  exact h

theorem digit_not_whiteSpace (c : Char) (h : isAsciiDigit c = true) : isWhiteSpace c = false := by
  have hr := digit_range c h
  simp only [isWhiteSpace, Bool.or_eq_false_iff, Bool.and_eq_false_imp, beq_eq_false_iff_ne,
    decide_eq_true_eq, decide_eq_false_iff_not, ne_eq]
  omega

theorem digit_ne (c x : Char) (h : isAsciiDigit c = true) (hx : ¬ (48 ≤ x.toNat ∧ x.toNat ≤ 57)) :
    c ≠ x := by
  intro hc
  rw [hc] at h
  exact hx (digit_range x h)

theorem digitValue_digit (c : Char) (h : isAsciiDigit c = true) :
    digitValue 10 c = some (c.toNat - 48) := by
  have hr := digit_range c h
  have h1 : ('0' ≤ c && c ≤ '9') = true := h
  simp only [digitValue, hexValue, h1, if_true]
  rw [if_pos (by omega)]

theorem takeWhile_append_all (p : Char → Bool) (xs rest : List Char) (h : ∀ c ∈ xs, p c = true) :
    (xs ++ rest).takeWhile p = xs ++ rest.takeWhile p := by
  induction xs with
  | nil => rfl
  | cons x xs ih =>
    simp only [List.cons_append, List.takeWhile_cons, h x (List.mem_cons_self _ _), if_true]
    rw [ih (fun c hc => h c (List.mem_cons_of_mem _ hc))]

theorem dropWhile_append_all (p : Char → Bool) (xs rest : List Char) (h : ∀ c ∈ xs, p c = true) :
    (xs ++ rest).dropWhile p = rest.dropWhile p := by
  induction xs with
  | nil => rfl
  | cons x xs ih =>
    simp only [List.cons_append, List.dropWhile_cons, h x (List.mem_cons_self _ _), if_true]
    exact ih (fun c hc => h c (List.mem_cons_of_mem _ hc))

theorem takeWhile_all (p : Char → Bool) (xs : List Char) (h : ∀ c ∈ xs, p c = true) :
    xs.takeWhile p = xs := by
  have := takeWhile_append_all p xs [] h
  simpa using this

theorem dropWhile_all (p : Char → Bool) (xs : List Char) (h : ∀ c ∈ xs, p c = true) :
    xs.dropWhile p = [] := by
  have := dropWhile_append_all p xs [] h
  simpa using this

theorem foldl_digits (ds : List Char) (h : ∀ c ∈ ds, isAsciiDigit c = true) :
    ∀ acc : Nat,
      ds.foldl (fun (a : Int) d => ((10 : Nat) : Int) * a + (((digitValue 10 d).getD 0 : Nat) : Int))
        (acc : Int) =
      ((ds.foldl (fun a d => 10 * a + (d.toNat - 48)) acc : Nat) : Int) := by
  induction ds with
  | nil => intro acc; rfl
  | cons x xs ih =>
    intro acc
    simp only [List.foldl_cons]
    rw [digitValue_digit x (h x (List.mem_cons_self _ _))]
    have := ih (fun c hc => h c (List.mem_cons_of_mem _ hc)) (10 * acc + (x.toNat - 48))
    rw [← this]
    simp

theorem parseInt_eq (s : String) :
    parseInt s =
      (let p := signSplit (s.toList.dropWhile isWhiteSpace)
       let q := radixSplit p.2
       let ds := q.2.takeWhile (fun c => (digitValue q.1 c).isSome)
       if ds = [] then .nan
       else
         let v : Int := ds.foldl (fun acc d => q.1 * acc + ((digitValue q.1 d).getD 0)) 0
         JSNumber.ofDecimal (if p.1 then -v else v) 0) := rfl

theorem parseFloat_eq (s : String) :
    parseFloat s =
      (let p := signSplit (s.toList.dropWhile isWhiteSpace)
       if "Infinity".toList.isPrefixOf p.2 then .inf p.1
       else
         let ip := p.2.takeWhile isAsciiDigit
         let f := fractionSplit ip (p.2.dropWhile isAsciiDigit)
         if ip = [] ∧ f.1 = [] then .nan
         else
           let m : Int := digitsValue (ip ++ f.1)
           JSNumber.ofDecimal (if p.1 then -m else m) (exponentOf f.2 - f.1.length)) := rfl

theorem signSplit_digit (x : Char) (xs : List Char) (hx : isAsciiDigit x = true) :
    signSplit (x :: xs) = (false, x :: xs) := by
  unfold signSplit
  split
  · rename_i heq; simp only [List.cons.injEq] at heq
    exact absurd heq.1 (digit_ne x '-' hx (by decide))
  · rename_i heq; simp only [List.cons.injEq] at heq
    exact absurd heq.1 (digit_ne x '+' hx (by decide))
  · rfl

theorem radixSplit_digits (d : List Char) (h : ∀ c ∈ d, isAsciiDigit c = true) :
    radixSplit d = (10, d) := by
  unfold radixSplit
  split
  · exact absurd rfl (digit_ne 'x' 'x' (h _ (by simp)) (by decide))
  · exact absurd rfl (digit_ne 'X' 'X' (h _ (by simp)) (by decide))
  · rfl

/-- The function `parseInt` on a non-empty string of digits. -/
theorem parseInt_digits (d : List Char) (hne : d ≠ []) (h : ∀ c ∈ d, isAsciiDigit c = true) :
    parseInt (String.mk d) = JSNumber.ofDecimal (digitsValue d) 0 := by
  cases d with
  | nil => exact absurd rfl hne
  | cons x xs =>
    have hx := h x (List.mem_cons_self _ _)
    have hws : isWhiteSpace x = false := digit_not_whiteSpace x hx
    have hdw : (x :: xs).dropWhile isWhiteSpace = x :: xs := by simp [hws]
    have htw : (x :: xs).takeWhile (fun c => (digitValue 10 c).isSome) = x :: xs := by
      apply takeWhile_all
      intro c hc
      rw [digitValue_digit c (h c hc)]
      rfl
    rw [parseInt_eq]
    simp only [String.toList, hdw, signSplit_digit x xs hx, radixSplit_digits (x :: xs) h, htw,
      reduceCtorEq, if_false, Bool.false_eq_true]
    have := foldl_digits (x :: xs) h 0
    simp only [Nat.cast_zero, Nat.cast_ofNat] at this
    simp only [Nat.cast_ofNat, this, digitsValue]

/-- The function `parseFloat` on an unsigned decimal. -/
theorem parseFloat_unsigned (ip fp : List Char) (hne : ip ≠ [])
    (hip : ∀ c ∈ ip, isAsciiDigit c = true) (hfp : ∀ c ∈ fp, isAsciiDigit c = true) :
    parseFloat (String.mk (unsignedText ip fp)) = unsignedValue ip fp := by
  cases ip with
  | nil => exact absurd rfl hne
  | cons x xs =>
    have hx := hip x (List.mem_cons_self _ _)
    have hws : isWhiteSpace x = false := digit_not_whiteSpace x hx
    have hinf : "Infinity".toList.isPrefixOf (x :: xs ++ (if fp.isEmpty then [] else '.' :: fp))
        = false := by
      have : x ≠ 'I' := digit_ne x 'I' hx (by decide)
      show ('I' == x && _) = false
      have h2 : ('I' == x) = false := by
        rw [beq_eq_false_iff_ne]; exact Ne.symm this
      rw [h2]; rfl
    have htext : unsignedText (x :: xs) fp = x :: xs ++ (if fp.isEmpty then [] else '.' :: fp) := by
      unfold unsignedText
      cases fp <;> simp
    have hdot : isAsciiDigit '.' = false := by decide
    rw [parseFloat_eq, htext]
    have hdw : (x :: xs ++ (if fp.isEmpty then [] else '.' :: fp)).dropWhile isWhiteSpace =
        x :: xs ++ (if fp.isEmpty then [] else '.' :: fp) := by simp [hws]
    have hsign : signSplit (x :: xs ++ (if fp.isEmpty then [] else '.' :: fp)) =
        (false, x :: xs ++ (if fp.isEmpty then [] else '.' :: fp)) :=
      signSplit_digit x _ hx
    simp only [String.toList, hdw, hsign, hinf, Bool.false_eq_true, if_false]
    have htw : (x :: xs ++ (if fp.isEmpty then [] else '.' :: fp)).takeWhile isAsciiDigit =
        x :: xs := by
      rw [takeWhile_append_all _ _ _ hip]
      cases fp <;> simp [hdot]
    have hdr : (x :: xs ++ (if fp.isEmpty then [] else '.' :: fp)).dropWhile isAsciiDigit =
        (if fp.isEmpty then [] else '.' :: fp) := by
      rw [dropWhile_append_all _ _ _ hip]
      cases fp <;> simp [hdot]
    rw [htw, hdr]
    have hxI : ¬ 'I' = x := Ne.symm (digit_ne x 'I' hx (by decide))
    cases fp with
    | nil =>
      simp [fractionSplit, exponentOf, unsignedValue, hxI]
    | cons y ys =>
      have h1 : (y :: ys).takeWhile isAsciiDigit = y :: ys := takeWhile_all _ _ hfp
      have h2 : (y :: ys).dropWhile isAsciiDigit = [] := dropWhile_all _ _ hfp
      simp [fractionSplit, exponentOf, unsignedValue, h1, h2, hxI]

/-! ### Numbers read from decimals -/

theorem dropZeros_le : ∀ (fuel a : Nat), dropZeros fuel a ≤ a := by
  intro fuel
  induction fuel with
  | zero => intro a; exact Nat.le_refl _
  | succ f ih =>
    intro a
    unfold dropZeros
    split
    · exact Nat.le_trans (ih (a / 10)) (Nat.div_le_self a 10)
    · exact Nat.le_refl _

theorem pickDecimal_pos (target : Nat × Int) (k lo r y : Nat) (e : Int) (s : Nat) (e2 : Int)
    (h : pickDecimal target k lo r y e = some (s, e2)) : s ≠ 0 := by
  have hpos : 0 < 10 ^ (k - 1) := Nat.pos_of_ne_zero (pow_ne_zero _ (by decide))
  unfold pickDecimal at h
  simp only [] at h
  split at h
  · rename_i hboth
    simp only [Bool.and_eq_true, decide_eq_true_eq] at hboth
    simp only [Option.some.injEq, Prod.mk.injEq] at h
    have hlo := hboth.1.1
    rw [← h.1]
    split <;> omega
  · split at h
    · rename_i hlo
      simp only [Bool.and_eq_true, decide_eq_true_eq] at hlo
      simp only [Option.some.injEq, Prod.mk.injEq] at h
      rw [← h.1]
      omega
    · split at h
      · simp only [Option.some.injEq, Prod.mk.injEq] at h
        rw [← h.1]
        omega
      · cases h

theorem shortestDecimal_pos (target : Nat × Int) (n d : Nat) (e10 : Int) :
    ∀ (fuel k : Nat) (s : Nat) (e : Int),
      shortestDecimal target n d e10 fuel k = some (s, e) → s ≠ 0 := by
  intro fuel
  induction fuel with
  | zero => intro k s e h; cases h
  | succ f ih =>
    intro k s e h
    unfold shortestDecimal at h
    simp only [] at h
    split at h
    · rename_i found hfound
      rw [Option.some.injEq] at h
      rw [h] at hfound
      exact pickDecimal_pos _ _ _ _ _ _ s e hfound
    · exact ih (k + 1) s e h

theorem roundedDecimal_pos (a : Nat) (exp : Int) (ha : a ≠ 0) : (roundedDecimal a exp).1 ≠ 0 := by
  unfold roundedDecimal
  simp only []
  cases h : shortestDecimal (decimalDouble a exp)
      (if (decimalDouble a exp).2 < 0 then (decimalDouble a exp).1
        else (decimalDouble a exp).1 * 2 ^ (decimalDouble a exp).2.natAbs)
      (if (decimalDouble a exp).2 < 0 then 2 ^ (decimalDouble a exp).2.natAbs else 1)
      (floorLog 10 (if (decimalDouble a exp).2 < 0 then (decimalDouble a exp).1
        else (decimalDouble a exp).1 * 2 ^ (decimalDouble a exp).2.natAbs)
        (if (decimalDouble a exp).2 < 0 then 2 ^ (decimalDouble a exp).2.natAbs else 1) + 1) 17 1 with
  | none => exact ha
  | some p =>
    obtain ⟨s, e⟩ := p
    exact shortestDecimal_pos _ _ _ _ _ _ s e h

/-- A number read from a decimal other than zero that does not round to zero counts as true. -/
theorem ofDecimal_truthy_of (mant exp : Int) (hm : mant ≠ 0)
    (hu : ¬ (exp < 0 ∧ mant.natAbs * 2 ^ 1075 ≤ 10 ^ exp.natAbs)) :
    (JSNumber.ofDecimal mant exp).truthy = true := by
  have ha : mant.natAbs ≠ 0 := by simpa using hm
  unfold JSNumber.ofDecimal
  simp only []
  rw [if_neg ha, if_neg hu]
  split
  · rfl
  · split
    · simpa [JSNumber.truthy] using hm
    · have hr := roundedDecimal_pos mant.natAbs exp ha
      simp only [JSNumber.truthy, bne_iff_ne, ne_eq]
      split
      · simpa using hr
      · simpa using hr

/-- A positive integer is a number that counts as true. -/
theorem ofDecimal_truthy (v : Nat) (hv : v ≠ 0) : (JSNumber.ofDecimal (v : Int) 0).truthy = true :=
  ofDecimal_truthy_of v 0 (by simpa using hv) (by simp)

theorem pow15_lt_largest : (10 : Nat) ^ 15 < 2 ^ 1024 - 2 ^ 970 := by decide

theorem pow300_le : (10 : Nat) ^ 300 ≤ 2 ^ 1022 := by decide

/-- The number read from a positive integer below `10 ^ 15` is that integer. -/
theorem ofDecimal_short (v : Nat) (hv : v ≠ 0) (hlt : v < 10 ^ 15) :
    JSNumber.ofDecimal (v : Int) 0 = .dec v 0 := by
  unfold JSNumber.ofDecimal
  simp only [Int.natAbs_ofNat, hv, if_false, lt_self_iff_false, false_and, Int.natAbs_zero,
    pow_zero, mul_one, le_refl, true_and, or_false, true_or, and_true]
  rw [if_neg (by have := pow15_lt_largest; omega), if_pos (Nat.lt_of_le_of_lt (dropZeros_le v v) hlt)]

/-- The number read from a decimal with a positive significand below `10 ^ 15` and at most 300
fraction digits is that decimal. -/
theorem ofDecimal_short_fraction (a n : Nat) (ha : a ≠ 0) (hlt : a < 10 ^ 15) (hn : n ≤ 300) :
    JSNumber.ofDecimal (a : Int) (-(n : Int)) = .dec a (-(n : Int)) := by
  have hpow : 10 ^ n ≤ 2 ^ 1022 :=
    Nat.le_trans (Nat.pow_le_pow_right (by decide) hn) pow300_le
  have hapos : 1 ≤ a := Nat.pos_of_ne_zero ha
  have h1022 : 10 ^ n ≤ a * 2 ^ 1022 := Nat.le_trans hpow (Nat.le_mul_of_pos_left _ hapos)
  have h1075 : 10 ^ n < a * 2 ^ 1075 := by
    have : (2 : Nat) ^ 1022 < 2 ^ 1075 := Nat.pow_lt_pow_right (by decide) (by decide)
    calc 10 ^ n ≤ 2 ^ 1022 := hpow
      _ < 2 ^ 1075 := this
      _ ≤ a * 2 ^ 1075 := Nat.le_mul_of_pos_left _ hapos
  have hover : ¬ ((2 ^ 1024 - 2 ^ 970) * 10 ^ n ≤ a) := by
    intro h
    have h10 : 1 ≤ 10 ^ n := Nat.pos_of_ne_zero (pow_ne_zero _ (by decide))
    have : 2 ^ 1024 - 2 ^ 970 ≤ a := Nat.le_trans (Nat.le_mul_of_pos_right _ h10) h
    have := pow15_lt_largest
    omega
  unfold JSNumber.ofDecimal
  simp only [Int.natAbs_ofNat, Int.natAbs_neg, ha, if_false]
  rw [if_neg (by intro h; exact absurd h.2 (Nat.not_le.mpr h1075)),
    if_neg (by
      rintro (h | h)
      · exact hover (by
          have hn0 : n = 0 := by have := h.1; omega
          subst hn0
          simpa using h.2)
      · exact hover h.2),
    if_pos ⟨Nat.lt_of_le_of_lt (dropZeros_le a a) hlt, Or.inr h1022⟩]

/-- The number written by digits with a fraction, when the digits have a value below `10 ^ 15`
and the fraction has at most 300 digits: the decimal as it is written. -/
theorem unsignedValue_short (ip fp : List Char) (hlt : digitsValue (ip ++ fp) < 10 ^ 15)
    (hn : fp.length ≤ 300) :
    unsignedValue ip fp =
      if digitsValue (ip ++ fp) = 0 then .dec 0 0
      else .dec (digitsValue (ip ++ fp)) (-(fp.length : Int)) := by
  unfold unsignedValue
  by_cases h0 : digitsValue (ip ++ fp) = 0
  · rw [if_pos h0, h0]
    rfl
  · rw [if_neg h0]
    exact ofDecimal_short_fraction _ _ h0 hlt hn

/-- Decimals past the precision of a double are rounded to the nearest double, ties to even,
and written with its shortest decimal; a decimal below half the smallest double is zero. -/
theorem ofDecimal_rounds :
    parseInt "9007199254740993" = .dec 9007199254740992 0 ∧
      parseInt "9007199254740995" = .dec 9007199254740996 0 ∧
      parseFloat "18446744073709551615" = .dec 18446744073709552 3 ∧
      JSNumber.toString (parseFloat "18446744073709551615") = "18446744073709552000" ∧
      parseFloat "0.1000000000000000055511151231257827" = .dec 1 (-1) ∧
      JSNumber.ofDecimal 3 (-324) = .dec 5 (-324) ∧
      JSNumber.ofDecimal 2 (-324) = .dec 0 0 ∧
      JSNumber.ofDecimal 17976931348623158 292 = .dec 17976931348623157 292 ∧
      JSNumber.ofDecimal 17976931348623159 292 = .inf false :=
  ⟨rfl, rfl, rfl, rfl, rfl, rfl, rfl, rfl, rfl⟩

/-- On a decimal of at most 15 significant digits in the range of the normal doubles, which
`ofDecimal` keeps as it is written, the search for the shortest decimal of the nearest double
finds the same decimal, without its trailing zeros: samples, the last two at the ends of the
range. -/
theorem roundedDecimal_samples :
    decimalDouble 1 (-1) = (7205759403792794, -56) ∧
      roundedDecimal 1 (-1) = (1, -1) ∧
      roundedDecimal 25 (-1) = (25, -1) ∧
      roundedDecimal 435 (-2) = (435, -2) ∧
      roundedDecimal 1000 0 = (1, 3) ∧
      roundedDecimal 123456789012345 (-7) = (123456789012345, -7) ∧
      roundedDecimal 999999999999999 293 = (999999999999999, 293) ∧
      roundedDecimal 222507385850721 (-322) = (222507385850721, -322) :=
  ⟨rfl, rfl, rfl, rfl, rfl, rfl, rfl, rfl⟩

/-! ### Matches of the patterns of a parameter block -/

theorem run_plus_cls_ne (fl : Flags) (p : Char → Bool) (k : MState → Option MState) (r : MState)
    (xs rest before : List Char) (caps : List (Nat × List Char)) (hne : xs ≠ [])
    (hall : ∀ y ∈ xs, p y = true) (hmax : rest.head?.all (fun c => !p c) = true)
    (hk : k ⟨xs.reverse ++ before, rest, caps⟩ = some r) :
    (Regex.plus true (.cls p)).run fl ⟨before, xs ++ rest, caps⟩ k = some r := by
  cases xs with
  | nil => exact absurd rfl hne
  | cons x xs => exact run_plus_cls fl p k r x xs rest before caps hall hmax hk

/-- A group around `[p]+` takes the non-empty run `xs` and records it. -/
theorem run_group_plus_cls (fl : Flags) (n : Nat) (p : Char → Bool) (k : MState → Option MState)
    (r : MState) (xs rest before : List Char) (caps : List (Nat × List Char)) (hne : xs ≠ [])
    (hall : ∀ y ∈ xs, p y = true) (hmax : rest.head?.all (fun c => !p c) = true)
    (hk : k ⟨xs.reverse ++ before, rest, (n, xs) :: caps⟩ = some r) :
    (Regex.group n (Regex.plus true (.cls p))).run fl ⟨before, xs ++ rest, caps⟩ k = some r := by
  rw [run_group]
  apply run_plus_cls_ne fl p _ r xs rest before caps hne hall hmax
  simp only [take_append_sub]
  exact hk

/-- The leftmost match is the match at the end of a stretch where the pattern matches
nowhere. -/
theorem exec_of_hit (fl : Flags) (r : Regex) (pre rest : List Char) (t : MState)
    (hskip : ∀ a1 a2, pre = a1 ++ a2 → a2 ≠ [] →
      r.run fl ⟨a1.reverse ++ [], a2 ++ rest, []⟩ some = none)
    (hhit : r.run fl ⟨pre.reverse ++ [], rest, []⟩ some = some t) :
    ∃ m, r.exec fl (String.mk (pre ++ rest)) = some m ∧ m.caps = t.caps := by
  have hs := searchFrom_skip fl r rest [] rest.length pre [] hskip
  have hlen : (String.mk (pre ++ rest)).length = pre.length + rest.length := by
    simp [String.length]
  have he : r.exec fl (String.mk (pre ++ rest)) =
      some { text := String.mk (textBetween ⟨pre.reverse ++ [], rest, []⟩ t), caps := t.caps } := by
    show (searchFrom fl r (String.mk (pre ++ rest)).length ⟨[], pre ++ rest, []⟩).map _ = _
    rw [hlen, hs, searchFrom_hit _ _ _ _ _ hhit]
    rfl
  exact ⟨_, he, rfl⟩

/-- A pattern that matches at no position of a text has no match in it. -/
theorem exec_none (fl : Flags) (r : Regex) (text : List Char)
    (hskip : ∀ a1 a2, text = a1 ++ a2 → r.run fl ⟨a1.reverse ++ [], a2, []⟩ some = none) :
    r.exec fl (String.mk text) = none := by
  have hs := searchFrom_skip fl r [] [] 0 text []
    (fun a1 a2 h1 _ => by
      have := hskip a1 a2 h1
      simpa using this)
  simp only [List.append_nil, Nat.add_zero] at hs
  show (searchFrom fl r text.length ⟨[], text, []⟩).map _ = none
  rw [hs]
  have h0 := hskip text [] (by simp)
  simp only [List.append_nil] at h0
  simp [searchFrom, h0]

theorem firstAt_hit {α : Type} (f : List Char → Option α) (text : List Char) (v : α)
    (h : f text = some v) : firstAt f text = some v := by
  cases text with
  | nil => exact h
  | cons x xs => simp [firstAt, h]

theorem firstAt_skip {α : Type} (f : List Char → Option α) (rest : List Char) :
    ∀ pre : List Char, nowhereIn f pre rest = true → firstAt f (pre ++ rest) = firstAt f rest := by
  intro pre
  induction pre with
  | nil => intro _; rfl
  | cons x xs ih =>
    intro h
    simp only [nowhereIn, Bool.and_eq_true, Option.isNone_iff_eq_none] at h
    show (f (x :: xs ++ rest)).orElse (fun _ => firstAt f (xs ++ rest)) = _
    rw [h.1, ← ih h.2]
    rfl

theorem exec_none_of_startsNowhere (fl : Flags) (lit : List Char) (r : Regex) (text : List Char)
    (hlit : lit ≠ []) (h : startsNowhere fl lit text [] = true) :
    (Regex.seq (Regex.chars lit) r).exec fl (String.mk text) = none := by
  apply exec_none
  intro a1 a2 h1
  cases a2 with
  | nil =>
    rw [run_seq, run_chars_eq]
    cases lit with
    | nil => exact absurd rfl hlit
    | cons c cs => rfl
  | cons y ys =>
    have := run_none_of_startsNowhere fl lit text [] r h a1 (y :: ys) h1 (by simp)
      (a1.reverse ++ []) [] some
    simpa using this

theorem exec_of_startsNowhere (fl : Flags) (lit : List Char) (r : Regex) (pre rest : List Char)
    (t : MState) (h : startsNowhere fl lit pre rest = true)
    (hhit : (Regex.seq (Regex.chars lit) r).run fl ⟨pre.reverse ++ [], rest, []⟩ some = some t) :
    ∃ m, (Regex.seq (Regex.chars lit) r).exec fl (String.mk (pre ++ rest)) = some m ∧
      m.caps = t.caps :=
  exec_of_hit fl _ pre rest t
    (fun a1 a2 h1 h2 => run_none_of_startsNowhere fl lit pre rest r h a1 a2 h1 h2 _ _ _) hhit


theorem whiteSpace_canon (fl : Flags) (x : Char) (hx : isWhiteSpace x = true) : canon fl x = x := by
  unfold canon
  rw [if_neg]
  intro h
  simp only [Bool.and_eq_true, decide_eq_true_eq, char_le_iff] at h
  have h1 : 97 ≤ x.toNat := h.1.2
  have h2 : x.toNat ≤ 122 := h.2
  simp only [isWhiteSpace, Bool.or_eq_true, Bool.and_eq_true, beq_iff_eq, decide_eq_true_eq] at hx
  omega

theorem canon_beq_colon (fl : Flags) (x : Char) : (canon fl x == canon fl ':') = (x == ':') :=
  canon_beq fl x ':' (by decide) (by decide)

theorem defaultTailPattern_run (before text : List Char) :
    (defaultTailPattern.run flagsI ⟨before, text, []⟩ some).map (fun t => t.caps) =
      (defaultTail text).map (fun v => [(1, v)]) := by
  show ((Regex.chr ':').run flagsI ⟨before, text, []⟩ (fun s1 =>
    (Regex.star true (.cls isWhiteSpace)).run flagsI s1 (fun s2 =>
      (Regex.chr backtick).run flagsI s2 (fun s3 =>
        (Regex.group 1 (.star true (.cls (fun c => c != backtick)))).run flagsI s3 (fun s4 =>
          (Regex.chr backtick).run flagsI s4 some))))).map _ = _
  rw [run_chr_eq]
  cases text with
  | nil => rfl
  | cons c r =>
    simp only [canon_beq_colon, defaultTail]
    cases hc : c == ':' with
    | false => simp
    | true =>
      simp only [if_true]
      rw [run_star_cls_eq]
      · rw [run_chr_eq]
        cases hdw : r.dropWhile isWhiteSpace with
        | nil => rfl
        | cons t r2 =>
          simp only [canon_beq_backtick]
          cases ht : t == backtick with
          | false => simp
          | true =>
            simp only [if_true, Bool.true_and]
            rw [run_group, run_star_cls_eq]
            · simp only [take_sub_dropWhile]
              rw [run_chr_eq]
              cases hd2 : r2.dropWhile (fun x => x != backtick) with
              | nil => simp
              | cons e es =>
                simp only [canon_beq_backtick, List.head?_cons]
                cases he : e == backtick with
                | false =>
                  have : (some e == some backtick) = false := by simpa using he
                  simp [this]
                | true =>
                  have : (some e == some backtick) = true := by simpa using he
                  simp [this]
            · intro b x xs hx
              show (Regex.chr backtick).run flagsI _ some = none
              rw [run_chr_eq]
              have hx2 : (x == backtick) = false := by simpa using hx
              simp only [canon_beq_backtick, hx2, Bool.false_eq_true, if_false]
      · intro b x xs hx
        show (Regex.chr backtick).run flagsI ⟨b, x :: xs, []⟩ _ = none
        rw [run_chr_eq]
        simp only [canon_beq_backtick, whiteSpace_not_backtick x hx, Bool.false_eq_true, if_false]

theorem map_orElse {α β : Type} (f : α → β) (a b : Option α) :
    (a.orElse (fun _ => b)).map f = (a.map f).orElse (fun _ => b.map f) := by
  cases a <;> rfl

theorem value_not_at_whiteSpace (x : Char) (xs : List Char) (hx : isWhiteSpace x = true) :
    ("value".toList.map (canon flagsI)).isPrefixOf ((x :: xs).map (canon flagsI)) = false := by
  show (canon flagsI 'v' == canon flagsI x && _) = false
  rw [whiteSpace_canon flagsI x hx]
  have h1 : (canon flagsI 'v' == x) = false := by
    rw [beq_eq_false_iff_ne]
    intro h
    rw [← h] at hx
    revert hx
    decide
  rw [h1]; rfl

theorem default_opt_run (before t1 : List Char) :
    ((Regex.plus true (.cls isWhiteSpace)).run flagsI ⟨before, t1, []⟩ (fun u =>
      (Regex.chars "value".toList).run flagsI u (fun w =>
        defaultTailPattern.run flagsI w some))).map (fun t => t.caps) =
      (if !(t1.takeWhile isWhiteSpace).isEmpty &&
          ("value".toList.map (canon flagsI)).isPrefixOf
            ((t1.dropWhile isWhiteSpace).map (canon flagsI)) then
        defaultTail ((t1.dropWhile isWhiteSpace).drop 5)
      else none).map (fun v => [(1, v)]) := by
  rw [run_plus_cls_eq]
  · cases htw : t1.takeWhile isWhiteSpace with
    | nil => rfl
    | cons y ys =>
      rw [if_neg (by simp), run_chars_eq]
      by_cases hp : ("value".toList.map (canon flagsI)).isPrefixOf
          ((t1.dropWhile isWhiteSpace).map (canon flagsI)) = true
      · rw [if_pos hp]
        simp only [List.isEmpty_cons, Bool.not_false, Bool.true_and, hp, if_true]
        exact defaultTailPattern_run _ _
      · rw [if_neg hp]
        simp only [List.isEmpty_cons, Bool.not_false, Bool.true_and, hp, if_false]
        rfl
  · intro b x xs hx
    rw [run_chars_eq, value_not_at_whiteSpace x xs hx]
    rfl

/-- The groups of a match of the default pattern at a position. -/
theorem defaultPattern_run (before text : List Char) :
    (defaultPattern.run flagsI ⟨before, text, []⟩ some).map (fun t => t.caps) =
      (defaultAt text).map (fun v => [(1, v)]) := by
  have h0 : defaultPattern.run flagsI ⟨before, text, []⟩ some =
      (Regex.chars "Default".toList).run flagsI ⟨before, text, []⟩ (fun t =>
        ((Regex.plus true (.cls isWhiteSpace)).run flagsI t (fun u =>
          (Regex.chars "value".toList).run flagsI u (fun w =>
            defaultTailPattern.run flagsI w some))).orElse
          (fun _ => defaultTailPattern.run flagsI t some)) := rfl
  rw [h0, run_chars_eq]
  unfold defaultAt
  by_cases hp : ("Default".toList.map (canon flagsI)).isPrefixOf (text.map (canon flagsI)) = true
  · rw [if_pos hp, if_pos hp]
    simp only []
    rw [map_orElse, map_orElse, default_opt_run, defaultTailPattern_run]
    rfl
  · rw [if_neg hp, if_neg hp]
    rfl

/-- The text captured by the default pattern in a block is the text of the first Default
clause. -/
theorem defaultPattern_exec (block : String) :
    (defaultPattern.exec flagsI block).map (fun m => m.group 1) =
      (firstAt defaultAt block.toList).map (fun v => some (String.mk v)) := by
  have h := exec_group_one flagsI defaultPattern defaultAt (fun v => [(1, v)])
    defaultPattern_run block 1
  rw [h]
  cases firstAt defaultAt block.toList <;> rfl

/-! ### The layout of the seed example -/

theorem namePattern_seq (fl : Flags) (s : MState) (k : MState → Option MState) :
    namePattern.run fl s k = (Regex.chars "- **`".toList).run fl s (fun s1 =>
      (Regex.group 1 (Regex.plus true (.cls (fun c => c != backtick)))).run fl s1 (fun s2 =>
        (Regex.chars "`**".toList).run fl s2 k)) := rfl

theorem namePattern_exec (name rest : List Char) (hne : name ≠ [])
    (hnt : ∀ c ∈ name, (c != backtick) = true) :
    ∃ m, namePattern.exec flagsNone
        (String.mk ("- **`".toList ++ (name ++ ("`**".toList ++ rest)))) = some m ∧
      m.caps = [(1, name)] := by
  have hhit : namePattern.run flagsNone
      ⟨([] : List Char).reverse ++ [], "- **`".toList ++ (name ++ ("`**".toList ++ rest)), []⟩ some =
      some ⟨"`**".toList.reverse ++ (name.reverse ++ ("- **`".toList.reverse ++ ([].reverse ++ []))),
        rest, [(1, name)]⟩ := by
    rw [namePattern_seq, run_chars_exact]
    apply run_group_plus_cls flagsNone 1 _ _ _ name _ _ _ hne hnt (by rfl)
    rw [run_chars_exact]
  have := exec_of_hit flagsNone namePattern [] _ _
    (fun a1 a2 h1 h2 => by
      have : a2 = [] := (List.append_eq_nil.mp h1.symm).2
      exact absurd this h2) hhit
  simpa using this

theorem typeRequiredPattern_seq (fl : Flags) (s : MState) (k : MState → Option MState) :
    typeRequiredPattern.run fl s k = (Regex.seq (Regex.chars "**`".toList) (Regex.cat
      [.noTicks, .lit "`**", .ws, .lit "(`", .group 1 .noTicks, .lit "`,", .ws,
        .chr '_', .group 2 (.plus true (.cls (fun c => c != '_'))), .lit "_)"])).run fl s k := rfl

theorem typeRequired_run (fl : Flags) (s : MState) (k : MState → Option MState) :
    typeRequiredPattern.run fl s k = (Regex.chars "**`".toList).run fl s (fun s1 =>
      (Regex.plus true (.cls (fun c => c != backtick))).run fl s1 (fun s2 =>
        (Regex.chars "`**".toList).run fl s2 (fun s3 =>
          (Regex.star true (.cls isWhiteSpace)).run fl s3 (fun s4 =>
            (Regex.chars "(`".toList).run fl s4 (fun s5 =>
              (Regex.group 1 (Regex.plus true (.cls (fun c => c != backtick)))).run fl s5 (fun s6 =>
                (Regex.chars "`,".toList).run fl s6 (fun s7 =>
                  (Regex.star true (.cls isWhiteSpace)).run fl s7 (fun s8 =>
                    (Regex.chr '_').run fl s8 (fun s9 =>
                      (Regex.group 2 (Regex.plus true (.cls (fun c => c != '_')))).run fl s9
                        (fun s10 => (Regex.chars "_)".toList).run fl s10 k)))))))))) := rfl

theorem typeRequiredPattern_exec (name rest : List Char) (hne : name ≠ [])
    (hnt : ∀ c ∈ name, (c != backtick) = true) :
    ∃ m, typeRequiredPattern.exec flagsNone
        (String.mk ("- ".toList ++ ("**`".toList ++ (name ++ ("`**".toList ++ (" ".toList ++
          ("(`".toList ++ ("integer".toList ++ ("`,".toList ++ (" ".toList ++ ('_' ::
            ("optional".toList ++ ("_)".toList ++ rest))))))))))))) = some m ∧
      m.caps = [(2, "optional".toList), (1, "integer".toList)] := by
  have hhit : ∃ t, typeRequiredPattern.run flagsNone
      ⟨"- ".toList.reverse ++ [], "**`".toList ++ (name ++ ("`**".toList ++ (" ".toList ++
          ("(`".toList ++ ("integer".toList ++ ("`,".toList ++ (" ".toList ++ ('_' ::
            ("optional".toList ++ ("_)".toList ++ rest)))))))))), []⟩ some = some t ∧
      t.caps = [(2, "optional".toList), (1, "integer".toList)] := by
    refine ⟨⟨"_)".toList.reverse ++ ("optional".toList.reverse ++ '_' :: (" ".toList.reverse ++
      ("`,".toList.reverse ++ ("integer".toList.reverse ++ ("(`".toList.reverse ++
        (" ".toList.reverse ++ ("`**".toList.reverse ++ (name.reverse ++
          ("**`".toList.reverse ++ ("- ".toList.reverse ++ [])))))))))), rest,
      [(2, "optional".toList), (1, "integer".toList)]⟩, ?_, rfl⟩
    rw [typeRequired_run, run_chars_exact]
    apply run_plus_cls_ne flagsNone _ _ _ name _ _ _ hne hnt (by rfl)
    rw [run_chars_exact]
    apply run_star_cls flagsNone isWhiteSpace _ _ " ".toList _ _ _ (by decide) (by rfl)
    rw [run_chars_exact]
    apply run_group_plus_cls flagsNone 1 _ _ _ "integer".toList _ _ _ (by decide) (by decide)
      (by rfl)
    rw [run_chars_exact]
    apply run_star_cls flagsNone isWhiteSpace _ _ " ".toList _ _ _ (by decide) (by rfl)
    rw [run_chr_cons]
    apply run_group_plus_cls flagsNone 2 _ _ _ "optional".toList _ _ _ (by decide) (by decide)
      (by rfl)
    rw [run_chars_exact]
  obtain ⟨t, ht, hcaps⟩ := hhit
  have := exec_of_startsNowhere flagsNone "**`".toList _ "- ".toList _ t (by rfl)
    (by rw [← typeRequiredPattern_seq]; exact ht)
  obtain ⟨m, hm, hmc⟩ := this
  exact ⟨m, hm, hmc.trans hcaps⟩

theorem unsignedPattern_run (fl : Flags) (s : MState) (k : MState → Option MState) :
    unsignedPattern.run fl s k = (Regex.plus true (.cls isAsciiDigit)).run fl s (fun s1 =>
      ((Regex.chr '.').run fl s1 (fun s2 =>
        (Regex.plus true (.cls isAsciiDigit)).run fl s2 k)).orElse (fun _ => k s1)) := rfl

/-- A group around the pattern of an unsigned decimal takes the decimal in front of a
back-tick and records it. -/
theorem run_group_unsigned (fl : Flags) (n : Nat) (k : MState → Option MState) (r : MState)
    (ip fp rest before : List Char) (caps : List (Nat × List Char)) (hne : ip ≠ [])
    (hip : ∀ c ∈ ip, isAsciiDigit c = true) (hfp : ∀ c ∈ fp, isAsciiDigit c = true)
    (hk : k ⟨(unsignedText ip fp).reverse ++ before, backtick :: rest,
      (n, unsignedText ip fp) :: caps⟩ = some r) :
    (Regex.group n unsignedPattern).run fl ⟨before, unsignedText ip fp ++ backtick :: rest, caps⟩ k
      = some r := by
  rw [run_group, unsignedPattern_run]
  cases fp with
  | nil =>
    have ht : unsignedText ip [] = ip := rfl
    rw [ht] at hk ⊢
    apply run_plus_cls_ne fl isAsciiDigit _ _ ip _ _ _ hne hip (by rfl)
    have hdot : ∀ k2, (Regex.chr '.').run fl ⟨ip.reverse ++ before, backtick :: rest, caps⟩ k2
        = none := by
      intro k2
      rw [run_chr_eq]
      have : (canon fl backtick == canon fl '.') = false := by
        rw [canon_beq fl backtick '.' (by decide) (by decide)]; decide
      simp only [this, Bool.false_eq_true, if_false]
    show ((Regex.chr '.').run fl ⟨ip.reverse ++ before, backtick :: rest, caps⟩ _).orElse _ = _
    rw [hdot]
    show k ⟨ip.reverse ++ before, backtick :: rest,
      (n, (ip ++ backtick :: rest).take ((ip ++ backtick :: rest).length -
        (backtick :: rest).length)) :: caps⟩ = some r
    rw [take_append_sub]
    exact hk
  | cons y ys =>
    have ht : unsignedText ip (y :: ys) = ip ++ '.' :: (y :: ys) := rfl
    rw [ht] at hk ⊢
    have hassoc : ip ++ '.' :: (y :: ys) ++ backtick :: rest =
        ip ++ ('.' :: ((y :: ys) ++ backtick :: rest)) := by simp
    have htake : (ip ++ '.' :: (y :: ys) ++ backtick :: rest).take
        ((ip ++ '.' :: (y :: ys) ++ backtick :: rest).length - (backtick :: rest).length) =
        ip ++ '.' :: (y :: ys) := take_append_sub _ _
    rw [hassoc] at htake ⊢
    apply run_plus_cls_ne fl isAsciiDigit _ _ ip _ _ _ hne hip (by rfl)
    have hfrac : ∀ k2, k2 ⟨(y :: ys).reverse ++ '.' :: (ip.reverse ++ before), backtick :: rest,
        caps⟩ = some r →
        (Regex.chr '.').run fl
          ⟨ip.reverse ++ before, '.' :: ((y :: ys) ++ backtick :: rest), caps⟩
          (fun s2 => (Regex.plus true (.cls isAsciiDigit)).run fl s2 k2) = some r := by
      intro k2 hk2
      rw [run_chr_cons]
      exact run_plus_cls_ne fl isAsciiDigit _ _ (y :: ys) _ _ _ (by simp) hfp (by rfl) hk2
    show ((Regex.chr '.').run fl
      ⟨ip.reverse ++ before, '.' :: ((y :: ys) ++ backtick :: rest), caps⟩ _).orElse _ = _
    rw [hfrac]
    · rfl
    · show k ⟨(y :: ys).reverse ++ '.' :: (ip.reverse ++ before), backtick :: rest,
        (n, (ip ++ '.' :: ((y :: ys) ++ backtick :: rest)).take
          ((ip ++ '.' :: ((y :: ys) ++ backtick :: rest)).length -
            (backtick :: rest).length)) :: caps⟩ = some r
      rw [htake]
      have hb : (y :: ys).reverse ++ '.' :: (ip.reverse ++ before) =
          (ip ++ '.' :: (y :: ys)).reverse ++ before := by simp
      rw [hb]
      exact hk

theorem rangePattern_run (fl : Flags) (s : MState) (k : MState → Option MState) :
    rangePattern.run fl s k = (Regex.chars "Range:".toList).run fl s (fun s1 =>
      (Regex.star true (.cls isWhiteSpace)).run fl s1 (fun s2 =>
        (Regex.chr backtick).run fl s2 (fun s3 =>
          (Regex.group 1 unsignedPattern).run fl s3 (fun s4 =>
            (Regex.chr backtick).run fl s4 (fun s5 =>
              (Regex.star true (.cls isWhiteSpace)).run fl s5 (fun s6 =>
                (Regex.chars "to".toList).run fl s6 (fun s7 =>
                  (Regex.star true (.cls isWhiteSpace)).run fl s7 (fun s8 =>
                    (Regex.chr backtick).run fl s8 (fun s9 =>
                      (Regex.group 2 unsignedPattern).run fl s9 (fun s10 =>
                        (Regex.chr backtick).run fl s10 k)))))))))) := rfl

theorem rangePattern_seq (fl : Flags) (s : MState) (k : MState → Option MState) :
    rangePattern.run fl s k = (Regex.seq (Regex.chars "Range:".toList) (Regex.cat
      [.ws, .chr backtick, .group 1 unsignedPattern, .chr backtick, .ws, .lit "to", .ws,
        .chr backtick, .group 2 unsignedPattern, .chr backtick])).run fl s k := rfl

theorem rangePattern_exec (pre loI loF hiI hiF rest : List Char)
    (hpre : startsNowhere flagsI "Range:".toList pre
      ("Range:".toList ++ (" ".toList ++ (backtick :: (unsignedText loI loF ++ backtick ::
        (" ".toList ++ ("to".toList ++ (" ".toList ++ (backtick :: (unsignedText hiI hiF ++
          backtick :: rest))))))))) = true)
    (hlo : loI ≠ [] ∧ (∀ c ∈ loI, isAsciiDigit c = true) ∧ ∀ c ∈ loF, isAsciiDigit c = true)
    (hhi : hiI ≠ [] ∧ (∀ c ∈ hiI, isAsciiDigit c = true) ∧ ∀ c ∈ hiF, isAsciiDigit c = true) :
    ∃ m, rangePattern.exec flagsI (String.mk (pre ++
      ("Range:".toList ++ (" ".toList ++ (backtick :: (unsignedText loI loF ++ backtick ::
        (" ".toList ++ ("to".toList ++ (" ".toList ++ (backtick :: (unsignedText hiI hiF ++
          backtick :: rest))))))))))) = some m ∧
      m.caps = [(2, unsignedText hiI hiF), (1, unsignedText loI loF)] := by
  have hhit : rangePattern.run flagsI ⟨pre.reverse ++ [],
      "Range:".toList ++ (" ".toList ++ (backtick :: (unsignedText loI loF ++ backtick ::
        (" ".toList ++ ("to".toList ++ (" ".toList ++ (backtick :: (unsignedText hiI hiF ++
          backtick :: rest)))))))), []⟩ some =
      some ⟨(backtick :: ((unsignedText hiI hiF).reverse ++ (backtick :: (" ".toList.reverse ++ ("to".toList.reverse ++ (" ".toList.reverse ++ (backtick :: ((unsignedText loI loF).reverse ++ (backtick :: (" ".toList.reverse ++ ("Range:".toList.reverse ++ (pre.reverse ++ [])))))))))))), rest,
        [(2, unsignedText hiI hiF), (1, unsignedText loI loF)]⟩ := by
    rw [rangePattern_run, run_chars_exact]
    apply run_star_cls flagsI isWhiteSpace _ _ " ".toList _ _ _ (by decide) (by rfl)
    rw [run_chr_cons]
    apply run_group_unsigned flagsI 1 _ _ loI loF _ _ _ hlo.1 hlo.2.1 hlo.2.2
    rw [run_chr_cons]
    apply run_star_cls flagsI isWhiteSpace _ _ " ".toList _ _ _ (by decide) (by rfl)
    rw [run_chars_exact]
    apply run_star_cls flagsI isWhiteSpace _ _ " ".toList _ _ _ (by decide) (by rfl)
    rw [run_chr_cons]
    apply run_group_unsigned flagsI 2 _ _ hiI hiF _ _ _ hhi.1 hhi.2.1 hhi.2.2
    rw [run_chr_cons]
  exact exec_of_startsNowhere flagsI "Range:".toList _ pre _ _ hpre
    (by rw [← rangePattern_seq]; exact hhit)

theorem optionsPattern_exec_none (text : List Char)
    (h : startsNowhere flagsI "Options:".toList text [] = true) :
    optionsPattern.exec flagsI (String.mk text) = none :=
  exec_none_of_startsNowhere flagsI "Options:".toList _ text (by decide) h

theorem digit_not_backtick (c : Char) (h : isAsciiDigit c = true) : (c != backtick) = true := by
  have := digit_ne c backtick h (by decide)
  simpa using this

theorem defaultAt_line (d rest : List Char) (hd : ∀ c ∈ d, (c != backtick) = true) :
    defaultAt ("Default: `".toList ++ (d ++ backtick :: rest)) = some d := by
  have h1 : defaultAt ("Default: `".toList ++ (d ++ backtick :: rest)) =
      if ((d ++ backtick :: rest).dropWhile (fun x => x != backtick)).head? == some backtick then
        some ((d ++ backtick :: rest).takeWhile (fun x => x != backtick))
      else none := rfl
  rw [h1, dropWhile_append_all _ _ _ hd, takeWhile_append_all _ _ _ hd]
  have h2 : (backtick :: rest).dropWhile (fun x => x != backtick) = backtick :: rest := rfl
  have h3 : (backtick :: rest).takeWhile (fun x => x != backtick) = [] := rfl
  rw [h2, h3]
  simp

theorem defaultPattern_group (pre d rest : List Char) (hd : ∀ c ∈ d, (c != backtick) = true)
    (hpre : nowhereIn defaultAt pre ("Default: `".toList ++ (d ++ backtick :: rest)) = true) :
    (defaultPattern.exec flagsI
      (String.mk (pre ++ ("Default: `".toList ++ (d ++ backtick :: rest))))).map
        (fun m => m.group 1) = some (some (String.mk d)) := by
  rw [defaultPattern_exec]
  show (firstAt defaultAt (pre ++ ("Default: `".toList ++ (d ++ backtick :: rest)))).map _ = _
  rw [firstAt_skip _ _ _ hpre, firstAt_hit _ _ _ (defaultAt_line d rest hd)]
  rfl

theorem afterSep_line (line rest : List Char) (h : ∀ c ∈ line, c ≠ '\n') :
    afterSep "\n".toList (line ++ '\n' :: rest) = some rest := by
  induction line with
  | nil => simp [afterSep]
  | cons x xs ih =>
    have hx : ('\n' == x) = false := by
      rw [beq_eq_false_iff_ne]; exact Ne.symm (h x (List.mem_cons_self _ _))
    have hp : "\n".toList.isPrefixOf (x :: (xs ++ '\n' :: rest)) = false := by
      show ('\n' == x && _) = false
      rw [hx]; rfl
    show (if "\n".toList.isPrefixOf (x :: (xs ++ '\n' :: rest)) then _ else _) = _
    rw [hp]
    exact ih (fun c hc => h c (List.mem_cons_of_mem _ hc))

theorem untilSep_line (line rest : List Char) (h : ∀ c ∈ line, c ≠ '\n') :
    untilSep "\n".toList (line ++ '\n' :: rest) = line := by
  induction line with
  | nil => simp [untilSep]
  | cons x xs ih =>
    have hx : ('\n' == x) = false := by
      rw [beq_eq_false_iff_ne]; exact Ne.symm (h x (List.mem_cons_self _ _))
    have hp : "\n".toList.isPrefixOf (x :: (xs ++ '\n' :: rest)) = false := by
      show ('\n' == x && _) = false
      rw [hx]; rfl
    show (if "\n".toList.isPrefixOf (x :: (xs ++ '\n' :: rest)) then _ else _) = _
    rw [hp]
    simp only [Bool.false_eq_true, if_false, List.cons.injEq, true_and]
    exact ih (fun c hc => h c (List.mem_cons_of_mem _ hc))

/-- The description of a block whose second line passes the test is that line, trimmed. -/
theorem findDescription_second (first second rest : List Char)
    (hfirst : ∀ c ∈ first, c ≠ '\n') (hsecond : ∀ c ∈ second, c ≠ '\n')
    (hline : isDescriptionLine (trim (String.mk second)) = true) :
    findDescription (String.mk (first ++ '\n' :: (second ++ '\n' :: rest))) =
      trim (String.mk second) := by
  have hget : (splitOn (String.mk (first ++ '\n' :: (second ++ '\n' :: rest))) "\n").get? 1 =
      some (String.mk second) := by
    unfold splitOn
    rw [List.get?_eq_getElem?, List.getElem?_map, ← List.get?_eq_getElem?]
    have := splitOnAux_second "\n".toList (by decide)
      ((first ++ '\n' :: (second ++ '\n' :: rest)).length + 1) []
      (first ++ '\n' :: (second ++ '\n' :: rest)) (Nat.lt_succ_self _)
    rw [afterSep_line first _ hfirst] at this
    simp only [Option.map_some', untilSep_line second rest hsecond] at this
    exact congrArg (Option.map String.mk) this
  unfold findDescription
  cases hl : splitOn (String.mk (first ++ '\n' :: (second ++ '\n' :: rest))) "\n" with
  | nil => rw [hl] at hget; cases hget
  | cons a l =>
    rw [hl] at hget
    cases l with
    | nil => cases hget
    | cons b l2 =>
      have hb : b = String.mk second := by simpa using hget
      subst hb
      simp [hline]

theorem parseBlock_of_matches (block : String) (name d lo hi : List Char) (m1 m2 m4 : Match)
    (h1 : namePattern.exec flagsNone block = some m1) (h1c : m1.caps = [(1, name)])
    (h2 : typeRequiredPattern.exec flagsNone block = some m2)
    (h2c : m2.caps = [(2, "optional".toList), (1, "integer".toList)])
    (h3 : (defaultPattern.exec flagsI block).map (fun m => m.group 1) = some (some (String.mk d)))
    (h4 : rangePattern.exec flagsI block = some m4) (h4c : m4.caps = [(2, hi), (1, lo)])
    (h5 : optionsPattern.exec flagsI block = none)
    (hname : String.mk name ≠ "image_size") :
    parseFalAiParameterBlock block =
      { name := some (String.mk name), type := .int, required := false,
        description := .str (findDescription block),
        default := some (numberOrNull (parseInt (String.mk d))), enum := some .null,
        min := some (.num (parseFloat (String.mk lo))),
        max := some (.num (parseFloat (String.mk hi))), skip := false } := by
  have g1 : m1.group 1 = some (String.mk name) := by simp [Match.group, h1c]
  have g21 : m2.group 1 = some "integer" := by
    simp only [Match.group, h2c]; rfl
  have g22 : m2.group 2 = some "optional" := by
    simp only [Match.group, h2c]; rfl
  have g41 : m4.group 1 = some (String.mk lo) := by
    simp only [Match.group, h4c]; rfl
  have g42 : m4.group 2 = some (String.mk hi) := by
    simp only [Match.group, h4c]; rfl
  have htype : mapFalType (trim (toLowerCase "integer")) = .int := by decide
  have hreq : ("optional" == "required") = false := by decide
  cases hm3 : defaultPattern.exec flagsI block with
  | none => rw [hm3] at h3; cases h3
  | some m3 =>
    rw [hm3] at h3
    have g3 : m3.group 1 = some (String.mk d) := by simpa using h3
    unfold parseFalAiParameterBlock
    simp only [h1, h2, hm3, h4, h5, g1, g21, g22, g3, g41, g42, Option.getD_some, htype, hreq,
      coerceDefault]
    simp [hname]

theorem assignProp_nil {α : Type} (k : String) (v : α) (hk : k ≠ "__proto__") :
    assignProp ([] : List (String × α)) k v = [(k, v)] := by
  unfold assignProp setOwn
  rw [if_neg hk]
  cases arrayIndex? k <;> rfl

theorem integerBlock_eq (name desc d lo hi : List Char) :
    integerBlock name desc d lo hi =
      "- **`".toList ++ (name ++ ("`** (`integer`, _optional_):\n".toList ++ (desc ++
        ("\n".toList ++ ("Default: `".toList ++ (d ++ ("`\n".toList ++ ("Range: `".toList ++
          (lo ++ ("` to `".toList ++ (hi ++ "`".toList))))))))))) := by
  simp only [integerBlock, blockHead, defaultLine, rangeLine, List.append_assoc]

theorem blockHead_eq (name desc : List Char) :
    blockHead name desc = "- **`".toList ++ (name ++ ("`** (`integer`, _optional_):\n".toList ++
      (desc ++ "\n".toList))) := by
  simp only [blockHead, List.append_assoc]

/-- The fields read from a block of the layout of the seed example. -/
theorem integerBlock_parse (name desc d loI loF hiI hiF : List Char)
    (hname : name ≠ [] ∧ ∀ c ∈ name, c ≠ backtick ∧ c ≠ '\n')
    (hsize : String.mk name ≠ "image_size")
    (hdesc : (∀ c ∈ desc, c ≠ '\n') ∧ isDescriptionLine (trim (String.mk desc)) = true)
    (hd : d ≠ [] ∧ (∀ c ∈ d, isAsciiDigit c = true) ∧ digitsValue d ≠ 0)
    (hlo : loI ≠ [] ∧ (∀ c ∈ loI, isAsciiDigit c = true) ∧ ∀ c ∈ loF, isAsciiDigit c = true)
    (hhi : hiI ≠ [] ∧ (∀ c ∈ hiI, isAsciiDigit c = true) ∧ ∀ c ∈ hiF, isAsciiDigit c = true)
    (hdefault : nowhereIn defaultAt (blockHead name desc)
      (defaultLine d ++ rangeLine (unsignedText loI loF) (unsignedText hiI hiF)) = true)
    (hrange : startsNowhere flagsI "Range:".toList (blockHead name desc ++ defaultLine d)
      (rangeLine (unsignedText loI loF) (unsignedText hiI hiF)) = true)
    (hoptions : startsNowhere flagsI "Options:".toList
      (integerBlock name desc d (unsignedText loI loF) (unsignedText hiI hiF)) [] = true) :
    parseFalAiParameterBlock
        (String.mk (integerBlock name desc d (unsignedText loI loF) (unsignedText hiI hiF))) =
      integerParam (String.mk name) (trim (String.mk desc))
        (JSNumber.ofDecimal (digitsValue d) 0) (unsignedValue loI loF) (unsignedValue hiI hiF) := by
  have hnt : ∀ c ∈ name, (c != backtick) = true := by
    intro c hc
    simpa using (hname.2 c hc).1
  have hdt : ∀ c ∈ d, (c != backtick) = true := fun c hc => digit_not_backtick c (hd.2.1 c hc)
  -- the name
  obtain ⟨m1, h1, h1c⟩ := namePattern_exec name
    (" (`integer`, _optional_):\n".toList ++ (desc ++ ("\n".toList ++ ("Default: `".toList ++
      (d ++ ("`\n".toList ++ ("Range: `".toList ++ (unsignedText loI loF ++ ("` to `".toList ++
        (unsignedText hiI hiF ++ "`".toList))))))))))
    hname.1 hnt
  -- the type clause
  obtain ⟨m2, h2, h2c⟩ := typeRequiredPattern_exec name
    (":\n".toList ++ (desc ++ ("\n".toList ++ ("Default: `".toList ++
      (d ++ ("`\n".toList ++ ("Range: `".toList ++ (unsignedText loI loF ++ ("` to `".toList ++
        (unsignedText hiI hiF ++ "`".toList))))))))))
    hname.1 hnt
  -- the default
  have h3 := defaultPattern_group (blockHead name desc) d
    ("\n".toList ++ ("Range: `".toList ++ (unsignedText loI loF ++ ("` to `".toList ++
        (unsignedText hiI hiF ++ "`".toList))))) hdt
    (by
      have e : defaultLine d ++ rangeLine (unsignedText loI loF) (unsignedText hiI hiF) =
          "Default: `".toList ++ (d ++ ("`\n".toList ++ ("Range: `".toList ++
            (unsignedText loI loF ++ ("` to `".toList ++ (unsignedText hiI hiF ++ "`".toList))))))
          := by simp only [defaultLine, rangeLine, List.append_assoc]
      rw [e] at hdefault
      exact hdefault)
  -- the range
  obtain ⟨m4, h4, h4c⟩ := rangePattern_exec (blockHead name desc ++ defaultLine d) loI loF hiI hiF []
    (by
      have e : rangeLine (unsignedText loI loF) (unsignedText hiI hiF) =
          "Range: `".toList ++ (unsignedText loI loF ++ ("` to `".toList ++
            (unsignedText hiI hiF ++ "`".toList))) := by
        simp only [rangeLine, List.append_assoc]
      rw [e] at hrange
      exact hrange)
    hlo hhi
  -- the options
  have h5 := optionsPattern_exec_none _ hoptions
  -- the description
  have h6 := findDescription_second ("- **`".toList ++ (name ++ "`** (`integer`, _optional_):".toList))
    desc ("Default: `".toList ++ (d ++ ("`\n".toList ++ ("Range: `".toList ++
      (unsignedText loI loF ++ ("` to `".toList ++ (unsignedText hiI hiF ++ "`".toList)))))))
    (by
      intro c hc
      simp only [List.mem_append] at hc
      rcases hc with hc | hc | hc
      · intro h; rw [h] at hc; revert hc; decide
      · exact (hname.2 c hc).2
      · intro h; rw [h] at hc; revert hc; decide)
    hdesc.1 hdesc.2
  have hB := integerBlock_eq name desc d (unsignedText loI loF) (unsignedText hiI hiF)
  have hB2 : integerBlock name desc d (unsignedText loI loF) (unsignedText hiI hiF) =
      blockHead name desc ++ defaultLine d ++ ("Range:".toList ++ (" ".toList ++ (backtick ::
        (unsignedText loI loF ++ backtick :: (" ".toList ++ ("to".toList ++ (" ".toList ++
          (backtick :: (unsignedText hiI hiF ++ backtick :: []))))))))) := by
    simp only [integerBlock, rangeLine, List.append_assoc]
    rfl
  have hB3 : integerBlock name desc d (unsignedText loI loF) (unsignedText hiI hiF) =
      blockHead name desc ++ ("Default: `".toList ++ (d ++ backtick :: ("\n".toList ++
        ("Range: `".toList ++ (unsignedText loI loF ++ ("` to `".toList ++
          (unsignedText hiI hiF ++ "`".toList))))))) := by
    simp only [integerBlock, defaultLine, rangeLine, List.append_assoc]
    rfl
  have hB6 : integerBlock name desc d (unsignedText loI loF) (unsignedText hiI hiF) =
      ("- **`".toList ++ (name ++ "`** (`integer`, _optional_):".toList)) ++ '\n' :: (desc ++
        '\n' :: ("Default: `".toList ++ (d ++ ("`\n".toList ++ ("Range: `".toList ++
          (unsignedText loI loF ++ ("` to `".toList ++ (unsignedText hiI hiF ++ "`".toList)))))))) := by
    rw [hB]
    simp only [List.append_assoc]
    rfl
  rw [← hB2] at h4
  rw [← hB3] at h3
  rw [← hB6] at h6
  have h1' : namePattern.exec flagsNone
      (String.mk (integerBlock name desc d (unsignedText loI loF) (unsignedText hiI hiF))) =
      some m1 := by rw [hB]; exact h1
  have h2' : typeRequiredPattern.exec flagsNone
      (String.mk (integerBlock name desc d (unsignedText loI loF) (unsignedText hiI hiF))) =
      some m2 := by rw [hB]; exact h2
  rw [parseBlock_of_matches _ name d (unsignedText loI loF) (unsignedText hiI hiF) m1 m2 m4
    h1' h1c h2' h2c h3 h4 h4c h5 hsize, h6, parseInt_digits d hd.1 hd.2.1,
    parseFloat_unsigned loI loF hlo.1 hlo.2.1 hlo.2.2,
    parseFloat_unsigned hiI hiF hhi.1 hhi.2.1 hhi.2.2]
  simp only [numberOrNull, ofDecimal_truthy _ hd.2.2, if_true]
  rfl


/-- C11, as first stated, fails in its general part: the block of the seed example under the
name `image_size` gets the type IMAGESIZE and the mark for splitting, and in an Input Schema
section it gives the entries `width` and `height` and no entry `image_size`; with a description
line that mentions options the type is ENUM and the enum is present; with a description line
that holds a Default clause the default is taken from that line. -/
theorem image_size_named_block :
    (parseFalAiParameterBlock sizeNamedBlock).type = .imageSize ∧
      (parseFalAiParameterBlock sizeNamedBlock).skip = true ∧
      (parseMarkdownParameters sizeNamedDoc).map Prod.fst = ["width", "height"] ∧
      (parseMarkdownParameters sizeNamedDoc).lookup "image_size" = none ∧
      (parseFalAiParameterBlock optionsDescribedBlock).type = .enum ∧
      (parseFalAiParameterBlock optionsDescribedBlock).enum = some (.arr [.str "a"]) ∧
      (parseFalAiParameterBlock defaultDescribedBlock).type = .int ∧
      (parseFalAiParameterBlock defaultDescribedBlock).default = some (.num (.dec 7 0)) := by
  refine ⟨rfl, rfl, rfl, rfl, rfl, rfl, rfl, rfl⟩

/-- C11, amended: the block of the seed example gives the name `seed`, the type INT, required
false, the description `Random seed.`, the default 42, the bounds 0 and 1000 and a null enum,
and so does it as the entry `seed` of a section. In general, a block of that layout with a
non-empty name without back-tick and line break other than `image_size`, a description line
without line break that passes the test of the description, a default of digits with a value
other than zero and bounds written as unsigned decimals, in which no Default clause starts
before the Default line, the word `Range:` does not occur before the Range line and the word
`Options:` does not occur, gives the name, INT, required false, the trimmed description line,
the value of the default, the values of the bounds and a null enum, each value being the double
nearest to the number written: the integer of the default itself when it is below `10 ^ 15`,
and the decimal of a bound as it is written when its digits have a value below `10 ^ 15` and
its fraction at most 300 digits. When a section consists of that block and the name is not
`__proto__`, the map has that record as its only entry, under the name. -/
theorem integer_block_fields (name desc d loI loF hiI hiF : List Char)
    (hname : name ≠ [] ∧ ∀ c ∈ name, c ≠ backtick ∧ c ≠ '\n')
    (hsize : String.mk name ≠ "image_size")
    (hdesc : (∀ c ∈ desc, c ≠ '\n') ∧ isDescriptionLine (trim (String.mk desc)) = true)
    (hd : d ≠ [] ∧ (∀ c ∈ d, isAsciiDigit c = true) ∧ digitsValue d ≠ 0)
    (hlo : loI ≠ [] ∧ (∀ c ∈ loI, isAsciiDigit c = true) ∧ ∀ c ∈ loF, isAsciiDigit c = true)
    (hhi : hiI ≠ [] ∧ (∀ c ∈ hiI, isAsciiDigit c = true) ∧ ∀ c ∈ hiF, isAsciiDigit c = true)
    (hdefault : nowhereIn defaultAt (blockHead name desc)
      (defaultLine d ++ rangeLine (unsignedText loI loF) (unsignedText hiI hiF)) = true)
    (hrange : startsNowhere flagsI "Range:".toList (blockHead name desc ++ defaultLine d)
      (rangeLine (unsignedText loI loF) (unsignedText hiI hiF)) = true)
    (hoptions : startsNowhere flagsI "Options:".toList
      (integerBlock name desc d (unsignedText loI loF) (unsignedText hiI hiF)) [] = true) :
    parseFalAiParameterBlock seedBlock =
        { name := some "seed", type := .int, required := false, description := .str "Random seed.",
          default := some (.num (.dec 42 0)), enum := some .null, min := some (.num (.dec 0 0)),
          max := some (.num (.dec 1000 0)), skip := false } ∧
      (parseMarkdownParameters seedDoc).lookup "seed" = some (parseFalAiParameterBlock seedBlock) ∧
      parseFalAiParameterBlock
          (String.mk (integerBlock name desc d (unsignedText loI loF) (unsignedText hiI hiF))) =
        { name := some (String.mk name), type := .int, required := false,
          description := .str (trim (String.mk desc)),
          default := some (.num (JSNumber.ofDecimal (digitsValue d) 0)), enum := some .null,
          min := some (.num (unsignedValue loI loF)), max := some (.num (unsignedValue hiI hiF)),
          skip := false } ∧
      (digitsValue d < 10 ^ 15 →
        JSNumber.ofDecimal (digitsValue d) 0 = .dec (digitsValue d) 0) ∧
      (digitsValue (loI ++ loF) < 10 ^ 15 → loF.length ≤ 300 →
        unsignedValue loI loF =
          if digitsValue (loI ++ loF) = 0 then .dec 0 0
          else .dec (digitsValue (loI ++ loF)) (-(loF.length : Int))) ∧
      (digitsValue (hiI ++ hiF) < 10 ^ 15 → hiF.length ≤ 300 →
        unsignedValue hiI hiF =
          if digitsValue (hiI ++ hiF) = 0 then .dec 0 0
          else .dec (digitsValue (hiI ++ hiF)) (-(hiF.length : Int))) ∧
      ∀ (markdown : String) (m : Match) (block : String),
        inputSchemaPattern.exec flagsI markdown = some m →
        paramBlocks ((m.group 1).getD "") = [block] →
        trim block =
          String.mk (integerBlock name desc d (unsignedText loI loF) (unsignedText hiI hiF)) →
        String.mk name ≠ "__proto__" →
        parseMarkdownParameters markdown =
          [(String.mk name, parseFalAiParameterBlock
            (String.mk (integerBlock name desc d (unsignedText loI loF) (unsignedText hiI hiF))))]
        := by
  have hparse := integerBlock_parse name desc d loI loF hiI hiF hname hsize hdesc hd hlo hhi
    hdefault hrange hoptions
  refine ⟨rfl, rfl, hparse, fun hlt => ofDecimal_short _ hd.2.2 hlt,
    unsignedValue_short loI loF, unsignedValue_short hiI hiF, ?_⟩
  intro markdown m block hsection hblocks htrim hproto
  unfold parseMarkdownParameters
  simp only [hsection, hblocks, List.foldl_cons, List.foldl_nil]
  unfold addBlock
  rw [htrim, hparse]
  have hne : (String.mk name != "") = true := by
    have : String.mk name ≠ "" := by
      intro h
      exact hname.1 (congrArg String.data h)
    simpa using this
  simp only [integerParam, Option.getD_some, hne, Bool.not_false, Bool.and_self, if_true]
  exact assignProp_nil _ _ hproto

/-- C11, an instance: the name `steps`, the default `28` and the bounds `1` and `50.5` in a
document whose section holds the block. -/
theorem integer_block_fields_witness :
    parseFalAiParameterBlock stepsBlock =
      { name := some "steps", type := .int, required := false,
        description := .str "Number of steps.",
        default := some (.num (.dec 28 0)), enum := some .null, min := some (.num (.dec 1 0)),
        max := some (.num (.dec 505 (-1))), skip := false } ∧
      (parseMarkdownParameters stepsDoc).map Prod.fst = ["steps"] :=
  have h := integer_block_fields "steps".toList "  Number of steps. ".toList "28".toList "1".toList
    [] "50".toList "5".toList (by decide) (by decide) (by decide) (by decide) (by decide)
    (by decide) (by decide) (by decide) (by decide)
  ⟨h.2.2.1.trans rfl,
    by rw [h.2.2.2.2.2.2 stepsDoc { text := stepsDoc, caps := [(1, stepsBlock.toList)] } stepsBlock
      rfl rfl rfl (by decide)]; rfl⟩

/-! ### The request payload -/

theorem foldl_payloadStep (selectedFields : List String) :
    ∀ acc : List String, selectedFields.foldl payloadStep acc =
      acc ++ (selectedFields.filter (fun f => !isDimension f)).map payloadLine := by
  induction selectedFields with
  | nil => intro acc; simp
  | cons f fs ih =>
    intro acc
    rw [List.foldl_cons, ih]
    by_cases hf : isDimension f = true
    · have hstep : payloadStep acc f = acc := by
        unfold payloadStep
        exact if_pos hf
      rw [hstep, List.filter_cons]
      simp [hf]
    · have hstep : payloadStep acc f = acc ++ [payloadLine f] := by
        unfold payloadStep
        exact if_neg hf
      rw [hstep, List.filter_cons]
      simp [hf]

theorem payloadItems_eq (selectedFields : List String) :
    payloadItems selectedFields =
      (selectedFields.filter (fun f => !isDimension f)).map payloadLine ++
        (if selectedFields.contains "width" || selectedFields.contains "height" then
          [imageSizeLine (selectedFields.contains "width") (selectedFields.contains "height")]
        else []) := by
  unfold payloadItems
  simp only [foldl_payloadStep, List.nil_append]
  cases selectedFields.contains "width" <;> cases selectedFields.contains "height" <;> simp <;> rfl

theorem payloadLine_data (f : String) :
    (payloadLine f).data = "                \"".data ++ (f.data ++ ("\": ".data ++ f.data)) := by
  simp [payloadLine, List.append_assoc]

theorem payloadLine_injective (f g : String) (h : payloadLine f = payloadLine g) : f = g := by
  have hd := congrArg String.data h
  rw [payloadLine_data, payloadLine_data] at hd
  have h1 := List.append_cancel_left hd
  have hlen := congrArg List.length h1
  simp only [List.length_append] at hlen
  have h2 := (List.append_inj h1 (by omega)).1
  exact String.ext h2

theorem line_shape (f mid r : List Char) (h : f ++ (mid ++ f) = r) :
    mid ++ r.take ((r.length - mid.length) / 2) = r.drop ((r.length - mid.length) / 2) := by
  have hlen : (r.length - mid.length) / 2 = f.length := by
    rw [← h]
    simp only [List.length_append]
    omega
  rw [hlen, ← h, List.take_left, List.drop_left]

theorem payloadLine_ne_imageSizeLine (f : String) (w h : Bool) :
    payloadLine f ≠ imageSizeLine w h := by
  intro heq
  have hd := congrArg String.data heq
  rw [payloadLine_data] at hd
  have hpre : ∀ w h, (imageSizeLine w h).data =
      "                \"".data ++ (imageSizeLine w h).data.drop 17 := by
    intro w h
    cases w <;> cases h <;> decide
  rw [hpre] at hd
  have h1 := line_shape _ _ _ (List.append_cancel_left hd)
  revert h1
  cases w <;> cases h <;> decide

theorem contains_eq_decide_mem (l : List String) (x : String) : l.contains x = decide (x ∈ l) := by
  simp

theorem mem_payloadItems (selectedFields : List String) (item : String)
    (h : item ∈ payloadItems selectedFields) :
    (∃ f ∈ selectedFields, isDimension f = false ∧ item = payloadLine f) ∨
      ∃ w h, item = imageSizeLine w h := by
  rw [payloadItems_eq, List.mem_append] at h
  rcases h with h | h
  · left
    rw [List.mem_map] at h
    obtain ⟨f, hf, rfl⟩ := h
    rw [List.mem_filter] at hf
    exact ⟨f, hf.1, by simpa using hf.2, rfl⟩
  · right
    split at h
    · exact ⟨_, _, by simpa using h⟩
    · simp at h

/-- C26: for the selected fields in their order, `generateRequestPayload` joins with a comma
and a line break the line of every selected field other than `width` and `height`, in the order
of selection, followed by the `image_size` line exactly when `width` or `height` is selected,
with 1024 for a dimension that is not selected. The line of a selected field other than the two
dimensions occurs exactly once, and the lines of `width` and `height` never occur. -/
theorem request_payload_lines (selectedFields : List String) (hset : selectedFields.Nodup) :
    generateRequestPayload selectedFields =
        String.intercalate ",\n" (payloadItems selectedFields) ∧
      payloadItems selectedFields =
        (selectedFields.filter (fun f => !isDimension f)).map payloadLine ++
          (if "width" ∈ selectedFields ∨ "height" ∈ selectedFields then
            [imageSizeLine (decide ("width" ∈ selectedFields))
              (decide ("height" ∈ selectedFields))]
          else []) ∧
      (∀ f ∈ selectedFields, f ≠ "width" → f ≠ "height" →
        (payloadItems selectedFields).count (payloadLine f) = 1) ∧
      payloadLine "width" ∉ payloadItems selectedFields ∧
      payloadLine "height" ∉ payloadItems selectedFields := by
  refine ⟨rfl, ?_, ?_, ?_, ?_⟩
  · rw [payloadItems_eq, contains_eq_decide_mem, contains_eq_decide_mem]
    by_cases hw : "width" ∈ selectedFields <;> by_cases hh : "height" ∈ selectedFields <;>
      simp [hw, hh]
  · intro f hf hw hh
    rw [payloadItems_eq, List.count_append]
    have hdim : isDimension f = false := by
      simp [isDimension, hw, hh]
    have h1 : List.count (payloadLine f)
        ((selectedFields.filter (fun f => !isDimension f)).map payloadLine) = 1 := by
      rw [List.count_map_of_injective _ _ (fun a b h => payloadLine_injective a b h)]
      apply List.count_eq_one_of_mem (hset.filter _)
      rw [List.mem_filter]
      exact ⟨hf, by simp [hdim]⟩
    have h2 : List.count (payloadLine f)
        (if selectedFields.contains "width" || selectedFields.contains "height" then
          [imageSizeLine (selectedFields.contains "width") (selectedFields.contains "height")]
        else []) = 0 := by
      rw [List.count_eq_zero]
      intro hmem
      split at hmem
      · rw [List.mem_singleton] at hmem
        exact payloadLine_ne_imageSizeLine _ _ _ hmem
      · simp at hmem
    rw [h1, h2]
  · intro hmem
    rcases mem_payloadItems _ _ hmem with ⟨f, _, hdim, heq⟩ | ⟨w, h, heq⟩
    · have := payloadLine_injective _ _ heq
      rw [← this] at hdim
      revert hdim; decide
    · exact payloadLine_ne_imageSizeLine _ _ _ heq
  · intro hmem
    rcases mem_payloadItems _ _ hmem with ⟨f, _, hdim, heq⟩ | ⟨w, h, heq⟩
    · have := payloadLine_injective _ _ heq
      rw [← this] at hdim
      revert hdim; decide
    · exact payloadLine_ne_imageSizeLine _ _ _ heq

/-- C26, an instance: `prompt`, `width` and `seed` selected in that order. -/
theorem request_payload_lines_witness :
    generateRequestPayload ["prompt", "width", "seed"] =
        "                \"prompt\": prompt,\n                \"seed\": seed,\n" ++
          "                \"image_size\": \x7b\"width\": width, \"height\": 1024\x7d" ∧
      payloadLine "width" ∉ payloadItems ["prompt", "width", "seed"] :=
  have h := request_payload_lines ["prompt", "width", "seed"] (by decide)
  ⟨h.1.trans (by decide), h.2.2.2.1⟩


/-! ### The input definition of a field -/

/-- An ENUM field whose default is `null` gets the text `null` as its default, whatever its
options: `typeof null` is `'object'`, and the default goes through `JSON.stringify`. -/
theorem generateFieldInput_enum_null (name : String) (field : ParameterSpec)
    (htype : field.type = .enum) (hdefault : field.default = some .null) :
    generateFieldInput name field =
      .ok ("(" ++ (if truthy? field.enum then JSON.stringify (field.enum.getD .null) else "[]") ++
        ", \x7b\"default\": \"" ++ "null" ++ "\"\x7d)") := by
  unfold generateFieldInput
  rw [htype]
  simp only [enumDefaultValue, hdefault, isTypeofObject, if_true]
  rfl

/-- An ENUM field without a default whose enum is a list that begins with a string gets that
string, with its double quotes escaped, as its default. -/
theorem generateFieldInput_enum_absent (name : String) (field : ParameterSpec) (first : String)
    (rest : List JSON) (htype : field.type = .enum) (hdefault : field.default = none)
    (henum : field.enum = some (.arr (.str first :: rest))) (hfirst : first ≠ "") :
    generateFieldInput name field =
      .ok ("(" ++ JSON.stringify (.arr (.str first :: rest)) ++ ", \x7b\"default\": \"" ++
        escapeQuotes first ++ "\"\x7d)") := by
  have htruthy : (JSON.str first).truthy = true := by
    simp [JSON.truthy, hfirst]
  have hzero : arrayIndex? "0" = some 0 := by decide
  unfold generateFieldInput
  rw [htype]
  simp only [enumDefaultValue, hdefault, henum, isTypeofObject, truthy?, JSON.truthy, getProp?,
    getProp, greaterThanZero, JSNumber.positive, hzero]
  simp [truthy?, htruthy, hfirst, replaceQuotes, bind, Except.bind, pure, Except.pure]

/-- C27, the failing input: the block of `modeEnumDoc` has the type ENUM, the default `null`
and the options `fast` and `slow`; `generateFieldInput` writes the default `null` for it, not
the first option `fast`, which it writes when the default is absent. -/
theorem enum_null_default_emitted :
    parseMarkdownParameters modeEnumDoc = [("mode", modeEnumParam)] ∧
      generateFieldInput "mode" modeEnumParam =
        .ok "([\"fast\",\"slow\"], \x7b\"default\": \"null\"\x7d)" ∧
      generateFieldInput "mode" { modeEnumParam with default := none } =
        .ok "([\"fast\",\"slow\"], \x7b\"default\": \"fast\"\x7d)" :=
  ⟨rfl, rfl, rfl⟩

/-- C28, the failing input: the block of `countEnumDoc` has the type `integer`, the default 5
and options, so the markdown extractor gives it the type ENUM with the number 5 as its default;
`generateFieldInput` calls `replace` on that number and raises a TypeError. -/
theorem enum_number_default_raises :
    parseMarkdownParameters countEnumDoc = [("count", countEnumParam)] ∧
      generateFieldInput "count" countEnumParam = .error .typeError :=
  ⟨rfl, rfl⟩

/-! ### The selection of the page -/

/-- C29, the failing input: after the document `firstPageDoc` is parsed and then the document
`secondPageDoc`, the name `a` of the first model is still selected, the parsed model has the
only key `b`, and `updateNodePreview` raises on the state. -/
theorem stale_selection_after_reparse :
    (runPage [.parse firstPageDoc]).selectedFields = ["a"] ∧
      (runPage [.parse firstPageDoc, .parse secondPageDoc]).selectedFields = ["a", "b"] ∧
      (runPage [.parse firstPageDoc, .parse secondPageDoc]).checkboxes = [("b", true)] ∧
      (runPage [.parse firstPageDoc, .parse secondPageDoc]).parsedApiData.map
        (fun model => model.parameters.map Prod.fst) = some ["b"] ∧
      updateNodePreviewRaises (runPage [.parse firstPageDoc, .parse secondPageDoc]) = true ∧
      ¬ SelectionWithinModel (runPage [.parse firstPageDoc, .parse secondPageDoc]) := by
  have hsel : (runPage [.parse firstPageDoc, .parse secondPageDoc]).selectedFields = ["a", "b"] :=
    by rfl
  have hkeys : (runPage [.parse firstPageDoc, .parse secondPageDoc]).parsedApiData.map
      (fun model => model.parameters.map Prod.fst) = some ["b"] := by rfl
  refine ⟨by rfl, hsel, by rfl, hkeys, by rfl, ?_⟩
  intro h
  obtain ⟨model, hm, hmem⟩ := h "a" (by rw [hsel]; simp)
  rw [hm] at hkeys
  simp only [Option.map_some', Option.some.injEq] at hkeys
  rw [hkeys] at hmem
  revert hmem
  decide

/-! ### The type clause of a block -/

theorem mem_of_includesList (hay needle : List Char) (h : includesList hay needle = true)
    (c : Char) (hc : c ∈ needle) : c ∈ hay := by
  unfold includesList at h
  rw [List.any_eq_true] at h
  obtain ⟨t, ht, hp⟩ := h
  have hpre : needle <+: t := List.isPrefixOf_iff_prefix.mp hp
  have hsuf : t <:+ hay := (List.mem_tails _ _).mp ht
  exact hsuf.subset (hpre.subset hc)

theorem lowerChar_not_capital (c x : Char) (hx : x ∈ lowerChar c) : isAsciiCapital x = false := by
  unfold lowerChar at hx
  split at hx
  · rename_i hcap
    simp only [List.mem_singleton] at hx
    simp only [Bool.and_eq_true, decide_eq_true_eq, char_le_iff] at hcap
    have h1 : 'A'.toNat = 65 := by decide
    have h2 : 'Z'.toNat = 90 := by decide
    rw [h1, h2] at hcap
    have hn : x.toNat = c.toNat + 32 := by
      rw [hx]; exact toNat_ofNat_small _ (by omega)
    unfold isAsciiCapital
    simp only [Bool.and_eq_false_imp, decide_eq_true_eq, decide_eq_false_iff_not, char_le_iff,
      h1, h2]
    omega
  · split at hx
    · simp only [List.mem_cons, List.mem_singleton, List.not_mem_nil, or_false] at hx
      rcases hx with hx | hx <;> rw [hx] <;> decide
    · split at hx
      · simp only [List.mem_singleton] at hx
        rw [hx]; decide
      · rename_i hcap _ _
        simp only [List.mem_singleton] at hx
        rw [hx]
        unfold isAsciiCapital
        simpa using hcap

theorem toLowerCase_not_capital (s : String) (x : Char) (hx : x ∈ (toLowerCase s).toList) :
    isAsciiCapital x = false := by
  have hx2 : x ∈ s.toList.flatMap lowerChar := hx
  rw [List.mem_flatMap] at hx2
  obtain ⟨c, _, hc⟩ := hx2
  exact lowerChar_not_capital c x hc

theorem mem_trim (s : String) (x : Char) (hx : x ∈ (trim s).toList) : x ∈ s.toList := by
  have hx2 : x ∈ ((s.toList.dropWhile isWhiteSpace).reverse.dropWhile isWhiteSpace).reverse := hx
  rw [List.mem_reverse] at hx2
  have h1 := (List.dropWhile_sublist isWhiteSpace).subset hx2
  rw [List.mem_reverse] at h1
  exact (List.dropWhile_sublist isWhiteSpace).subset h1

/-- On a text without ASCII capital letter, as the lower-cased and trimmed type string is, the
rules of `mapFalType` are the rules of `typeOfTypeString`: the test for `ImageSize` with its
capitals never holds. -/
theorem mapFalType_eq (s : String) (h : ∀ x ∈ s.toList, isAsciiCapital x = false) :
    mapFalType s = typeOfTypeString s := by
  have hno : includes s "ImageSize" = false := by
    cases hi : includes s "ImageSize" with
    | false => rfl
    | true =>
      have := h 'I' (mem_of_includesList _ _ hi 'I' (by decide))
      revert this
      decide
  unfold mapFalType typeOfTypeString
  rw [hno, Bool.or_false]

theorem mapFalType_lower (s : String) :
    mapFalType (trim (toLowerCase s)) = typeOfTypeString (trim (toLowerCase s)) :=
  mapFalType_eq _ (fun x hx => toLowerCase_not_capital s x (mem_trim _ x hx))


/-- The fields of the record of a block in which a name is found, by the clauses of the
block. -/
theorem parseFalAiParameterBlock_parts (block : String) (m1 : Match)
    (h1 : namePattern.exec flagsNone block = some m1) :
    (parseFalAiParameterBlock block).name = some ((m1.group 1).getD "") ∧
    (parseFalAiParameterBlock block).type =
      (if typeBeforeCheck block = .imageSize ∨ (m1.group 1).getD "" = "image_size" then .imageSize
        else typeBeforeCheck block) ∧
    (parseFalAiParameterBlock block).skip =
      decide (typeBeforeCheck block = .imageSize ∨ (m1.group 1).getD "" = "image_size") ∧
    (parseFalAiParameterBlock block).required = blockRequired block ∧
    (parseFalAiParameterBlock block).enum = some (match blockOptions block with
      | some opts => .arr (opts.map (fun opt => .str (removeChar backtick opt)))
      | none => .null) ∧
    (parseFalAiParameterBlock block).default = some (match defaultPattern.exec flagsI block with
      | some m => coerceDefault (blockType block) ((m.group 1).getD "")
      | none => .null) := by
  unfold parseFalAiParameterBlock typeBeforeCheck blockOptions blockType blockRequired
  rw [h1]
  cases typeRequiredPattern.exec flagsNone block <;>
    cases optionsPattern.exec flagsI block <;>
      cases defaultPattern.exec flagsI block <;> exact ⟨rfl, rfl, rfl, rfl, rfl, rfl⟩

theorem typeRequiredPattern_typed (name ws1 ty ws2 mark rest : List Char) (hne : name ≠ [])
    (hnt : ∀ c ∈ name, (c != backtick) = true) (hws1 : ∀ c ∈ ws1, isWhiteSpace c = true)
    (hty : ty ≠ []) (htt : ∀ c ∈ ty, (c != backtick) = true)
    (hws2 : ∀ c ∈ ws2, isWhiteSpace c = true) (hmark : mark ≠ [])
    (hmt : ∀ c ∈ mark, (c != '_') = true) :
    ∃ m, typeRequiredPattern.exec flagsNone (String.mk (typedBlock name ws1 ty ws2 mark rest)) =
        some m ∧ m.caps = [(2, mark), (1, ty)] := by
  have hhit : ∃ t, typeRequiredPattern.run flagsNone
      ⟨"- ".toList.reverse ++ [], "**`".toList ++ (name ++ ("`**".toList ++ (ws1 ++
          ("(`".toList ++ (ty ++ ("`,".toList ++ (ws2 ++ ('_' ::
            (mark ++ ("_)".toList ++ rest)))))))))), []⟩ some = some t ∧
      t.caps = [(2, mark), (1, ty)] := by
    refine ⟨⟨"_)".toList.reverse ++ (mark.reverse ++ '_' :: (ws2.reverse ++
      ("`,".toList.reverse ++ (ty.reverse ++ ("(`".toList.reverse ++
        (ws1.reverse ++ ("`**".toList.reverse ++ (name.reverse ++
          ("**`".toList.reverse ++ ("- ".toList.reverse ++ [])))))))))), rest,
      [(2, mark), (1, ty)]⟩, ?_, rfl⟩
    rw [typeRequired_run, run_chars_exact]
    apply run_plus_cls_ne flagsNone _ _ _ name _ _ _ hne hnt (by rfl)
    rw [run_chars_exact]
    apply run_star_cls flagsNone isWhiteSpace _ _ ws1 _ _ _ hws1 (by rfl)
    rw [run_chars_exact]
    apply run_group_plus_cls flagsNone 1 _ _ _ ty _ _ _ hty htt (by rfl)
    rw [run_chars_exact]
    apply run_star_cls flagsNone isWhiteSpace _ _ ws2 _ _ _ hws2 (by rfl)
    rw [run_chr_cons]
    apply run_group_plus_cls flagsNone 2 _ _ _ mark _ _ _ hmark hmt (by rfl)
    rw [run_chars_exact]
  obtain ⟨t, ht, hcaps⟩ := hhit
  have := exec_of_startsNowhere flagsNone "**`".toList _ "- ".toList _ t (by rfl)
    (by rw [← typeRequiredPattern_seq]; exact ht)
  obtain ⟨m, hm, hmc⟩ := this
  exact ⟨m, hm, hmc.trans hcaps⟩

theorem namePattern_typed (name ws1 ty ws2 mark rest : List Char) (hne : name ≠ [])
    (hnt : ∀ c ∈ name, (c != backtick) = true) :
    ∃ m, namePattern.exec flagsNone (String.mk (typedBlock name ws1 ty ws2 mark rest)) = some m ∧
      m.caps = [(1, name)] :=
  namePattern_exec name _ hne hnt

/-- The type and the required flag of a block that begins with a name and a type clause and
from which no options are read. -/
theorem typedBlock_type (name ws1 ty ws2 mark rest : List Char) (hne : name ≠ [])
    (hnt : ∀ c ∈ name, (c != backtick) = true) (hws1 : ∀ c ∈ ws1, isWhiteSpace c = true)
    (hty : ty ≠ []) (htt : ∀ c ∈ ty, (c != backtick) = true)
    (hws2 : ∀ c ∈ ws2, isWhiteSpace c = true) (hmark : mark ≠ [])
    (hmt : ∀ c ∈ mark, (c != '_') = true)
    (hopt : blockOptions (String.mk (typedBlock name ws1 ty ws2 mark rest)) = none) :
    (parseFalAiParameterBlock (String.mk (typedBlock name ws1 ty ws2 mark rest))).type =
        (if String.mk name = "image_size" then .imageSize
          else typeOfTypeString (trim (toLowerCase (String.mk ty)))) ∧
      (parseFalAiParameterBlock (String.mk (typedBlock name ws1 ty ws2 mark rest))).required =
        (String.mk mark == "required") := by
  obtain ⟨m1, h1, h1c⟩ := namePattern_typed name ws1 ty ws2 mark rest hne hnt
  obtain ⟨m2, h2, h2c⟩ :=
    typeRequiredPattern_typed name ws1 ty ws2 mark rest hne hnt hws1 hty htt hws2 hmark hmt
  have g1 : (m1.group 1).getD "" = String.mk name := by simp [Match.group, h1c]
  have g21 : (m2.group 1).getD "" = String.mk ty := by
    simp only [Match.group, h2c]; rfl
  have g22 : (m2.group 2).getD "" = String.mk mark := by
    simp only [Match.group, h2c]; rfl
  have hparts := parseFalAiParameterBlock_parts _ m1 h1
  have hbt : blockType (String.mk (typedBlock name ws1 ty ws2 mark rest)) =
      typeOfTypeString (trim (toLowerCase (String.mk ty))) := by
    unfold blockType
    rw [h2]
    simp only [g21]
    exact mapFalType_lower _
  have hbr : blockRequired (String.mk (typedBlock name ws1 ty ws2 mark rest)) =
      (String.mk mark == "required") := by
    unfold blockRequired
    rw [h2]
    simp only [g22]
  have hbc : typeBeforeCheck (String.mk (typedBlock name ws1 ty ws2 mark rest)) =
      typeOfTypeString (trim (toLowerCase (String.mk ty))) := by
    unfold typeBeforeCheck
    rw [hopt]
    exact hbt
  refine ⟨?_, hparts.2.2.2.1.trans hbr⟩
  rw [hparts.2.1, hbc, g1]
  by_cases hn : String.mk name = "image_size"
  · simp [hn]
  · by_cases ht : typeOfTypeString (trim (toLowerCase (String.mk ty))) = .imageSize
    · simp [hn, ht]
    · simp [hn, ht]

/-- The type and the required flag of a block without a type clause from which no options are
read. -/
theorem untypedBlock_type (block : String)
    (h2 : typeRequiredPattern.exec flagsNone block = none) (hopt : blockOptions block = none) :
    (parseFalAiParameterBlock block).type =
        (if (parseFalAiParameterBlock block).name = some "image_size" then .imageSize
          else .string) ∧
      (parseFalAiParameterBlock block).required = false := by
  cases h1 : namePattern.exec flagsNone block with
  | none =>
    have : parseFalAiParameterBlock block = emptyParam := by
      unfold parseFalAiParameterBlock
      rw [h1]
    rw [this]
    exact ⟨rfl, rfl⟩
  | some m1 =>
    have hparts := parseFalAiParameterBlock_parts block m1 h1
    have hbt : blockType block = .string := by
      unfold blockType
      rw [h2]
    have hbr : blockRequired block = false := by
      unfold blockRequired
      rw [h2]
    have hbc : typeBeforeCheck block = .string := by
      unfold typeBeforeCheck
      rw [hopt]
      exact hbt
    refine ⟨?_, hparts.2.2.2.1.trans hbr⟩
    rw [hparts.2.1, hparts.1, hbc]
    by_cases hn : (m1.group 1).getD "" = "image_size"
    · simp [hn]
    · simp [hn]

/-- C22, the failing input: the block `sizeOptionsBlock` has the type string `ImageSize`, a
name other than `image_size` and an Options clause; its record has the type ENUM and is not
marked to be skipped, and a section that holds it has that record as the entry `size` and no
`width` or `height`. Without its Options line the block is marked. -/
theorem image_size_type_with_options :
    parseFalAiParameterBlock sizeOptionsBlock = sizeOptionsParam ∧
      sizeOptionsParam.type = .enum ∧ sizeOptionsParam.skip = false ∧
      parseMarkdownParameters ("### Input Schema\n\n" ++ sizeOptionsBlock) =
        [("size", sizeOptionsParam)] ∧
      (parseFalAiParameterBlock sizeTypedBlock).type = .imageSize ∧
      (parseFalAiParameterBlock sizeTypedBlock).skip = true ∧
      (parseMarkdownParameters ("### Input Schema\n\n" ++ sizeTypedBlock)).map Prod.fst =
        ["width", "height"] :=
  ⟨rfl, rfl, rfl, rfl, rfl, rfl, rfl⟩

/-- C24, a counterexample: the block `sizeStringBlock` has the type clause `string` and no
Options clause, and its name is `image_size`; its type is the composite sentinel, not STRING. -/
theorem image_size_name_over_type_clause :
    optionsPattern.exec flagsI sizeStringBlock = none ∧
      (typeRequiredPattern.exec flagsNone sizeStringBlock).map (fun m => m.group 1) =
        some (some "string") ∧
      typeOfTypeString "string" = .string ∧
      (parseFalAiParameterBlock sizeStringBlock).type = .imageSize :=
  ⟨rfl, rfl, rfl, rfl⟩

/-- C24, amended: a block that begins with a non-empty name without back-tick and a type clause
(a non-empty type string without back-tick, a non-empty marker without underscore) and from
which no options are read has, when its name is not `image_size`, the type that the rules give
in their order to the lower-cased and trimmed type string, and it is required exactly when the
marker is `required`; when its name is `image_size` its type is the composite sentinel. A
block without a type clause from which no options are read is not required, and is STRING, or
the composite sentinel when its name is `image_size`. -/
theorem type_clause_rule (name ws1 ty ws2 mark rest : List Char) (hne : name ≠ [])
    (hnt : ∀ c ∈ name, (c != backtick) = true) (hws1 : ∀ c ∈ ws1, isWhiteSpace c = true)
    (hty : ty ≠ []) (htt : ∀ c ∈ ty, (c != backtick) = true)
    (hws2 : ∀ c ∈ ws2, isWhiteSpace c = true) (hmark : mark ≠ [])
    (hmt : ∀ c ∈ mark, (c != '_') = true)
    (hopt : blockOptions (String.mk (typedBlock name ws1 ty ws2 mark rest)) = none) :
    ((parseFalAiParameterBlock (String.mk (typedBlock name ws1 ty ws2 mark rest))).type =
        (if String.mk name = "image_size" then .imageSize
          else typeOfTypeString (trim (toLowerCase (String.mk ty)))) ∧
      (parseFalAiParameterBlock (String.mk (typedBlock name ws1 ty ws2 mark rest))).required =
        (String.mk mark == "required")) ∧
    ∀ block : String, typeRequiredPattern.exec flagsNone block = none →
      blockOptions block = none →
      (parseFalAiParameterBlock block).type =
          (if (parseFalAiParameterBlock block).name = some "image_size" then .imageSize
            else .string) ∧
        (parseFalAiParameterBlock block).required = false :=
  ⟨typedBlock_type name ws1 ty ws2 mark rest hne hnt hws1 hty htt hws2 hmark hmt hopt,
    untypedBlock_type⟩

/-- C24, an instance: the block `barTypeBlock` has the type string `Fast | Slow` with a bar and
the marker `Required`, which is not `required`; the block `- **x**` has no type clause. -/
theorem type_clause_rule_witness :
    String.mk (typedBlock "mode".toList "  ".toList "Fast | Slow".toList " ".toList
        "Required".toList ": the mode".toList) = barTypeBlock ∧
      ((parseFalAiParameterBlock barTypeBlock).type = .enum ∧
        (parseFalAiParameterBlock barTypeBlock).required = false) ∧
      ((parseFalAiParameterBlock "- **`x`**\n  A text.").type = .string ∧
        (parseFalAiParameterBlock "- **`x`**\n  A text.").required = false) :=
  ⟨rfl,
    (type_clause_rule "mode".toList "  ".toList "Fast | Slow".toList " ".toList
      "Required".toList ": the mode".toList (by decide) (by decide) (by decide) (by decide)
      (by decide) (by decide) (by decide) (by decide) (by rfl)).1,
    (type_clause_rule "mode".toList "  ".toList "Fast | Slow".toList " ".toList
      "Required".toList ": the mode".toList (by decide) (by decide) (by decide) (by decide)
      (by decide) (by decide) (by decide) (by decide) (by rfl)).2 "- **`x`**\n  A text."
      (by rfl) (by rfl)⟩

/-! ### The default of a numeric block -/

theorem radixSplit_unsigned (x : Char) (xs tail : List Char)
    (hxs : ∀ c ∈ xs, isAsciiDigit c = true) (htail : tail.head?.all (fun c => c == '.') = true) :
    radixSplit (x :: xs ++ tail) = (10, x :: xs ++ tail) := by
  have hsecond : ∀ c r, xs ++ tail = c :: r → c ≠ 'x' ∧ c ≠ 'X' := by
    intro c r h
    cases xs with
    | nil =>
      simp only [List.nil_append] at h
      rw [h] at htail
      simp only [List.head?_cons, Option.all_some, beq_iff_eq] at htail
      rw [htail]
      exact ⟨by decide, by decide⟩
    | cons y ys =>
      simp only [List.cons_append, List.cons.injEq] at h
      rw [← h.1]
      have hy := hxs y (List.mem_cons_self _ _)
      exact ⟨digit_ne y 'x' hy (by decide), digit_ne y 'X' hy (by decide)⟩
  unfold radixSplit
  split
  · rename_i r heq
    simp only [List.cons_append, List.cons.injEq] at heq
    exact absurd rfl (hsecond 'x' r heq.2).1
  · rename_i r heq
    simp only [List.cons_append, List.cons.injEq] at heq
    exact absurd rfl (hsecond 'X' r heq.2).2
  · rfl

/-- The function `parseInt` on an unsigned decimal: the value of the digits in front of the
point. -/
theorem parseInt_unsigned (ip fp : List Char) (hne : ip ≠ [])
    (hip : ∀ c ∈ ip, isAsciiDigit c = true) :
    parseInt (String.mk (unsignedText ip fp)) = JSNumber.ofDecimal (digitsValue ip) 0 := by
  cases ip with
  | nil => exact absurd rfl hne
  | cons x xs =>
    have hx := hip x (List.mem_cons_self _ _)
    have hxs : ∀ c ∈ xs, isAsciiDigit c = true := fun c hc => hip c (List.mem_cons_of_mem _ hc)
    have hws : isWhiteSpace x = false := digit_not_whiteSpace x hx
    have htext : unsignedText (x :: xs) fp = x :: xs ++ (if fp.isEmpty then [] else '.' :: fp) := by
      unfold unsignedText
      cases fp <;> simp
    have htail : (if fp.isEmpty then [] else '.' :: fp).head?.all (fun c => c == '.') = true := by
      cases fp <;> rfl
    have hdw : (x :: xs ++ (if fp.isEmpty then [] else '.' :: fp)).dropWhile isWhiteSpace =
        x :: xs ++ (if fp.isEmpty then [] else '.' :: fp) := by simp [hws]
    have hsign : signSplit (x :: xs ++ (if fp.isEmpty then [] else '.' :: fp)) =
        (false, x :: xs ++ (if fp.isEmpty then [] else '.' :: fp)) :=
      signSplit_digit x _ hx
    have hall : ∀ c ∈ x :: xs, (digitValue 10 c).isSome = true := by
      intro c hc
      rw [digitValue_digit c (hip c hc)]
      rfl
    have hdot : (digitValue 10 '.').isSome = false := by decide
    have htw : (x :: xs ++ (if fp.isEmpty then [] else '.' :: fp)).takeWhile
        (fun c => (digitValue 10 c).isSome) = x :: xs := by
      rw [takeWhile_append_all _ _ _ hall]
      cases fp <;> simp [hdot]
    rw [parseInt_eq, htext]
    simp only [String.toList, hdw, hsign, radixSplit_unsigned x xs _ hxs htail, htw,
      reduceCtorEq, if_false, Bool.false_eq_true]
    have := foldl_digits (x :: xs) hip 0
    simp only [Nat.cast_zero, Nat.cast_ofNat] at this
    simp only [Nat.cast_ofNat, this, digitsValue]

/-- The default of a block in which a Default clause is found: the text between the back-ticks
of the first such clause, by the type of the type clause. -/
theorem default_of_token (block : String) (d : List Char)
    (hd : firstAt defaultAt block.toList = some d) (m1 : Match)
    (h1 : namePattern.exec flagsNone block = some m1) :
    (parseFalAiParameterBlock block).default =
      some (coerceDefault (blockType block) (String.mk d)) := by
  have hexec := defaultPattern_exec block
  rw [hd] at hexec
  rw [(parseFalAiParameterBlock_parts block m1 h1).2.2.2.2.2]
  cases hm : defaultPattern.exec flagsI block with
  | none => rw [hm] at hexec; cases hexec
  | some m =>
    rw [hm] at hexec
    simp only [Option.map_some', Option.some.injEq] at hexec
    simp only [hexec, Option.getD_some]

/-- A block whose record has the type INT or FLOAT has a name, that type in its type clause,
and no options. -/
theorem numeric_type_inv (block : String) (ty : ComfyType)
    (hty : ty = .int ∨ ty = .float) (h : (parseFalAiParameterBlock block).type = ty) :
    (∃ m1, namePattern.exec flagsNone block = some m1) ∧ blockType block = ty := by
  cases h1 : namePattern.exec flagsNone block with
  | none =>
    have : parseFalAiParameterBlock block = emptyParam := by
      unfold parseFalAiParameterBlock
      rw [h1]
    rw [this] at h
    rcases hty with hty | hty <;> rw [hty] at h <;> cases h
  | some m1 =>
    refine ⟨⟨m1, rfl⟩, ?_⟩
    have hparts := (parseFalAiParameterBlock_parts block m1 h1).2.1
    rw [h] at hparts
    have hbc : typeBeforeCheck block = ty := by
      split at hparts
      · rcases hty with hty | hty <;> rw [hty] at hparts <;> cases hparts
      · exact hparts.symm
    unfold typeBeforeCheck at hbc
    cases ho : blockOptions block with
    | none => rw [ho] at hbc; exact hbc
    | some opts =>
      rw [ho] at hbc
      rcases hty with hty | hty <;> rw [hty] at hbc <;> cases hbc

theorem numberOrNull_truthy (x : JSNumber) (h : x.truthy = true) : numberOrNull x = .num x := by
  unfold numberOrNull
  rw [if_pos h]

/-- C23, a counterexample: the block `fractionDefaultBlock` has the type INT and the Default
token `2.5`, a decimal literal of the value 2.5; its default is 2. The block
`zeroDefaultBlock` has the type INT and the Default token `0`; its default is `null`. -/
theorem integer_default_truncated :
    (parseFalAiParameterBlock fractionDefaultBlock).type = .int ∧
      firstAt defaultAt fractionDefaultBlock.toList = some "2.5".toList ∧
      unsignedValue "2".toList "5".toList = .dec 25 (-1) ∧
      (parseFalAiParameterBlock fractionDefaultBlock).default = some (.num (.dec 2 0)) ∧
      (parseFalAiParameterBlock zeroDefaultBlock).type = .int ∧
      firstAt defaultAt zeroDefaultBlock.toList = some "0".toList ∧
      (parseFalAiParameterBlock zeroDefaultBlock).default = some .null :=
  ⟨rfl, rfl, rfl, rfl, rfl, rfl, rfl⟩

/-- C23, amended: let `d` be the text between the back-ticks of the first Default clause of a
block. When the block has the type INT, its default is the number `parseInt` reads from `d`
when that number is neither NaN nor zero, and `null` when it is NaN; for `d` an unsigned
decimal (digits, and possibly a point and digits) whose digits in front of the point have a
value other than zero, the default is the double nearest to that value of the digits in front
of the point, which is the value itself when it is below `10 ^ 15`. When the block has the
type FLOAT, its default is the number `parseFloat` reads from `d` when that number is neither
NaN nor zero, and `null` when it is NaN; for `d` an unsigned decimal whose value is not zero,
the default is the double nearest to that value, which is the decimal as it is written when
its digits have a value below `10 ^ 15` and its fraction at most 300 digits. -/
theorem numeric_default (block : String) (d : List Char)
    (hd : firstAt defaultAt block.toList = some d) :
    ((parseFalAiParameterBlock block).type = .int →
      ((parseInt (String.mk d)).truthy = true →
        (parseFalAiParameterBlock block).default = some (.num (parseInt (String.mk d)))) ∧
      (parseInt (String.mk d) = .nan → (parseFalAiParameterBlock block).default = some .null) ∧
      ∀ ip fp : List Char, ip ≠ [] → (∀ c ∈ ip, isAsciiDigit c = true) →
        (∀ c ∈ fp, isAsciiDigit c = true) → d = unsignedText ip fp → digitsValue ip ≠ 0 →
        (parseFalAiParameterBlock block).default =
            some (.num (JSNumber.ofDecimal (digitsValue ip) 0)) ∧
          (digitsValue ip < 10 ^ 15 →
            (parseFalAiParameterBlock block).default =
              some (.num (.dec (digitsValue ip) 0)))) ∧
    ((parseFalAiParameterBlock block).type = .float →
      ((parseFloat (String.mk d)).truthy = true →
        (parseFalAiParameterBlock block).default = some (.num (parseFloat (String.mk d)))) ∧
      (parseFloat (String.mk d) = .nan → (parseFalAiParameterBlock block).default = some .null) ∧
      ∀ ip fp : List Char, ip ≠ [] → (∀ c ∈ ip, isAsciiDigit c = true) →
        (∀ c ∈ fp, isAsciiDigit c = true) → d = unsignedText ip fp →
        (unsignedValue ip fp).truthy = true →
        (parseFalAiParameterBlock block).default = some (.num (unsignedValue ip fp)) ∧
          (digitsValue (ip ++ fp) < 10 ^ 15 → fp.length ≤ 300 →
            (parseFalAiParameterBlock block).default =
              some (.num (.dec (digitsValue (ip ++ fp)) (-(fp.length : Int)))))) := by
  constructor
  · intro htype
    obtain ⟨⟨m1, h1⟩, hbt⟩ := numeric_type_inv block .int (Or.inl rfl) htype
    have hdef := default_of_token block d hd m1 h1
    rw [hbt] at hdef
    have hco : coerceDefault .int (String.mk d) = numberOrNull (parseInt (String.mk d)) := rfl
    rw [hco] at hdef
    refine ⟨?_, ?_, ?_⟩
    · intro ht
      rw [hdef, numberOrNull_truthy _ ht]
    · intro hn
      rw [hdef, hn]
      rfl
    · intro ip fp hne hip _ hdt hv
      have hgen : (parseFalAiParameterBlock block).default =
          some (.num (JSNumber.ofDecimal (digitsValue ip) 0)) := by
        rw [hdef, hdt, parseInt_unsigned ip fp hne hip,
          numberOrNull_truthy _ (ofDecimal_truthy _ hv)]
      refine ⟨hgen, fun hlt => ?_⟩
      rw [hgen, ofDecimal_short _ hv hlt]
  · intro htype
    obtain ⟨⟨m1, h1⟩, hbt⟩ := numeric_type_inv block .float (Or.inr rfl) htype
    have hdef := default_of_token block d hd m1 h1
    rw [hbt] at hdef
    have hco : coerceDefault .float (String.mk d) = numberOrNull (parseFloat (String.mk d)) := rfl
    rw [hco] at hdef
    refine ⟨?_, ?_, ?_⟩
    · intro ht
      rw [hdef, numberOrNull_truthy _ ht]
    · intro hn
      rw [hdef, hn]
      rfl
    · intro ip fp hne hip hfp hdt hv
      have hgen : (parseFalAiParameterBlock block).default = some (.num (unsignedValue ip fp)) := by
        rw [hdef, hdt, parseFloat_unsigned ip fp hne hip hfp, numberOrNull_truthy _ hv]
      refine ⟨hgen, fun hlt hn => ?_⟩
      have hshort := unsignedValue_short ip fp hlt hn
      by_cases h0 : digitsValue (ip ++ fp) = 0
      · rw [if_pos h0] at hshort
        rw [hshort] at hv
        cases hv
      · rw [if_neg h0] at hshort
        rw [hgen, hshort]

/-- C23, an instance: the block `guidanceBlock` has the type FLOAT and the Default token `3.5`;
its default is 3.5. -/
theorem numeric_default_witness :
    firstAt defaultAt guidanceBlock.toList = some "3.5".toList ∧
      (parseFalAiParameterBlock guidanceBlock).type = .float ∧
      (parseFalAiParameterBlock guidanceBlock).default = some (.num (.dec 35 (-1))) :=
  ⟨rfl, rfl,
    (((numeric_default guidanceBlock "3.5".toList rfl).2 rfl).2.2 "3".toList "5".toList
      (by decide) (by decide) (by decide) rfl rfl).2 (by decide) (by decide)⟩

/-! ### The options of a block -/

theorem optionsPattern_seq (fl : Flags) (s : MState) (k : MState → Option MState) :
    optionsPattern.run fl s k = (Regex.chars "Options:".toList).run fl s (fun s1 =>
      (Regex.star true (.cls isWhiteSpace)).run fl s1 (fun s2 =>
        (Regex.group 1 (Regex.plus true (.cls (fun c => !isLineTerminator c)))).run fl s2 k)) := rfl

theorem optionsPattern_chars :
    optionsPattern = Regex.seq (Regex.chars "Options:".toList) (Regex.cat
      [.ws, .group 1 (.plus true (.cls (fun c => !isLineTerminator c)))]) := rfl

/-- The options pattern on a block with an Options clause: the first group is the line. -/
theorem optionsPattern_layout (pre ws line post : List Char)
    (hpre : startsNowhere flagsI "Options:".toList pre
      ("Options:".toList ++ (ws ++ (line ++ post))) = true)
    (hws : ∀ c ∈ ws, isWhiteSpace c = true) (hline : line ≠ [])
    (hhead : line.head?.all (fun c => !isWhiteSpace c) = true)
    (hlt : ∀ c ∈ line, isLineTerminator c = false)
    (hpost : post.head?.all isLineTerminator = true) :
    ∃ m, optionsPattern.exec flagsI (String.mk (optionsBlock pre ws line post)) = some m ∧
      m.caps = [(1, line)] := by
  have hmax1 : (line ++ post).head?.all (fun c => !isWhiteSpace c) = true := by
    cases line with
    | nil => exact absurd rfl hline
    | cons x xs => exact hhead
  have hmax2 : post.head?.all (fun c => !(fun c => !isLineTerminator c) c) = true := by
    cases post with
    | nil => rfl
    | cons x xs => simpa using hpost
  have hhit : optionsPattern.run flagsI
      ⟨pre.reverse ++ [], "Options:".toList ++ (ws ++ (line ++ post)), []⟩ some =
      some ⟨line.reverse ++ (ws.reverse ++ ("Options:".toList.reverse ++ (pre.reverse ++ []))),
        post, [(1, line)]⟩ := by
    rw [optionsPattern_seq, run_chars_exact]
    apply run_star_cls flagsI isWhiteSpace _ _ ws _ _ _ hws hmax1
    apply run_group_plus_cls flagsI 1 _ _ _ line _ _ _ hline
      (fun c hc => by simp [hlt c hc]) hmax2
    rfl
  rw [optionsPattern_chars] at hhit ⊢
  exact exec_of_startsNowhere flagsI "Options:".toList _ pre _ _ hpre hhit

theorem tickedValue_spec (text v : List Char) (h : tickedValue text = some v) :
    (∃ rest, text = backtick :: (v ++ backtick :: rest)) ∧ v ≠ [] ∧
      ∀ c ∈ v, (c != backtick) = true := by
  cases text with
  | nil => cases h
  | cons c r =>
    have h : (if c == backtick && !(r.takeWhile (fun x => x != backtick)).isEmpty &&
        (r.dropWhile (fun x => x != backtick)).head? == some backtick then
      some (r.takeWhile (fun x => x != backtick)) else none) = some v := h
    split at h
    · rename_i hc
      simp only [Bool.and_eq_true, beq_iff_eq, Bool.not_eq_true', List.isEmpty_eq_false] at hc
      obtain ⟨⟨hc1, hc2⟩, hc3⟩ := hc
      simp only [Option.some.injEq] at h
      have hsplit := List.takeWhile_append_dropWhile (fun x => x != backtick) r
      cases hd : r.dropWhile (fun x => x != backtick) with
      | nil => rw [hd] at hc3; cases hc3
      | cons e es =>
        rw [hd] at hc3 hsplit
        simp only [List.head?_cons, Option.some.injEq] at hc3
        rw [h] at hsplit hc2
        refine ⟨⟨es, ?_⟩, ?_, ?_⟩
        · rw [hc1, ← hc3, hsplit]
        · intro hv
          rw [hv] at hc2
          exact hc2 rfl
        · intro x hx
          rw [← h] at hx
          exact List.mem_takeWhile_imp (p := fun x => x != backtick) hx
    · cases h

theorem tickedPattern_after (fl : Flags) (before text : List Char) :
    (tickedPattern.run fl ⟨before, text, []⟩ some).map (fun t => t.after) =
      (tickedValue text).map (fun v => text.drop (v.length + 2)) := by
  show ((Regex.chr backtick).run fl ⟨before, text, []⟩ (fun t =>
    (Regex.group 1 .noTicks).run fl t (fun u => (Regex.chr backtick).run fl u some))).map _ = _
  rw [run_chr_eq]
  cases text with
  | nil => rfl
  | cons c r =>
    simp only [canon_beq_backtick, tickedValue]
    cases hc : c == backtick with
    | false => simp
    | true =>
      simp only [if_true, Bool.true_and]
      rw [run_group]
      show ((Regex.plus true (.cls (fun x => x != backtick))).run fl ⟨c :: before, r, []⟩ _).map _
        = _
      rw [run_plus_cls_eq]
      · simp only [take_sub_dropWhile]
        have hsplit := List.takeWhile_append_dropWhile (fun x => x != backtick) r
        cases htw : r.takeWhile (fun x => x != backtick) with
        | nil => simp
        | cons y ys =>
          simp only [reduceCtorEq, if_false, List.isEmpty_cons, Bool.not_false, Bool.true_and]
          rw [run_chr_eq]
          cases hdw : r.dropWhile (fun x => x != backtick) with
          | nil => simp
          | cons e es =>
            simp only [canon_beq_backtick, List.head?_cons]
            rw [htw, hdw] at hsplit
            have hdrop : (c :: r).drop ((y :: ys).length + 2) = es := by
              rw [← hsplit]
              show (y :: ys ++ e :: es).drop ((y :: ys).length + 1) = es
              rw [List.drop_append_eq_append_drop]
              simp
            cases he : e == backtick with
            | false =>
              have : (some e == some backtick) = false := by
                simpa using he
              simp [this]
            | true =>
              have : (some e == some backtick) = true := by
                simpa using he
              simp only [this, if_true, Option.map_some']
              rw [hdrop]
      · intro b x xs hx
        show (Regex.chr backtick).run fl _ some = none
        rw [run_chr_eq]
        have hx2 : (x == backtick) = false := by simpa using hx
        simp only [canon_beq_backtick, hx2, Bool.false_eq_true, if_false]

theorem tickedPattern_none (fl : Flags) (before text : List Char) (h : tickedValue text = none) :
    tickedPattern.run fl ⟨before, text, []⟩ some = none := by
  have := tickedPattern_after fl before text
  rw [h] at this
  cases hr : tickedPattern.run fl ⟨before, text, []⟩ some with
  | none => rfl
  | some t => rw [hr] at this; cases this

theorem tickedPattern_some (fl : Flags) (before text v : List Char)
    (h : tickedValue text = some v) :
    ∃ t, tickedPattern.run fl ⟨before, text, []⟩ some = some t ∧
      t.after = text.drop (v.length + 2) := by
  have := tickedPattern_after fl before text
  rw [h] at this
  cases hr : tickedPattern.run fl ⟨before, text, []⟩ some with
  | none => rw [hr] at this; cases this
  | some t =>
    rw [hr] at this
    simp only [Option.map_some', Option.some.injEq] at this
    exact ⟨t, rfl, this⟩

/-- The leftmost match of the back-tick pattern: the first back-ticked value, with its
back-ticks, and the search goes on after its closing back-tick. -/
theorem searchFrom_ticked (fl : Flags) :
    ∀ (text : List Char) (n : Nat) (before : List Char), text.length ≤ n →
      (nextTicked text = none → searchFrom fl tickedPattern n ⟨before, text, []⟩ = none) ∧
      (∀ v rest, nextTicked text = some (v, rest) →
        ∃ a b, searchFrom fl tickedPattern n ⟨before, text, []⟩ = some (a, b) ∧
          textBetween a b = backtick :: (v ++ [backtick]) ∧ b.after = rest) := by
  intro text
  induction text with
  | nil =>
    intro n before _
    have hr := tickedPattern_none fl before [] rfl
    constructor
    · intro _
      cases n with
      | zero => simp [searchFrom, hr]
      | succ n => simp [searchFrom, hr]
    · intro v rest h
      cases h
  | cons x xs ih =>
    intro n before hn
    cases n with
    | zero => simp at hn
    | succ n =>
      have hn2 : xs.length ≤ n := by simpa using hn
      cases hv : tickedValue (x :: xs) with
      | none =>
        have hr := tickedPattern_none fl before (x :: xs) hv
        have hnext : nextTicked (x :: xs) = nextTicked xs := by
          simp only [nextTicked, hv]
        have hsearch : searchFrom fl tickedPattern (n + 1) ⟨before, x :: xs, []⟩ =
            searchFrom fl tickedPattern n ⟨x :: before, xs, []⟩ := by
          simp only [searchFrom, hr]
        rw [hnext, hsearch]
        exact ih n (x :: before) hn2
      | some v =>
        obtain ⟨t, hr, hta⟩ := tickedPattern_some fl before (x :: xs) v hv
        obtain ⟨⟨rest, htext⟩, _, _⟩ := tickedValue_spec (x :: xs) v hv
        have hnext : nextTicked (x :: xs) = some (v, xs.drop (v.length + 1)) := by
          simp only [nextTicked, hv]
        have hsearch : searchFrom fl tickedPattern (n + 1) ⟨before, x :: xs, []⟩ =
            some (⟨before, x :: xs, []⟩, t) := by
          simp only [searchFrom, hr]
        have hdrop : (x :: xs).drop (v.length + 2) = rest := by
          rw [htext]
          show (v ++ backtick :: rest).drop (v.length + 1) = rest
          rw [List.drop_append_eq_append_drop]
          simp
        rw [hnext, hsearch]
        constructor
        · intro h; cases h
        · intro v2 rest2 h
          simp only [Option.some.injEq, Prod.mk.injEq] at h
          refine ⟨_, _, rfl, ?_, ?_⟩
          · show (x :: xs).take ((x :: xs).length - t.after.length) = _
            rw [hta, hdrop, ← h.1, htext]
            have := take_append_sub (backtick :: (v ++ [backtick])) rest
            simpa using this
          · rw [hta, ← h.2]
            rfl

/-- The matches of the back-tick pattern with the flag `g`: the back-ticked values of the text,
with their back-ticks. -/
theorem matchAllLoop_ticked (fl : Flags) :
    ∀ (n : Nat) (s : MState), matchAllLoop fl tickedPattern n s =
      (tickedTokensAux n s.after).map (fun v => String.mk (backtick :: (v ++ [backtick]))) := by
  intro n
  induction n with
  | zero => intro s; rfl
  | succ n ih =>
    intro s
    have hB := searchFrom_ticked fl s.after s.after.length s.before (Nat.le_refl _)
    cases hnext : nextTicked s.after with
    | none =>
      have hs := hB.1 hnext
      have hs2 : searchFrom fl tickedPattern s.after.length { s with caps := [] } = none := hs
      simp only [matchAllLoop, hs2, tickedTokensAux, hnext, List.map_nil]
    | some p =>
      obtain ⟨v, rest⟩ := p
      obtain ⟨a, b, hs, htb, hba⟩ := hB.2 v rest hnext
      have hs2 : searchFrom fl tickedPattern s.after.length { s with caps := [] } = some (a, b) :=
        hs
      have hlt : b.after.length < a.after.length := by
        have h1 : a.after.take (a.after.length - b.after.length) = backtick :: (v ++ [backtick]) :=
          htb
        by_contra hcon
        have h0 : a.after.length - b.after.length = 0 := by omega
        rw [h0] at h1
        simp at h1
      have hloop : matchAllLoop fl tickedPattern (n + 1) s =
          String.mk (textBetween a b) :: matchAllLoop fl tickedPattern n { b with caps := [] } := by
        simp only [matchAllLoop, hs2, hlt, if_true]
      rw [hloop, ih, htb]
      simp only [tickedTokensAux, hnext, List.map_cons, hba]

theorem matchAll_ticked (fl : Flags) (line : List Char) :
    tickedPattern.matchAll fl (String.mk line) =
      if tickedTokens line = [] then none
      else some ((tickedTokens line).map (fun v => String.mk (backtick :: (v ++ [backtick])))) := by
  unfold Regex.matchAll
  rw [matchAllLoop_ticked]
  have h : tickedTokensAux ((String.mk line).length + 1)
      (⟨[], (String.mk line).toList, []⟩ : MState).after = tickedTokens line := rfl
  rw [h]
  cases tickedTokens line with
  | nil => rfl
  | cons t ts => rfl

theorem nextTicked_spec : ∀ (text v rest : List Char), nextTicked text = some (v, rest) →
    v ≠ [] ∧ ∀ c ∈ v, (c != backtick) = true := by
  intro text
  induction text with
  | nil => intro v rest h; cases h
  | cons x xs ih =>
    intro v rest h
    cases hv : tickedValue (x :: xs) with
    | none =>
      simp only [nextTicked, hv] at h
      exact ih v rest h
    | some w =>
      simp only [nextTicked, hv, Option.some.injEq, Prod.mk.injEq] at h
      have := tickedValue_spec (x :: xs) w hv
      rw [h.1] at this
      exact ⟨this.2.1, this.2.2⟩

theorem tickedTokensAux_spec : ∀ (n : Nat) (text v : List Char), v ∈ tickedTokensAux n text →
    v ≠ [] ∧ ∀ c ∈ v, (c != backtick) = true := by
  intro n
  induction n with
  | zero => intro text v h; cases h
  | succ n ih =>
    intro text v h
    cases hnext : nextTicked text with
    | none => simp [tickedTokensAux, hnext] at h
    | some p =>
      obtain ⟨w, rest⟩ := p
      simp only [tickedTokensAux, hnext, List.mem_cons] at h
      rcases h with h | h
      · rw [h]; exact nextTicked_spec text w rest hnext
      · exact ih rest v h

theorem removeChar_ticked (v : List Char) (h : ∀ c ∈ v, (c != backtick) = true) :
    removeChar backtick (String.mk (backtick :: (v ++ [backtick]))) = String.mk v := by
  unfold removeChar
  have hf : v.filter (fun x => x != backtick) = v := List.filter_eq_self.mpr h
  show String.mk ((backtick :: (v ++ [backtick])).filter (fun x => x != backtick)) = _
  simp [List.filter_cons, List.filter_append, hf]

/-- The options read from a block with an Options clause: the back-ticked values of the line,
with their back-ticks, or `null` when the line has none. -/
theorem blockOptions_layout (pre ws line post : List Char)
    (hpre : startsNowhere flagsI "Options:".toList pre
      ("Options:".toList ++ (ws ++ (line ++ post))) = true)
    (hws : ∀ c ∈ ws, isWhiteSpace c = true) (hline : line ≠ [])
    (hhead : line.head?.all (fun c => !isWhiteSpace c) = true)
    (hlt : ∀ c ∈ line, isLineTerminator c = false)
    (hpost : post.head?.all isLineTerminator = true) :
    blockOptions (String.mk (optionsBlock pre ws line post)) =
      if tickedTokens line = [] then none
      else some ((tickedTokens line).map (fun v => String.mk (backtick :: (v ++ [backtick])))) := by
  obtain ⟨m, hm, hmc⟩ := optionsPattern_layout pre ws line post hpre hws hline hhead hlt hpost
  have hg : (m.group 1).getD "" = String.mk line := by simp [Match.group, hmc]
  unfold blockOptions
  rw [hm]
  simp only [hg]
  exact matchAll_ticked flagsNone line

/-- C25, a counterexample: the block `plainOptionsBlock` has an Options clause whose line
`fast, slow` has no back-ticked text; its enum is `null`, not a list, and its type is the
STRING of its type clause, not ENUM. -/
theorem options_without_ticks :
    (optionsPattern.exec flagsI plainOptionsBlock).map (fun m => m.group 1) =
        some (some "fast, slow") ∧
      (parseFalAiParameterBlock plainOptionsBlock).name = some "speed" ∧
      (parseFalAiParameterBlock plainOptionsBlock).enum = some .null ∧
      (parseFalAiParameterBlock plainOptionsBlock).type = .string :=
  ⟨rfl, rfl, rfl, rfl⟩

/-- C25, amended: take a block in which a name is found and whose first Options clause, the
word `Options:` in any case of its letters, is written `Options:` and is followed by white
space and a non-empty line that begins with no white space and ends at a line break or at the
end of the block. When the line has a back-ticked value (a back-tick, one or more characters
other than a back-tick, a back-tick, read from the left, each after the closing back-tick of
the one before), the enum is the list of those values in their order without their
back-ticks, and the type is ENUM whatever the type clause says, unless the block is a
composite-size block (its type clause gives the composite sentinel, or its name is
`image_size`). When the line has no back-ticked value, the enum is `null` and the type is the
one that the type clause and the name give. -/
theorem options_enum (pre ws line post : List Char)
    (hpre : startsNowhere flagsI "Options:".toList pre
      ("Options:".toList ++ (ws ++ (line ++ post))) = true)
    (hws : ∀ c ∈ ws, isWhiteSpace c = true) (hline : line ≠ [])
    (hhead : line.head?.all (fun c => !isWhiteSpace c) = true)
    (hlt : ∀ c ∈ line, isLineTerminator c = false)
    (hpost : post.head?.all isLineTerminator = true)
    (hname : (namePattern.exec flagsNone (String.mk (optionsBlock pre ws line post))).isSome =
      true) :
    (tickedTokens line ≠ [] →
      (parseFalAiParameterBlock (String.mk (optionsBlock pre ws line post))).enum =
          some (.arr ((tickedTokens line).map (fun v => .str (String.mk v)))) ∧
        (blockType (String.mk (optionsBlock pre ws line post)) ≠ .imageSize →
          (parseFalAiParameterBlock (String.mk (optionsBlock pre ws line post))).name ≠
            some "image_size" →
          (parseFalAiParameterBlock (String.mk (optionsBlock pre ws line post))).type = .enum)) ∧
    (tickedTokens line = [] →
      (parseFalAiParameterBlock (String.mk (optionsBlock pre ws line post))).enum = some .null ∧
        (parseFalAiParameterBlock (String.mk (optionsBlock pre ws line post))).type =
          (if blockType (String.mk (optionsBlock pre ws line post)) = .imageSize ∨
              (parseFalAiParameterBlock (String.mk (optionsBlock pre ws line post))).name =
                some "image_size" then .imageSize
            else blockType (String.mk (optionsBlock pre ws line post)))) := by
  have hbo := blockOptions_layout pre ws line post hpre hws hline hhead hlt hpost
  cases h1 : namePattern.exec flagsNone (String.mk (optionsBlock pre ws line post)) with
  | none => rw [h1] at hname; cases hname
  | some m1 =>
    obtain ⟨pname, ptype, _, _, penum, _⟩ := parseFalAiParameterBlock_parts _ m1 h1
    have hnm : ((parseFalAiParameterBlock (String.mk (optionsBlock pre ws line post))).name =
        some "image_size") ↔ (m1.group 1).getD "" = "image_size" := by
      rw [pname]
      simp
    constructor
    · intro htok
      rw [if_neg htok] at hbo
      have hbc : typeBeforeCheck (String.mk (optionsBlock pre ws line post)) = .enum := by
        unfold typeBeforeCheck
        rw [hbo]
      constructor
      · rw [penum, hbo]
        simp only [List.map_map, Option.some.injEq, JSON.arr.injEq]
        apply List.map_congr_left
        intro v hv
        show JSON.str (removeChar backtick (String.mk (backtick :: (v ++ [backtick])))) = _
        rw [removeChar_ticked v (tickedTokensAux_spec _ _ v hv).2]
      · intro _ hname2
        have hn : ¬ (m1.group 1).getD "" = "image_size" := fun h => hname2 (hnm.mpr h)
        rw [ptype, hbc]
        simp [hn]
    · intro htok
      rw [if_pos htok] at hbo
      have hbc : typeBeforeCheck (String.mk (optionsBlock pre ws line post)) =
          blockType (String.mk (optionsBlock pre ws line post)) := by
        unfold typeBeforeCheck
        rw [hbo]
      constructor
      · rw [penum, hbo]
      · rw [ptype, hbc]
        by_cases hn : (m1.group 1).getD "" = "image_size"
        · rw [if_pos (Or.inr hn), if_pos (Or.inr (hnm.mpr hn))]
        · have hn2 : ¬ ((parseFalAiParameterBlock (String.mk (optionsBlock pre ws line post))).name =
              some "image_size") := fun h => hn (hnm.mp h)
          simp only [hn, hn2, or_false]

/-- C25, an instance: the block `tickedOptionsBlock` has the type clause `integer` and the
Options line with the back-ticked values `1` and `5`; its enum is the list of the two, and its
type is ENUM. -/
theorem options_enum_witness :
    String.mk (optionsBlock "- **`count`** (`integer`, _optional_):\n  The count.\n  ".toList
        " ".toList "`1`, `5` (most)".toList "\n  More text.".toList) = tickedOptionsBlock ∧
      (parseFalAiParameterBlock tickedOptionsBlock).enum = some (.arr [.str "1", .str "5"]) ∧
      (parseFalAiParameterBlock tickedOptionsBlock).type = .enum :=
  ⟨rfl,
    ((options_enum "- **`count`** (`integer`, _optional_):\n  The count.\n  ".toList
      " ".toList "`1`, `5` (most)".toList "\n  More text.".toList (by rfl) (by decide)
      (by decide) (by decide) (by decide) (by decide) (by rfl)).1 (by decide)).1,
    ((options_enum "- **`count`** (`integer`, _optional_):\n  The count.\n  ".toList
      " ".toList "`1`, `5` (most)".toList "\n  More text.".toList (by rfl) (by decide)
      (by decide) (by decide) (by decide) (by decide) (by rfl)).1 (by decide)).2
      (by decide) (by decide)⟩

/-! ### The body of the Input Schema section -/

theorem isPrefixOf_canon (fl : Flags) :
    ∀ (lit text : List Char),
      (∀ c ∈ lit, ¬ (65 ≤ c.toNat ∧ c.toNat ≤ 90) ∧ ¬ (97 ≤ c.toNat ∧ c.toNat ≤ 122)) →
      (lit.map (canon fl)).isPrefixOf (text.map (canon fl)) = lit.isPrefixOf text := by
  intro lit
  induction lit with
  | nil => intro text _; simp
  | cons c cs ih =>
    intro text h
    cases text with
    | nil => rfl
    | cons x xs =>
      have hc := h c (List.mem_cons_self _ _)
      have h1 : (canon fl c == canon fl x) = (c == x) := by
        have := canon_beq fl x c hc.1 hc.2
        rw [Bool.beq_comm, this, Bool.beq_comm]
      simp only [List.map_cons, List.isPrefixOf, h1]
      rw [ih xs (fun d hd => h d (List.mem_cons_of_mem _ hd))]

theorem two_hashes_of_three (text : List Char) :
    ("###".toList.isPrefixOf text = true → "##".toList.isPrefixOf text = true) := by
  intro h
  have h3 := List.isPrefixOf_iff_prefix.mp h
  apply List.isPrefixOf_iff_prefix.mpr
  exact List.IsPrefix.trans ⟨['#'], rfl⟩ h3

/-- The lookahead that ends the section: it holds in front of two `#` characters and at the
end of the text, and it leaves the position as it is. -/
theorem sectionEnd_run (before text : List Char) (caps : List (Nat × List Char)) :
    (Regex.look (.alt (.lit "###") (.alt (.lit "##") .eol))).run flagsI ⟨before, text, caps⟩ some =
      if "##".toList.isPrefixOf text || text.isEmpty then some ⟨before, text, caps⟩ else none := by
  have hrun : (Regex.alt (.lit "###") (.alt (.lit "##") .eol)).run flagsI ⟨before, text, caps⟩ some =
      ((Regex.chars "###".toList).run flagsI ⟨before, text, caps⟩ some).orElse (fun _ =>
        ((Regex.chars "##".toList).run flagsI ⟨before, text, caps⟩ some).orElse (fun _ =>
          Regex.eol.run flagsI ⟨before, text, caps⟩ some)) := rfl
  have hlook : (Regex.look (.alt (.lit "###") (.alt (.lit "##") .eol))).run flagsI
      ⟨before, text, caps⟩ some =
      match (Regex.alt (.lit "###") (.alt (.lit "##") .eol)).run flagsI ⟨before, text, caps⟩ some with
      | some t => some { (⟨before, text, caps⟩ : MState) with caps := t.caps }
      | none => none := rfl
  have heol : Regex.eol.run flagsI ⟨before, text, caps⟩ some =
      if text.isEmpty then some ⟨before, text, caps⟩ else none := by
    cases text with
    | nil => rfl
    | cons x xs => rfl
  rw [hlook, hrun, run_chars_eq, run_chars_eq, heol,
    isPrefixOf_canon flagsI "###".toList text (by decide),
    isPrefixOf_canon flagsI "##".toList text (by decide)]
  cases h3 : "###".toList.isPrefixOf text with
  | true =>
    rw [two_hashes_of_three text h3]
    rfl
  | false =>
    cases h2 : "##".toList.isPrefixOf text with
    | true => rfl
    | false =>
      cases text with
      | nil => rfl
      | cons x xs => rfl

theorem untilSep_cons (sep : List Char) (x : Char) (xs : List Char) :
    untilSep sep (x :: xs) = if sep.isPrefixOf (x :: xs) then [] else x :: untilSep sep xs := rfl

theorem starLoop_lazy_succ (step : MState → (MState → Option MState) → Option MState) (n : Nat)
    (s : MState) (k : MState → Option MState) :
    starLoop step false (n + 1) s k = (k s).orElse (fun _ =>
      step s (fun t => if t.after.length < s.after.length then starLoop step false n t k
        else none)) := rfl

/-- The lazy iteration over any characters: the rest of the pattern is tried at each position
in turn, from the left. -/
theorem starLoop_lazy_any (fl : Flags) (k : MState → Option MState)
    (caps : List (Nat × List Char)) :
    ∀ (text : List Char) (n : Nat) (before : List Char), text.length ≤ n →
      starLoop ((Regex.cls (fun _ => true)).run fl) false n ⟨before, text, caps⟩ k =
        lazyFirst k caps before text := by
  intro text
  induction text with
  | nil =>
    intro n before _
    cases n with
    | zero => rfl
    | succ n =>
      rw [starLoop_lazy_succ]
      show (k ⟨before, [], caps⟩).orElse (fun _ => none) = k ⟨before, [], caps⟩
      cases k ⟨before, [], caps⟩ <;> rfl
  | cons x xs ih =>
    intro n before hn
    cases n with
    | zero => simp at hn
    | succ n =>
      rw [starLoop_lazy_succ, run_cls_cons fl _ x rfl]
      simp only []
      rw [if_pos (by simp), ih n (x :: before) (by simpa using hn)]
      rfl

/-- The first position in front of two `#` characters, or the end: the text up to there. -/
theorem lazyFirst_section (text0 : List Char) (k : MState → Option MState)
    (hk : ∀ b t, k ⟨b, t, []⟩ =
      if "##".toList.isPrefixOf t || t.isEmpty then
        some ⟨b, t, [(1, text0.take (text0.length - t.length))]⟩
      else none) :
    ∀ (text before pre : List Char), text0 = pre ++ text →
      ∃ r, lazyFirst k [] before text = some r ∧
        r.caps = [(1, pre ++ untilSep "##".toList text)] := by
  intro text
  induction text with
  | nil =>
    intro before pre h0
    refine ⟨⟨before, [], [(1, text0.take (text0.length - ([] : List Char).length))]⟩, ?_, ?_⟩
    · show k ⟨before, [], []⟩ = _
      rw [hk]
      rfl
    · rw [h0]
      simp [untilSep]
  | cons x xs ih =>
    intro before pre h0
    have htake : text0.take (text0.length - (x :: xs).length) = pre := by
      rw [h0]
      exact take_append_sub pre (x :: xs)
    have hstep : lazyFirst k [] before (x :: xs) =
        (k ⟨before, x :: xs, []⟩).orElse (fun _ => lazyFirst k [] (x :: before) xs) := rfl
    rw [hstep, hk, htake]
    cases hp : "##".toList.isPrefixOf (x :: xs) with
    | true =>
      refine ⟨⟨before, x :: xs, [(1, pre)]⟩, rfl, ?_⟩
      rw [untilSep_cons, hp]
      simp
    | false =>
      obtain ⟨r, hr, hrc⟩ := ih (x :: before) (pre ++ [x]) (by rw [h0]; simp)
      refine ⟨r, ?_, ?_⟩
      · simp only [Bool.false_or, List.isEmpty_cons, Bool.false_eq_true, if_false]
        exact hr
      · rw [hrc, untilSep_cons, hp]
        simp

/-- The group of the section pattern in front of its lookahead: it ends at the first position
in front of two `#` characters, or at the end of the text. -/
theorem sectionGroup_run (before text : List Char) :
    ∃ r, (Regex.group 1 (.star false (.cls (fun _ => true)))).run flagsI ⟨before, text, []⟩
        (fun s3 => (Regex.look (.alt (.lit "###") (.alt (.lit "##") .eol))).run flagsI s3 some) =
        some r ∧ r.caps = [(1, untilSep "##".toList text)] := by
  have hK : ∀ b t, (fun t : MState =>
      (Regex.look (.alt (.lit "###") (.alt (.lit "##") .eol))).run flagsI
        { t with caps := (1, text.take (text.length - t.after.length)) :: t.caps } some)
      ⟨b, t, []⟩ =
      if "##".toList.isPrefixOf t || t.isEmpty then
        some ⟨b, t, [(1, text.take (text.length - t.length))]⟩
      else none := fun b t => sectionEnd_run b t _
  obtain ⟨r, hr, hrc⟩ := lazyFirst_section text (fun t : MState =>
      (Regex.look (.alt (.lit "###") (.alt (.lit "##") .eol))).run flagsI
        { t with caps := (1, text.take (text.length - t.after.length)) :: t.caps } some)
    hK text before [] rfl
  have hloop := starLoop_lazy_any flagsI (fun t : MState =>
      (Regex.look (.alt (.lit "###") (.alt (.lit "##") .eol))).run flagsI
        { t with caps := (1, text.take (text.length - t.after.length)) :: t.caps } some)
    [] text text.length before (Nat.le_refl _)
  exact ⟨r, hloop.trans hr, by simpa using hrc⟩

theorem inputSchemaPattern_seq (s : MState) (k : MState → Option MState) :
    inputSchemaPattern.run flagsI s k = (Regex.chars "### Input Schema".toList).run flagsI s
      (fun s1 => (Regex.star true (.cls isWhiteSpace)).run flagsI s1 (fun s2 =>
        (Regex.group 1 (.star false (.cls (fun _ => true)))).run flagsI s2 (fun s3 =>
          (Regex.look (.alt (.lit "###") (.alt (.lit "##") .eol))).run flagsI s3 k))) := rfl

/-- The groups of a match of the section pattern at a position. -/
theorem inputSchemaPattern_run (before text : List Char) :
    (inputSchemaPattern.run flagsI ⟨before, text, []⟩ some).map (fun t => t.caps) =
      (sectionAt text).map (fun v => [(1, v)]) := by
  rw [inputSchemaPattern_seq, run_chars_eq]
  unfold sectionAt
  cases hp : ("### Input Schema".toList.map (canon flagsI)).isPrefixOf (text.map (canon flagsI)) with
  | false => rfl
  | true =>
    simp only [if_true]
    have hlen : "### Input Schema".toList.length = 16 := by decide
    rw [hlen]
    have hsplit := List.takeWhile_append_dropWhile isWhiteSpace (text.drop 16)
    have hall : ∀ c ∈ (text.drop 16).takeWhile isWhiteSpace, isWhiteSpace c = true :=
      fun c hc => List.mem_takeWhile_imp hc
    have hmax : ((text.drop 16).dropWhile isWhiteSpace).head?.all (fun c => !isWhiteSpace c) =
        true := by
      cases hd : (text.drop 16).dropWhile isWhiteSpace with
      | nil => rfl
      | cons y ys =>
        have := List.head_dropWhile_not isWhiteSpace (text.drop 16)
          (by rw [hd]; exact List.cons_ne_nil _ _)
        simp only [hd, List.head_cons] at this
        simp [this]
    obtain ⟨r, hr, hrc⟩ := sectionGroup_run
      (((text.drop 16).takeWhile isWhiteSpace).reverse ++ ((text.take 16).reverse ++ before))
      ((text.drop 16).dropWhile isWhiteSpace)
    have hstar := run_star_cls flagsI isWhiteSpace
      (fun s2 => (Regex.group 1 (.star false (.cls (fun _ => true)))).run flagsI s2 (fun s3 =>
        (Regex.look (.alt (.lit "###") (.alt (.lit "##") .eol))).run flagsI s3 some)) r
      ((text.drop 16).takeWhile isWhiteSpace) ((text.drop 16).dropWhile isWhiteSpace)
      ((text.take 16).reverse ++ before) [] hall hmax hr
    rw [hsplit] at hstar
    rw [hstar]
    simp only [Option.map_some', hrc]

/-- The first group of the match of the section pattern is the body of the first section. -/
theorem inputSchemaPattern_exec (markdown : String) :
    (inputSchemaPattern.exec flagsI markdown).map (fun m => m.group 1) =
      (sectionBody markdown).map some := by
  have h := exec_group_one flagsI inputSchemaPattern sectionAt (fun v => [(1, v)])
    inputSchemaPattern_run markdown 1
  rw [h]
  unfold sectionBody
  cases firstAt sectionAt markdown.toList <;> rfl

/-- C21, a counterexample: in `levelOneDoc` a block follows a level-1 heading after the section,
and the block is read (the body runs to the end of the document); in `levelFourDoc` a block
follows a level-4 heading inside the section, and the block is not read (the body ends in
front of the four `#` characters); in `inlineHashDoc` the body ends in the middle of a line. -/
theorem section_body_ends :
    (parseMarkdownParameters levelOneDoc).map Prod.fst = ["a", "b"] ∧
      sectionBody levelOneDoc = some
        "- **`a`** (`string`, _required_):\n  First.\n\n# Next\n\n- **`b`** (`string`, _required_):\n  Second." ∧
      (parseMarkdownParameters levelFourDoc).map Prod.fst = ["a"] ∧
      sectionBody levelFourDoc = some "- **`a`** (`string`, _required_):\n  First.\n\n" ∧
      (parseMarkdownParameters inlineHashDoc).map Prod.fst = ["a"] ∧
      sectionBody inlineHashDoc = some "- **`a`** (`string`, _required_):\n  Use " :=
  ⟨rfl, rfl, rfl, rfl, rfl, rfl⟩

/-- C21, amended: the body of the Input Schema section used by `parseMarkdownParameters` runs
from the first heading `### Input Schema` (its letters in any case), after the white space
that follows it, to the first two consecutive `#` characters, wherever they stand in a line,
or to the end of the document: parameter blocks placed after two such characters are
excluded, and nothing else ends the body. The parameters are read from the blocks of that
body; without such a heading there are none. -/
theorem section_body (markdown : String) :
    (inputSchemaPattern.exec flagsI markdown).map (fun m => (m.group 1).getD "") =
        sectionBody markdown ∧
      sectionBody markdown = (firstAt (fun text =>
        if ("### Input Schema".toList.map (canon flagsI)).isPrefixOf (text.map (canon flagsI)) then
          some (untilSep "##".toList ((text.drop 16).dropWhile isWhiteSpace))
        else none) markdown.toList).map String.mk ∧
      parseMarkdownParameters markdown =
        (match sectionBody markdown with
          | none => []
          | some body => (paramBlocks body).foldl addBlock []) := by
  have h := inputSchemaPattern_exec markdown
  refine ⟨?_, rfl, ?_⟩
  · cases hm : inputSchemaPattern.exec flagsI markdown with
    | none =>
      rw [hm] at h
      cases hb : sectionBody markdown with
      | none => rfl
      | some b => rw [hb] at h; cases h
    | some m =>
      rw [hm] at h
      cases hb : sectionBody markdown with
      | none => rw [hb] at h; cases h
      | some b =>
        rw [hb] at h
        simp only [Option.map_some', Option.some.injEq] at h
        simp only [Option.map_some', h, Option.getD_some]
  · unfold parseMarkdownParameters
    cases hm : inputSchemaPattern.exec flagsI markdown with
    | none =>
      rw [hm] at h
      cases hb : sectionBody markdown with
      | none => rfl
      | some b => rw [hb] at h; cases h
    | some m =>
      rw [hm] at h
      cases hb : sectionBody markdown with
      | none => rw [hb] at h; cases h
      | some b =>
        rw [hb] at h
        simp only [Option.map_some', Option.some.injEq] at h
        simp only [h, Option.getD_some]

end FalComfy
